import Mathlib

/-!
libproc: XDR codec registry and IPC command layer.

A shallow embedding of `src/xdr.c`, followed by theorems about it.

Conventions of the embedding:

* A `char *` into wire memory is the list of bytes from the pointer onwards (`Buf`);
  `p + n` is `p.drop n`, a null pointer is `none`.
* The host is little-endian with 32-bit `int` and 64-bit `size_t` (LP64). `htonl`
  therefore swaps bytes and `memcpy` of a `uint32_t` stores its least significant
  byte first.
* The in-memory struct handed to the aggregate codecs is a map from byte offset to a
  typed slot (`Cell`); a pointer `src + offset` is the slot at that offset.
* Every `*used` / `*inc` out-parameter is threaded through: the function takes the
  value currently stored there and returns the value stored on return.
* `int32_t` / `int64_t` values are `Int`; slots hold the two's-complement bit pattern
  as a `Nat`. Arithmetic wraps at the width of its C type; a 32-bit shift uses its count
  modulo 32, as the host's shift instructions do.
* Stores through a null pointer and accesses past the end of the modelled memory are
  outside C's defined behaviour; no theorem below relies on what the embedding does
  with them.
-/

namespace XDR

/-! ## Machine integers -/

/-- Conversion of a C integer to `uint32_t`. -/
def toU32 (v : Int) : Nat := (v % 4294967296).toNat

/-- Conversion of a C integer to `uint64_t` / `size_t`. -/
def toU64 (v : Int) : Nat := (v % 18446744073709551616).toNat

/-- Conversion of a bit pattern to `int32_t` (two's complement). -/
def toI32 (p : Nat) : Int :=
  if p % 4294967296 < 2147483648 then ((p % 4294967296 : Nat) : Int)
  else ((p % 4294967296 : Nat) : Int) - 4294967296

/-- Conversion of a bit pattern to `int64_t` (two's complement). -/
def toI64 (p : Nat) : Int :=
  if p % 18446744073709551616 < 9223372036854775808 then ((p % 18446744073709551616 : Nat) : Int)
  else ((p % 18446744073709551616 : Nat) : Int) - 18446744073709551616

/-- Subtraction of two `size_t` values (wraps modulo 2^64). -/
def sizeSub (a b : Nat) : Nat := (a % 18446744073709551616 + 18446744073709551616
  - b % 18446744073709551616) % 18446744073709551616

/-- C remainder of `int` operands (truncating, sign of the dividend). -/
def cRem (a b : Int) : Int := Int.tmod a b

/-! ## Byte memory -/

/-- Memory seen through a `char *`: the bytes from the pointer onwards. -/
abbrev Buf := List Nat

/-- The effect of `memcpy(dst, bs, bs.length)` on the memory at `dst`. -/
def memcpy (dst : Buf) (bs : List Nat) : Buf := bs ++ dst.drop bs.length

/-- Memory at `dst` once the memory at `dst + n` has become `tail`. -/
def splice (dst : Buf) (n : Nat) (tail : Buf) : Buf := dst.take n ++ tail

/-- The effect of `memset(dst + off, 0, n)` on the memory at `dst`. -/
def memset0 (dst : Buf) (off n : Nat) : Buf :=
  splice dst off (memcpy (dst.drop off) (List.replicate n 0))

/-- Allocation by `malloc(n)`: requests above `PTRDIFF_MAX` fail, every other request
succeeds (memory exhaustion is not modelled); the block is a list of `n` zero bytes. -/
def malloc (n : Nat) : Option (List Nat) :=
  if n ≤ 9223372036854775807 then some (List.replicate n 0) else none

/-- Length of the C string starting at `s` (bytes before the first NUL). -/
def strlen (s : List Nat) : Nat := (s.takeWhile (fun b => b != 0)).length

/-- In-memory bytes of a `uint32_t` on the (little-endian) host. -/
def hostBytes32 (v : Nat) : List Nat :=
  [v % 256, v / 256 % 256, v / 65536 % 256, v / 16777216 % 256]

/-- The `uint32_t` whose in-memory bytes start at `b` (`memcpy(&net, src, 4)`). -/
def load32 (b : Buf) : Nat :=
  b.getD 0 0 % 256 + 256 * (b.getD 1 0 % 256) + 65536 * (b.getD 2 0 % 256)
    + 16777216 * (b.getD 3 0 % 256)

/-- Byte swap of a 32-bit value: `htonl` on a little-endian host. -/
def htonl (v : Nat) : Nat :=
  (v % 256) * 16777216 + (v / 256 % 256) * 65536 + (v / 65536 % 256) * 256
    + v / 16777216 % 256

/-- Byte swap of a 32-bit value: `ntohl` on a little-endian host. -/
def ntohl (v : Nat) : Nat := htonl v

/-- The four bytes of a 32-bit value, most significant first (the XDR wire order). -/
def be32 (v : Nat) : List Nat :=
  [v / 16777216 % 256, v / 65536 % 256, v / 256 % 256, v % 256]

/-! ## In-memory values -/

/-- One slot of an in-memory struct. `P` is the type behind a union's `void *data`.
`word` is a 4-byte scalar (`int32_t`, `uint32_t`, `float` bits), `dword` an 8-byte
scalar, `ptr` a pointer to a heap array (`none` is NULL) given by its elements, and
`union` a `struct XDR_Union { uint32_t type; void *data; }`. -/
inductive Cell (P : Type) where
  | word (v : Nat)
  | dword (v : Nat)
  | ptr (p : Option (List Nat))
  | union (type : Nat) (data : Option P)
  deriving DecidableEq, Repr

/-- Reading a slot through a `uint32_t *` (the low half of an 8-byte slot, the `type`
member of a union). -/
def Cell.rd32 {P : Type} : Cell P → Nat
  | .word v => v % 4294967296
  | .dword v => v % 4294967296
  | .ptr _ => 0
  | .union t _ => t % 4294967296

/-- Reading a slot through a `uint64_t *`. -/
def Cell.rd64 {P : Type} : Cell P → Nat
  | .word v => v % 4294967296
  | .dword v => v % 18446744073709551616
  | .ptr _ => 0
  | .union t _ => t % 4294967296

/-- Reading a slot through a `char **`: the heap array it points to. -/
def Cell.rdPtr {P : Type} : Cell P → Option (List Nat)
  | .ptr p => p
  | _ => none

/-- Reading a slot through a `struct XDR_Union *`. -/
def Cell.rdUnion {P : Type} : Cell P → Nat × Option P
  | .union t d => (t % 4294967296, d)
  | c => (c.rd32, none)

/-- Result of an encoder: the return value, the value left in `*used`, and the
memory at `dst` on return (`none` when `dst` was NULL). -/
structure EncResult where
  res : Int
  used : Nat
  dst : Option Buf
  deriving DecidableEq, Repr

/-- Result of a decoder: the return value, the object at `dst` on return (`none` when
`dst` was NULL), and the value left in `*used`. -/
structure DecResult (α : Type) where
  res : Int
  dst : Option α
  used : Nat
  deriving DecidableEq, Repr

/-- The `XDR_Encoder` function-pointer type: `(src, dst, used, max, len)`. -/
abbrev XDR_Encoder (P : Type) :=
  Option (Cell P) → Option Buf → Nat → Nat → Option (Cell P) → EncResult

/-- The `XDR_Decoder` function-pointer type: `(src, dst, used, max, len)`. -/
abbrev XDR_Decoder (P : Type) :=
  Buf → Option (Cell P) → Nat → Nat → Option (Cell P) → DecResult (Cell P)

/-! ## 32-bit scalars -/

/-- Embedding of `XDR_decode_int32`. -/
def XDR_decode_int32 {P : Type} (src : Buf) (dst : Option (Cell P)) (inc : Nat) (max : Nat)
    (_len : Option (Cell P)) : DecResult (Cell P) :=
  if max < 4 then ⟨-1, dst, inc⟩
  else
    let net := load32 src
    let v : Int := toI32 (ntohl net)
    ⟨0, dst.map (fun _ => Cell.word (toU32 v)), 4⟩

/-- Embedding of `XDR_decode_uint32`. -/
def XDR_decode_uint32 {P : Type} (src : Buf) (dst : Option (Cell P)) (inc : Nat) (max : Nat)
    (_len : Option (Cell P)) : DecResult (Cell P) :=
  if max < 4 then ⟨-1, dst, inc⟩
  else
    let net := load32 src
    ⟨0, dst.map (fun _ => Cell.word (ntohl net)), 4⟩

/-- Embedding of `XDR_encode_uint32`. -/
def XDR_encode_uint32 {P : Type} (src : Option (Cell P)) (dst : Option Buf) (_used : Nat)
    (max : Nat) (_len : Option (Cell P)) : EncResult :=
  match dst with
  | none => ⟨0, 4, none⟩
  | some d =>
    match src with
    | none => ⟨-1, 4, some d⟩
    | some c =>
      if max < 4 then ⟨-2, 4, some d⟩
      else
        let net := htonl c.rd32
        ⟨0, 4, some (memcpy d (hostBytes32 net))⟩

/-- Embedding of `XDR_encode_int32`. -/
def XDR_encode_int32 {P : Type} (src : Option (Cell P)) (dst : Option Buf) (_used : Nat)
    (max : Nat) (_len : Option (Cell P)) : EncResult :=
  match dst with
  | none => ⟨0, 4, none⟩
  | some d =>
    match src with
    | none => ⟨-1, 4, some d⟩
    | some c =>
      if max < 4 then ⟨-2, 4, some d⟩
      else
        let v : Int := toI32 c.rd32
        let net := htonl (toU32 v)
        ⟨0, 4, some (memcpy d (hostBytes32 net))⟩

/-! ## 64-bit scalars -/

/-- Embedding of `XDR_decode_int64`. -/
def XDR_decode_int64 {P : Type} (src : Buf) (dst : Option (Cell P)) (inc : Nat) (max : Nat)
    (_len : Option (Cell P)) : DecResult (Cell P) :=
  if max < 8 then ⟨-1, dst, inc⟩
  else
    let r1 : DecResult (Cell P) := XDR_decode_int32 src (some (Cell.word 0)) 0 max none
    if r1.res < 0 then ⟨-1, dst, inc⟩
    else
      let hi : Int := toI32 ((r1.dst.getD (Cell.word 0)).rd32)
      let src := src.drop r1.used
      let max := sizeSub max r1.used
      let r2 : DecResult (Cell P) := XDR_decode_uint32 src (some (Cell.word 0)) r1.used max none
      if r2.res < 0 then ⟨-1, dst, inc⟩
      else
        let low : Nat := (r2.dst.getD (Cell.word 0)).rd32
        let res : Nat := toU64 hi
        let res : Nat := (res * 4294967296) % 18446744073709551616
        ⟨0, dst.map (fun _ => Cell.dword (res ||| low)), 8⟩

/-- Embedding of `XDR_decode_uint64`. -/
def XDR_decode_uint64 {P : Type} (src : Buf) (dst : Option (Cell P)) (inc : Nat) (max : Nat)
    (_len : Option (Cell P)) : DecResult (Cell P) :=
  if max < 8 then ⟨-1, dst, inc⟩
  else
    let r1 : DecResult (Cell P) := XDR_decode_uint32 src (some (Cell.word 0)) 0 max none
    if r1.res < 0 then ⟨-1, dst, inc⟩
    else
      let hi : Nat := (r1.dst.getD (Cell.word 0)).rd32
      let src := src.drop r1.used
      let max := sizeSub max r1.used
      let r2 : DecResult (Cell P) := XDR_decode_uint32 src (some (Cell.word 0)) r1.used max none
      if r2.res < 0 then ⟨-1, dst, inc⟩
      else
        let low : Nat := (r2.dst.getD (Cell.word 0)).rd32
        let res : Nat := hi
        let res : Nat := (res * 4294967296) % 18446744073709551616
        ⟨0, dst.map (fun _ => Cell.dword (res ||| low)), 8⟩

/-- Embedding of `XDR_encode_int64`. -/
def XDR_encode_int64 {P : Type} (src : Option (Cell P)) (dst : Option Buf) (_used : Nat)
    (max : Nat) (_unused : Option (Cell P)) : EncResult :=
  match dst with
  | none => ⟨0, 8, none⟩
  | some d =>
    match src with
    | none => ⟨-1, 8, some d⟩
    | some c =>
      if max < 8 then ⟨-1, 8, some d⟩
      else
        let v : Int := toI64 c.rd64
        let hi : Int := toI32 (toU32 (v / 4294967296))
        let low : Nat := toU32 (v % 4294967296)
        let r1 := XDR_encode_int32 (some (Cell.word (toU32 hi) : Cell P)) (some d) 0 max none
        let d1 := r1.dst.getD d
        if r1.res < 0 then ⟨-1, 8, some d1⟩
        else
          let max := sizeSub max r1.used
          let r2 := XDR_encode_uint32 (some (Cell.word low : Cell P)) (some (d1.drop r1.used))
            r1.used max none
          let d2 := splice d1 r1.used (r2.dst.getD (d1.drop r1.used))
          if r2.res < 0 then ⟨-1, 8, some d2⟩
          else ⟨0, 8, some d2⟩

/-- Embedding of `XDR_encode_uint64`. -/
def XDR_encode_uint64 {P : Type} (src : Option (Cell P)) (dst : Option Buf) (_used : Nat)
    (max : Nat) (_unused : Option (Cell P)) : EncResult :=
  match dst with
  | none => ⟨0, 8, none⟩
  | some d =>
    match src with
    | none => ⟨-1, 8, some d⟩
    | some c =>
      if max < 8 then ⟨-1, 8, some d⟩
      else
        let v : Nat := c.rd64
        let hi : Nat := (v / 4294967296) % 4294967296
        let low : Nat := v % 4294967296
        let r1 := XDR_encode_uint32 (some (Cell.word hi : Cell P)) (some d) 0 max none
        let d1 := r1.dst.getD d
        if r1.res < 0 then ⟨-1, 8, some d1⟩
        else
          let max := sizeSub max r1.used
          let r2 := XDR_encode_uint32 (some (Cell.word low : Cell P)) (some (d1.drop r1.used))
            r1.used max none
          let d2 := splice d1 r1.used (r2.dst.getD (d1.drop r1.used))
          if r2.res < 0 then ⟨-1, 8, some d2⟩
          else ⟨0, 8, some d2⟩

/-! ## Counted byte blobs and strings -/

/-- The `int32_t` behind a companion-length pointer (`*(int32_t*)lenptr`). -/
def derefLen {P : Type} (len : Option (Cell P)) : Int :=
  toI32 ((len.getD (Cell.word 0)).rd32)

/-- Embedding of `XDR_decode_byte_array`. The code does not test the result of `malloc`:
when the allocation fails, `memcpy(*dst, src, byte_len)` copies through a null pointer
and faults. `XDR_decode_byte_array_nullCopy` tells for which calls that happens; the
result given here is that of the program only for the calls for which it does not. -/
def XDR_decode_byte_array {P : Type} (src : Buf) (dst : Option (Cell P)) (_used : Nat)
    (max : Nat) (lenptr : Option (Cell P)) : DecResult (Cell P) :=
  let byte_len : Int := derefLen lenptr
  let padding : Int := cRem (4 - cRem byte_len 4) 4
  let total : Int := toI32 (toU32 (byte_len + padding))
  if dst.isNone || decide (toU64 total ≥ max) then ⟨-1, dst, 0⟩
  else
    let n := toU64 byte_len
    let block := (malloc n).map (fun b => memcpy b (src.take n))
    ⟨0, dst.map (fun _ => Cell.ptr block), toU64 total⟩

/-- Embedding of `XDR_encode_byte_array`. A negative length that passes the size test
(-1, -2, -3) makes `memcpy(dst, *src, byte_len)` copy `(size_t)byte_len` bytes, beyond both
blocks. `XDR_encode_byte_array_overrun` tells for which calls that happens; the result
given here is that of the program only for the calls for which it does not. -/
def XDR_encode_byte_array {P : Type} (src : Option (Cell P)) (dst : Option Buf) (_used : Nat)
    (max : Nat) (lenptr : Option (Cell P)) : EncResult :=
  let byte_len : Int := derefLen lenptr
  let padding : Int := cRem (4 - cRem byte_len 4) 4
  let total : Int := toI32 (toU32 (byte_len + padding))
  match dst, src.bind Cell.rdPtr with
  | some d, some bytes =>
    if toU64 total ≥ max then ⟨-1, toU64 total, some d⟩
    else
      let d1 := memcpy d (bytes.take (toU64 byte_len))
      let d2 := if padding ≠ 0 then memset0 d1 (toU64 byte_len) (toU64 padding) else d1
      ⟨0, toU64 total, some d2⟩
  | d, _ => ⟨-1, toU64 total, d⟩

/-- Embedding of `XDR_decode_string_array`. -/
def XDR_decode_string_array {P : Type} (src : Buf) (dst : Option (Cell P)) (_inc : Nat)
    (max : Nat) (_len : Option (Cell P)) : DecResult (Cell P) :=
  let r : DecResult (Cell P) := XDR_decode_uint32 src (some (Cell.word 0)) 0 max none
  if r.res < 0 then ⟨-1, dst, 0⟩
  else
    let used := r.used
    let str_len : Nat := (r.dst.getD (Cell.word 0)).rd32
    let padding : Nat := ((4 + 4294967296 - str_len % 4) % 4294967296) % 4
    if used + str_len + padding > max then ⟨-1, dst, used⟩
    else
      let str := (malloc ((str_len + 1) % 4294967296)).map
        (fun b => (memcpy b ((src.drop used).take str_len)).set str_len 0)
      ⟨0, dst.map (fun _ => Cell.ptr str), used + (str_len + padding) % 4294967296⟩

/-- Embedding of `XDR_encode_string_array`. A store through a pointer derived from a
null `dst` (which faults in C) is dropped; `XDR_encode_string_array_nullStore` tells for
which calls there is such a store, and the result given here is that of the program only
for the calls for which there is none. -/
def XDR_encode_string_array {P : Type} (src_ptr : Option (Cell P)) (dst : Option Buf)
    (_used : Nat) (max : Nat) (_len : Option (Cell P)) : EncResult :=
  let src : Option (List Nat) := src_ptr.bind Cell.rdPtr
  let str_len : Nat := match src with
    | some s => strlen s % 4294967296
    | none => 0
  let padding : Nat := ((4 + 4294967296 - str_len % 4) % 4294967296) % 4
  let r := XDR_encode_uint32 (some (Cell.word str_len : Cell P)) dst 0 max none
  let used := r.used + (str_len + padding) % 4294967296
  if r.res < 0 then ⟨r.res, used, r.dst⟩
  else if max < used then ⟨-2, used, r.dst⟩
  else
    match r.dst with
    | none => ⟨0, used, none⟩
    | some d0 =>
      let d := d0.drop r.used
      let d1 := match src with
        | some s => memcpy d (s.take str_len)
        | none => d
      let d2 := if padding ≠ 0 then memset0 d1 str_len padding else d1
      ⟨0, used, some (splice d0 r.used d2)⟩

/-! ## Arrays of scalars -/

/-- The slot seen through `base + i*increment` in a heap array of `increment`-byte
elements: an 8-byte element is a `dword`, any other a `word`. -/
def elemCell {P : Type} (increment : Nat) (x : Nat) : Cell P :=
  if increment = 8 then Cell.dword x else Cell.word x

/-- The value an element decoder left in an `increment`-byte element. -/
def elemStore {P : Type} (increment : Nat) (c : Cell P) : Nat :=
  if increment = 8 then c.rd64 else c.rd32

/-- Loop of `XDR_array_encoder`: `k` iterations remain, `i` is the loop index, `mem` the
memory at the original `dst`, `live` whether the local `dst` is still non-null. -/
def XDR_array_encoder_loop {P : Type} (src : Option (List Nat)) (max increment : Nat)
    (enc : XDR_Encoder P) : Nat → Nat → Option Buf → Bool → Int → Nat → EncResult
  | 0, _, mem, _, res, enc_len => ⟨res, enc_len, mem⟩
  | k + 1, i, mem, live, res, enc_len =>
    let elem : Option (Cell P) := (src.bind (fun a => a[i]?)).map (elemCell increment)
    match mem with
    | some m =>
      if live && decide (res ≥ 0) then
        let r := enc elem (some (m.drop enc_len)) 0 (sizeSub max enc_len) none
        let m1 := splice m enc_len (r.dst.getD (m.drop enc_len))
        XDR_array_encoder_loop src max increment enc k (i + 1) (some m1)
          (live && decide (r.res ≥ 0)) r.res (enc_len + r.used)
      else
        let r := enc elem none 0 (sizeSub max enc_len) none
        XDR_array_encoder_loop src max increment enc k (i + 1) (some m)
          (live && decide (res ≥ 0)) res (enc_len + r.used)
    | none =>
      let r := enc elem none 0 (sizeSub max enc_len) none
      XDR_array_encoder_loop src max increment enc k (i + 1) none false res (enc_len + r.used)

/-- Embedding of `XDR_array_encoder` (`src_ptr` is the slot holding the array pointer). -/
def XDR_array_encoder {P : Type} (src_ptr : Option (Cell P)) (dst : Option Buf) (_used : Nat)
    (max : Nat) (len : Int) (increment : Nat) (enc : XDR_Encoder P) : EncResult :=
  let src : Option (List Nat) := src_ptr.bind Cell.rdPtr
  XDR_array_encoder_loop src max increment enc len.toNat 0 dst dst.isSome 0 0

/-- Loop of `XDR_array_decoder`: `k` iterations remain, `i` is the loop index, `buff` the
elements of the freshly allocated block. Returns the failing element decoder's result
code, if any, else the block and `dec_len`. -/
def XDR_array_decoder_loop {P : Type} (src : Buf) (max increment : Nat) (dec : XDR_Decoder P) :
    Nat → Nat → List Nat → Nat → Except Int (List Nat × Nat)
  | 0, _, buff, dec_len => .ok (buff, dec_len)
  | k + 1, i, buff, dec_len =>
    let r := dec (src.drop dec_len) (some (elemCell increment (buff.getD i 0))) 0
      (sizeSub max dec_len) none
    if r.res < 0 then .error r.res
    else
      let buff1 := buff.set i (elemStore increment (r.dst.getD (Cell.word 0)))
      XDR_array_decoder_loop src max increment dec k (i + 1) buff1 (dec_len + r.used)

/-- Embedding of `XDR_array_decoder`. The block of `len * increment` bytes is held as
its `increment`-byte elements. -/
def XDR_array_decoder {P : Type} (src : Buf) (dst : Option (Cell P)) (used : Nat) (max : Nat)
    (len : Int) (increment : Nat) (dec : XDR_Decoder P) : DecResult (Cell P) :=
  match malloc ((toU64 len * increment) % 18446744073709551616) with
  | none => ⟨-1, dst, used⟩
  | some block =>
    match dst with
    | none => ⟨-2, dst, used⟩
    | some _ =>
      let buff : List Nat := List.replicate (block.length / increment) 0
      match XDR_array_decoder_loop src max increment dec len.toNat 0 buff 0 with
      | .error res => ⟨res, dst, used⟩
      | .ok (buff1, dec_len) => ⟨0, some (Cell.ptr (some buff1)), dec_len⟩

/-- Embedding of `XDR_decode_int32_array`. -/
def XDR_decode_int32_array {P : Type} (src : Buf) (dst : Option (Cell P)) (_used : Nat)
    (max : Nat) (len : Option (Cell P)) : DecResult (Cell P) :=
  match len with
  | some _ => XDR_array_decoder src dst 0 max (derefLen len) 4 XDR_decode_uint32
  | none => ⟨0, dst, 0⟩

/-- Embedding of `XDR_decode_uint32_array`. -/
def XDR_decode_uint32_array {P : Type} (src : Buf) (dst : Option (Cell P)) (_used : Nat)
    (max : Nat) (len : Option (Cell P)) : DecResult (Cell P) :=
  match len with
  | some _ => XDR_array_decoder src dst 0 max (derefLen len) 4 XDR_decode_uint32
  | none => ⟨0, dst, 0⟩

/-- Embedding of `XDR_decode_int64_array`. -/
def XDR_decode_int64_array {P : Type} (src : Buf) (dst : Option (Cell P)) (_used : Nat)
    (max : Nat) (len : Option (Cell P)) : DecResult (Cell P) :=
  match len with
  | some _ => XDR_array_decoder src dst 0 max (derefLen len) 8 XDR_decode_int64
  | none => ⟨0, dst, 0⟩

/-- Embedding of `XDR_decode_uint64_array`. -/
def XDR_decode_uint64_array {P : Type} (src : Buf) (dst : Option (Cell P)) (_used : Nat)
    (max : Nat) (len : Option (Cell P)) : DecResult (Cell P) :=
  match len with
  | some _ => XDR_array_decoder src dst 0 max (derefLen len) 8 XDR_decode_uint64
  | none => ⟨0, dst, 0⟩

/-- Embedding of `XDR_encode_uint32_array`. -/
def XDR_encode_uint32_array {P : Type} (src : Option (Cell P)) (dst : Option Buf) (_used : Nat)
    (max : Nat) (len : Option (Cell P)) : EncResult :=
  match len with
  | some _ => XDR_array_encoder src dst 0 max (derefLen len) 4 XDR_encode_uint32
  | none => ⟨0, 0, dst⟩

/-- Embedding of `XDR_encode_int32_array`. -/
def XDR_encode_int32_array {P : Type} (src : Option (Cell P)) (dst : Option Buf) (_used : Nat)
    (max : Nat) (len : Option (Cell P)) : EncResult :=
  match len with
  | some _ => XDR_array_encoder src dst 0 max (derefLen len) 4 XDR_encode_int32
  | none => ⟨0, 0, dst⟩

/-- Embedding of `XDR_encode_int64_array`. -/
def XDR_encode_int64_array {P : Type} (src : Option (Cell P)) (dst : Option Buf) (_used : Nat)
    (max : Nat) (len : Option (Cell P)) : EncResult :=
  match len with
  | some _ => XDR_array_encoder src dst 0 max (derefLen len) 8 XDR_encode_int64
  | none => ⟨0, 0, dst⟩

/-- Embedding of `XDR_encode_uint64_array`. -/
def XDR_encode_uint64_array {P : Type} (src : Option (Cell P)) (dst : Option Buf) (_used : Nat)
    (max : Nat) (len : Option (Cell P)) : EncResult :=
  match len with
  | some _ => XDR_array_encoder src dst 0 max (derefLen len) 8 XDR_encode_uint64
  | none => ⟨0, 0, dst⟩

/-! ## Bit-field primitives -/

/-- The C expression `v >> n` on `uint32_t`. C leaves a shift by 32 or more undefined;
the shift instructions of the host (x86-64, AArch64) use the count modulo 32, and so
does the embedding. -/
def shr32 (v n : Nat) : Nat := (v % 4294967296) / 2 ^ (n % 32)

/-- The C expression `v << n` on a 32-bit operand (wraps modulo 2^32; count modulo 32,
see `shr32`). -/
def shl32 (v n : Nat) : Nat := (v * 2 ^ (n % 32)) % 4294967296

/-- The C expression `(1 << n) - 1` on `int`, converted to `uint32_t` for the `&` with
an unsigned operand. -/
def maskBits (n : Nat) : Nat := toU32 (toI32 (shl32 1 n) - 1)

/-- Embedding of `XDR_decodebf_uint32`: `srcp` points at a host-order `uint32_t`, `max`
carries the bit width. -/
def XDR_decodebf_uint32 {P : Type} (srcp : Buf) (dst : Option (Cell P)) (inc : Nat)
    (max : Nat) (_len : Option (Cell P)) : DecResult (Cell P) :=
  ⟨0, dst.map (fun _ => Cell.word (load32 srcp &&& maskBits max)), inc⟩

/-- Embedding of `XDR_decodebf_int32`. -/
def XDR_decodebf_int32 {P : Type} (srcp : Buf) (dst : Option (Cell P)) (inc : Nat)
    (max : Nat) (_len : Option (Cell P)) : DecResult (Cell P) :=
  let src := load32 srcp
  let neg : Nat := toU32 (toI32 (shl32 1 (sizeSub max 1))) &&& src
  let res : Nat := if neg ≠ 0 then 4294967295 &&& (4294967295 - maskBits max) else 0
  let res : Nat := res ||| (src &&& maskBits max)
  ⟨0, dst.map (fun _ => Cell.word res), inc⟩

/-- Embedding of `XDR_encodebf_uint32`: `dstp` points at a host-order `uint32_t`. -/
def XDR_encodebf_uint32 {P : Type} (src : Option (Cell P)) (dstp : Option Buf) (used : Nat)
    (max : Nat) (_len : Option (Cell P)) : EncResult :=
  let v : Nat := (src.getD (Cell.word 0)).rd32 &&& maskBits max
  ⟨0, used, dstp.map (fun d => memcpy d (hostBytes32 v))⟩

/-! ## Function tables and field definitions -/

/-- A pointer to a printer, scanner or field deallocator, identified by the name of
the C function it points to (`none` is NULL). -/
abbrev FuncPtr := Option String

/-- Embedding of `struct XDR_TypeFunctions`. -/
structure XDR_TypeFunctions (P : Type) where
  decoder : XDR_Decoder P
  encoder : XDR_Encoder P
  printer : FuncPtr
  scanner : FuncPtr
  field_dealloc : FuncPtr

/-- Embedding of `struct XDR_FieldDefinition` (the `conversion` function, which works
on `double`, is left out). A table is the list of its entries; the terminating entry,
whose `offset` and `funcs` are both zero, is the end of the list. -/
structure XDR_FieldDefinition (P : Type) where
  funcs : XDR_TypeFunctions P
  offset : Nat
  key : Option String := none
  name : Option String := none
  struct_id : Nat := 0
  unit : Option String := none
  len_offset : Nat := 0

/-- Embedding of `xdr_int32_functions`. -/
def xdr_int32_functions {P : Type} : XDR_TypeFunctions P where
  decoder := XDR_decode_int32
  encoder := XDR_encode_int32
  printer := some "XDR_print_field_int32"
  scanner := some "XDR_scan_int32"
  field_dealloc := none

/-- Embedding of `xdr_int32_arr_functions`. -/
def xdr_int32_arr_functions {P : Type} : XDR_TypeFunctions P where
  decoder := XDR_decode_int32_array
  encoder := XDR_encode_int32_array
  printer := some "XDR_print_field_int32_array"
  scanner := some "XDR_scan_int32_array"
  field_dealloc := some "XDR_array_field_deallocator"

/-- Embedding of `xdr_uint32_functions`. -/
def xdr_uint32_functions {P : Type} : XDR_TypeFunctions P where
  decoder := XDR_decode_uint32
  encoder := XDR_encode_uint32
  printer := some "XDR_print_field_uint32"
  scanner := some "XDR_scan_uint32"
  field_dealloc := none

/-- Embedding of `xdr_uint32_arr_functions`. -/
def xdr_uint32_arr_functions {P : Type} : XDR_TypeFunctions P where
  decoder := XDR_decode_uint32_array
  encoder := XDR_encode_uint32_array
  printer := some "XDR_print_field_uint32_array"
  scanner := some "XDR_scan_uint32_array"
  field_dealloc := some "XDR_array_field_deallocator"

/-- Embedding of `xdr_int64_functions`. -/
def xdr_int64_functions {P : Type} : XDR_TypeFunctions P where
  decoder := XDR_decode_int64
  encoder := XDR_encode_int64
  printer := some "XDR_print_field_int64"
  scanner := some "XDR_scan_int64"
  field_dealloc := none

/-- Embedding of `xdr_int64_arr_functions`. -/
def xdr_int64_arr_functions {P : Type} : XDR_TypeFunctions P where
  decoder := XDR_decode_int64_array
  encoder := XDR_encode_int64_array
  printer := some "XDR_print_field_int64_array"
  scanner := some "XDR_scan_int64_array"
  field_dealloc := some "XDR_array_field_deallocator"

/-- Embedding of `xdr_uint64_functions`. -/
def xdr_uint64_functions {P : Type} : XDR_TypeFunctions P where
  decoder := XDR_decode_uint64
  encoder := XDR_encode_uint64
  printer := some "XDR_print_field_uint64"
  scanner := some "XDR_scan_uint64"
  field_dealloc := none

/-- Embedding of `xdr_uint64_arr_functions`. -/
def xdr_uint64_arr_functions {P : Type} : XDR_TypeFunctions P where
  decoder := XDR_decode_uint64_array
  encoder := XDR_encode_uint64_array
  printer := some "XDR_print_field_uint64_array"
  scanner := some "XDR_scan_uint64_array"
  field_dealloc := some "XDR_array_field_deallocator"

/-- Embedding of `xdr_string_arr_functions`. -/
def xdr_string_arr_functions {P : Type} : XDR_TypeFunctions P where
  decoder := XDR_decode_string_array
  encoder := XDR_encode_string_array
  printer := some "XDR_print_field_string_array"
  scanner := some "XDR_scan_string_array"
  field_dealloc := none

/-- Embedding of `xdr_byte_arr_functions`. -/
def xdr_byte_arr_functions {P : Type} : XDR_TypeFunctions P where
  decoder := XDR_decode_byte_array
  encoder := XDR_encode_byte_array
  printer := some "XDR_print_field_byte_array"
  scanner := some "XDR_scan_byte_array"
  field_dealloc := some "XDR_array_field_deallocator"

/-- Embedding of `xdr_uint32_bitfield_functions`. -/
def xdr_uint32_bitfield_functions {P : Type} : XDR_TypeFunctions P where
  decoder := XDR_decodebf_uint32
  encoder := XDR_encodebf_uint32
  printer := some "XDR_print_field_uint32"
  scanner := some "XDR_scan_uint32"
  field_dealloc := none

/-- Embedding of `xdr_int32_bitfield_functions`. -/
def xdr_int32_bitfield_functions {P : Type} : XDR_TypeFunctions P where
  decoder := XDR_decodebf_int32
  encoder := XDR_encodebf_uint32
  printer := some "XDR_print_field_int32"
  scanner := some "XDR_scan_int32"
  field_dealloc := none

/-! ## In-memory structs -/

/-- An in-memory struct: the slots that have been stored, keyed by byte offset. A
slot never stored reads as zero (the allocator clears the block). -/
abbrev Obj (P : Type) := List (Nat × Cell P)

/-- The slot at byte offset `off`. -/
def Obj.get {P : Type} (o : Obj P) (off : Nat) : Cell P :=
  match o.find? (fun e => e.1 == off) with
  | some e => e.2
  | none => Cell.word 0

/-- Storing slot `c` at byte offset `off`. -/
def Obj.set {P : Type} (o : Obj P) (off : Nat) (c : Cell P) : Obj P :=
  (off, c) :: o.filter (fun e => e.1 != off)

/-- The pointer `base + off` into a struct (`none` when `base` is NULL). -/
def fieldPtr {P : Type} (base : Option (Obj P)) (off : Nat) : Option (Cell P) :=
  base.map (fun o => o.get off)

/-- The struct after a field codec left `c` at `base + off`. -/
def fieldStore {P : Type} (base : Option (Obj P)) (off : Nat) (c : Option (Cell P)) :
    Option (Obj P) :=
  match base, c with
  | some o, some x => some (o.set off x)
  | b, _ => b

/-! ## Aggregate codec -/

/-- Loop of `XDR_struct_decoder` over the remaining table entries; `len` is the local
of that name (reset to 0 after every field). Returns `none` when a field decoder
failed (the function then returns -1 without storing `*inc`), together with the
struct as the fields decoded so far left it. -/
def XDR_struct_decoder_loop {P : Type} (src : Buf) (max : Nat) :
    List (XDR_FieldDefinition P) → Option (Obj P) → Nat → Option (Obj P) × Option Nat
  | [], dst, used => (dst, some used)
  | field :: rest, dst, used =>
    let r := field.funcs.decoder (src.drop used) (fieldPtr dst field.offset) 0
      (sizeSub max used) (fieldPtr dst field.len_offset)
    let dst1 := fieldStore dst field.offset r.dst
    if r.res < 0 then (dst1, none)
    else XDR_struct_decoder_loop src max rest dst1 (used + r.used)

/-- Embedding of `XDR_struct_decoder` (`arg` is the field table, `none` for NULL). -/
def XDR_struct_decoder {P : Type} (src : Buf) (dst_void : Option (Obj P)) (inc : Nat)
    (max : Nat) (arg : Option (List (XDR_FieldDefinition P))) : DecResult (Obj P) :=
  match arg with
  | none => ⟨-1, dst_void, inc⟩
  | some fields =>
    match XDR_struct_decoder_loop src max fields dst_void 0 with
    | (dst, none) => ⟨-1, dst, inc⟩
    | (dst, some used) => ⟨0, dst, used⟩

/-- Loop of `XDR_struct_encoder` over the remaining table entries; `mem` is the memory
at `dst` (`none` for a null `dst`), `res`, `used` and `len` the locals of those names. -/
def XDR_struct_encoder_loop {P : Type} (src : Option (Obj P)) (max : Nat) :
    List (XDR_FieldDefinition P) → Option Buf → Int → Nat → Nat → EncResult
  | [], mem, res, used, _ => ⟨res, used, mem⟩
  | field :: rest, mem, res, used, len =>
    match mem with
    | some m =>
      if res < 0 then
        let r := field.funcs.encoder (fieldPtr src field.offset) none len max
          (fieldPtr src field.len_offset)
        XDR_struct_encoder_loop src max rest (some m) res (used + r.used) r.used
      else
        let r := field.funcs.encoder (fieldPtr src field.offset) (some (m.drop used)) len
          (sizeSub max used) (fieldPtr src field.len_offset)
        let m1 := splice m used (r.dst.getD (m.drop used))
        XDR_struct_encoder_loop src max rest (some m1) r.res (used + r.used) r.used
    | none =>
      let r := field.funcs.encoder (fieldPtr src field.offset) none len max
        (fieldPtr src field.len_offset)
      XDR_struct_encoder_loop src max rest none res (used + r.used) r.used

/-- Embedding of `XDR_struct_encoder` (`arg` is the field table, `none` for NULL). -/
def XDR_struct_encoder {P : Type} (src_void : Option (Obj P)) (dst : Option Buf) (_inc : Nat)
    (max : Nat) (_type : Nat) (arg : Option (List (XDR_FieldDefinition P))) : EncResult :=
  match arg with
  | none => ⟨0, 0, dst⟩
  | some fields => XDR_struct_encoder_loop src_void max fields dst 0 0 0

/-- Loop of `XDR_bitfield_struct_decoder`: every field decoder is handed the address of
the local `tmp` and the field's bit width as `max`. Returns the struct and whether
every field decoder succeeded. -/
def XDR_bitfield_struct_decoder_loop {P : Type} (val : Nat) :
    List (XDR_FieldDefinition P) → Option (Obj P) → Option (Obj P) × Bool
  | [], dst => (dst, true)
  | field :: rest, dst =>
    let tmp : Nat := shr32 val field.struct_id &&& maskBits field.len_offset
    let r := field.funcs.decoder (hostBytes32 tmp) (fieldPtr dst field.offset) 0
      field.len_offset none
    let dst1 := fieldStore dst field.offset r.dst
    if r.res < 0 then (dst1, false)
    else XDR_bitfield_struct_decoder_loop val rest dst1

/-- Embedding of `XDR_bitfield_struct_decoder`. -/
def XDR_bitfield_struct_decoder {P : Type} (src : Buf) (dst_void : Option (Obj P))
    (inc : Nat) (max : Nat) (arg : Option (List (XDR_FieldDefinition P))) :
    DecResult (Obj P) :=
  let r0 : DecResult (Cell P) := XDR_decode_uint32 src (some (Cell.word 0)) inc max none
  if r0.res < 0 then ⟨-1, dst_void, r0.used⟩
  else
    let val : Nat := (r0.dst.getD (Cell.word 0)).rd32
    match arg with
    | none => ⟨-1, dst_void, r0.used⟩
    | some fields =>
      match XDR_bitfield_struct_decoder_loop val fields dst_void with
      | (dst, false) => ⟨-1, dst, r0.used⟩
      | (dst, true) => ⟨0, dst, r0.used⟩

/-- Loop of `XDR_bitfield_struct_encoder`: every field encoder writes into the local
`tmp` (cleared first), which is masked to the field's width, shifted into place and
OR-ed into `val`. -/
def XDR_bitfield_struct_encoder_loop {P : Type} (src : Option (Obj P)) :
    List (XDR_FieldDefinition P) → Nat → Nat
  | [], val => val
  | field :: rest, val =>
    let r := field.funcs.encoder (fieldPtr src field.offset) (some (hostBytes32 0)) 0
      field.len_offset none
    let tmp : Nat := load32 (r.dst.getD (hostBytes32 0))
    let tmp : Nat := tmp &&& maskBits field.len_offset
    XDR_bitfield_struct_encoder_loop src rest (val ||| shl32 tmp field.struct_id)

/-- Embedding of `XDR_bitfield_struct_encoder`. -/
def XDR_bitfield_struct_encoder {P : Type} (src_void : Option (Obj P)) (dst : Option Buf)
    (_inc : Nat) (max : Nat) (_type : Nat) (arg : Option (List (XDR_FieldDefinition P))) :
    EncResult :=
  match arg with
  | none => ⟨0, 0, dst⟩
  | some fields =>
    let val := XDR_bitfield_struct_encoder_loop src_void fields 0
    XDR_encode_uint32 (some (Cell.word val : Cell P)) dst 0 max none

/-! ## Type registry and unions -/

/-- Embedding of `struct XDR_StructDefinition`. `P` is the in-memory type of the
struct, `A` the type behind the `void *arg` (as a rule the field table). The
function pointers are `none` for NULL. The allocator is given the definition's
`in_memory_size`; the deallocator maps the content of `*goner` to its content on
return. -/
structure XDR_StructDefinition (P A : Type) where
  type : Nat
  in_memory_size : Nat
  encoder : Option (Option P → Option Buf → Nat → Nat → Nat → A → EncResult)
  decoder : Option (Buf → Option P → Nat → Nat → A → DecResult P)
  allocator : Option (Nat → Option P)
  deallocator : Option (Option P → Option P)
  print_func : FuncPtr := none
  populate : FuncPtr := none
  arg : A

/-- The registry hash table. `hashtable.c` is not part of the sources; a table is
represented by what `HASH_find_key` returns for each key. -/
abbrev HashTable (P A : Type) := Nat → Option (XDR_StructDefinition P A)

/-- Embedding of `XDR_definition_for_type`; `structHash` is the file-scope table
pointer (`none` before the first registration). -/
def XDR_definition_for_type {P A : Type} (structHash : Option (HashTable P A)) (type : Nat) :
    Option (XDR_StructDefinition P A) :=
  match structHash with
  | some h => h type
  | none => none

/-- Embedding of `XDR_malloc_allocator` for a struct held as an `Obj`: a cleared block. -/
def XDR_malloc_allocator {P : Type} (in_memory_size : Nat) : Option (Obj P) :=
  if in_memory_size = 0 then none
  else (malloc in_memory_size).map (fun _ => [])

/-- Embedding of `XDR_free_deallocator`: `*goner` is NULL on return. -/
def XDR_free_deallocator {P : Type} (_goner : Option P) : Option P := none

/-- Embedding of `XDR_decode_union`. On the path where the payload decoder fails the
code calls `def->deallocator(&dst->data, def)` and then stores NULL in `dst->data`, so
the slot is NULL whatever the deallocator left there. The code calls `def->allocator`
and `def->deallocator` without testing them: a call through a null pointer faults, and
`XDR_decode_union_nullCall` tells for which calls that happens; the result given here is
that of the program only for the calls for which it does not. -/
def XDR_decode_union {P A : Type} (structHash : Option (HashTable P A)) (src : Buf)
    (dst : Option (Cell P)) (_inc : Nat) (max : Nat) (_len : Option (Cell P)) :
    DecResult (Cell P) :=
  let old := (dst.getD (Cell.word 0)).rdUnion
  let r : DecResult (Cell P) := XDR_decode_uint32 src (some (Cell.word old.1)) 0 max none
  if r.res < 0 then ⟨-1, dst.map (fun _ => Cell.union old.1 none), 0⟩
  else
    let type : Nat := (r.dst.getD (Cell.word 0)).rd32
    match XDR_definition_for_type structHash type with
    | none => ⟨-1, dst.map (fun _ => Cell.union type none), 0⟩
    | some d =>
      match d.decoder with
      | none => ⟨-1, dst.map (fun _ => Cell.union type none), 0⟩
      | some decoder =>
        let inc := r.used
        let max := sizeSub max r.used
        let src := src.drop r.used
        match d.allocator with
        | none => ⟨-1, dst.map (fun _ => Cell.union type none), inc⟩
        | some allocator =>
          match allocator d.in_memory_size with
          | none => ⟨-1, dst.map (fun _ => Cell.union type none), inc⟩
          | some data =>
            let r2 := decoder src (some data) 0 max d.arg
            if r2.res < 0 then ⟨-1, dst.map (fun _ => Cell.union type none), inc⟩
            else ⟨0, dst.map (fun _ => Cell.union type r2.dst), inc + r2.used⟩

/-- Embedding of `XDR_encode_union`. -/
def XDR_encode_union {P A : Type} (structHash : Option (HashTable P A))
    (src : Option (Cell P)) (dst : Option Buf) (_inc : Nat) (max : Nat)
    (_unused : Option (Cell P)) : EncResult :=
  let u := (src.getD (Cell.word 0)).rdUnion
  let r := XDR_encode_uint32 (src.map (fun _ => (Cell.word u.1 : Cell P))) dst 0 max none
  match XDR_definition_for_type structHash u.1 with
  | none => ⟨-1, r.used, r.dst⟩
  | some d =>
    match d.encoder with
    | none => ⟨-1, r.used, r.dst⟩
    | some encoder =>
      match r.dst with
      | some m =>
        if r.res ≥ 0 then
          let r2 := encoder u.2 (some (m.drop r.used)) 0 (sizeSub max r.used) d.type d.arg
          let m1 := splice m r.used (r2.dst.getD (m.drop r.used))
          ⟨if r.res < 0 ∨ r2.res < 0 then -1 else 0, r.used + r2.used, some m1⟩
        else
          let r2 := encoder u.2 none 0 max d.type d.arg
          ⟨if r.res < 0 ∨ r2.res < 0 then -1 else 0, r.used + r2.used, some m⟩
      | none =>
        let r2 := encoder u.2 none 0 max d.type d.arg
        ⟨if r.res < 0 ∨ r2.res < 0 then -1 else 0, r.used + r2.used, none⟩

/-- Embedding of `xdr_union_functions`. -/
def xdr_union_functions {P A : Type} (structHash : Option (HashTable P A)) :
    XDR_TypeFunctions P where
  decoder := XDR_decode_union structHash
  encoder := XDR_encode_union structHash
  printer := none
  scanner := none
  field_dealloc := some "XDR_union_field_deallocator"

/-! ## Specification-side definitions -/

/-- Wire image of a 64-bit value: high half, then low half, each big-endian. -/
def wire64 (x : Nat) : List Nat := be32 (x / 4294967296) ++ be32 (x % 4294967296)

/-- Wire image of an array: the wire images of its elements, in index order, with
nothing in front and nothing between them. -/
def wireList (wire : Nat → List Nat) : List Nat → List Nat
  | [] => []
  | x :: xs => wire x ++ wireList wire xs

/-- What the aggregate codec needs of one field codec on the value `v`: `W` is the field's
wire image. With room for `W` the encoder writes exactly `W`; without room it fails;
it always reports `|W|`; and the decoder, given `W` and (when `usesLen`) the companion
length slot of `v`, rebuilds the slot of `v`. -/
structure FieldSpec {P : Type} (v : Obj P) (f : XDR_FieldDefinition P) (usesLen : Bool)
    (W : List Nat) : Prop where
  enc_ok : ∀ (d : Buf) (u m : Nat), W.length ≤ m → m < 18446744073709551616 →
    f.funcs.encoder (some (v.get f.offset)) (some d) u m (some (v.get f.len_offset))
      = ⟨0, W.length, some (W ++ d.drop W.length)⟩
  enc_fail : ∀ (d : Buf) (u m : Nat), m < W.length →
    (f.funcs.encoder (some (v.get f.offset)) (some d) u m (some (v.get f.len_offset))).res < 0
    ∧ (f.funcs.encoder (some (v.get f.offset)) (some d) u m (some (v.get f.len_offset))).used
      = W.length
  enc_dry : ∀ (u m : Nat),
    (f.funcs.encoder (some (v.get f.offset)) none u m (some (v.get f.len_offset))).used
      = W.length
  dec_ok : ∀ (rest : Buf) (c : Cell P) (u m : Nat) (len : Option (Cell P)),
    (usesLen = true → len = some (v.get f.len_offset)) →
    W.length ≤ m → m < 18446744073709551616 →
    f.funcs.decoder (W ++ rest) (some c) u m len = ⟨0, some (v.get f.offset), W.length⟩

/-- The table `fields` describes `v`, with `Ws` the concatenated wire image: every field
has a `FieldSpec`, no two fields share an offset, and a field that uses a companion
length finds it at the offset of an earlier field (`before` lists the offsets of the
fields already passed). -/
def TableSpec {P : Type} (v : Obj P) :
    List Nat → List (XDR_FieldDefinition P) → List Nat → Prop
  | _, [], Ws => Ws = []
  | before, f :: rest, Ws =>
    ∃ (usesLen : Bool) (W W2 : List Nat), Ws = W ++ W2 ∧ FieldSpec v f usesLen W
      ∧ (usesLen = true → f.len_offset ∈ before) ∧ f.offset ∉ before
      ∧ TableSpec v (before ++ [f.offset]) rest W2

/-- The field `f` of the value `v` is one of the integer fields of claim C6: a 32-bit or
64-bit integer scalar holding a value of that width, or a counted array of such
integers whose companion length (a non-negative `int32_t` equal to the number of
elements) sits at the offset of a field earlier in the table. `before` lists the
offsets of the earlier fields. -/
def IntFieldOK {P : Type} (v : Obj P) (before : List Nat) (f : XDR_FieldDefinition P) : Prop :=
  ((f.funcs = xdr_int32_functions ∨ f.funcs = xdr_uint32_functions)
      ∧ ∃ x, v.get f.offset = Cell.word x ∧ x < 4294967296)
  ∨ ((f.funcs = xdr_int64_functions ∨ f.funcs = xdr_uint64_functions)
      ∧ ∃ x, v.get f.offset = Cell.dword x ∧ x < 18446744073709551616)
  ∨ ((f.funcs = xdr_int32_arr_functions ∨ f.funcs = xdr_uint32_arr_functions)
      ∧ f.len_offset ∈ before
      ∧ ∃ xs, v.get f.offset = Cell.ptr (some xs) ∧ v.get f.len_offset = Cell.word xs.length
        ∧ xs.length < 2147483648 ∧ ∀ x ∈ xs, x < 4294967296)
  ∨ ((f.funcs = xdr_int64_arr_functions ∨ f.funcs = xdr_uint64_arr_functions)
      ∧ f.len_offset ∈ before
      ∧ ∃ xs, v.get f.offset = Cell.ptr (some xs) ∧ v.get f.len_offset = Cell.word xs.length
        ∧ xs.length < 2147483648 ∧ ∀ x ∈ xs, x < 18446744073709551616)

/-- The table `fields` is a table of integer fields describing `v` (see `IntFieldOK`),
and no two of its fields share an offset. -/
def IntTableOK {P : Type} (v : Obj P) : List Nat → List (XDR_FieldDefinition P) → Prop
  | _, [] => True
  | before, f :: rest =>
    IntFieldOK v before f ∧ f.offset ∉ before ∧ IntTableOK v (before ++ [f.offset]) rest

/-! ## Example values -/

/-- A table with an `int32_t` count at offset 0, a counted `uint32_t` array at offset 8
whose length is that count, and an `int64_t` at offset 16. -/
def exampleIntTable : List (XDR_FieldDefinition Unit) :=
  [ { funcs := xdr_int32_functions, offset := 0 },
    { funcs := xdr_uint32_arr_functions, offset := 8, len_offset := 0 },
    { funcs := xdr_int64_functions, offset := 16 } ]

/-- A value of `exampleIntTable`: the array 7, 9 and the 64-bit value 5. -/
def exampleIntValue : Obj Unit :=
  [(0, Cell.word 2), (8, Cell.ptr (some [7, 9])), (16, Cell.dword 5)]

/-- A struct type holding a single `uint32_t` at offset 0. -/
def exampleWordTable : List (XDR_FieldDefinition Unit) :=
  [ { funcs := xdr_uint32_functions, offset := 0 } ]

/-- A registry in which type 7 is the struct of `exampleWordTable`, with the aggregate
codec, the clearing allocator and the plain deallocator. -/
def exampleRegistry : Option (HashTable (Obj Unit) (Option (List (XDR_FieldDefinition Unit)))) :=
  some (fun t =>
    if t = 7 then
      some { type := 7, in_memory_size := 4,
             encoder := some XDR_struct_encoder, decoder := some XDR_struct_decoder,
             allocator := some XDR_malloc_allocator, deallocator := some XDR_free_deallocator,
             arg := some exampleWordTable }
    else none)

/-- The bit ranges `[struct_id, struct_id + len_offset)` of two bit-packed fields do not
overlap. -/
def BitDisjoint {P : Type} (f g : XDR_FieldDefinition P) : Prop :=
  f.struct_id + f.len_offset ≤ g.struct_id ∨ g.struct_id + g.len_offset ≤ f.struct_id

/-- A bit-packed table: every field uses one of the two bit-field records, its bit range
lies inside the 32-bit word, and the ranges are pairwise disjoint. -/
def BitTableOK {P : Type} (fields : List (XDR_FieldDefinition P)) : Prop :=
  (∀ f ∈ fields, (f.funcs = xdr_uint32_bitfield_functions
      ∨ f.funcs = xdr_int32_bitfield_functions) ∧ f.struct_id + f.len_offset ≤ 32)
  ∧ fields.Pairwise BitDisjoint

/-- The bit-packed table of scenario S4: (shift 0, width 4) at offset 0 and (shift 4,
width 4) at offset 4. -/
def exampleBitTable : List (XDR_FieldDefinition Unit) :=
  [ { funcs := xdr_uint32_bitfield_functions, offset := 0, struct_id := 0, len_offset := 4 },
    { funcs := xdr_uint32_bitfield_functions, offset := 4, struct_id := 4, len_offset := 4 } ]

/-- The value of scenario S4: 0xA in the first field, 0x3 in the second. -/
def exampleBitValue : Obj Unit := [(0, Cell.word 0xA), (4, Cell.word 0x3)]

/-- A bit-packed table with a single field that fills the word: (shift 0, width 32). -/
def exampleWideBitTable : List (XDR_FieldDefinition Unit) :=
  [ { funcs := xdr_uint32_bitfield_functions, offset := 0, struct_id := 0, len_offset := 32 } ]

/-- A value of `exampleWideBitTable`: the field holds 0xDEADBEEF. -/
def exampleWideBitValue : Obj Unit := [(0, Cell.word 0xDEADBEEF)]

/-! ## Floating-point codecs

A `float` or `double` is held as its bit pattern: the codecs copy the in-memory bytes
and never interpret them. -/

/-- In-memory bytes of a 64-bit object on the (little-endian) host. -/
def hostBytes64 (v : Nat) : List Nat :=
  hostBytes32 (v % 4294967296) ++ hostBytes32 (v / 4294967296 % 4294967296)

/-- The 64-bit object whose in-memory bytes start at `b` (`memcpy(dst, src, 8)`). -/
def load64 (b : Buf) : Nat := load32 b + 4294967296 * load32 (b.drop 4)

/-- Embedding of `XDR_encode_float`. There is no null check: with room, the four bytes
at `src` are copied to `dst`; a store through a null `dst` (which faults in C) is
dropped. -/
def XDR_encode_float {P : Type} (src : Option (Cell P)) (dst : Option Buf) (_used : Nat)
    (max : Nat) (_len : Option (Cell P)) : EncResult :=
  if max < 4 then ⟨-1, 4, dst⟩
  else ⟨0, 4, dst.map (fun d => memcpy d (hostBytes32 (src.getD (Cell.word 0)).rd32))⟩

/-- Embedding of `XDR_encode_double`. -/
def XDR_encode_double {P : Type} (src : Option (Cell P)) (dst : Option Buf) (_used : Nat)
    (max : Nat) (_len : Option (Cell P)) : EncResult :=
  if max < 8 then ⟨-1, 8, dst⟩
  else ⟨0, 8, dst.map (fun d => memcpy d (hostBytes64 (src.getD (Cell.word 0)).rd64))⟩

/-- Embedding of `XDR_decode_float`. -/
def XDR_decode_float {P : Type} (src : Buf) (dst : Option (Cell P)) (inc : Nat)
    (max : Nat) (_len : Option (Cell P)) : DecResult (Cell P) :=
  if max < 4 then ⟨-1, dst, inc⟩
  else ⟨0, dst.map (fun _ => Cell.word (load32 src)), 4⟩

/-- Embedding of `XDR_decode_double`. -/
def XDR_decode_double {P : Type} (src : Buf) (dst : Option (Cell P)) (inc : Nat)
    (max : Nat) (_len : Option (Cell P)) : DecResult (Cell P) :=
  if max < 8 then ⟨-1, dst, inc⟩
  else ⟨0, dst.map (fun _ => Cell.dword (load64 src)), 8⟩

/-- Embedding of `XDR_decode_float_array`. -/
def XDR_decode_float_array {P : Type} (src : Buf) (dst : Option (Cell P)) (_used : Nat)
    (max : Nat) (len : Option (Cell P)) : DecResult (Cell P) :=
  match len with
  | some _ => XDR_array_decoder src dst 0 max (derefLen len) 4 XDR_decode_float
  | none => ⟨0, dst, 0⟩

/-- Embedding of `XDR_encode_float_array`. -/
def XDR_encode_float_array {P : Type} (src : Option (Cell P)) (dst : Option Buf) (_used : Nat)
    (max : Nat) (len : Option (Cell P)) : EncResult :=
  match len with
  | some _ => XDR_array_encoder src dst 0 max (derefLen len) 4 XDR_encode_float
  | none => ⟨0, 0, dst⟩

/-- Embedding of `XDR_encode_double_array`: the element size is `sizeof(double)`, the
element encoder handed to `XDR_array_encoder` is `XDR_encode_float`. -/
def XDR_encode_double_array {P : Type} (src : Option (Cell P)) (dst : Option Buf) (_used : Nat)
    (max : Nat) (len : Option (Cell P)) : EncResult :=
  match len with
  | some _ => XDR_array_encoder src dst 0 max (derefLen len) 8 XDR_encode_float
  | none => ⟨0, 0, dst⟩

/-- Embedding of `XDR_decode_double_array`. -/
def XDR_decode_double_array {P : Type} (src : Buf) (dst : Option (Cell P)) (_used : Nat)
    (max : Nat) (len : Option (Cell P)) : DecResult (Cell P) :=
  match len with
  | some _ => XDR_array_decoder src dst 0 max (derefLen len) 8 XDR_decode_double
  | none => ⟨0, dst, 0⟩

/-- Embedding of `xdr_float_functions`. -/
def xdr_float_functions {P : Type} : XDR_TypeFunctions P where
  decoder := XDR_decode_float
  encoder := XDR_encode_float
  printer := some "XDR_print_field_float"
  scanner := some "XDR_scan_float"
  field_dealloc := none

/-- Embedding of `xdr_float_arr_functions`. -/
def xdr_float_arr_functions {P : Type} : XDR_TypeFunctions P where
  decoder := XDR_decode_float_array
  encoder := XDR_encode_float_array
  printer := some "XDR_print_field_float_array"
  scanner := some "XDR_scan_float_array"
  field_dealloc := some "XDR_array_field_deallocator"

/-- Embedding of `xdr_double_functions`. -/
def xdr_double_functions {P : Type} : XDR_TypeFunctions P where
  decoder := XDR_decode_double
  encoder := XDR_encode_double
  printer := some "XDR_print_field_double"
  scanner := some "XDR_scan_double"
  field_dealloc := none

/-- Embedding of `xdr_double_arr_functions`. -/
def xdr_double_arr_functions {P : Type} : XDR_TypeFunctions P where
  decoder := XDR_decode_double_array
  encoder := XDR_encode_double_array
  printer := some "XDR_print_field_double_array"
  scanner := some "XDR_scan_double_array"
  field_dealloc := some "XDR_array_field_deallocator"

/-- The array holding the single `double` 1.0 (bit pattern `0x3FF0000000000000`). -/
def exampleDoubles : List Nat := [4607182418800017408]

/-! ## The built-in field codecs -/

/-- Embedding of `xdr_char_functions`. -/
def xdr_char_functions {P : Type} : XDR_TypeFunctions P where
  decoder := XDR_decode_int32
  encoder := XDR_encode_int32
  printer := some "XDR_print_field_char"
  scanner := some "XDR_scan_char"
  field_dealloc := none

/-- Embedding of `xdr_char_arr_functions`. -/
def xdr_char_arr_functions {P : Type} : XDR_TypeFunctions P where
  decoder := XDR_decode_int32_array
  encoder := XDR_encode_int32_array
  printer := some "XDR_print_field_char_array"
  scanner := some "XDR_scan_char_array"
  field_dealloc := none

/-- The function records a field table is built from: 32/64-bit integers, chars, floats,
doubles, byte arrays, strings, the arrays of scalars, and unions over the registry
`structHash`. (The records `xdr_string_functions` and `xdr_union_arr_functions`, whose
codecs or deallocators are `assert(0)` stubs, and the bit-field records, which only the
bit-packed aggregate uses, are left out.) -/
def builtinFuncs {P A : Type} (structHash : Option (HashTable P A)) :
    List (XDR_TypeFunctions P) :=
  [xdr_float_functions, xdr_float_arr_functions, xdr_double_functions,
   xdr_double_arr_functions, xdr_char_functions, xdr_char_arr_functions,
   xdr_int32_functions, xdr_int32_arr_functions, xdr_uint32_functions,
   xdr_uint32_arr_functions, xdr_int64_functions, xdr_int64_arr_functions,
   xdr_uint64_functions, xdr_uint64_arr_functions, xdr_string_arr_functions,
   xdr_byte_arr_functions, xdr_union_functions structHash]

/-- Every payload encoder of the registry reports a multiple of 4 bytes (the payloads
are aligned). -/
def AlignedPayloads {P A : Type} (structHash : Option (HashTable P A)) : Prop :=
  ∀ (t : Nat) (df : XDR_StructDefinition P A)
    (enc : Option P → Option Buf → Nat → Nat → Nat → A → EncResult),
    XDR_definition_for_type structHash t = some df → df.encoder = some enc →
    ∀ (p : Option P) (d : Option Buf) (u m : Nat), 4 ∣ (enc p d u m df.type df.arg).used

/-- The byte count every payload encoder of the registry reports depends on the payload
alone, not on the destination, the room or the incoming `*inc`. -/
def StablePayloads {P A : Type} (structHash : Option (HashTable P A)) : Prop :=
  ∀ (t : Nat) (df : XDR_StructDefinition P A)
    (enc : Option P → Option Buf → Nat → Nat → Nat → A → EncResult),
    XDR_definition_for_type structHash t = some df → df.encoder = some enc →
    ∀ (p : Option P) (d d2 : Option Buf) (u u2 m m2 : Nat),
      (enc p d u m df.type df.arg).used = (enc p d2 u2 m2 df.type df.arg).used

/-- The size a field encoder reports for the field `f` of `src`, read off a dry run with
no room. -/
def fieldSize {P : Type} (src : Option (Obj P)) (f : XDR_FieldDefinition P) : Nat :=
  (f.funcs.encoder (fieldPtr src f.offset) none 0 0 (fieldPtr src f.len_offset)).used

/-! ## Stores through a null destination

`XDR_encode_float` and `XDR_encode_double` test `max` but not `dst` before their
`memcpy(dst, src, *used)`. -/

/-- Whether a call of `XDR_encode_float` with this `dst` and `max` reaches its
`memcpy(dst, src, 4)` with a null `dst`. -/
def XDR_encode_float_nullStore (dst : Option Buf) (max : Nat) : Bool :=
  if max < 4 then false else dst.isNone

/-- Whether a call of `XDR_encode_double` with this `dst` and `max` reaches its
`memcpy(dst, src, 8)` with a null `dst`. -/
def XDR_encode_double_nullStore (dst : Option Buf) (max : Nat) : Bool :=
  if max < 8 then false else dst.isNone

/-- Whether a call of `XDR_encode_string_array` stores through the pointer `dst + 4`
derived from a null `dst`: `XDR_encode_uint32` returns 0 for the null `dst`, the test
`max < *used` passes, and the `memcpy` of the `str_len > 0` characters (and the `memset`
of the padding) go to `(char*)NULL + 4`. -/
def XDR_encode_string_array_nullStore {P : Type} (src_ptr : Option (Cell P))
    (dst : Option Buf) (max : Nat) : Bool :=
  let src : Option (List Nat) := src_ptr.bind Cell.rdPtr
  let str_len : Nat := match src with
    | some s => strlen s % 4294967296
    | none => 0
  let padding : Nat := ((4 + 4294967296 - str_len % 4) % 4294967296) % 4
  let r := XDR_encode_uint32 (some (Cell.word str_len : Cell P)) dst 0 max none
  let used := r.used + (str_len + padding) % 4294967296
  dst.isNone && decide (¬ r.res < 0) && decide (¬ max < used) && decide (0 < str_len)

/-- Whether a call of `XDR_encode_byte_array` reaches `memcpy(dst, *src, byte_len)` with a
negative `byte_len`, which as a `size_t` is at least 2^64 - 3. -/
def XDR_encode_byte_array_overrun {P : Type} (src : Option (Cell P)) (dst : Option Buf)
    (max : Nat) (lenptr : Option (Cell P)) : Bool :=
  let byte_len : Int := derefLen lenptr
  let padding : Int := cRem (4 - cRem byte_len 4) 4
  let total : Int := toI32 (toU32 (byte_len + padding))
  dst.isSome && (src.bind Cell.rdPtr).isSome && decide (¬ toU64 total ≥ max)
    && decide (byte_len < 0)

/-- A table with a single `float` at offset 0. -/
def exampleFloatTable : List (XDR_FieldDefinition Unit) :=
  [ { funcs := xdr_float_functions, offset := 0 } ]

/-- The byte string `W` is the encoding of the field `f` of `v`: whenever the field's
encoder, called on the slot at `offset` with the slot at `len_offset` as length hint,
succeeds with room `m`, it has written `W` at the front of its destination, left the
rest alone and reported `|W|`, and `W` fits in the room. -/
def FieldEncoding {P : Type} (v : Obj P) (f : XDR_FieldDefinition P) (W : List Nat) : Prop :=
  ∀ (d : Buf) (u m : Nat), m < 18446744073709551616 →
    0 ≤ (f.funcs.encoder (some (v.get f.offset)) (some d) u m
      (some (v.get f.len_offset))).res →
    W.length ≤ m
    ∧ (f.funcs.encoder (some (v.get f.offset)) (some d) u m
        (some (v.get f.len_offset))).used = W.length
    ∧ (f.funcs.encoder (some (v.get f.offset)) (some d) u m
        (some (v.get f.len_offset))).dst = some (W ++ d.drop W.length)

/-! ## Command layer -/

/-- Embedding of the encode-and-retry step of `IPC_command_internal`. The generated
`IPC_Command_encode` is not part of the sources: `encode buff max` stands for the call
`IPC_Command_encode(&cmd, buff, &len, max, NULL)`. The result is the buffer and the
length handed on to the transport, `none` when the function returns -1 instead. -/
def IPC_command_internal_encode (encode : Option Buf → Nat → EncResult) :
    Option (Option Buf × Nat) :=
  let buff_len : Nat := 1024
  let buff := malloc buff_len
  let r := encode buff buff_len
  if r.res < 0 then
    if r.used > buff_len then
      let buff_len := r.used
      match malloc buff_len with
      | none => none
      | some b =>
        let r2 := encode (some b) r.used
        if r2.res < 0 then none else some (r2.dst, r2.used)
    else none
  else some (r.dst, r.used)

/-- A table with an `int32_t` count at offset 0 and, last, a byte array at offset 8
whose length is that count. -/
def exampleBlobTable : List (XDR_FieldDefinition Unit) :=
  [ { funcs := xdr_int32_functions, offset := 0 },
    { funcs := xdr_byte_arr_functions, offset := 8, len_offset := 0 } ]

/-- The value of `exampleBlobTable` holding the blob `bytes`. -/
def exampleBlobValue (bytes : List Nat) : Obj Unit :=
  [(0, Cell.word bytes.length), (8, Cell.ptr (some bytes))]

/-- The encoder of `exampleBlobTable` on the blob `bytes`, in the shape of
`IPC_Command_encode`: destination and room in, result out. -/
def exampleBlobEncode (bytes : List Nat) (ty : Nat) (buff : Option Buf) (max : Nat) :
    EncResult :=
  XDR_struct_encoder (some (exampleBlobValue bytes)) buff 0 max ty (some exampleBlobTable)

/-! ## Decoder bounds -/

/-- A decoder stays within its room: a call that succeeds with room `max` (a `size_t`)
reports a consumed byte count of at most `max`. -/
def DecBounded {P : Type} (dec : XDR_Decoder P) : Prop :=
  ∀ (src : Buf) (dst : Option (Cell P)) (u m : Nat) (len : Option (Cell P)),
    m < 18446744073709551616 → 0 ≤ (dec src dst u m len).res → (dec src dst u m len).used ≤ m

/-- Every payload decoder of the registry stays within its room. -/
def BoundedPayloads {P A : Type} (structHash : Option (HashTable P A)) : Prop :=
  ∀ (t : Nat) (df : XDR_StructDefinition P A)
    (dec : Buf → Option P → Nat → Nat → A → DecResult P),
    XDR_definition_for_type structHash t = some df → df.decoder = some dec →
    ∀ (src : Buf) (p : Option P) (u m : Nat), m < 18446744073709551616 →
      0 ≤ (dec src p u m df.arg).res → (dec src p u m df.arg).used ≤ m

/-! ## Release of a union payload -/

/-- The call `def->deallocator(&dst->data, def)` of `XDR_decode_union`, made on the path
where the payload decoder fails: the function pointer called (`none` for NULL; the code
does not test it) and the payload behind `dst->data` as the decoder left it. The result
is `none` when the call is not reached. -/
def XDR_decode_union_released {P A : Type} (structHash : Option (HashTable P A)) (src : Buf)
    (dst : Option (Cell P)) (max : Nat) : Option (Option (Option P → Option P) × Option P) :=
  let old := (dst.getD (Cell.word 0)).rdUnion
  let r : DecResult (Cell P) := XDR_decode_uint32 src (some (Cell.word old.1)) 0 max none
  if r.res < 0 then none
  else
    let type : Nat := (r.dst.getD (Cell.word 0)).rd32
    match XDR_definition_for_type structHash type with
    | none => none
    | some d =>
      match d.decoder with
      | none => none
      | some decoder =>
        match d.allocator with
        | none => none
        | some allocator =>
          match allocator d.in_memory_size with
          | none => none
          | some data =>
            let r2 := decoder (src.drop r.used) (some data) 0 (sizeSub max r.used) d.arg
            if r2.res < 0 then some (d.deallocator, r2.dst) else none

/-- Whether a call of `XDR_decode_union` calls through a null function pointer: it
reaches `dst->data = def->allocator(def)` with `def->allocator` null, or it reaches
`def->deallocator(&dst->data, def)` (the payload decoder has failed) with
`def->deallocator` null. -/
def XDR_decode_union_nullCall {P A : Type} (structHash : Option (HashTable P A)) (src : Buf)
    (dst : Option (Cell P)) (max : Nat) : Bool :=
  let old := (dst.getD (Cell.word 0)).rdUnion
  let r : DecResult (Cell P) := XDR_decode_uint32 src (some (Cell.word old.1)) 0 max none
  if r.res < 0 then false
  else
    let type : Nat := (r.dst.getD (Cell.word 0)).rd32
    match XDR_definition_for_type structHash type with
    | none => false
    | some d =>
      match d.decoder with
      | none => false
      | some decoder =>
        match d.allocator with
        | none => true
        | some allocator =>
          match allocator d.in_memory_size with
          | none => false
          | some data =>
            let r2 := decoder (src.drop r.used) (some data) 0 (sizeSub max r.used) d.arg
            decide (r2.res < 0) && d.deallocator.isNone

/-- A payload decoder that always fails. -/
def exampleFailingDecoder (_src : Buf) (dst : Option (Obj Unit)) (inc : Nat) (_max : Nat)
    (_arg : Option (List (XDR_FieldDefinition Unit))) : DecResult (Obj Unit) :=
  ⟨-1, dst, inc⟩

/-- A registry in which type 9 has a decoder that always fails, the clearing allocator
and the plain deallocator. -/
def exampleFailingRegistry :
    Option (HashTable (Obj Unit) (Option (List (XDR_FieldDefinition Unit)))) :=
  some (fun t =>
    if t = 9 then
      some { type := 9, in_memory_size := 4,
             encoder := some XDR_struct_encoder, decoder := some exampleFailingDecoder,
             allocator := some XDR_malloc_allocator, deallocator := some XDR_free_deallocator,
             arg := some exampleWordTable }
    else none)

/-- The statement `cmd.ipcref = next_cmd_ref++` of `IPC_command_internal`: from the value of
the function-static `uint32_t next_cmd_ref` (initialised to 1), the `ipcref` placed in
the command envelope and the new value of the counter. `IPC_command` (for a non-null
`proc`) and `IPC_command_blocking` both reach it, once per command. -/
def IPC_command_internal_ref (next_cmd_ref : Nat) : Nat × Nat :=
  (next_cmd_ref % 4294967296, (next_cmd_ref % 4294967296 + 1) % 4294967296)

/-- The `ipcref` values of two commands issued one after the other, the first when the
counter holds `next_cmd_ref`. -/
def IPC_two_commands (next_cmd_ref : Nat) : Nat × Nat :=
  ((IPC_command_internal_ref next_cmd_ref).1,
   (IPC_command_internal_ref (IPC_command_internal_ref next_cmd_ref).2).1)

/-! ## Command and response envelopes -/

/-- Embedding of `struct IPC_Command` (generated from the protocol description): the
command number, the reference, and the parameters union as (type, data). -/
structure IPC_Command (P : Type) where
  cmd : Nat
  ipcref : Nat
  parameters : Nat × Option P

/-- Embedding of `struct IPC_Response`: the command number, the reference of the
command answered, the result code, and the data union as (type, data). -/
structure IPC_Response (P : Type) where
  cmd : Nat
  ipcref : Nat
  result : Nat
  data : Nat × Option P

/-- Embedding of `IPC_response`. The constants `IPC_CMDS_RESPONSE` and
`IPC_RESULTCODE_SUCCESS` come from a generated header and are parameters, and so is the
generated `IPC_Response_encode` (`encode resp buff max`). The result is the envelope
`resp` and the datagram handed to `PROC_cmd_raw_sockaddr` (`none` when the function
returns without sending); the encode-and-retry step is the one of
`IPC_command_internal`. -/
def IPC_response {P : Type} (IPC_CMDS_RESPONSE IPC_RESULTCODE_SUCCESS : Nat)
    (encode : IPC_Response P → Option Buf → Nat → EncResult) (cmd : IPC_Command P)
    (param_type : Nat) (params : Option P) : IPC_Response P × Option (Option Buf × Nat) :=
  let resp : IPC_Response P :=
    { cmd := IPC_CMDS_RESPONSE, ipcref := cmd.ipcref, result := IPC_RESULTCODE_SUCCESS,
      data := (param_type, params) }
  (resp, IPC_command_internal_encode (encode resp))

/-- Embedding of `IPC_error`: a 128-byte buffer and a single encode attempt. The
constants `IPC_CMDS_RESPONSE` and `IPC_TYPES_VOID` are parameters. -/
def IPC_error {P : Type} (IPC_CMDS_RESPONSE IPC_TYPES_VOID : Nat)
    (encode : IPC_Response P → Option Buf → Nat → EncResult) (cmd : IPC_Command P)
    (err_code : Nat) : IPC_Response P × Option (Option Buf × Nat) :=
  let buff_len : Nat := 128
  let buff := malloc buff_len
  let resp : IPC_Response P :=
    { cmd := IPC_CMDS_RESPONSE, ipcref := cmd.ipcref, result := err_code,
      data := (IPC_TYPES_VOID, none) }
  let r := encode resp buff buff_len
  if r.res < 0 then (resp, none) else (resp, some (r.dst, r.used))

/-! ## Blocking commands -/

/-- One invocation of an `IPC_command_callback`,
`cb(proc, timeout, arg, resp_buff, resp_len, cb_type)`: the timeout flag, the response
buffer (`none` for NULL), its length and the callback type. -/
structure CallbackCall where
  timeout : Int
  resp_buff : Option Buf
  resp_len : Nat
  cb_type : Nat
deriving DecidableEq

/-- Embedding of `socket_send_packet_and_read_xdr_sa`. What the operating system answers
is given by the results of `socket_init`, `wait_for_packet` and `socket_read`; `rxResp`
says whether the response buffer is non-null. -/
def socket_send_packet_and_read_xdr_sa (socket_init wait_for_packet socket_read : Int)
    (rxResp : Bool) (rxRespLen : Nat) : Int :=
  let sock := socket_init
  if sock < 0 then -1
  else
    if rxResp && decide (rxRespLen > 0) then
      let result := wait_for_packet
      if result = 0 then -2
      else if result ≠ 1 then -3
      else socket_read
    else 0

/-- Embedding of `ipc_blocking_command`: the return value and the callback invocations
made, in order. `cb` says whether the callback pointer is non-null; `CMD_resolve_callback`
(not part of the sources) is a parameter taking `cb`, `cb_type`, the receive buffer and
`rxlen`. -/
def ipc_blocking_command (socket_init wait_for_packet socket_read : Int) (rxbuff : Buf)
    (CMD_resolve_callback : Bool → Nat → Buf → Int → Int × List CallbackCall)
    (cb : Bool) (cb_type : Nat) : Int × List CallbackCall :=
  let rxlen := socket_send_packet_and_read_xdr_sa socket_init wait_for_packet socket_read
    true 65536
  if rxlen < 0 then
    (rxlen, if cb then [⟨1, none, 0, cb_type⟩] else [])
  else CMD_resolve_callback cb cb_type rxbuff rxlen

/-- Embedding of `IPC_command_internal`: the return value and the callback invocations
made before it returns. `proc` says whether the process pointer is non-null (then the
command is sent and the callback only registered, which invokes nothing),
`next_cmd_ref` is the value of the static counter, and the generated
`IPC_Command_encode` is the parameter `encode`. -/
def IPC_command_internal {P : Type} (encode : IPC_Command P → Option Buf → Nat → EncResult)
    (socket_init wait_for_packet socket_read : Int) (rxbuff : Buf)
    (CMD_resolve_callback : Bool → Nat → Buf → Int → Int × List CallbackCall)
    (next_cmd_ref : Nat) (proc : Bool) (command : Nat) (params : Option P) (param_type : Nat)
    (cb : Bool) (cb_type : Nat) : Int × List CallbackCall :=
  let cmd : IPC_Command P :=
    { cmd := command, ipcref := (IPC_command_internal_ref next_cmd_ref).1,
      parameters := (param_type, params) }
  match IPC_command_internal_encode (encode cmd) with
  | none => (-1, [])
  | some _ =>
    if !proc then
      ipc_blocking_command socket_init wait_for_packet socket_read rxbuff
        CMD_resolve_callback cb cb_type
    else (0, [])

/-- Embedding of `IPC_command_blocking`. -/
def IPC_command_blocking {P : Type} (encode : IPC_Command P → Option Buf → Nat → EncResult)
    (socket_init wait_for_packet socket_read : Int) (rxbuff : Buf)
    (CMD_resolve_callback : Bool → Nat → Buf → Int → Int × List CallbackCall)
    (next_cmd_ref : Nat) (command : Nat) (params : Option P) (param_type : Nat)
    (cb : Bool) (cb_type : Nat) : Int × List CallbackCall :=
  IPC_command_internal encode socket_init wait_for_packet socket_read rxbuff
    CMD_resolve_callback next_cmd_ref false command params param_type cb cb_type

/-- A command encoder that writes the reference as one 32-bit word. -/
def exampleCommandEncode (cmd : IPC_Command Unit) (buff : Option Buf) (m : Nat) : EncResult :=
  XDR_encode_uint32 (some (Cell.word cmd.ipcref : Cell Unit)) buff 0 m none

/-- A command encoder that encodes the parameters union against an empty registry. -/
def exampleUnregisteredEncode (cmd : IPC_Command Unit) (buff : Option Buf) (m : Nat) :
    EncResult :=
  XDR_encode_union (none : Option (HashTable Unit Unit))
    (some (Cell.union cmd.parameters.1 cmd.parameters.2)) buff 0 m none

/-- A `CMD_resolve_callback` that hands the received bytes to the callback. -/
def exampleResolve (cb : Bool) (cb_type : Nat) (rxbuff : Buf) (rxlen : Int) :
    Int × List CallbackCall :=
  (0, if cb then [⟨0, some rxbuff, rxlen.toNat, cb_type⟩] else [])

/-! ## Service names -/

/-- Bytes of a string literal as a C string with its terminating NUL. -/
def cstr (s : String) : List Nat := s.toList.map Char.toNat ++ [0]

/-- The C string at an address: the bytes before the first NUL. -/
def cstring (s : List Nat) : List Nat := s.takeWhile (fun b => b != 0)

/-- The libc function `strcmp` on the bytes at two addresses; memory that is not
modelled reads as NUL. -/
def strcmp : List Nat → List Nat → Int
  | [], [] => 0
  | [], b :: _ => if b = 0 then 0 else -(b : Int)
  | a :: _, [] => if a = 0 then 0 else (a : Int)
  | a :: as, b :: bs =>
    if a ≠ b then (a : Int) - (b : Int) else if a = 0 then 0 else strcmp as bs

/-- White space as `isspace` sees it in the C locale. -/
def isspace (c : Nat) : Bool := c == 32 || (9 ≤ c && c ≤ 13)

/-- The value of the leading decimal digits of a C string, after `acc`. -/
def atolDigits : List Nat → Nat → Nat
  | [], acc => acc
  | c :: cs, acc => if 48 ≤ c ∧ c ≤ 57 then atolDigits cs (acc * 10 + (c - 48)) else acc

/-- The libc function `atol` (`strtol` in base 10 without error report): white space is
skipped, one sign is accepted, the leading digits are read, and a value outside `long`
is clamped to `LONG_MIN` or `LONG_MAX`. -/
def atol (s : List Nat) : Int :=
  match s.dropWhile isspace with
  | 45 :: r => max (-(atolDigits r 0 : Int)) (-9223372036854775808)
  | 43 :: r => min (atolDigits r 0 : Int) 9223372036854775807
  | r => min (atolDigits r 0 : Int) 9223372036854775807

/-- The function `ntohs` on the little-endian host: the two low bytes swapped. -/
def ntohs (x : Nat) : Nat := (x % 256) * 256 + (x / 256) % 256

/-- Embedding of `struct ServiceNames` (the resolved `multicast_addr` is left out). -/
structure ServiceNames where
  name : List Nat
  port : Int
  multicast_ip : List Nat
  multicast_port : Int

/-- Embedding of the table `serverNameList`; the terminating record with the null name is
the end of the list. -/
def serverNameList : List ServiceNames :=
  [ ⟨cstr "beacon", 50000, cstr "234.192.101.1", 51000⟩,
    ⟨cstr "sys_manager", 50001, cstr "234.192.101.2", 51001⟩,
    ⟨cstr "watchdog", 50002, cstr "234.192.101.3", 51002⟩,
    ⟨cstr "satcomm", 50003, cstr "234.192.101.4", 51003⟩,
    ⟨cstr "filemgr", 50004, cstr "234.192.101.5", 51004⟩,
    ⟨cstr "telemetry", 50005, cstr "234.192.101.6", 51005⟩,
    ⟨cstr "datalogger", 50006, cstr "234.192.101.7", 51006⟩,
    ⟨cstr "ethcomm", 50007, cstr "234.192.101.8", 51007⟩,
    ⟨cstr "comm_server", 50008, cstr "234.192.101.9", 51008⟩,
    ⟨cstr "clksync", 50009, cstr "234.192.101.10", 51009⟩,
    ⟨cstr "payload", 50010, cstr "234.192.101.11", 51010⟩,
    ⟨cstr "adcs", 50011, cstr "234.192.101.12", 51011⟩,
    ⟨cstr "pscam", 50012, cstr "234.192.101.13", 51012⟩,
    ⟨cstr "camera", 50012, cstr "234.192.101.13", 51012⟩,
    ⟨cstr "gps", 50013, cstr "234.192.101.14", 51013⟩,
    ⟨cstr "log_cleaner", 50014, cstr "234.192.101.15", 51014⟩,
    ⟨cstr "test1", 52003, cstr "224.0.0.1", 52003⟩,
    ⟨cstr "test2", 52004, cstr "234.192.101.16", 52004⟩ ]

/-- The search loop of `socket_get_addr_by_name` over the records from `curr` on: the
port of the first record whose name compares equal, if there is one. -/
def socket_get_addr_by_name_loop (service : List Nat) : List ServiceNames → Option Int
  | [] => none
  | curr :: rest =>
    if strcmp curr.name service = 0 then some curr.port
    else socket_get_addr_by_name_loop service rest

/-- Embedding of `socket_get_addr_by_name`. The services database is the parameter
`getservbyname` (name, protocol), giving the `s_port` of the entry found; the `long`
returned by `atol` is converted to the `int` variable `port`. -/
def socket_get_addr_by_name (getservbyname : List Nat → List Nat → Option Nat)
    (service : List Nat) : Int :=
  match getservbyname service (cstr "udp") with
  | none =>
    match socket_get_addr_by_name_loop service serverNameList with
    | some port => port
    | none =>
      let port := toI32 (toU32 (atol service))
      if port > 0 then port else -1
  | some s_port => (ntohs s_port : Int)

/-! ## Registration -/

/-- Modelled from the spec: `HASH_create_table` of `hashtable.c`, which is not part of
the sources. A new table holds no entry (failure to allocate the table is not
modelled). -/
def HASH_create_table {P A : Type} : Option (HashTable P A) := some (fun _ => none)

/-- Modelled from the spec: `HASH_add_data` of `hashtable.c`, which is not part of the
sources. The registry is write-once per id: the definition is entered under its key (the
`type`, as `xdr_struct_key_for_data` gives it) unless that key is already present. -/
def HASH_add_data {P A : Type} (table : HashTable P A) (data : XDR_StructDefinition P A) :
    HashTable P A :=
  fun key =>
    match table key with
    | some d => some d
    | none => if key = data.type then some data else none

/-- Embedding of `XDR_register_struct`: the value of `structHash` after the call. -/
def XDR_register_struct {P A : Type} (structHash : Option (HashTable P A))
    (d : Option (XDR_StructDefinition P A)) : Option (HashTable P A) :=
  match d with
  | none => structHash
  | some d =>
    match structHash with
    | some h => some (HASH_add_data h d)
    | none =>
      match (HASH_create_table : Option (HashTable P A)) with
      | none => none
      | some h => some (HASH_add_data h d)

/-- A struct definition of type `t` over the table of one 32-bit word with the given
in-memory size. -/
def exampleDefinition (t size : Nat) :
    XDR_StructDefinition (Obj Unit) (Option (List (XDR_FieldDefinition Unit))) :=
  { type := t, in_memory_size := size,
    encoder := some XDR_struct_encoder, decoder := some XDR_struct_decoder,
    allocator := some XDR_malloc_allocator, deallocator := some XDR_free_deallocator,
    arg := some exampleWordTable }

/-! ## Deallocators -/

/-- What a deallocator releases: `free(p)` of a block, or the call of a field
deallocator (by name) on the slot at a field offset of the struct being released. -/
inductive Release (P : Type) where
  | free (p : P)
  | field_dealloc (func : String) (offset : Nat)

/-- Embedding of `XDR_free_deallocator` with its pointer argument: `goner` is `none` for
a null `goner` and `some slot` for a slot holding `slot`. The result is the slot on return
and what was released. -/
def XDR_free_deallocator_run {P A : Type} (goner : Option (Option P))
    (_d : Option (XDR_StructDefinition P A)) : Option (Option P) × List (Release P) :=
  match goner with
  | none => (none, [])
  | some none => (some none, [])
  | some (some to_free) => (some none, [Release.free to_free])

/-- The field loop of `XDR_struct_free_deallocator`: one call for each field whose
record has a field deallocator. -/
def XDR_struct_free_deallocator_loop {P : Type} (Q : Type) :
    List (XDR_FieldDefinition P) → List (Release Q)
  | [] => []
  | fields :: rest =>
    match fields.funcs.field_dealloc with
    | none => XDR_struct_free_deallocator_loop Q rest
    | some func =>
      Release.field_dealloc func fields.offset :: XDR_struct_free_deallocator_loop Q rest

/-- Embedding of `XDR_struct_free_deallocator`: the slot on return and what was
released, in order. -/
def XDR_struct_free_deallocator {P Q : Type} (goner : Option (Option Q))
    (d : Option (XDR_StructDefinition Q (Option (List (XDR_FieldDefinition P))))) :
    Option (Option Q) × List (Release Q) :=
  match goner with
  | none => (none, [])
  | some none => (some none, [])
  | some (some to_free) =>
    match d with
    | none => (some (some to_free), [])
    | some d =>
      (some none,
        XDR_struct_free_deallocator_loop Q (d.arg.getD []) ++ [Release.free to_free])

/-! ## Text scanners -/

/-- The libc function `strchr` for the C string at `s`: the offset of the first byte equal
to `c`, the terminating NUL included; memory that is not modelled reads as NUL. -/
def strchr : List Nat → Nat → Option Nat
  | [], c => if c = 0 then some 0 else none
  | b :: bs, c =>
    if b = c then some 0 else if b = 0 then none else (strchr bs c).map (fun k => k + 1)

/-- One call `scan(first, dst + i * increment, parg, NULL, conv)` of the element scanner:
the memory at `first` as the scanner finds it, and the element index `i`. -/
structure ScanCall where
  first : List Nat
  index : Nat
deriving DecidableEq

/-- How a call of `XDR_array_field_scanner` ends: a guard returned before anything was
stored; `memset` ran on the null pointer that `malloc` returned; or the function ran to
its end, with `*len`, `*dst_ptr`, the block as `memset` left it, the input memory on
return, and the scanner calls in order. -/
inductive ScanOutcome where
  | unchanged
  | fault
  | done (len : Int) (dst : Option Buf) (block : Buf) (text : List Nat)
      (calls : List ScanCall)
deriving DecidableEq

/-- The counting loop of `XDR_array_field_scanner`:
`for (sep = strchr(in, ','); sep; sep = strchr(sep+1, ',')) (*len)++;` with `s` the
memory the next `strchr` starts at. The `int` counter wraps. -/
def XDR_array_field_scanner_count : Nat → List Nat → Int → Int
  | 0, _, len => len
  | fuel + 1, s, len =>
    match strchr s 44 with
    | none => len
    | some k => XDR_array_field_scanner_count fuel (s.drop (k + 1)) (toI32 (toU32 (len + 1)))

/-- The scanning loop of `XDR_array_field_scanner` (`do ... while (sep && i < *len)`):
`text` is the input memory, `first` the offset of the current token. The separator is
overwritten with NUL for the call and restored after it. -/
def XDR_array_field_scanner_loop (scan : List Nat → Buf → Buf) (increment : Nat)
    (len : Int) : Nat → List Nat → Nat → Nat → Buf → List ScanCall →
    List Nat × Buf × List ScanCall
  | 0, text, _, _, dst, calls => (text, dst, calls)
  | fuel + 1, text, first, i, dst, calls =>
    match strchr (text.drop first) 44 with
    | some k =>
      let sep := first + k
      let text1 := text.set sep 0
      let dst1 := splice dst (i * increment) (scan (text1.drop first) (dst.drop (i * increment)))
      let text2 := text1.set sep 44
      if ((i + 1 : Nat) : Int) < len then
        XDR_array_field_scanner_loop scan increment len fuel text2 (sep + 1) (i + 1) dst1
          (calls ++ [⟨text1.drop first, i⟩])
      else (text2, dst1, calls ++ [⟨text1.drop first, i⟩])
    | none =>
      let dst1 := splice dst (i * increment) (scan (text.drop first) (dst.drop (i * increment)))
      (text, dst1, calls ++ [⟨text.drop first, i⟩])

/-- Embedding of `XDR_array_field_scanner`. `inp` is the input memory (`none` for NULL),
`dst_ptr` and `len_ptr` say whether those pointers are non-null, `scan` maps the memory at
the token and at the element to the memory at the element after the call. Loop fuel is
the length of the input memory plus one. -/
def XDR_array_field_scanner (inp : Option (List Nat)) (dst_ptr len_ptr : Bool)
    (scan : Option (List Nat → Buf → Buf)) (increment : Nat) : ScanOutcome :=
  match inp, scan with
  | some text, some scan =>
    if !dst_ptr || !len_ptr || increment % 18446744073709551616 = 0 then ScanOutcome.unchanged
    else if text.headD 0 = 0 then ScanOutcome.done 0 none [] text []
    else
      let len := XDR_array_field_scanner_count (text.length + 1) text 1
      let size := (toU64 len * (increment % 18446744073709551616)) % 18446744073709551616
      match malloc size with
      | none => ScanOutcome.fault
      | some block =>
        let r := XDR_array_field_scanner_loop scan increment len (text.length + 1) text 0 0
          block []
        ScanOutcome.done len (some r.2.1) block r.1 r.2.2
  | _, _ => ScanOutcome.unchanged

/-- An element scanner that stores the first byte of the token. -/
def exampleScan (first : List Nat) (dst : Buf) : Buf := memcpy dst [first.headD 0]

/-- Embedding of the macro `ASCII2HEX`. -/
def ASCII2HEX (c : Nat) : Nat :=
  (if 48 ≤ c ∧ c ≤ 57 then c - 48
   else if 65 ≤ c ∧ c ≤ 70 then c - 65 + 10
   else if 97 ≤ c ∧ c ≤ 102 then c - 97 + 10
   else 0) &&& 0xF

/-- The value of a hexadecimal digit given by its character code (0 for any other
character): the `hexval` of the specification. -/
def hexval (c : Nat) : Nat :=
  if 48 ≤ c ∧ c ≤ 57 then c - 48
  else if 65 ≤ c ∧ c ≤ 70 then c - 55
  else if 97 ≤ c ∧ c ≤ 102 then c - 87
  else 0

/-- Character codes of the hexadecimal digits, upper or lower case. -/
def isHexDigit (c : Nat) : Prop := (48 ≤ c ∧ c ≤ 57) ∨ (65 ≤ c ∧ c ≤ 70) ∨ (97 ≤ c ∧ c ≤ 102)

/-- How a call of `XDR_scan_byte_array` ends: a guard returned before anything was stored;
a byte was stored through the null pointer that `malloc` returned; or the function ran to
its end, with `*len` and `*dst_ptr`. -/
inductive ByteScanOutcome where
  | unchanged
  | fault
  | done (len : Int) (dst : Option Buf)
deriving DecidableEq

/-- The byte that one step of the loop of `XDR_scan_byte_array` stores, from the memory
at `in`. -/
def XDR_scan_byte_array_byte (inp : List Nat) : Nat :=
  ((ASCII2HEX (inp.headD 0) <<< 4) ||| ASCII2HEX ((inp.drop 1).headD 0)) % 256

/-- The loop of `XDR_scan_byte_array`
(`for (i = 0; i < *len; i++, in += 2) dst[i] = ...`), with `fuel` iterations left. -/
def XDR_scan_byte_array_loop (len : Int) : Nat → Nat → List Nat → Buf → Buf
  | 0, _, _, dst => dst
  | fuel + 1, i, inp, dst =>
    if (i : Int) < len then
      XDR_scan_byte_array_loop len fuel (i + 1) (inp.drop 2)
        (dst.set i (XDR_scan_byte_array_byte inp))
    else dst

/-- Embedding of `XDR_scan_byte_array`: `inp` is the memory at `in`, `dst_ptr` and
`len_ptr` say whether those pointers are non-null. -/
def XDR_scan_byte_array (inp : List Nat) (dst_ptr len_ptr : Bool) : ByteScanOutcome :=
  if !dst_ptr || !len_ptr then ByteScanOutcome.unchanged
  else
    let len : Int := toI32 (((strlen inp + 1) % 18446744073709551616) / 2)
    match malloc (toU64 len) with
    | none => if len > 0 then ByteScanOutcome.fault else ByteScanOutcome.done len none
    | some block =>
      ByteScanOutcome.done len (some (XDR_scan_byte_array_loop len len.toNat 0 inp block))

/-- The upper-case hexadecimal digit of a value below 16, as `%X` prints it. -/
def hexChar (d : Nat) : Char := Char.ofNat (if d < 10 then 48 + d else 55 + d)

/-- The text `printf("%02X", b)` prints for an `unsigned char`. -/
def printf_02X (b : Nat) : String := String.mk [hexChar (b % 256 / 16), hexChar (b % 256 % 16)]

/-- The loop of `XDR_print_field_byte_array`, with `k` iterations left at index `i`. -/
def XDR_print_field_byte_array_loop (data : List Nat) : Nat → Nat → String
  | 0, _ => ""
  | k + 1, i => printf_02X (data.getD i 0) ++ XDR_print_field_byte_array_loop data k (i + 1)

/-- Embedding of `XDR_print_field_byte_array`: the text written to `out`. -/
def XDR_print_field_byte_array {P : Type} (data_ptr : Option (Cell P))
    (len : Option (Cell P)) : String :=
  match len, data_ptr with
  | some _, some d =>
    match d.rdPtr with
    | none => ""
    | some data => XDR_print_field_byte_array_loop data (derefLen len).toNat 0
  | _, _ => ""

/-- The bytes the loop of `XDR_scan_byte_array` stores in `k` steps from the memory at
`in`. -/
def scanBytes : Nat → List Nat → List Nat
  | 0, _ => []
  | k + 1, inp => XDR_scan_byte_array_byte inp :: scanBytes k (inp.drop 2)

/-- Character codes of the two digits `%02X` prints for a byte. -/
def hexPair (b : Nat) : List Nat := [(hexChar (b % 256 / 16)).toNat, (hexChar (b % 256 % 16)).toNat]

/-! ## Rendering -/

/-- Embedding of `enum XDR_PRINT_STYLE` for the three styles whose output is text of
keys and raw values. The style `XDR_PRINT_HUMAN` is not embedded: what it prints depends
on the floating-point `conversion` functions and on the line counter. -/
inductive XDR_PRINT_STYLE where
  | KVP
  | CSV_HEADER
  | CSV_DATA
deriving DecidableEq

/-- The character of a decimal digit. -/
def digitChar (d : Nat) : Char := Char.ofNat (48 + d)

/-- The decimal digits of `n`, most significant first (`fuel` bounds their number). -/
def decDigits : Nat → Nat → List Char
  | 0, _ => []
  | fuel + 1, n =>
    if n < 10 then [digitChar n] else decDigits fuel (n / 10) ++ [digitChar (n % 10)]

/-- The text `printf` prints for an unsigned integer of at most 64 bits (`%u`, `PRIu64`). -/
def printf_u (n : Nat) : String := String.mk (decDigits 20 n)

/-- The text `printf` prints for a signed integer of at most 64 bits (`%d`, `PRId64`). -/
def printf_d (v : Int) : String :=
  if v < 0 then String.mk ('-' :: decDigits 20 v.natAbs) else String.mk (decDigits 20 v.toNat)

/-- Embedding of `XDR_print_field_int32` in the embedded styles: the text written. -/
def XDR_print_field_int32 {P : Type} (data : Option (Cell P)) : String :=
  match data with
  | none => ""
  | some val => printf_d (toI32 val.rd32)

/-- Embedding of `XDR_print_field_uint32` in the embedded styles. -/
def XDR_print_field_uint32 {P : Type} (data : Option (Cell P)) : String :=
  match data with
  | none => ""
  | some val => printf_u val.rd32

/-- Embedding of `XDR_print_field_int64` in the embedded styles. -/
def XDR_print_field_int64 {P : Type} (data : Option (Cell P)) : String :=
  match data with
  | none => ""
  | some val => printf_d (toI64 val.rd64)

/-- Embedding of `XDR_print_field_uint64` in the embedded styles. -/
def XDR_print_field_uint64 {P : Type} (data : Option (Cell P)) : String :=
  match data with
  | none => ""
  | some val => printf_u val.rd64

/-- Embedding of `XDR_print_field_char`: `%c` prints the value converted to
`unsigned char`, here as the character with that code. -/
def XDR_print_field_char {P : Type} (data : Option (Cell P)) : String :=
  match data with
  | none => ""
  | some val => String.singleton (Char.ofNat (val.rd32 % 256))

/-- Embedding of `XDR_print_field_string_array`: `%s` of the string the slot points to,
each byte as the character with that code. -/
def XDR_print_field_string_array {P : Type} (data : Option (Cell P)) : String :=
  match data.bind Cell.rdPtr with
  | none => ""
  | some str => String.mk ((cstring str).map Char.ofNat)

/-- The loop of `XDR_array_field_printer`, with `k` iterations left at index `i`. -/
def XDR_array_field_printer_loop {P : Type} (src : List Nat)
    (print : Option (Cell P) → String) (increment : Nat) : Nat → Nat → String
  | 0, _ => ""
  | k + 1, i =>
    (if i > 0 then "," else "") ++ print ((src[i]?).map (elemCell increment))
      ++ XDR_array_field_printer_loop src print increment k (i + 1)

/-- Embedding of `XDR_array_field_printer` (`src_ptr` is the slot holding the array
pointer, `len_ptr` the slot holding the length). -/
def XDR_array_field_printer {P : Type} (src_ptr len_ptr : Option (Cell P))
    (print : Option (Cell P) → String) (increment : Nat) : String :=
  match src_ptr, len_ptr with
  | some s, some _ =>
    match s.rdPtr with
    | none => ""
    | some src => XDR_array_field_printer_loop src print increment (derefLen len_ptr).toNat 0
  | _, _ => ""

/-- Printers and print functions that are not embedded (those that format floating
point, and those generated or installed by the user), by name: the text each writes.
A field printer is given the slot at `data`, the field, the style, the parent key and the
slot at `len`; a struct print function is given the object, the offset of the struct in
it, the definition's `arg`, the parent key and the style. -/
structure PrintEnv (P : Type) where
  printer : String → Option (Cell P) → XDR_FieldDefinition P → XDR_PRINT_STYLE → String →
    Option (Cell P) → String
  print_func : String → Obj P → Nat → Option (List (XDR_FieldDefinition P)) → String →
    XDR_PRINT_STYLE → String

/-- Embedding of `XDR_print_field_structure` with `line` null, as the embedded styles call
it: `addr` is the offset of the nested struct in `data`. `nested` stands for
`XDR_print_fields_func` itself when that is the definition's `print_func`. -/
def XDR_print_field_structure {P : Type} (env : PrintEnv P)
    (structHash : Option (HashTable (Obj P) (Option (List (XDR_FieldDefinition P)))))
    (nested : Obj P → Nat → Option (List (XDR_FieldDefinition P)) → Option String →
      XDR_PRINT_STYLE → String)
    (data : Obj P) (addr : Nat) (field : XDR_FieldDefinition P) (style : XDR_PRINT_STYLE)
    (parent : String) : String :=
  if field.struct_id = 0 then ""
  else
    match XDR_definition_for_type structHash field.struct_id with
    | none => ""
    | some str =>
      match str.print_func with
      | none => ""
      | some f =>
        if f = "XDR_print_fields_func" then nested data addr str.arg (some parent) style
        else env.print_func f data addr str.arg parent style

/-- The call `fields->funcs->printer(out, data + fields->offset, fields, style, key,
data + fields->len_offset, 0, 0)` for the printer with the given name. -/
def call_printer {P : Type} (env : PrintEnv P)
    (structHash : Option (HashTable (Obj P) (Option (List (XDR_FieldDefinition P)))))
    (nested : Obj P → Nat → Option (List (XDR_FieldDefinition P)) → Option String →
      XDR_PRINT_STYLE → String)
    (printer : String) (data : Obj P) (base : Nat) (fields : XDR_FieldDefinition P)
    (style : XDR_PRINT_STYLE) (key : String) : String :=
  let d : Option (Cell P) := some (data.get (base + fields.offset))
  let len : Option (Cell P) := some (data.get (base + fields.len_offset))
  if printer = "XDR_print_field_int32" then XDR_print_field_int32 d
  else if printer = "XDR_print_field_uint32" then XDR_print_field_uint32 d
  else if printer = "XDR_print_field_int64" then XDR_print_field_int64 d
  else if printer = "XDR_print_field_uint64" then XDR_print_field_uint64 d
  else if printer = "XDR_print_field_char" then XDR_print_field_char d
  else if printer = "XDR_print_field_string_array" then XDR_print_field_string_array d
  else if printer = "XDR_print_field_byte_array" then XDR_print_field_byte_array d len
  else if printer = "XDR_print_field_int32_array" then
    XDR_array_field_printer d len XDR_print_field_int32 4
  else if printer = "XDR_print_field_uint32_array" then
    XDR_array_field_printer d len XDR_print_field_uint32 4
  else if printer = "XDR_print_field_int64_array" then
    XDR_array_field_printer d len XDR_print_field_int64 8
  else if printer = "XDR_print_field_uint64_array" then
    XDR_array_field_printer d len XDR_print_field_uint64 8
  else if printer = "XDR_print_field_char_array" then
    XDR_array_field_printer d len XDR_print_field_char 4
  else if printer = "XDR_print_field_structure" then
    XDR_print_field_structure env structHash nested data (base + fields.offset) fields style key
  else env.printer printer d fields style key len

/-- The content of the buffer `key[1024]` that `XDR_print_fields_func` builds for a
field: empty without a key; the key itself (`strcpy`) without a parent key; else
`snprintf` of parent, underscore and key, cut to 1023 characters. The `strcpy` is not
bounded: a key of 1024 or more bytes overruns the buffer.
`XDR_print_fields_key_overflow` tells for which fields that happens; the content given
here is that of the program only for the fields for which it does not. -/
def XDR_print_fields_key {P : Type} (parents_key : Option String)
    (fields : XDR_FieldDefinition P) : String :=
  match fields.key with
  | none => ""
  | some k =>
    match parents_key with
    | none => k
    | some parent =>
      if parent.toList.isEmpty then k
      else String.mk ((parent ++ "_" ++ k).toList.take 1023)

/-- Whether building the key buffer for a field overruns it: the field has a key of 1024
or more bytes (one character of the embedding is one byte) and there is no parent key, or
an empty one, so that the key is copied with `strcpy(key, fields->key)`. -/
def XDR_print_fields_key_overflow {P : Type} (parents_key : Option String)
    (fields : XDR_FieldDefinition P) : Bool :=
  match fields.key with
  | none => false
  | some k =>
    match parents_key with
    | none => decide (1024 ≤ k.length)
    | some parent => parent.toList.isEmpty && decide (1024 ≤ k.length)

/-- The field loop of `XDR_print_fields_func`: the text written to `out` for the entries
from `fields` on. `base` is the offset of the struct in `data`. -/
def XDR_print_fields_loop {P : Type} (env : PrintEnv P)
    (structHash : Option (HashTable (Obj P) (Option (List (XDR_FieldDefinition P)))))
    (nested : Obj P → Nat → Option (List (XDR_FieldDefinition P)) → Option String →
      XDR_PRINT_STYLE → String)
    (data : Obj P) (base : Nat) (parents_key : Option String) (style : XDR_PRINT_STYLE) :
    List (XDR_FieldDefinition P) → String
  | [] => ""
  | fields :: rest =>
    match fields.funcs.printer with
    | none => XDR_print_fields_loop env structHash nested data base parents_key style rest
    | some printer =>
      let key := XDR_print_fields_key parents_key fields
      let call := call_printer env structHash nested printer data base fields style key
      let sep := if rest.isEmpty then "" else ","
      (match style with
        | XDR_PRINT_STYLE.KVP =>
          if fields.key.isSome then
            if printer ≠ "XDR_print_field_structure" then key ++ "=" ++ call ++ "\n" else call
          else ""
        | XDR_PRINT_STYLE.CSV_HEADER =>
          if fields.key.isSome then (if fields.struct_id > 0 then call else key) ++ sep
          else ""
        | XDR_PRINT_STYLE.CSV_DATA =>
          if fields.key.isSome then call ++ sep else "")
        ++ XDR_print_fields_loop env structHash nested data base parents_key style rest

/-- Embedding of `XDR_print_fields_func` in the embedded styles: the text written to
`out`. `fuel` bounds the depth of nested structs that print through this function. -/
def XDR_print_fields_func {P : Type} (env : PrintEnv P)
    (structHash : Option (HashTable (Obj P) (Option (List (XDR_FieldDefinition P))))) :
    Nat → Obj P → Nat → Option (List (XDR_FieldDefinition P)) → Option String →
      XDR_PRINT_STYLE → String
  | 0, _, _, _, _, _ => ""
  | fuel + 1, data, base, arg, parents_key, style =>
    XDR_print_fields_loop env structHash (XDR_print_fields_func env structHash fuel)
      data base parents_key style (arg.getD [])

/-- A registry in which type 9 is registered with the aggregate codec over
`exampleWordTable` and the clearing allocator, and with no deallocator. -/
def exampleNoDeallocRegistry :
    Option (HashTable (Obj Unit) (Option (List (XDR_FieldDefinition Unit)))) :=
  some (fun t =>
    if t = 9 then
      some { type := 9, in_memory_size := 4,
             encoder := some XDR_struct_encoder, decoder := some XDR_struct_decoder,
             allocator := some XDR_malloc_allocator, deallocator := none,
             arg := some exampleWordTable }
    else none)

/-- A print environment in which the printers that are not embedded write nothing. -/
def examplePrintEnv : PrintEnv Unit where
  printer := fun _ _ _ _ _ _ => ""
  print_func := fun _ _ _ _ _ _ => ""

/-- A table with a keyed counted array of `int32_t` at offset 8 whose length is the
keyed word at offset 0. -/
def exampleArrayTable : List (XDR_FieldDefinition Unit) :=
  [ { funcs := xdr_int32_functions, offset := 0, key := some "n" },
    { funcs := xdr_int32_arr_functions, offset := 8, key := some "a", len_offset := 0 } ]

/-- A value of `exampleArrayTable`: the array 5, 6 of length 2. -/
def exampleArrayValue : Obj Unit := [(0, Cell.word 2), (8, Cell.ptr (some [5, 6]))]

/-- The bit-packed table of scenario S4 with keys. -/
def exampleKeyedBitTable : List (XDR_FieldDefinition Unit) :=
  [ { funcs := xdr_uint32_bitfield_functions, offset := 0, key := some "lo", struct_id := 0,
      len_offset := 4 },
    { funcs := xdr_uint32_bitfield_functions, offset := 4, key := some "hi", struct_id := 4,
      len_offset := 4 } ]

/-- A table of two keyed words and an unkeyed one. -/
def exampleKeyedTable : List (XDR_FieldDefinition Unit) :=
  [ { funcs := xdr_int32_functions, offset := 0, key := some "x" },
    { funcs := xdr_uint32_functions, offset := 4 },
    { funcs := xdr_int32_functions, offset := 8, key := some "y" } ]

/-- A value of `exampleKeyedTable`. -/
def exampleKeyedValue : Obj Unit :=
  [(0, Cell.word 7), (4, Cell.word 1), (8, Cell.word 4294967295)]

/-- The columns of a CSV rendering of a table as the specification describes them: one
column per keyed field, in table order, holding `text` of that field; a table that is
empty or ends with a field without a key has an empty last column. -/
def csvColumns {P : Type} (text : XDR_FieldDefinition P → String) :
    List (XDR_FieldDefinition P) → List (List Char)
  | [] => [[]]
  | f :: rest =>
    if f.key.isSome then
      if rest.isEmpty then [(text f).toList] else (text f).toList :: csvColumns text rest
    else csvColumns text rest

/-- A table of integer scalars: every field uses the record for `int32_t`, `uint32_t`,
`int64_t` or `uint64_t`, and is neither bit-packed nor nested (`struct_id` is 0). -/
def IntScalarTable {P : Type} (fields : List (XDR_FieldDefinition P)) : Prop :=
  ∀ f ∈ fields, f.struct_id = 0
    ∧ (f.funcs = xdr_int32_functions ∨ f.funcs = xdr_uint32_functions
      ∨ f.funcs = xdr_int64_functions ∨ f.funcs = xdr_uint64_functions)

/-- The text of the value of an integer scalar field of the struct at `base` in `data`:
decimal, signed or unsigned by the printer of the field's record. -/
def scalarValueText {P : Type} (data : Obj P) (base : Nat) (f : XDR_FieldDefinition P) :
    String :=
  if f.funcs.printer = some "XDR_print_field_int32" then
    printf_d (toI32 (data.get (base + f.offset)).rd32)
  else if f.funcs.printer = some "XDR_print_field_uint32" then
    printf_u (data.get (base + f.offset)).rd32
  else if f.funcs.printer = some "XDR_print_field_int64" then
    printf_d (toI64 (data.get (base + f.offset)).rd64)
  else printf_u (data.get (base + f.offset)).rd64

/-! ## Negative byte-array lengths -/

/-- The size a call of `XDR_decode_byte_array` passes to `malloc` (`none` when the call
returns before the allocation): the `int32_t` length converted to `size_t`. -/
def XDR_decode_byte_array_request {P : Type} (dst : Option (Cell P)) (max : Nat)
    (lenptr : Option (Cell P)) : Option Nat :=
  let byte_len : Int := derefLen lenptr
  let padding : Int := cRem (4 - cRem byte_len 4) 4
  let total : Int := toI32 (toU32 (byte_len + padding))
  if dst.isNone || decide (toU64 total ≥ max) then none else some (toU64 byte_len)

/-- Whether a call of `XDR_decode_byte_array` reaches `memcpy(*dst, src, byte_len)` with
`*dst` null: the size test has passed and `malloc(byte_len)` has failed. The copy of
`(size_t)byte_len` bytes through the null pointer faults. -/
def XDR_decode_byte_array_nullCopy {P : Type} (dst : Option (Cell P)) (max : Nat)
    (lenptr : Option (Cell P)) : Bool :=
  match XDR_decode_byte_array_request dst max lenptr with
  | none => false
  | some n => (malloc n).isNone

/-- No byte-array field met by the loop of `XDR_struct_decoder` over `fields` reaches the
copy through a null pointer (`XDR_decode_byte_array_nullCopy`): the condition is on the
call made for each field, with the struct and the count as the fields before it left
them. -/
def XDR_struct_decoder_loop_noNullCopy {P : Type} (src : Buf) (max : Nat) :
    List (XDR_FieldDefinition P) → Option (Obj P) → Nat → Prop
  | [], _, _ => True
  | field :: rest, dst, used =>
    (field.funcs.decoder = XDR_decode_byte_array →
      XDR_decode_byte_array_nullCopy (fieldPtr dst field.offset) (sizeSub max used)
        (fieldPtr dst field.len_offset) = false)
    ∧ (¬ (field.funcs.decoder (src.drop used) (fieldPtr dst field.offset) 0
          (sizeSub max used) (fieldPtr dst field.len_offset)).res < 0 →
        XDR_struct_decoder_loop_noNullCopy src max rest
          (fieldStore dst field.offset
            (field.funcs.decoder (src.drop used) (fieldPtr dst field.offset) 0
              (sizeSub max used) (fieldPtr dst field.len_offset)).dst)
          (used + (field.funcs.decoder (src.drop used) (fieldPtr dst field.offset) 0
            (sizeSub max used) (fieldPtr dst field.len_offset)).used))

/-! ## Field deallocators -/

/-- A struct definition whose table is a string at offset 0 and a counted `uint32_t`
array at offset 16 with its length at offset 8. -/
def exampleStringDefinition :
    XDR_StructDefinition (Obj Unit) (Option (List (XDR_FieldDefinition Unit))) :=
  { type := 11, in_memory_size := 24,
    encoder := some XDR_struct_encoder, decoder := some XDR_struct_decoder,
    allocator := some XDR_malloc_allocator, deallocator := none,
    arg := some [ { funcs := xdr_string_arr_functions, offset := 0 },
                  { funcs := xdr_int32_functions, offset := 8 },
                  { funcs := xdr_uint32_arr_functions, offset := 16, len_offset := 8 } ] }

/-! ## The aggregate encoder after a failure -/

/-- The value of the local `len` of `XDR_struct_encoder` when its loop has run over
`fields` (the size the last field reported), from the same state as
`XDR_struct_encoder_loop`. -/
def XDR_struct_encoder_len {P : Type} (src : Option (Obj P)) (max : Nat) :
    List (XDR_FieldDefinition P) → Option Buf → Int → Nat → Nat → Nat
  | [], _, _, _, len => len
  | field :: rest, mem, res, used, len =>
    match mem with
    | some m =>
      if res < 0 then
        let r := field.funcs.encoder (fieldPtr src field.offset) none len max
          (fieldPtr src field.len_offset)
        XDR_struct_encoder_len src max rest (some m) res (used + r.used) r.used
      else
        let r := field.funcs.encoder (fieldPtr src field.offset) (some (m.drop used)) len
          (sizeSub max used) (fieldPtr src field.len_offset)
        let m1 := splice m used (r.dst.getD (m.drop used))
        XDR_struct_encoder_len src max rest (some m1) r.res (used + r.used) r.used
    | none =>
      let r := field.funcs.encoder (fieldPtr src field.offset) none len max
        (fieldPtr src field.len_offset)
      XDR_struct_encoder_len src max rest none res (used + r.used) r.used

/-- A table of two `int32_t` fields at offsets 0 and 4 and a `float` at offset 8. -/
def exampleWordsFloat : List (XDR_FieldDefinition Unit) :=
  [ { funcs := xdr_int32_functions, offset := 0 },
    { funcs := xdr_int32_functions, offset := 4 },
    { funcs := xdr_float_functions, offset := 8 } ]

/-! ## Per-field printers -/

/-- Embedding of `XDR_set_field_print_function`. The field table `def->arg` is given by
the addresses of the `funcs` records its entries point to, and `printers` is the
`printer` member of the record at each address; the result is `printers` after the call.
A store through an index beyond the table is not modelled. -/
def XDR_set_field_print_function {P : Type}
    (structHash : Option (HashTable P (Option (List Nat)))) (printers : Nat → FuncPtr)
    (func : FuncPtr) (struct_type field : Nat) : Nat → FuncPtr :=
  match XDR_definition_for_type structHash struct_type with
  | none => printers
  | some d =>
    match d.arg with
    | none => printers
    | some fields =>
      match fields[field]? with
      | none => printers
      | some funcs => fun a => if a = funcs then func else printers a

/-- The printer `fields[k].funcs->printer` that prints field `k` of the struct type `t`
(`none` when the type is not registered, has no table, or has no such field). -/
def fieldPrinter {P : Type} (structHash : Option (HashTable P (Option (List Nat))))
    (printers : Nat → FuncPtr) (t k : Nat) : FuncPtr :=
  match XDR_definition_for_type structHash t with
  | none => none
  | some d =>
    match d.arg with
    | none => none
    | some fields =>
      match fields[k]? with
      | none => none
      | some funcs => printers funcs

/-- A registry of two struct types whose tables point to the record of `uint32_t` at
address 100 and the record of `int32_t` at address 200: type 7 has two `uint32_t`
fields, type 8 a `uint32_t` and an `int32_t` field. -/
def examplePointerRegistry : Option (HashTable Unit (Option (List Nat))) :=
  some (fun t =>
    if t = 7 then
      some { type := 7, in_memory_size := 8, encoder := none, decoder := none,
             allocator := some (fun _ => none), deallocator := none, arg := some [100, 100] }
    else if t = 8 then
      some { type := 8, in_memory_size := 8, encoder := none, decoder := none,
             allocator := some (fun _ => none), deallocator := none, arg := some [100, 200] }
    else none)

/-- The printers of the records at the addresses 100 and 200. -/
def examplePrinters (a : Nat) : FuncPtr :=
  if a = 100 then some "XDR_print_field_uint32"
  else if a = 200 then some "XDR_print_field_int32"
  else none

/-! ## Sockets of the blocking helpers -/

/-- Embedding of `socket_send_packet_and_read_response`: the return value, and the
descriptors the call opened that are still open when it returns. What the operating
system answers is given by the results of `socket_init` (the new descriptor, or -1 with
nothing opened), `socket_resolve_host`, `wait_for_packet` and `read_response`; `dstAddr`
and `rxResp` say whether those pointers are non-null. -/
def socket_send_packet_and_read_response (socket_init : Int) (dstAddr : Bool)
    (socket_resolve_host wait_for_packet read_response : Int) (rxResp : Bool)
    (rxRespLen : Nat) : Int × List Int :=
  let sock := socket_init
  if sock < 0 then (-1, [])
  else
    if dstAddr && decide (0 = socket_resolve_host) then (-1, [sock])
    else
      let result : Int :=
        if rxResp && decide (rxRespLen > 0) then
          if wait_for_packet = 0 then -2
          else if wait_for_packet ≠ 1 then -3
          else read_response
        else 0
      (result, [sock].erase sock)

/-- The function `socket_send_packet_and_read_xdr_sa` with the descriptors the call
opened that are still open when it returns. -/
def socket_send_packet_and_read_xdr_sa_open (socket_init wait_for_packet socket_read : Int)
    (rxResp : Bool) (rxRespLen : Nat) : Int × List Int :=
  let sock := socket_init
  if sock < 0 then (-1, [])
  else
    let result : Int :=
      if rxResp && decide (rxRespLen > 0) then
        if wait_for_packet = 0 then -2
        else if wait_for_packet ≠ 1 then -3
        else socket_read
      else 0
    (result, [sock].erase sock)

/-! ## IPC buffers -/

/-- Embedding of `struct IPCBuffer`; `data` is the allocated block (`none` for NULL). -/
structure IPCBuffer where
  allocLen : Nat
  dataLen : Nat
  data : Option (List Nat)
deriving DecidableEq

/-- The outcome of one `write` call: the value returned and whether `errno` is `EAGAIN`
afterwards. -/
structure WriteResult where
  written : Int
  eagain : Bool
deriving DecidableEq

/-- The loop of `ipc_write_buffer_sync`. The outcomes of the successive `write` calls are
given as a list; `calls` collects the offset and the count each call was given. The
return value is `none` when the list ends while the loop still runs. -/
def ipc_write_buffer_sync_loop (dataLen : Nat) :
    List WriteResult → Nat → List (Nat × Nat) → Option Int × List (Nat × Nat)
  | [], sent, calls => if sent < dataLen then (none, calls) else (some 0, calls)
  | w :: ws, sent, calls =>
    if sent < dataLen then
      if w.written < 0 ∧ w.eagain = false then
        (some (-1), calls ++ [(sent, sizeSub dataLen sent)])
      else
        ipc_write_buffer_sync_loop dataLen ws (toU64 ((sent : Int) + w.written))
          (calls ++ [(sent, sizeSub dataLen sent)])
    else (some 0, calls)

/-- Embedding of `ipc_write_buffer_sync`: the return value and the `write` calls made. -/
def ipc_write_buffer_sync (buffer : Option IPCBuffer) (writes : List WriteResult) :
    Option Int × List (Nat × Nat) :=
  match buffer with
  | none => (some 0, [])
  | some b =>
    if b.dataLen = 0 ∨ b.data.isNone then (some 0, [])
    else ipc_write_buffer_sync_loop b.dataLen writes 0 []

/-! ## Names of ports -/

/-- The function `htons` on the little-endian host: the two low bytes swapped. -/
def htons (x : Nat) : Nat := (x % 256) * 256 + (x / 256) % 256

/-- The search loop of `socket_get_name_by_addr` over the records from `curr` on: the
name of the first record with the port, if there is one. -/
def socket_get_name_by_addr_loop (portNum : Int) : List ServiceNames → Option (List Nat)
  | [] => none
  | curr :: rest =>
    if curr.port = portNum then some curr.name
    else socket_get_name_by_addr_loop portNum rest

/-- Embedding of `socket_get_name_by_addr`: the return value and the memory at `buf` on
return. `sin_port` is `addr->sin_port` (network order); the services database is the
parameter `getservbyport` (port, protocol), giving the `s_name` of the entry found. -/
def socket_get_name_by_addr (getservbyport : Nat → List Nat → Option (List Nat))
    (sin_port : Nat) (buf : Buf) (bufSize : Nat) : Int × Buf :=
  let name : Option (List Nat) :=
    match getservbyport sin_port (cstr "udp") with
    | none => socket_get_name_by_addr_loop (ntohs sin_port : Nat) serverNameList
    | some s_name => some s_name
  match name with
  | none => (-1, buf)
  | some name =>
    let nameLen : Int := toI32 (strlen name)
    if toU64 nameLen ≥ bufSize then (-1, buf)
    else (nameLen, memcpy buf (cstring name ++ [0]))

/-! ## Reading and filling a buffer -/

/-- Embedding of `ipc_alloc_buffer` (allocation of the structure itself does not fail):
the cleared structure. -/
def ipc_alloc_buffer : IPCBuffer := ⟨0, 0, none⟩

/-- Embedding of `ipc_reset_buffer` on a non-null buffer. -/
def ipc_reset_buffer (buffer : IPCBuffer) : IPCBuffer := { buffer with dataLen := 0 }

/-- The `do ... while (len > 0)` loop of `ipc_process_buffer`. The callback is given the
memory at `&buffer->data[consumed]` and the count `dataLen - consumed` and returns a
`size_t`; `calls` collects, for each invocation, the offset, the count offered and the
value returned. `none` when the loop has not ended within `fuel` invocations. -/
def ipc_process_buffer_loop (cb : List Nat → Nat → Nat) (data : List Nat) (dataLen : Nat) :
    Nat → Nat → List (Nat × Nat × Nat) → Option (Nat × List (Nat × Nat × Nat))
  | 0, _, _ => none
  | fuel + 1, consumed, calls =>
    let len := cb (data.drop consumed) (sizeSub dataLen consumed) % 18446744073709551616
    let consumed1 := (consumed + len) % 18446744073709551616
    let calls1 := calls ++ [(consumed, sizeSub dataLen consumed, len)]
    if len > 0 then ipc_process_buffer_loop cb data dataLen fuel consumed1 calls1
    else some (consumed1, calls1)

/-- The copy loop of `ipc_process_buffer`
(`for (i = 0; i < dataLen - consumed; i++) data[i] = data[i + consumed]`), with `k`
iterations left at index `i`. -/
def ipc_process_buffer_shift (consumed : Nat) : Nat → Nat → List Nat → List Nat
  | 0, _, data => data
  | k + 1, i, data =>
    ipc_process_buffer_shift consumed k (i + 1) (data.set i (data.getD (i + consumed) 0))

/-- What a call of `ipc_process_buffer` leaves: the return value, the buffer, and the
callback invocations made. -/
structure ProcessResult where
  res : Int
  buffer : Option IPCBuffer
  calls : List (Nat × Nat × Nat)
deriving DecidableEq

/-- Embedding of `ipc_process_buffer` (`cb` and `buffer` are `none` for NULL). The loop is
given `dataLen + 1` invocations, which is all a callback that never reports more than it
is offered can use; `none` when the loop has not ended by then. -/
def ipc_process_buffer (cb : Option (List Nat → Nat → Nat)) (buffer : Option IPCBuffer) :
    Option ProcessResult :=
  match cb, buffer with
  | some cb, some b =>
    match b.data with
    | none => some ⟨0, some b, []⟩
    | some data =>
      if b.dataLen = 0 then some ⟨0, some b, []⟩
      else
        match ipc_process_buffer_loop cb data b.dataLen (b.dataLen + 1) 0 [] with
        | none => none
        | some (consumed, calls) =>
          let b1 : IPCBuffer :=
            if consumed > 0 then
              if consumed = b.dataLen then ipc_reset_buffer b
              else
                { b with
                  data := some (ipc_process_buffer_shift consumed
                    (sizeSub b.dataLen consumed) 0 data),
                  dataLen := sizeSub b.dataLen consumed }
            else b
          some ⟨toI32 consumed, some b1, calls⟩
  | _, _ => some ⟨0, buffer, []⟩

/-- The invocations of a callback follow one another: each is offered the offset that
the returns of the earlier ones add up to, from `start`, and the rest of the `dataLen`
bytes; the returns add up to `total`. -/
def callChain (dataLen : Nat) : Nat → List (Nat × Nat × Nat) → Nat → Prop
  | start, [], total => start = total
  | start, (offset, count, len) :: rest, total =>
    offset = start ∧ count = dataLen - start ∧ callChain dataLen (start + len) rest total

/-- The function `realloc`: a block of the new size that starts with the bytes of the old
block; it fails as `malloc` does. -/
def realloc (p : Option (List Nat)) (n : Nat) : Option (List Nat) :=
  (malloc n).map (fun b => memcpy b ((p.getD []).take n))

/-- The growth loop of `ipc_append_buffer`
(`while (len >= allocLen - dataLen) allocLen *= 2`), with `fuel` evaluations of the
condition left; `none` when they are used up. After 64 doublings `allocLen` is 0 and stays
0, so a loop that has not ended within 66 evaluations never ends. -/
def ipc_append_buffer_grow (len dataLen : Nat) : Nat → Nat → Option Nat
  | 0, _ => none
  | fuel + 1, allocLen =>
    if len ≥ sizeSub allocLen dataLen then
      ipc_append_buffer_grow len dataLen fuel ((allocLen * 2) % 18446744073709551616)
    else some allocLen

/-- What a call of `ipc_append_buffer` leaves: the return value, the buffer, and whether
`malloc` or `realloc` failed. -/
structure AppendResult where
  res : Int
  buffer : Option IPCBuffer
  alloc_failed : Bool
deriving DecidableEq

/-- The function `ipc_append_buffer`; `len` is the `int` argument, compared with the
`size_t` room as `(size_t)len`. With the storage lost, `realloc` failing leaves `data` NULL
and `allocLen` 0, a first `malloc` failing leaves `allocLen` 1024. The result is `none`
when the growth loop does not end. -/
def ipc_append_buffer (buffer : Option IPCBuffer) (data : List Nat) (len : Int) :
    Option AppendResult :=
  match buffer with
  | none => some ⟨0, none, false⟩
  | some b =>
    if len ≤ 0 then some ⟨0, some b, false⟩
    else
      let first : Option IPCBuffer :=
        match b.data with
        | some _ => some b
        | none =>
          match malloc 1024 with
          | some block => some { b with allocLen := 1024, data := some block }
          | none => none
      match first with
      | none => some ⟨-1, some { b with allocLen := 1024, data := none }, true⟩
      | some b1 =>
        let need := toU64 len
        let allocLen : Option Nat :=
          if need ≥ sizeSub b1.allocLen b1.dataLen then
            ipc_append_buffer_grow need b1.dataLen 66 b1.allocLen
          else some b1.allocLen
        match allocLen with
        | none => none
        | some allocLen =>
          let grown : Option IPCBuffer :=
            if need ≥ sizeSub b1.allocLen b1.dataLen then
              match realloc b1.data allocLen with
              | some block => some { b1 with allocLen := allocLen, data := some block }
              | none => none
            else some b1
          match grown with
          | none => some ⟨-1, some { b1 with allocLen := 0, data := none }, true⟩
          | some b2 =>
            if need ≥ sizeSub b2.allocLen b2.dataLen then some ⟨-1, some b2, false⟩
            else
              let block := b2.data.getD []
              some ⟨len, some { b2 with
                  data := some (splice block b2.dataLen
                    (memcpy (block.drop b2.dataLen) (data.take need))),
                  dataLen := (b2.dataLen + need) % 18446744073709551616 }, false⟩

/-- The states of a buffer reachable from `ipc_alloc_buffer` by calls of
`ipc_append_buffer` (with an `int` length) without allocation failure, of
`ipc_reset_buffer`, and of `ipc_process_buffer` with a callback that never reports more
than it is offered. -/
inductive Reachable : IPCBuffer → Prop where
  | alloc : Reachable ipc_alloc_buffer
  | append (b b1 : IPCBuffer) (data : List Nat) (len : Int) (r : AppendResult) :
      Reachable b → -2147483648 ≤ len → len ≤ 2147483647 →
      ipc_append_buffer (some b) data len = some r → r.alloc_failed = false →
      r.buffer = some b1 → Reachable b1
  | reset (b : IPCBuffer) : Reachable b → Reachable (ipc_reset_buffer b)
  | process (b b1 : IPCBuffer) (cb : List Nat → Nat → Nat) (r : ProcessResult) :
      Reachable b → (∀ data len, cb data len ≤ len) →
      ipc_process_buffer (some cb) (some b) = some r → r.buffer = some b1 → Reachable b1

/-- The invariant of a buffer: no storage and both lengths 0, or a block of
`allocLen = 1024 * 2^k` bytes holding fewer than `allocLen` bytes of data. -/
def IPCBufferOK (b : IPCBuffer) : Prop :=
  (b.data = none ∧ b.dataLen = 0 ∧ b.allocLen = 0)
  ∨ (∃ (block : List Nat) (k : Nat), b.data = some block ∧ block.length = b.allocLen
      ∧ b.allocLen = 1024 * 2 ^ k ∧ b.dataLen < b.allocLen
      ∧ b.allocLen ≤ 9223372036854775807)

/-- The buffer left by appending the bytes 1, 2, 3 to a fresh buffer. -/
def exampleFilledBuffer : IPCBuffer := ⟨1024, 3, some ([1, 2, 3] ++ List.replicate 1021 0)⟩

/-! ## Columns of the CSV renderings -/

/-- The columns of the two CSV renderings of a table as the specification describes them,
paired: for each keyed field with a printer, in table order, the key path and the text
its printer writes for the value; for a nested struct field (`struct_id > 0`) the cells
of its inner table under the field's key path, given by `nestedCells`; and one empty last
cell when the table is empty or ends with a field without key or printer. -/
def csvCells_loop {P : Type} (env : PrintEnv P)
    (structHash : Option (HashTable (Obj P) (Option (List (XDR_FieldDefinition P)))))
    (nested : Obj P → Nat → Option (List (XDR_FieldDefinition P)) → Option String →
      XDR_PRINT_STYLE → String)
    (nestedCells : Nat → Option (List (XDR_FieldDefinition P)) → String →
      List (List Char × List Char))
    (data : Obj P) (base : Nat) (parents_key : Option String) :
    List (XDR_FieldDefinition P) → List (List Char × List Char)
  | [] => [([], [])]
  | f :: rest =>
    match f.funcs.printer with
    | none => csvCells_loop env structHash nested nestedCells data base parents_key rest
    | some p =>
      if f.key.isSome then
        let key := XDR_print_fields_key parents_key f
        let own : List (List Char × List Char) :=
          if f.struct_id > 0 then
            match XDR_definition_for_type structHash f.struct_id with
            | some str => nestedCells (base + f.offset) str.arg key
            | none => [([], [])]
          else
            [(key.toList, (call_printer env structHash nested p data base f
                XDR_PRINT_STYLE.CSV_DATA key).toList)]
        if rest.isEmpty then own
        else own ++ csvCells_loop env structHash nested nestedCells data base parents_key rest
      else csvCells_loop env structHash nested nestedCells data base parents_key rest

/-- The cells of the CSV renderings of the table `arg` of the struct at `base`, with
nesting depth at most `fuel`. -/
def csvCells {P : Type} (env : PrintEnv P)
    (structHash : Option (HashTable (Obj P) (Option (List (XDR_FieldDefinition P)))))
    (data : Obj P) :
    Nat → Nat → Option (List (XDR_FieldDefinition P)) → Option String →
      List (List Char × List Char)
  | 0, _, _, _ => [([], [])]
  | fuel + 1, base, arg, parents_key =>
    csvCells_loop env structHash (XDR_print_fields_func env structHash fuel)
      (fun b a k => csvCells env structHash data fuel b a (some k)) data base parents_key
      (arg.getD [])

/-- The tables for which the CSV renderings have the same columns: every keyed field
with a printer has a key that fits the key buffer and is either a nested struct
(`struct_id > 0`, printed by `XDR_print_field_structure` through a registered definition
whose print function is `XDR_print_fields_func`, with an inner table of this kind, as
`nestedOK` says) or a plain field (`struct_id = 0`) whose key path and printed value hold
no comma. -/
def CsvRegular_loop {P : Type} (env : PrintEnv P)
    (structHash : Option (HashTable (Obj P) (Option (List (XDR_FieldDefinition P)))))
    (nested : Obj P → Nat → Option (List (XDR_FieldDefinition P)) → Option String →
      XDR_PRINT_STYLE → String)
    (nestedOK : Nat → Option (List (XDR_FieldDefinition P)) → String → Prop)
    (data : Obj P) (base : Nat) (parents_key : Option String) :
    List (XDR_FieldDefinition P) → Prop
  | [] => True
  | f :: rest =>
    (∀ p, f.funcs.printer = some p → f.key.isSome = true →
      XDR_print_fields_key_overflow parents_key f = false
      ∧ (if f.struct_id > 0 then
          p = "XDR_print_field_structure"
          ∧ ∃ str, XDR_definition_for_type structHash f.struct_id = some str
            ∧ str.print_func = some "XDR_print_fields_func"
            ∧ nestedOK (base + f.offset) str.arg (XDR_print_fields_key parents_key f)
        else
          ',' ∉ (XDR_print_fields_key parents_key f).toList
          ∧ ',' ∉ (call_printer env structHash nested p data base f XDR_PRINT_STYLE.CSV_DATA
              (XDR_print_fields_key parents_key f)).toList))
    ∧ CsvRegular_loop env structHash nested nestedOK data base parents_key rest

/-- The table `arg` of the struct at `base` is of the kind described at
`CsvRegular_loop`, with nesting depth below `fuel`. -/
def CsvRegular {P : Type} (env : PrintEnv P)
    (structHash : Option (HashTable (Obj P) (Option (List (XDR_FieldDefinition P)))))
    (data : Obj P) :
    Nat → Nat → Option (List (XDR_FieldDefinition P)) → Option String → Prop
  | 0, _, _, _ => False
  | fuel + 1, base, arg, parents_key =>
    CsvRegular_loop env structHash (XDR_print_fields_func env structHash fuel)
      (fun b a k => CsvRegular env structHash data fuel b a (some k)) data base parents_key
      (arg.getD [])

/-- A record for a nested struct field, as generated tables have it: the printer is
`XDR_print_field_structure` (the codec members play no part in printing). -/
def exampleStructFieldFunctions : XDR_TypeFunctions Unit where
  decoder := XDR_decode_int32
  encoder := XDR_encode_int32
  printer := some "XDR_print_field_structure"
  scanner := none
  field_dealloc := none

/-- A registry in which type 5 is a struct of the keyed words a and b, printed by
`XDR_print_fields_func`. -/
def exampleNestedRegistry :
    Option (HashTable (Obj Unit) (Option (List (XDR_FieldDefinition Unit)))) :=
  some (fun t =>
    if t = 5 then
      some { type := 5, in_memory_size := 8,
             encoder := some XDR_struct_encoder, decoder := some XDR_struct_decoder,
             allocator := some XDR_malloc_allocator, deallocator := some XDR_free_deallocator,
             print_func := some "XDR_print_fields_func",
             arg := some [ { funcs := xdr_int32_functions, offset := 0, key := some "a" },
                           { funcs := xdr_uint32_functions, offset := 4, key := some "b" } ] }
    else none)

/-- A table with a keyed word x, a nested struct s of type 5 at offset 8, a keyed length
n at offset 16 and a keyed byte array h at offset 24 of that length. -/
def exampleNestedTable : List (XDR_FieldDefinition Unit) :=
  [ { funcs := xdr_int32_functions, offset := 0, key := some "x" },
    { funcs := exampleStructFieldFunctions, offset := 8, key := some "s", struct_id := 5 },
    { funcs := xdr_int32_functions, offset := 16, key := some "n" },
    { funcs := xdr_byte_arr_functions, offset := 24, key := some "h", len_offset := 16 } ]

/-- A value of `exampleNestedTable`. -/
def exampleNestedValue : Obj Unit :=
  [(0, Cell.word 7), (8, Cell.word 1), (12, Cell.word 2), (16, Cell.word 2),
   (24, Cell.ptr (some [171, 205]))]

/-! # Theorems -/

/-! ## Byte order and two's complement -/

theorem bytes_of_u32 (v : Nat) (hv : v < 4294967296) :
    ∃ a b c d : Nat, a < 256 ∧ b < 256 ∧ c < 256 ∧ d < 256 ∧
      v = a + 256 * b + 65536 * c + 16777216 * d :=
  ⟨v % 256, v / 256 % 256, v / 65536 % 256, v / 16777216, by omega, by omega, by omega,
    by omega, by omega⟩

theorem bytes_split (a b c d : Nat) (ha : a < 256) (hb : b < 256) (hc : c < 256)
    (hd : d < 256) :
    (a + 256 * b + 65536 * c + 16777216 * d) % 256 = a ∧
    (a + 256 * b + 65536 * c + 16777216 * d) / 256 % 256 = b ∧
    (a + 256 * b + 65536 * c + 16777216 * d) / 65536 % 256 = c ∧
    (a + 256 * b + 65536 * c + 16777216 * d) / 16777216 % 256 = d := by
  refine ⟨by omega, by omega, by omega, by omega⟩

theorem htonl_bytes (a b c d : Nat) (ha : a < 256) (hb : b < 256) (hc : c < 256)
    (hd : d < 256) :
    htonl (a + 256 * b + 65536 * c + 16777216 * d) = d + 256 * c + 65536 * b + 16777216 * a := by
  obtain ⟨h0, h1, h2, h3⟩ := bytes_split a b c d ha hb hc hd
  simp only [htonl, h0, h1, h2, h3]
  omega

theorem hostBytes32_htonl (v : Nat) (hv : v < 4294967296) : hostBytes32 (htonl v) = be32 v := by
  obtain ⟨a, b, c, d, ha, hb, hc, hd, rfl⟩ := bytes_of_u32 v hv
  obtain ⟨h0, h1, h2, h3⟩ := bytes_split a b c d ha hb hc hd
  obtain ⟨g0, g1, g2, g3⟩ := bytes_split d c b a hd hc hb ha
  rw [htonl_bytes a b c d ha hb hc hd]
  simp only [hostBytes32, be32, h0, h1, h2, h3, g0, g1, g2, g3]

theorem ntohl_load32_be32 (v : Nat) (hv : v < 4294967296) (rest : Buf) :
    ntohl (load32 (be32 v ++ rest)) = v := by
  obtain ⟨a, b, c, d, ha, hb, hc, hd, rfl⟩ := bytes_of_u32 v hv
  obtain ⟨h0, h1, h2, h3⟩ := bytes_split a b c d ha hb hc hd
  simp only [ntohl, load32, be32, List.cons_append, List.nil_append, List.getD_cons_zero,
    List.getD_cons_succ, h0, h1, h2, h3, Nat.mod_eq_of_lt ha, Nat.mod_eq_of_lt hb,
    Nat.mod_eq_of_lt hc, Nat.mod_eq_of_lt hd]
  rw [htonl_bytes d c b a hd hc hb ha]

theorem toI32_toU32 (s : Int) (h1 : -2147483648 ≤ s) (h2 : s < 2147483648) : toI32 (toU32 s) = s := by
  unfold toI32 toU32
  split <;> omega

theorem toU32_toI32 (p : Nat) (h : p < 4294967296) : toU32 (toI32 p) = p := by
  unfold toI32 toU32
  split <;> omega

theorem toU32_lt (s : Int) : toU32 s < 4294967296 := by
  unfold toU32; omega

theorem be32_length (v : Nat) : (be32 v).length = 4 := rfl

theorem rd32_lt {P : Type} (c : Cell P) : c.rd32 < 4294967296 := by
  cases c <;> simp only [Cell.rd32] <;> omega

theorem rd64_lt {P : Type} (c : Cell P) : c.rd64 < 18446744073709551616 := by
  cases c <;> simp only [Cell.rd64] <;> omega

theorem sizeSub_eq (a b : Nat) (ha : a < 18446744073709551616) (hb : b ≤ a) :
    sizeSub a b = a - b := by
  unfold sizeSub; omega

/-- Successful `XDR_encode_uint32`: the wire bytes replace the first four bytes at `dst`. -/
theorem XDR_encode_uint32_ok {P : Type} (c : Cell P) (d : Buf) (u max : Nat)
    (l : Option (Cell P)) (hmax : 4 ≤ max) :
    XDR_encode_uint32 (some c) (some d) u max l = ⟨0, 4, some (be32 c.rd32 ++ d.drop 4)⟩ := by
  have hc := rd32_lt c
  have : ¬ max < 4 := by omega
  simp only [XDR_encode_uint32, this, if_false, memcpy, hostBytes32_htonl _ hc]
  rfl

theorem XDR_encode_int32_ok {P : Type} (c : Cell P) (d : Buf) (u max : Nat)
    (l : Option (Cell P)) (hmax : 4 ≤ max) :
    XDR_encode_int32 (some c) (some d) u max l = ⟨0, 4, some (be32 c.rd32 ++ d.drop 4)⟩ := by
  have hc := rd32_lt c
  have : ¬ max < 4 := by omega
  simp only [XDR_encode_int32, this, if_false, memcpy, toU32_toI32 _ hc, hostBytes32_htonl _ hc]
  rfl

theorem XDR_decode_uint32_ok {P : Type} (v : Nat) (hv : v < 4294967296) (rest : Buf)
    (dst : Option (Cell P)) (i max : Nat) (l : Option (Cell P)) (hmax : 4 ≤ max) :
    XDR_decode_uint32 (be32 v ++ rest) dst i max l
      = ⟨0, dst.map (fun _ => Cell.word v), 4⟩ := by
  have : ¬ max < 4 := by omega
  simp only [XDR_decode_uint32, this, if_false, ntohl_load32_be32 v hv]

theorem XDR_decode_int32_ok {P : Type} (v : Nat) (hv : v < 4294967296) (rest : Buf)
    (dst : Option (Cell P)) (i max : Nat) (l : Option (Cell P)) (hmax : 4 ≤ max) :
    XDR_decode_int32 (be32 v ++ rest) dst i max l
      = ⟨0, dst.map (fun _ => Cell.word v), 4⟩ := by
  have : ¬ max < 4 := by omega
  simp only [XDR_decode_int32, this, if_false, ntohl_load32_be32 v hv, toU32_toI32 v hv]

theorem drop4_be32_append (v : Nat) (rest : Buf) : (be32 v ++ rest).drop 4 = rest := rfl

theorem take4_be32_append (v : Nat) (rest : Buf) : (be32 v ++ rest).take 4 = be32 v := rfl

theorem XDR_encode_uint64_ok {P : Type} (c : Cell P) (d : Buf) (u max : Nat)
    (l : Option (Cell P)) (hmax : 8 ≤ max) (hsz : max < 18446744073709551616) :
    XDR_encode_uint64 (some c) (some d) u max l
      = ⟨0, 8, some (be32 (c.rd64 / 4294967296) ++ (be32 (c.rd64 % 4294967296) ++ d.drop 8))⟩ := by
  have hc := rd64_lt c
  have h1 : ¬ max < 8 := by omega
  have h2 : 4 ≤ sizeSub max 4 := by rw [sizeSub_eq _ _ hsz (by omega)]; omega
  have h3 : c.rd64 / 4294967296 % 4294967296 = c.rd64 / 4294967296 := by omega
  simp only [XDR_encode_uint64, h1, if_false, XDR_encode_uint32_ok _ _ _ _ _ (show 4 ≤ max by omega),
    Option.getD_some, XDR_encode_uint32_ok _ _ _ _ _ h2, drop4_be32_append, splice,
    take4_be32_append, Cell.rd32, h3, Nat.mod_mod, List.drop_drop]
  simp

theorem XDR_decode_uint64_ok {P : Type} (v : Nat) (hv : v < 18446744073709551616) (rest : Buf)
    (dst : Option (Cell P)) (i max : Nat) (l : Option (Cell P)) (hmax : 8 ≤ max)
    (hsz : max < 18446744073709551616) :
    XDR_decode_uint64 (be32 (v / 4294967296) ++ (be32 (v % 4294967296) ++ rest)) dst i max l
      = ⟨0, dst.map (fun _ => Cell.dword v), 8⟩ := by
  have h1 : ¬ max < 8 := by omega
  have h2 : 4 ≤ sizeSub max 4 := by rw [sizeSub_eq _ _ hsz (by omega)]; omega
  have hhi : v / 4294967296 < 4294967296 := by omega
  have hlo : v % 4294967296 < 4294967296 := by omega
  have hor : (v / 4294967296 * 4294967296) % 18446744073709551616 ||| v % 4294967296 = v := by
    have := @Nat.mul_add_lt_is_or 32 (v % 4294967296) (by norm_num; omega) (v / 4294967296)
    norm_num at this
    have e : (v / 4294967296 * 4294967296) % 18446744073709551616 = 4294967296 * (v / 4294967296) := by
      omega
    rw [e, ← this]; omega
  simp only [XDR_decode_uint64, h1, if_false, XDR_decode_uint32_ok _ hhi _ _ _ _ _ (show 4 ≤ max by omega),
    Option.map_some', Option.getD_some, drop4_be32_append, XDR_decode_uint32_ok _ hlo _ _ _ _ _ h2,
    Cell.rd32, Nat.mod_eq_of_lt hhi, Nat.mod_mod, hor]
  simp

theorem int64_hi (p : Nat) (hp : p < 18446744073709551616) :
    toU32 (toI32 (toU32 (toI64 p / 4294967296))) = p / 4294967296 := by
  have h : toU32 (toI64 p / 4294967296) = p / 4294967296 := by
    unfold toU32 toI64
    split <;> omega
  rw [h, toU32_toI32 _ (by omega)]

theorem int64_lo (p : Nat) :
    toU32 (toI64 p % 4294967296) = p % 4294967296 := by
  unfold toU32 toI64
  split <;> omega

theorem int64_shift (h : Nat) (hh : h < 4294967296) :
    (toU64 (toI32 h) * 4294967296) % 18446744073709551616 = 4294967296 * h := by
  unfold toU64 toI32
  split <;> omega

theorem toI64_toU64 (s : Int) (h1 : -9223372036854775808 ≤ s) (h2 : s < 9223372036854775808) :
    toI64 (toU64 s) = s := by
  unfold toI64 toU64
  split <;> omega

theorem toU64_lt (s : Int) : toU64 s < 18446744073709551616 := by
  unfold toU64; omega

theorem XDR_encode_int64_ok {P : Type} (c : Cell P) (d : Buf) (u max : Nat)
    (l : Option (Cell P)) (hmax : 8 ≤ max) (hsz : max < 18446744073709551616) :
    XDR_encode_int64 (some c) (some d) u max l
      = ⟨0, 8, some (be32 (c.rd64 / 4294967296) ++ (be32 (c.rd64 % 4294967296) ++ d.drop 8))⟩ := by
  have hc := rd64_lt c
  have h1 : ¬ max < 8 := by omega
  have h2 : 4 ≤ sizeSub max 4 := by rw [sizeSub_eq _ _ hsz (by omega)]; omega
  have h3 : c.rd64 / 4294967296 % 4294967296 = c.rd64 / 4294967296 := by omega
  simp only [XDR_encode_int64, h1, if_false, XDR_encode_int32_ok _ _ _ _ _ (show 4 ≤ max by omega),
    Option.getD_some, XDR_encode_uint32_ok _ _ _ _ _ h2, drop4_be32_append, splice,
    take4_be32_append, Cell.rd32, h3, Nat.mod_mod, List.drop_drop, int64_hi _ hc, int64_lo _]
  simp

theorem XDR_decode_int64_ok {P : Type} (v : Nat) (hv : v < 18446744073709551616) (rest : Buf)
    (dst : Option (Cell P)) (i max : Nat) (l : Option (Cell P)) (hmax : 8 ≤ max)
    (hsz : max < 18446744073709551616) :
    XDR_decode_int64 (be32 (v / 4294967296) ++ (be32 (v % 4294967296) ++ rest)) dst i max l
      = ⟨0, dst.map (fun _ => Cell.dword v), 8⟩ := by
  have h1 : ¬ max < 8 := by omega
  have h2 : 4 ≤ sizeSub max 4 := by rw [sizeSub_eq _ _ hsz (by omega)]; omega
  have hhi : v / 4294967296 < 4294967296 := by omega
  have hlo : v % 4294967296 < 4294967296 := by omega
  have hor : 4294967296 * (v / 4294967296) ||| v % 4294967296 = v := by
    have := @Nat.mul_add_lt_is_or 32 (v % 4294967296) (by norm_num; omega) (v / 4294967296)
    norm_num at this
    rw [← this]; omega
  simp only [XDR_decode_int64, h1, if_false, XDR_decode_int32_ok _ hhi _ _ _ _ _ (show 4 ≤ max by omega),
    Option.map_some', Option.getD_some, drop4_be32_append, XDR_decode_uint32_ok _ hlo _ _ _ _ _ h2,
    Cell.rd32, Nat.mod_eq_of_lt hhi, Nat.mod_mod, int64_shift _ hhi, hor]
  simp

/-! ## Claims C1 and C2: fixed-width integers -/

/-- C1: for every 32-bit value and every `max >= 4`, `XDR_encode_uint32` (unsigned) and
`XDR_encode_int32` (signed) into a non-null buffer return 0, report `used = 4` and write
the four bytes of the value most significant first; `XDR_decode_uint32` /
`XDR_decode_int32` on those bytes return 0, consume 4 and yield the value. 0xDEADBEEF
encodes to DE AD BE EF and decodes back to 0xDEADBEEF. -/
theorem C1_int32_wire_roundtrip (P : Type) (v : Nat) (hv : v < 4294967296)
    (s : Int) (hs1 : -2147483648 ≤ s) (hs2 : s < 2147483648)
    (d rest : Buf) (slot : Cell P) (u0 i0 max max2 : Nat) (l l2 : Option (Cell P))
    (hmax : 4 ≤ max) (hmax2 : 4 ≤ max2) :
    XDR_encode_uint32 (some (Cell.word v : Cell P)) (some d) u0 max l
        = ⟨0, 4, some ([v / 16777216 % 256, v / 65536 % 256, v / 256 % 256, v % 256]
            ++ d.drop 4)⟩
    ∧ XDR_decode_uint32 ([v / 16777216 % 256, v / 65536 % 256, v / 256 % 256, v % 256] ++ rest)
        (some slot) i0 max2 l2 = ⟨0, some (Cell.word v), 4⟩
    ∧ XDR_encode_int32 (some (Cell.word (toU32 s) : Cell P)) (some d) u0 max l
        = ⟨0, 4, some ([toU32 s / 16777216 % 256, toU32 s / 65536 % 256, toU32 s / 256 % 256,
            toU32 s % 256] ++ d.drop 4)⟩
    ∧ XDR_decode_int32 ([toU32 s / 16777216 % 256, toU32 s / 65536 % 256, toU32 s / 256 % 256,
            toU32 s % 256] ++ rest) (some slot) i0 max2 l2 = ⟨0, some (Cell.word (toU32 s)), 4⟩
    ∧ toI32 (toU32 s) = s
    ∧ XDR_encode_uint32 (some (Cell.word 0xDEADBEEF : Cell P)) (some [0, 0, 0, 0]) 0 4 none
        = ⟨0, 4, some [0xDE, 0xAD, 0xBE, 0xEF]⟩
    ∧ XDR_decode_uint32 [0xDE, 0xAD, 0xBE, 0xEF] (some slot) 0 4 none
        = ⟨0, some (Cell.word 0xDEADBEEF), 4⟩ := by
  have hs := toU32_lt s
  refine ⟨?_, ?_, ?_, ?_, toI32_toU32 s hs1 hs2, ?_, ?_⟩
  · rw [XDR_encode_uint32_ok _ _ _ _ _ hmax]
    simp only [Cell.rd32, Nat.mod_eq_of_lt hv, be32]
  · exact XDR_decode_uint32_ok v hv rest (some slot) i0 max2 l2 hmax2
  · rw [XDR_encode_int32_ok _ _ _ _ _ hmax]
    simp only [Cell.rd32, Nat.mod_eq_of_lt hs, be32]
  · exact XDR_decode_int32_ok (toU32 s) hs rest (some slot) i0 max2 l2 hmax2
  · rw [XDR_encode_uint32_ok _ _ _ _ _ (le_refl 4)]
    have h1 : (Cell.word 3735928559 : Cell P).rd32 = 3735928559 := by
      simp only [Cell.rd32]
    have h2 : be32 3735928559 = [222, 173, 190, 239] := by decide
    rw [h1, h2]
    rfl
  · exact XDR_decode_uint32_ok 0xDEADBEEF (by decide) [] (some slot) 0 4 none (le_refl 4)

/-- Witness for C1 at `v = 0xDEADBEEF`, `s = -2`, `max = 4`. -/
theorem C1_int32_wire_roundtrip_witness :
    (4 : Nat) ≤ 4 ∧
    XDR_encode_uint32 (some (Cell.word 0xDEADBEEF : Cell Unit)) (some [9, 9, 9, 9, 9]) 0 4 none
        = ⟨0, 4, some [0xDE, 0xAD, 0xBE, 0xEF, 9]⟩ :=
  ⟨le_refl 4, (C1_int32_wire_roundtrip Unit 0xDEADBEEF (by decide) (-2) (by decide) (by decide)
    [9, 9, 9, 9, 9] [] (Cell.word 0) 0 0 4 4 none none (le_refl 4) (le_refl 4)).1⟩

/-- C2: for every 64-bit value and every `max >= 8` (a `size_t`), `XDR_encode_uint64` and
`XDR_encode_int64` return 0, report `used = 8` and write the high 32 bits big-endian
followed by the low 32 bits big-endian; `XDR_decode_uint64` / `XDR_decode_int64` on
those bytes return 0, consume 8 and yield the value. The signed value -2 encodes to
FF FF FF FF FF FF FF FE and decodes back to -2. -/
theorem C2_int64_wire_roundtrip (P : Type) (v : Nat) (hv : v < 18446744073709551616)
    (s : Int) (hs1 : -9223372036854775808 ≤ s) (hs2 : s < 9223372036854775808)
    (d rest : Buf) (slot : Cell P) (u0 i0 max max2 : Nat) (l l2 : Option (Cell P))
    (hmax : 8 ≤ max) (hsz : max < 18446744073709551616)
    (hmax2 : 8 ≤ max2) (hsz2 : max2 < 18446744073709551616) :
    XDR_encode_uint64 (some (Cell.dword v : Cell P)) (some d) u0 max l
        = ⟨0, 8, some (be32 (v / 4294967296) ++ (be32 (v % 4294967296) ++ d.drop 8))⟩
    ∧ XDR_decode_uint64 (be32 (v / 4294967296) ++ (be32 (v % 4294967296) ++ rest))
        (some slot) i0 max2 l2 = ⟨0, some (Cell.dword v), 8⟩
    ∧ XDR_encode_int64 (some (Cell.dword (toU64 s) : Cell P)) (some d) u0 max l
        = ⟨0, 8, some (be32 (toU64 s / 4294967296) ++ (be32 (toU64 s % 4294967296)
            ++ d.drop 8))⟩
    ∧ XDR_decode_int64 (be32 (toU64 s / 4294967296) ++ (be32 (toU64 s % 4294967296) ++ rest))
        (some slot) i0 max2 l2 = ⟨0, some (Cell.dword (toU64 s)), 8⟩
    ∧ toI64 (toU64 s) = s
    ∧ XDR_encode_int64 (some (Cell.dword (toU64 (-2)) : Cell P)) (some d) u0 max l
        = ⟨0, 8, some ([0xFF, 0xFF, 0xFF, 0xFF, 0xFF, 0xFF, 0xFF, 0xFE] ++ d.drop 8)⟩
    ∧ XDR_decode_int64 ([0xFF, 0xFF, 0xFF, 0xFF, 0xFF, 0xFF, 0xFF, 0xFE] ++ rest)
        (some slot) i0 max2 l2 = ⟨0, some (Cell.dword (toU64 (-2))), 8⟩
    ∧ toI64 (toU64 (-2)) = -2 := by
  have hs := toU64_lt s
  have e2 : toU64 (-2) = 18446744073709551614 := by decide
  have b1 : be32 (18446744073709551614 / 4294967296) = [0xFF, 0xFF, 0xFF, 0xFF] := by decide
  have b2 : be32 (18446744073709551614 % 4294967296) = [0xFF, 0xFF, 0xFF, 0xFE] := by decide
  refine ⟨?_, ?_, ?_, ?_, toI64_toU64 s hs1 hs2, ?_, ?_, by decide⟩
  · rw [XDR_encode_uint64_ok _ _ _ _ _ hmax hsz]
    simp only [Cell.rd64, Nat.mod_eq_of_lt hv]
  · exact XDR_decode_uint64_ok v hv rest (some slot) i0 max2 l2 hmax2 hsz2
  · rw [XDR_encode_int64_ok _ _ _ _ _ hmax hsz]
    simp only [Cell.rd64, Nat.mod_eq_of_lt hs]
  · exact XDR_decode_int64_ok (toU64 s) hs rest (some slot) i0 max2 l2 hmax2 hsz2
  · rw [XDR_encode_int64_ok _ _ _ _ _ hmax hsz, e2]
    have : (Cell.dword 18446744073709551614 : Cell P).rd64 = 18446744073709551614 := by
      simp only [Cell.rd64]
    rw [this, b1, b2]; rfl
  · have := XDR_decode_int64_ok 18446744073709551614 (by decide) rest (some slot) i0 max2 l2
      hmax2 hsz2
    rw [b1, b2] at this
    rw [e2]; exact this

/-- Witness for C2 at `s = -2`, `max = 8`. -/
theorem C2_int64_wire_roundtrip_witness :
    (8 : Nat) ≤ 8 ∧ XDR_encode_int64 (some (Cell.dword (toU64 (-2)) : Cell Unit)) (some [1, 2, 3, 4, 5, 6, 7, 8, 9])
        0 8 none = ⟨0, 8, some [0xFF, 0xFF, 0xFF, 0xFF, 0xFF, 0xFF, 0xFF, 0xFE, 9]⟩
    ∧ XDR_decode_int64 [0xFF, 0xFF, 0xFF, 0xFF, 0xFF, 0xFF, 0xFF, 0xFE]
        (some (Cell.word 0 : Cell Unit)) 0 8 none = ⟨0, some (Cell.dword (toU64 (-2))), 8⟩ :=
  have h := C2_int64_wire_roundtrip Unit 5 (by decide) (-2) (by decide) (by decide)
    [1, 2, 3, 4, 5, 6, 7, 8, 9] [] (Cell.word 0) 0 0 8 8 none none (le_refl 8) (by decide)
    (le_refl 8) (by decide)
  ⟨le_refl 8, h.2.2.2.2.2.1, h.2.2.2.2.2.2.1⟩


/-! ## Counted byte blobs and strings -/

theorem derefLen_word {P : Type} (n : Nat) (hn : n < 2147483648) :
    derefLen (some (Cell.word n : Cell P)) = (n : Int) := by
  simp only [derefLen, Option.getD_some, Cell.rd32, toI32]
  split <;> omega

theorem cPad_nonneg (n : Nat) :
    cRem (4 - cRem (n : Int) 4) 4 = (((4 - n % 4) % 4 : Nat) : Int) := by
  unfold cRem
  have h1 : Int.tmod (n : Int) 4 = (n : Int) % 4 := Int.tmod_eq_emod (by omega) (by omega)
  rw [h1, Int.tmod_eq_emod (by omega) (by omega)]
  omega

theorem toU64_natCast (n : Nat) (hn : n < 18446744073709551616) : toU64 (n : Int) = n := by
  unfold toU64; omega

theorem toI32_toU32_natCast (n : Nat) (hn : n < 2147483648) : toI32 (toU32 (n : Int)) = (n : Int) :=
  toI32_toU32 _ (by omega) (by omega)

theorem XDR_encode_byte_array_ok {P : Type} (bytes : List Nat) (d : Buf) (u max : Nat)
    (hL : bytes.length + (4 - bytes.length % 4) % 4 < 2147483648)
    (hmax : bytes.length + (4 - bytes.length % 4) % 4 < max) :
    XDR_encode_byte_array (some (Cell.ptr (some bytes) : Cell P)) (some d) u max
        (some (Cell.word bytes.length))
      = ⟨0, bytes.length + (4 - bytes.length % 4) % 4,
          some (bytes ++ (List.replicate ((4 - bytes.length % 4) % 4) 0
            ++ d.drop (bytes.length + (4 - bytes.length % 4) % 4)))⟩ := by
  have h1 : derefLen (some (Cell.word bytes.length : Cell P)) = (bytes.length : Int) :=
    derefLen_word _ (by omega)
  have h2 : ((bytes.length : Int) + (((4 - bytes.length % 4) % 4 : Nat) : Int))
      = ((bytes.length + (4 - bytes.length % 4) % 4 : Nat) : Int) := by push_cast; rfl
  have h3 : ¬ (bytes.length + (4 - bytes.length % 4) % 4 ≥ max) := by omega
  simp only [XDR_encode_byte_array, h1, cPad_nonneg, h2, toI32_toU32_natCast _ hL,
    toU64_natCast _ (show bytes.length + (4 - bytes.length % 4) % 4 < 18446744073709551616 by omega),
    toU64_natCast _ (show bytes.length < 18446744073709551616 by omega),
    toU64_natCast _ (show (4 - bytes.length % 4) % 4 < 18446744073709551616 by omega),
    Option.bind_some, Cell.rdPtr, h3, if_false, List.take_length, memcpy, memset0, splice]
  by_cases hp : (4 - bytes.length % 4) % 4 = 0
  · simp [hp]
  · have hp2 : ((((4 - bytes.length % 4) % 4 : Nat) : Int) ≠ 0) := by omega
    simp only [ne_eq, hp2, not_false_eq_true, if_true]
    simp [List.drop_drop, Nat.add_comm]

theorem malloc_ok (n : Nat) (hn : n ≤ 9223372036854775807) :
    malloc n = some (List.replicate n 0) := by
  simp only [malloc, hn, if_true]

theorem XDR_decode_byte_array_eval {P : Type} (src : Buf) (slot : Cell P) (u max L : Nat)
    (hL : L + (4 - L % 4) % 4 < 2147483648) :
    XDR_decode_byte_array src (some slot) u max (some (Cell.word L))
      = if L + (4 - L % 4) % 4 ≥ max then ⟨-1, some slot, 0⟩
        else ⟨0, some (Cell.ptr (some (memcpy (List.replicate L 0) (src.take L)))),
          L + (4 - L % 4) % 4⟩ := by
  have h1 : derefLen (some (Cell.word L : Cell P)) = (L : Int) := derefLen_word _ (by omega)
  have h2 : ((L : Int) + (((4 - L % 4) % 4 : Nat) : Int))
      = ((L + (4 - L % 4) % 4 : Nat) : Int) := by push_cast; rfl
  simp only [XDR_decode_byte_array, h1, cPad_nonneg, h2, toI32_toU32_natCast _ hL,
    toU64_natCast _ (show L + (4 - L % 4) % 4 < 18446744073709551616 by omega),
    toU64_natCast _ (show L < 18446744073709551616 by omega),
    Option.isNone_some, Bool.false_or, decide_eq_true_eq, malloc_ok L (by omega),
    Option.map_some']

theorem memcpy_replicate_take (bytes tail : List Nat) :
    memcpy (List.replicate bytes.length 0) ((bytes ++ tail).take bytes.length) = bytes := by
  simp [memcpy]

theorem strlen_terminated (s junk : List Nat) (hs : ∀ b ∈ s, b ≠ 0) :
    strlen (s ++ 0 :: junk) = s.length := by
  unfold strlen
  rw [List.takeWhile_append_of_pos (by intro a ha; simpa using hs a ha)]
  simp

theorem XDR_encode_string_array_ok {P : Type} (s junk : List Nat) (d : Buf) (u max : Nat)
    (hs : ∀ b ∈ s, b ≠ 0) (hL : s.length ≤ 4294967292)
    (hmax : 4 + s.length + (4 - s.length % 4) % 4 ≤ max) :
    XDR_encode_string_array (some (Cell.ptr (some (s ++ 0 :: junk)) : Cell P)) (some d) u max none
      = ⟨0, 4 + s.length + (4 - s.length % 4) % 4,
          some (be32 s.length ++ (s ++ (List.replicate ((4 - s.length % 4) % 4) 0
            ++ d.drop (4 + s.length + (4 - s.length % 4) % 4))))⟩ := by
  have e1 : s.length % 4294967296 = s.length := by omega
  have e2 : ((4 + 4294967296 - s.length % 4) % 4294967296) % 4 = (4 - s.length % 4) % 4 := by
    omega
  have e3 : (s.length + (4 - s.length % 4) % 4) % 4294967296
      = s.length + (4 - s.length % 4) % 4 := by omega
  have e4 : ¬ max < 4 + (s.length + (4 - s.length % 4) % 4) := by omega
  have e5 : (Cell.word s.length : Cell P).rd32 = s.length := by simp only [Cell.rd32, e1]
  have e6 : (some (Cell.ptr (some (s ++ 0 :: junk)) : Cell P)).bind Cell.rdPtr
      = some (s ++ 0 :: junk) := rfl
  unfold XDR_encode_string_array
  rw [e6]
  simp only [strlen_terminated s junk hs, e1, e2, e3, e5,
    XDR_encode_uint32_ok _ _ _ _ _ (show 4 ≤ max by omega), e4, if_false,
    drop4_be32_append, splice, take4_be32_append, memcpy, memset0]
  by_cases hp : (4 - s.length % 4) % 4 = 0
  · simp [hp, Nat.add_assoc]
  · simp [hp, List.drop_drop, Nat.add_comm, Nat.add_left_comm]
    omega

theorem XDR_encode_string_array_null {P : Type} (src : Option (Cell P)) (d : Buf) (u max : Nat)
    (hsrc : src.bind Cell.rdPtr = none) (hmax : 4 ≤ max) :
    XDR_encode_string_array src (some d) u max none
      = ⟨0, 4, some (be32 0 ++ d.drop 4)⟩ := by
  have e4 : ¬ max < 4 := by omega
  have e5 : (Cell.word 0 : Cell P).rd32 = 0 := by simp only [Cell.rd32]
  simp only [XDR_encode_string_array, hsrc, XDR_encode_uint32_ok _ _ _ _ _ hmax, e5]
  simp [e4, splice]

theorem XDR_decode_string_array_ok {P : Type} (s rest : List Nat) (slot : Cell P) (u max : Nat)
    (hL : s.length ≤ 4294967292)
    (hmax : 4 + s.length + (4 - s.length % 4) % 4 ≤ max) :
    XDR_decode_string_array (be32 s.length ++ (s ++ (List.replicate ((4 - s.length % 4) % 4) 0
        ++ rest))) (some slot) u max none
      = ⟨0, some (Cell.ptr (some (s ++ [0]))), 4 + s.length + (4 - s.length % 4) % 4⟩ := by
  have e1 : s.length % 4294967296 = s.length := by omega
  have e2 : ((4 + 4294967296 - s.length % 4) % 4294967296) % 4 = (4 - s.length % 4) % 4 := by
    omega
  have e3 : (s.length + (4 - s.length % 4) % 4) % 4294967296
      = s.length + (4 - s.length % 4) % 4 := by omega
  have e4 : ¬ (4 + s.length + (4 - s.length % 4) % 4 > max) := by omega
  have e5 : (s.length + 1) % 4294967296 = s.length + 1 := by omega
  have e6 : (s ++ [0]).set s.length 0 = s ++ [0] := by
    rw [List.set_append_right _ _ (le_refl _)]; simp
  simp only [XDR_decode_string_array, XDR_decode_uint32_ok _ (show s.length < 4294967296 by omega)
    _ _ _ _ _ (show 4 ≤ max by omega), Option.map_some', Option.getD_some, Cell.rd32, e1, e2, e3,
    e4, if_false, drop4_be32_append, e5, malloc_ok (s.length + 1) (by omega), memcpy]
  simp [e6, Nat.add_assoc]

/-- Evaluation of `XDR_encode_string_array` on a NUL-terminated string whose length is a
multiple of 2^32: the 32-bit `str_len` is 0. -/
theorem XDR_encode_string_array_wrap {P : Type} (s : List Nat) (d : Buf) (u max : Nat)
    (hs : ∀ b ∈ s, b ≠ 0) (hL : s.length % 4294967296 = 0) (hmax : 4 ≤ max) :
    XDR_encode_string_array (some (Cell.ptr (some (s ++ [0])) : Cell P)) (some d) u max none
      = ⟨0, 4, some (be32 0 ++ d.drop 4)⟩ := by
  have e6 : (some (Cell.ptr (some (s ++ [0])) : Cell P)).bind Cell.rdPtr = some (s ++ [0]) := rfl
  have e5 : (Cell.word 0 : Cell P).rd32 = 0 := rfl
  have e4 : ¬ max < 4 := by omega
  unfold XDR_encode_string_array
  rw [e6]
  simp only [strlen_terminated s [] hs, hL, XDR_encode_uint32_ok _ _ _ _ _ hmax, e5,
    drop4_be32_append, splice, take4_be32_append, memcpy, List.take_zero]
  simp [e4]

/-! ## Claims C3, C4 and C5: counted byte blobs and strings -/

/-- C3 (counterexample): encoding the 5-byte blob 01 02 03 04 05 into a 16-byte buffer
reports `used = 8` and leaves 01 02 03 04 05 00 00 00 at the start of the buffer; it
does not report 12 and does not write the count 00 00 00 05 in front of the data. -/
theorem C3_byte_array_count_counterexample :
    XDR_encode_byte_array (some (Cell.ptr (some [1, 2, 3, 4, 5]) : Cell Unit))
        (some (List.replicate 16 0xAA)) 0 16 (some (Cell.word 5))
      = ⟨0, 8, some ([1, 2, 3, 4, 5, 0, 0, 0] ++ List.replicate 8 0xAA)⟩
    ∧ ¬ ((XDR_encode_byte_array (some (Cell.ptr (some [1, 2, 3, 4, 5]) : Cell Unit))
        (some (List.replicate 16 0xAA)) 0 16 (some (Cell.word 5))).used = 12)
    ∧ ¬ ((XDR_encode_byte_array (some (Cell.ptr (some [1, 2, 3, 4, 5]) : Cell Unit))
        (some (List.replicate 16 0xAA)) 0 16 (some (Cell.word 5))).dst.map (List.take 12)
          = some [0, 0, 0, 5, 1, 2, 3, 4, 5, 0, 0, 0]) := by
  decide

/-- C3 (amended): for every blob of `L` bytes whose padded length fits an `int32_t`, with
the companion length holding `L`, a non-null destination and `max > L + pad`
(`pad = (4 - L mod 4) mod 4`), `XDR_encode_byte_array` returns 0, writes the `L` raw
bytes followed by `pad` zero bytes, with no count in front, leaves the rest of the
buffer alone and reports `used = L + pad`. The 5-byte blob 01 02 03 04 05 encodes to
the 8 bytes 01 02 03 04 05 00 00 00. -/
theorem C3_byte_array_wire (P : Type) (bytes : List Nat) (d : Buf) (u max : Nat)
    (hL : bytes.length + (4 - bytes.length % 4) % 4 < 2147483648)
    (hmax : bytes.length + (4 - bytes.length % 4) % 4 < max) :
    XDR_encode_byte_array (some (Cell.ptr (some bytes) : Cell P)) (some d) u max
        (some (Cell.word bytes.length))
      = ⟨0, bytes.length + (4 - bytes.length % 4) % 4,
          some (bytes ++ (List.replicate ((4 - bytes.length % 4) % 4) 0
            ++ d.drop (bytes.length + (4 - bytes.length % 4) % 4)))⟩
    ∧ XDR_encode_byte_array (some (Cell.ptr (some [1, 2, 3, 4, 5]) : Cell P)) (some d) u 9
        (some (Cell.word 5))
      = ⟨0, 8, some ([1, 2, 3, 4, 5, 0, 0, 0] ++ d.drop 8)⟩ :=
  ⟨XDR_encode_byte_array_ok bytes d u max hL hmax,
    XDR_encode_byte_array_ok [1, 2, 3, 4, 5] d u 9 (by decide) (by decide)⟩

/-- Witness for C3 (amended) at the blob 01 02 03, `max = 5`. -/
theorem C3_byte_array_wire_witness :
    (3 + (4 - 3 % 4) % 4 < 5)
    ∧ XDR_encode_byte_array (some (Cell.ptr (some [1, 2, 3]) : Cell Unit)) (some [9, 9, 9, 9, 9])
        0 5 (some (Cell.word 3)) = ⟨0, 4, some [1, 2, 3, 0, 9]⟩ :=
  ⟨by decide, (C3_byte_array_wire Unit [1, 2, 3] [9, 9, 9, 9, 9] 0 5 (by decide) (by decide)).1⟩

/-- C4 (the code at the failing inputs): let `n = L + pad` be the byte count
`XDR_encode_byte_array` reports for a blob of `L` bytes. Given the encoded bytes and
the companion length `L`, `XDR_decode_byte_array` with `max = n` returns -1, stores
nothing and reports 0 bytes consumed; with any `max > n` it returns 0, consumes `n`
bytes and yields the original `L` bytes. -/
theorem C4_byte_array_decode_exact_fit (P : Type) (bytes rest : List Nat) (slot : Cell P)
    (u max : Nat) (hL : bytes.length + (4 - bytes.length % 4) % 4 < 2147483648)
    (hmax : bytes.length + (4 - bytes.length % 4) % 4 < max) :
    XDR_decode_byte_array (bytes ++ (List.replicate ((4 - bytes.length % 4) % 4) 0 ++ rest))
        (some slot) u (bytes.length + (4 - bytes.length % 4) % 4) (some (Cell.word bytes.length))
      = ⟨-1, some slot, 0⟩
    ∧ XDR_decode_byte_array (bytes ++ (List.replicate ((4 - bytes.length % 4) % 4) 0 ++ rest))
        (some slot) u max (some (Cell.word bytes.length))
      = ⟨0, some (Cell.ptr (some bytes)), bytes.length + (4 - bytes.length % 4) % 4⟩ := by
  constructor
  · rw [XDR_decode_byte_array_eval _ _ _ _ _ hL]
    simp
  · rw [XDR_decode_byte_array_eval _ _ _ _ _ hL]
    have h3 : ¬ (bytes.length + (4 - bytes.length % 4) % 4 ≥ max) := by omega
    simp only [h3, if_false, memcpy_replicate_take]

/-- Witness for C4 at the blob 01 02 03 04 05: the 8 encoded bytes are rejected with
`max = 8` and decoded with `max = 9`. -/
theorem C4_byte_array_decode_exact_fit_witness :
    (5 + (4 - 5 % 4) % 4 < 9)
    ∧ XDR_decode_byte_array [1, 2, 3, 4, 5, 0, 0, 0] (some (Cell.word 0 : Cell Unit)) 0 8
        (some (Cell.word 5)) = ⟨-1, some (Cell.word 0), 0⟩
    ∧ XDR_decode_byte_array [1, 2, 3, 4, 5, 0, 0, 0] (some (Cell.word 0 : Cell Unit)) 0 9
        (some (Cell.word 5)) = ⟨0, some (Cell.ptr (some [1, 2, 3, 4, 5])), 8⟩ :=
  ⟨by decide, C4_byte_array_decode_exact_fit Unit [1, 2, 3, 4, 5] [] (Cell.word 0) 0 9
    (by decide) (by decide)⟩

/-- C5 (counterexample): the string of 2^32 bytes 'A' has no NUL byte, and with
`max = 4 + 2^32` there is room for its encoding, yet `XDR_encode_string_array` writes
the count 0 and reports `used = 4`, not the count `L` and `used = 4 + L`: the length is
held in a `uint32_t`. -/
theorem C5_string_length_counterexample :
    (∀ b ∈ List.replicate 4294967296 65, b ≠ 0)
    ∧ (List.replicate 4294967296 65).length = 4294967296
    ∧ XDR_encode_string_array
        (some (Cell.ptr (some (List.replicate 4294967296 65 ++ [0])) : Cell Unit))
        (some [0xAA, 0xAA, 0xAA, 0xAA]) 0 4294967300 none
      = ⟨0, 4, some [0, 0, 0, 0]⟩
    ∧ ¬ ((XDR_encode_string_array
        (some (Cell.ptr (some (List.replicate 4294967296 65 ++ [0])) : Cell Unit))
        (some [0xAA, 0xAA, 0xAA, 0xAA]) 0 4294967300 none).used
          = 4 + 4294967296 + (4 - 4294967296 % 4) % 4) := by
  have hs : ∀ b ∈ List.replicate 4294967296 65, b ≠ 0 := by
    intro b hb
    rw [List.eq_of_mem_replicate hb]
    decide
  have hlen : (List.replicate 4294967296 65).length = 4294967296 := List.length_replicate _ _
  have h := XDR_encode_string_array_wrap (P := Unit) (List.replicate 4294967296 65)
    [0xAA, 0xAA, 0xAA, 0xAA] 0 4294967300 hs (by rw [hlen]) (by decide)
  refine ⟨hs, hlen, ?_, ?_⟩
  · rw [h]; rfl
  · rw [h]; decide

/-- C5 (amended): for every string `s` of `L <= 2^32 - 4` bytes without a NUL byte (stored
NUL-terminated) and every `max >= 4 + L + pad`, `XDR_encode_string_array` into a
non-null buffer returns 0, writes the big-endian count `L`, the `L` bytes and `pad` zero
bytes, and reports `used = 4 + L + pad`; `XDR_decode_string_array` on those bytes
returns 0, consumes `4 + L + pad` bytes and yields a buffer holding `s` followed by one
NUL byte. A null source (null `src_ptr` or null `*src_ptr`) encodes as the count 0
alone. -/
theorem C5_string_array_roundtrip (P : Type) (s junk rest : List Nat) (d : Buf) (slot : Cell P)
    (u max : Nat) (hs : ∀ b ∈ s, b ≠ 0) (hL : s.length ≤ 4294967292)
    (hmax : 4 + s.length + (4 - s.length % 4) % 4 ≤ max) :
    XDR_encode_string_array (some (Cell.ptr (some (s ++ 0 :: junk)) : Cell P)) (some d) u max none
      = ⟨0, 4 + s.length + (4 - s.length % 4) % 4,
          some (be32 s.length ++ (s ++ (List.replicate ((4 - s.length % 4) % 4) 0
            ++ d.drop (4 + s.length + (4 - s.length % 4) % 4))))⟩
    ∧ XDR_decode_string_array (be32 s.length ++ (s ++ (List.replicate ((4 - s.length % 4) % 4) 0
        ++ rest))) (some slot) u max none
      = ⟨0, some (Cell.ptr (some (s ++ [0]))), 4 + s.length + (4 - s.length % 4) % 4⟩
    ∧ XDR_encode_string_array (none : Option (Cell P)) (some d) u max none
      = ⟨0, 4, some ([0, 0, 0, 0] ++ d.drop 4)⟩
    ∧ XDR_encode_string_array (some (Cell.ptr none : Cell P)) (some d) u max none
      = ⟨0, 4, some ([0, 0, 0, 0] ++ d.drop 4)⟩ :=
  ⟨XDR_encode_string_array_ok s junk d u max hs hL hmax,
    XDR_decode_string_array_ok s rest slot u max hL hmax,
    XDR_encode_string_array_null none d u max rfl (by omega),
    XDR_encode_string_array_null _ d u max rfl (by omega)⟩

/-- Witness for C5 at the string "hi", `max = 8`. -/
theorem C5_string_array_roundtrip_witness :
    (∀ b ∈ [104, 105], b ≠ 0) ∧ (4 + 2 + (4 - 2 % 4) % 4 ≤ 8)
    ∧ XDR_encode_string_array (some (Cell.ptr (some [104, 105, 0]) : Cell Unit))
        (some (List.replicate 9 0xAA)) 0 8 none
      = ⟨0, 8, some [0, 0, 0, 2, 104, 105, 0, 0, 0xAA]⟩
    ∧ XDR_decode_string_array [0, 0, 0, 2, 104, 105, 0, 0] (some (Cell.word 0 : Cell Unit)) 0 8 none
      = ⟨0, some (Cell.ptr (some [104, 105, 0])), 8⟩ :=
  have h := C5_string_array_roundtrip Unit [104, 105] [] [] (List.replicate 9 0xAA) (Cell.word 0)
    0 8 (by decide) (by decide) (by decide)
  ⟨by decide, by decide, h.1, h.2.1⟩

/-! ## In-memory structs -/

theorem Obj.get_set_same {P : Type} (o : Obj P) (k : Nat) (c : Cell P) :
    (o.set k c).get k = c := by
  simp [Obj.get, Obj.set]

theorem find_filter_other {P : Type} (o : Obj P) (k j : Nat) (h : j ≠ k) :
    List.find? (fun e => e.1 == j) (List.filter (fun e => e.1 != k) o)
      = List.find? (fun e => e.1 == j) o := by
  induction o with
  | nil => rfl
  | cons e o ih =>
    by_cases hk : e.1 = k
    · have hj : (e.1 == j) = false := by
        rw [beq_eq_false_iff_ne]; omega
      have hk2 : (e.1 != k) = false := by simp [hk]
      rw [List.filter_cons_of_neg (by simp [hk2]), List.find?_cons_of_neg _ (by simp [hj]), ih]
    · have hk2 : (e.1 != k) = true := by simp [hk]
      rw [List.filter_cons_of_pos (by simp [hk2])]
      by_cases hj : e.1 = j
      · have hj2 : (e.1 == j) = true := by simp [hj]
        rw [List.find?_cons_of_pos _ (by simp [hj2]), List.find?_cons_of_pos _ (by simp [hj2])]
      · have hj2 : (e.1 == j) = false := by simp [hj]
        rw [List.find?_cons_of_neg _ (by simp [hj2]), List.find?_cons_of_neg _ (by simp [hj2]), ih]

theorem Obj.get_set_other {P : Type} (o : Obj P) (k j : Nat) (c : Cell P) (h : j ≠ k) :
    (o.set k c).get j = o.get j := by
  have h1 : ¬ (((k, c).1 == j) = true) := by simpa using (fun e => h e.symm)
  simp only [Obj.get, Obj.set]
  have e1 : List.find? (fun e : Nat × Cell P => e.1 == j)
      ((k, c) :: List.filter (fun e => e.1 != k) o)
      = List.find? (fun e : Nat × Cell P => e.1 == j) (List.filter (fun e => e.1 != k) o) :=
    List.find?_cons_of_neg _ h1
  rw [e1, find_filter_other o k j h]

/-! ## Arrays and field codecs -/

theorem wireList_length (wire : Nat → List Nat) (w : Nat) (hlen : ∀ x, (wire x).length = w)
    (xs : List Nat) : (wireList wire xs).length = w * xs.length := by
  induction xs with
  | nil => simp [wireList]
  | cons x xs ih => simp [wireList, hlen, ih, Nat.mul_succ, Nat.add_comm]

theorem getElem_of_drop_eq_cons {α : Type} (xs : List α) (i : Nat) (y : α) (ys : List α)
    (h : xs.drop i = y :: ys) : xs[i]? = some y ∧ xs.drop (i + 1) = ys := by
  induction xs generalizing i with
  | nil => simp at h
  | cons x xs ih =>
    cases i with
    | zero => simp at h; simp [h]
    | succ i => simpa using ih i (by simpa using h)

theorem drop_append_length {α : Type} (pre tail : List α) (n : Nat) (h : pre.length = n) :
    (pre ++ tail).drop n = tail := by
  subst h; simp

theorem take_append_length {α : Type} (pre tail : List α) (n : Nat) (h : pre.length = n) :
    (pre ++ tail).take n = pre := by
  subst h; simp

/-- A run of the `XDR_array_encoder` loop that can no longer write (`dst` is null or an
element has failed) keeps the result code and the memory and adds `w` per element. -/
theorem XDR_array_encoder_loop_dry {P : Type} (src : Option (List Nat)) (max inc w : Nat)
    (enc : XDR_Encoder P)
    (hdry : ∀ (c : Option (Cell P)) (u m : Nat) (l : Option (Cell P)), (enc c none u m l).used = w)
    (k i : Nat) (mem : Option Buf) (live : Bool) (res : Int) (e : Nat)
    (hdead : mem = none ∨ (live && decide (res ≥ 0)) = false) :
    XDR_array_encoder_loop src max inc enc k i mem live res e = ⟨res, e + w * k, mem⟩ := by
  induction k generalizing i live e with
  | zero => simp [XDR_array_encoder_loop]
  | succ k ih =>
    cases mem with
    | none =>
      simp only [XDR_array_encoder_loop, hdry]
      rw [ih _ _ _ (Or.inl rfl)]
      have : e + w + w * k = e + w * (k + 1) := by rw [Nat.mul_succ]; omega
      rw [this]
    | some m =>
      have hd : (live && decide (res ≥ 0)) = false := by
        rcases hdead with h | h
        · cases h
        · exact h
      simp only [XDR_array_encoder_loop, hd, hdry]
      rw [ih _ _ _ (Or.inr (by simp [hd]))]
      have : e + w + w * k = e + w * (k + 1) := by rw [Nat.mul_succ]; omega
      rw [this]
      simp

/-- The `XDR_array_encoder` loop with room for every remaining element writes their
wire images one after the other. -/
theorem XDR_array_encoder_loop_ok {P : Type} (xs : List Nat) (max inc w bound : Nat)
    (enc : XDR_Encoder P) (wire : Nat → List Nat) (hlen : ∀ x, (wire x).length = w)
    (henc : ∀ x, x < bound → ∀ (d : Buf) (u m : Nat) (l : Option (Cell P)), w ≤ m →
      m < 18446744073709551616 →
      enc (some (elemCell inc x)) (some d) u m l = ⟨0, w, some (wire x ++ d.drop w)⟩)
    (hmax : max < 18446744073709551616)
    (k i : Nat) (ys pre tail : List Nat) (e : Nat)
    (hys : xs.drop i = ys) (hk : ys.length = k) (hb : ∀ y ∈ ys, y < bound)
    (hpre : pre.length = e) (hfit : e + w * k ≤ max) :
    XDR_array_encoder_loop (some xs) max inc enc k i (some (pre ++ tail)) true 0 e
      = ⟨0, e + w * k, some (pre ++ (wireList wire ys ++ tail.drop (w * k)))⟩ := by
  induction k generalizing i ys pre tail e with
  | zero =>
    have : ys = [] := List.length_eq_zero.mp hk
    subst this
    simp [XDR_array_encoder_loop, wireList]
  | succ k ih =>
    match ys, hk with
    | y :: ys1, hk1 =>
      obtain ⟨hget, hdrop⟩ := getElem_of_drop_eq_cons xs i y ys1 hys
      have hw : w ≤ sizeSub max e := by
        rw [sizeSub_eq _ _ hmax (by nlinarith)]
        have : w * (k + 1) = w * k + w := Nat.mul_succ w k
        omega
      have hs : sizeSub max e < 18446744073709551616 := by
        rw [sizeSub_eq _ _ hmax (by nlinarith)]; omega
      have hstep := henc y (hb y (by simp)) tail 0 (sizeSub max e) none hw hs
      have helem : Option.map (elemCell inc : Nat → Cell P)
          ((some xs).bind fun a => a[i]?) = some (elemCell inc y) := by
        simp [hget]
      simp only [XDR_array_encoder_loop, helem,
        drop_append_length pre tail e hpre, hstep, Bool.true_and, ge_iff_le, le_refl,
        decide_True, if_true, Option.getD_some, splice, take_append_length pre tail e hpre]
      have hpre2 : (pre ++ wire y).length = e + w := by simp [hpre, hlen]
      have := ih (i + 1) ys1 (pre ++ wire y) (tail.drop w) (e + w) hdrop (by simpa using hk1)
        (fun z hz => hb z (by simp [hz])) hpre2
        (by have : w * (k + 1) = w * k + w := Nat.mul_succ w k
            omega)
      rw [← List.append_assoc, this]
      simp [wireList, List.drop_drop, Nat.mul_succ, Nat.add_assoc, Nat.add_comm]
      omega

/-- The `XDR_array_encoder` loop without room for every remaining element fails, and
still reports the full size. -/
theorem XDR_array_encoder_loop_fail {P : Type} (xs : List Nat) (max inc w bound : Nat)
    (enc : XDR_Encoder P) (wire : Nat → List Nat) (hlen : ∀ x, (wire x).length = w)
    (henc : ∀ x, x < bound → ∀ (d : Buf) (u m : Nat) (l : Option (Cell P)), w ≤ m →
      m < 18446744073709551616 →
      enc (some (elemCell inc x)) (some d) u m l = ⟨0, w, some (wire x ++ d.drop w)⟩)
    (hfail : ∀ (x : Nat) (d : Buf) (u m : Nat) (l : Option (Cell P)), m < w →
      (enc (some (elemCell inc x)) (some d) u m l).res < 0
      ∧ (enc (some (elemCell inc x)) (some d) u m l).used = w)
    (hdry : ∀ (c : Option (Cell P)) (u m : Nat) (l : Option (Cell P)), (enc c none u m l).used = w)
    (hmax : max < 18446744073709551616)
    (k i : Nat) (ys pre tail : List Nat) (e : Nat)
    (hys : xs.drop i = ys) (hk : ys.length = k) (hb : ∀ y ∈ ys, y < bound)
    (hpre : pre.length = e) (he : e ≤ max) (hfit : max < e + w * k) :
    (XDR_array_encoder_loop (some xs) max inc enc k i (some (pre ++ tail)) true 0 e).res < 0
    ∧ (XDR_array_encoder_loop (some xs) max inc enc k i (some (pre ++ tail)) true 0 e).used
        = e + w * k := by
  induction k generalizing i ys pre tail e with
  | zero => omega
  | succ k ih =>
    match ys, hk with
    | y :: ys1, hk1 =>
      obtain ⟨hget, hdrop⟩ := getElem_of_drop_eq_cons xs i y ys1 hys
      have helem : Option.map (elemCell inc : Nat → Cell P)
          ((some xs).bind fun a => a[i]?) = some (elemCell inc y) := by
        simp [hget]
      have hmul : w * (k + 1) = w * k + w := Nat.mul_succ w k
      have hsub : sizeSub max e = max - e := sizeSub_eq _ _ hmax he
      by_cases hw : w ≤ max - e
      · have hstep := henc y (hb y (by simp)) tail 0 (sizeSub max e) none (by omega) (by omega)
        simp only [XDR_array_encoder_loop, helem,
          drop_append_length pre tail e hpre, hstep, Bool.true_and, ge_iff_le, le_refl,
          decide_True, if_true, Option.getD_some, splice, take_append_length pre tail e hpre]
        have hpre2 : (pre ++ wire y).length = e + w := by simp [hpre, hlen]
        have := ih (i + 1) ys1 (pre ++ wire y) (tail.drop w) (e + w) hdrop (by simpa using hk1)
          (fun z hz => hb z (by simp [hz])) hpre2 (by omega) (by omega)
        rw [← List.append_assoc]
        constructor
        · exact this.1
        · rw [this.2]; omega
      · obtain ⟨h1, h2⟩ := hfail y tail 0 (sizeSub max e) none (by omega)
        have hdec : decide (0 ≤ (enc (some (elemCell inc y)) (some tail) 0 (sizeSub max e)
            none).res) = false := by
          simp only [decide_eq_false_iff_not]; omega
        simp only [XDR_array_encoder_loop, helem,
          drop_append_length pre tail e hpre, Bool.true_and, ge_iff_le, le_refl,
          decide_True, if_true, h2]
        rw [XDR_array_encoder_loop_dry (some xs) max inc w enc hdry _ _ _ _ _ _
          (Or.inr (by simp only [ge_iff_le, hdec, Bool.and_self]))]
        exact ⟨h1, by show e + w + w * k = e + w * (k + 1); omega⟩

/-- The `XDR_array_decoder` loop over the wire images of `ys` fills the block with `ys`. -/
theorem XDR_array_decoder_loop_ok {P : Type} (src : Buf) (max inc w bound : Nat)
    (dec : XDR_Decoder P) (wire : Nat → List Nat) (hlen : ∀ x, (wire x).length = w)
    (hdec : ∀ x, x < bound → ∀ (rest : Buf) (c : Cell P) (u m : Nat) (l : Option (Cell P)),
      w ≤ m → m < 18446744073709551616 →
      dec (wire x ++ rest) (some c) u m l = ⟨0, some (elemCell inc x), w⟩)
    (hstore : ∀ x, x < bound → elemStore inc (elemCell inc x : Cell P) = x)
    (hmax : max < 18446744073709551616)
    (k i : Nat) (ys done rest : List Nat) (dl : Nat)
    (hsrc : src.drop dl = wireList wire ys ++ rest) (hk : ys.length = k)
    (hb : ∀ y ∈ ys, y < bound) (hdone : done.length = i) (hfit : dl + w * k ≤ max) :
    XDR_array_decoder_loop src max inc dec k i (done ++ List.replicate k 0) dl
      = .ok (done ++ ys, dl + w * k) := by
  induction k generalizing i ys done dl with
  | zero =>
    have : ys = [] := List.length_eq_zero.mp hk
    subst this
    simp [XDR_array_decoder_loop]
  | succ k ih =>
    match ys, hk with
    | y :: ys1, hk1 =>
      have hmul : w * (k + 1) = w * k + w := Nat.mul_succ w k
      have hsub : sizeSub max dl = max - dl := sizeSub_eq _ _ hmax (by omega)
      have hsrc1 : src.drop dl = wire y ++ (wireList wire ys1 ++ rest) := by
        rw [hsrc]; simp [wireList]
      have hstep := hdec y (hb y (by simp)) (wireList wire ys1 ++ rest)
        (elemCell inc ((done ++ List.replicate (k + 1) 0).getD i 0)) 0 (sizeSub max dl) none
        (by omega) (by omega)
      have hset : (done ++ List.replicate (k + 1) 0).set i y
          = (done ++ [y]) ++ List.replicate k 0 := by
        rw [List.set_append_right _ _ (by omega)]
        simp [hdone, List.replicate_succ]
      have hsrc2 : src.drop (dl + w) = wireList wire ys1 ++ rest := by
        have : src.drop (dl + w) = (src.drop dl).drop w := by
          rw [List.drop_drop]
        rw [this, hsrc1, drop_append_length _ _ _ (hlen y)]
      simp only [XDR_array_decoder_loop, hsrc1, hstep, Option.getD_some,
        hstore y (hb y (by simp)), hset]
      have := ih (i + 1) ys1 (done ++ [y]) (dl + w) hsrc2 (by simpa using hk1)
        (fun z hz => hb z (by simp [hz])) (by simp [hdone]) (by omega)
      simp only [Int.lt_irrefl, if_false]
      rw [this]
      simp only [List.append_assoc, List.singleton_append, Except.ok.injEq, Prod.mk.injEq, true_and]
      omega

/-- The `FieldSpec` of a counted-array field whose codecs run `XDR_array_encoder` /
`XDR_array_decoder` over an element codec with wire image `wire`. -/
theorem fieldSpec_array {P : Type} (v : Obj P) (f : XDR_FieldDefinition P) (xs : List Nat)
    (inc w bound : Nat) (enc : XDR_Encoder P) (dec : XDR_Decoder P) (wire : Nat → List Nat)
    (hE : ∀ src dst u m len, f.funcs.encoder src dst u m (some len)
      = XDR_array_encoder src dst 0 m (derefLen (some len)) inc enc)
    (hD : ∀ src dst u m len, f.funcs.decoder src dst u m (some len)
      = XDR_array_decoder src dst 0 m (derefLen (some len)) inc dec)
    (hinc : 0 < inc) (hinc8 : inc ≤ 8)
    (hlen : ∀ x, (wire x).length = w) (hw : w ≤ 8)
    (henc : ∀ x, x < bound → ∀ (d : Buf) (u m : Nat) (l : Option (Cell P)), w ≤ m →
      m < 18446744073709551616 →
      enc (some (elemCell inc x)) (some d) u m l = ⟨0, w, some (wire x ++ d.drop w)⟩)
    (hfail : ∀ (x : Nat) (d : Buf) (u m : Nat) (l : Option (Cell P)), m < w →
      (enc (some (elemCell inc x)) (some d) u m l).res < 0
      ∧ (enc (some (elemCell inc x)) (some d) u m l).used = w)
    (hdry : ∀ (c : Option (Cell P)) (u m : Nat) (l : Option (Cell P)), (enc c none u m l).used = w)
    (hdec : ∀ x, x < bound → ∀ (rest : Buf) (c : Cell P) (u m : Nat) (l : Option (Cell P)),
      w ≤ m → m < 18446744073709551616 →
      dec (wire x ++ rest) (some c) u m l = ⟨0, some (elemCell inc x), w⟩)
    (hstore : ∀ x, x < bound → elemStore inc (elemCell inc x : Cell P) = x)
    (hptr : v.get f.offset = Cell.ptr (some xs))
    (hcnt : v.get f.len_offset = Cell.word xs.length)
    (hn : xs.length < 2147483648) (hb : ∀ x ∈ xs, x < bound) :
    FieldSpec v f true (wireList wire xs) := by
  have hWl := wireList_length wire w hlen xs
  have hderef : derefLen (some (Cell.word xs.length : Cell P)) = (xs.length : Int) :=
    derefLen_word _ hn
  have hnat : ((xs.length : Int)).toNat = xs.length := Int.toNat_natCast _
  have hsrc : (some (Cell.ptr (some xs) : Cell P)).bind Cell.rdPtr = some xs := rfl
  have hwn : w * xs.length ≤ 8 * xs.length := Nat.mul_le_mul_right _ hw
  refine ⟨?_, ?_, ?_, ?_⟩
  · intro d u m hm hm64
    rw [hptr, hcnt, hE, hderef]
    simp only [XDR_array_encoder, hsrc, hnat, Option.isSome_some]
    have := XDR_array_encoder_loop_ok xs m inc w bound enc wire hlen henc hm64 xs.length 0 xs []
      d 0 rfl rfl hb rfl (by omega)
    simp only [List.nil_append, Nat.zero_add] at this
    rw [this, hWl]
  · intro d u m hm
    rw [hptr, hcnt, hE, hderef]
    simp only [XDR_array_encoder, hsrc, hnat, Option.isSome_some]
    have := XDR_array_encoder_loop_fail xs m inc w bound enc wire hlen henc hfail hdry (by omega)
      xs.length 0 xs [] d 0 rfl rfl hb rfl (by omega) (by omega)
    simp only [List.nil_append, Nat.zero_add] at this
    rw [hWl]; exact this
  · intro u m
    rw [hptr, hcnt, hE, hderef]
    simp only [XDR_array_encoder, hsrc, hnat, Option.isSome_none]
    rw [XDR_array_encoder_loop_dry (some xs) m inc w enc hdry _ _ _ _ _ _ (Or.inl rfl), hWl]
    simp
  · intro rest c u m len hl hm hm64
    rw [hl rfl, hcnt, hD, hderef]
    have hsz : (toU64 (xs.length : Int) * inc) % 18446744073709551616 = xs.length * inc := by
      rw [toU64_natCast _ (by omega)]
      have : xs.length * inc ≤ xs.length * 8 := Nat.mul_le_mul_left _ hinc8
      omega
    have hle : xs.length * inc ≤ 9223372036854775807 := by
      have : xs.length * inc ≤ xs.length * 8 := Nat.mul_le_mul_left _ hinc8
      omega
    have hdiv : xs.length * inc / inc = xs.length := Nat.mul_div_cancel _ hinc
    have := XDR_array_decoder_loop_ok (wireList wire xs ++ rest) m inc w bound dec wire hlen hdec
      hstore hm64 xs.length 0 xs [] rest 0 rfl rfl hb rfl (by omega)
    simp only [List.nil_append, Nat.zero_add] at this
    simp only [XDR_array_decoder, hsz, malloc_ok _ hle, List.length_replicate, hdiv, hnat, this,
      hWl, hptr]

theorem elemCell_4 {P : Type} (x : Nat) : (elemCell 4 x : Cell P) = Cell.word x := rfl

theorem elemCell_8 {P : Type} (x : Nat) : (elemCell 8 x : Cell P) = Cell.dword x := rfl

theorem wire64_length (x : Nat) : (wire64 x).length = 8 := rfl

theorem XDR_encode_uint32_fail {P : Type} (c : Cell P) (d : Buf) (u m : Nat)
    (l : Option (Cell P)) (hm : m < 4) :
    XDR_encode_uint32 (some c) (some d) u m l = ⟨-2, 4, some d⟩ := by
  simp only [XDR_encode_uint32, hm, if_true]

theorem XDR_encode_int32_fail {P : Type} (c : Cell P) (d : Buf) (u m : Nat)
    (l : Option (Cell P)) (hm : m < 4) :
    XDR_encode_int32 (some c) (some d) u m l = ⟨-2, 4, some d⟩ := by
  simp only [XDR_encode_int32, hm, if_true]

theorem XDR_encode_uint64_fail {P : Type} (c : Cell P) (d : Buf) (u m : Nat)
    (l : Option (Cell P)) (hm : m < 8) :
    XDR_encode_uint64 (some c) (some d) u m l = ⟨-1, 8, some d⟩ := by
  simp only [XDR_encode_uint64, hm, if_true]

theorem XDR_encode_int64_fail {P : Type} (c : Cell P) (d : Buf) (u m : Nat)
    (l : Option (Cell P)) (hm : m < 8) :
    XDR_encode_int64 (some c) (some d) u m l = ⟨-1, 8, some d⟩ := by
  simp only [XDR_encode_int64, hm, if_true]

theorem XDR_encode_uint32_dry {P : Type} (c : Option (Cell P)) (u m : Nat)
    (l : Option (Cell P)) : XDR_encode_uint32 c none u m l = ⟨0, 4, none⟩ := rfl

theorem XDR_encode_int32_dry {P : Type} (c : Option (Cell P)) (u m : Nat)
    (l : Option (Cell P)) : XDR_encode_int32 c none u m l = ⟨0, 4, none⟩ := rfl

theorem XDR_encode_uint64_dry {P : Type} (c : Option (Cell P)) (u m : Nat)
    (l : Option (Cell P)) : XDR_encode_uint64 c none u m l = ⟨0, 8, none⟩ := rfl

theorem XDR_encode_int64_dry {P : Type} (c : Option (Cell P)) (u m : Nat)
    (l : Option (Cell P)) : XDR_encode_int64 c none u m l = ⟨0, 8, none⟩ := rfl

/-- The `FieldSpec` of a 32-bit integer scalar field. -/
theorem fieldSpec_scalar32 {P : Type} (v : Obj P) (f : XDR_FieldDefinition P) (x : Nat)
    (hf : f.funcs = xdr_int32_functions ∨ f.funcs = xdr_uint32_functions)
    (hv : v.get f.offset = Cell.word x) (hx : x < 4294967296) :
    FieldSpec v f false (be32 x) := by
  have hr : (Cell.word x : Cell P).rd32 = x := by simp only [Cell.rd32, Nat.mod_eq_of_lt hx]
  rcases hf with h | h
  · refine ⟨?_, ?_, ?_, ?_⟩
    · intro d u m hm _
      rw [h, hv]
      simp only [xdr_int32_functions]
      rw [XDR_encode_int32_ok _ _ _ _ _ hm, hr]; rfl
    · intro d u m hm
      rw [h, hv]
      simp only [xdr_int32_functions, XDR_encode_int32_fail _ _ _ _ _ hm]
      exact ⟨by decide, rfl⟩
    · intro u m
      rw [h]; rfl
    · intro rest c u m len _ hm _
      rw [h, hv]
      exact XDR_decode_int32_ok x hx rest (some c) u m len hm
  · refine ⟨?_, ?_, ?_, ?_⟩
    · intro d u m hm _
      rw [h, hv]
      simp only [xdr_uint32_functions]
      rw [XDR_encode_uint32_ok _ _ _ _ _ hm, hr]; rfl
    · intro d u m hm
      rw [h, hv]
      simp only [xdr_uint32_functions, XDR_encode_uint32_fail _ _ _ _ _ hm]
      exact ⟨by decide, rfl⟩
    · intro u m
      rw [h]; rfl
    · intro rest c u m len _ hm _
      rw [h, hv]
      exact XDR_decode_uint32_ok x hx rest (some c) u m len hm

/-- The `FieldSpec` of a 64-bit integer scalar field. -/
theorem fieldSpec_scalar64 {P : Type} (v : Obj P) (f : XDR_FieldDefinition P) (x : Nat)
    (hf : f.funcs = xdr_int64_functions ∨ f.funcs = xdr_uint64_functions)
    (hv : v.get f.offset = Cell.dword x) (hx : x < 18446744073709551616) :
    FieldSpec v f false (wire64 x) := by
  have hr : (Cell.dword x : Cell P).rd64 = x := by simp only [Cell.rd64, Nat.mod_eq_of_lt hx]
  rcases hf with h | h
  · refine ⟨?_, ?_, ?_, ?_⟩
    · intro d u m hm hm64
      rw [h, hv]
      simp only [xdr_int64_functions]
      rw [XDR_encode_int64_ok _ _ _ _ _ hm hm64, hr]
      simp [wire64, be32_length]
    · intro d u m hm
      rw [h, hv]
      simp only [xdr_int64_functions, XDR_encode_int64_fail _ _ _ _ _ hm]
      exact ⟨by decide, rfl⟩
    · intro u m
      rw [h]; rfl
    · intro rest c u m len _ hm hm64
      rw [h, hv]
      simp only [xdr_int64_functions]
      have := XDR_decode_int64_ok x hx rest (some c) u m len hm hm64
      simpa [wire64] using this
  · refine ⟨?_, ?_, ?_, ?_⟩
    · intro d u m hm hm64
      rw [h, hv]
      simp only [xdr_uint64_functions]
      rw [XDR_encode_uint64_ok _ _ _ _ _ hm hm64, hr]
      simp [wire64, be32_length]
    · intro d u m hm
      rw [h, hv]
      simp only [xdr_uint64_functions, XDR_encode_uint64_fail _ _ _ _ _ hm]
      exact ⟨by decide, rfl⟩
    · intro u m
      rw [h]; rfl
    · intro rest c u m len _ hm hm64
      rw [h, hv]
      simp only [xdr_uint64_functions]
      have := XDR_decode_uint64_ok x hx rest (some c) u m len hm hm64
      simpa [wire64] using this

/-! ## Aggregate codec -/

/-- Once a field has failed or `dst` is null, `XDR_struct_encoder` only adds up sizes. -/
theorem XDR_struct_encoder_loop_dry {P : Type} (v : Obj P) (max : Nat)
    (fs : List (XDR_FieldDefinition P)) (before Ws : List Nat) (mem : Option Buf) (res : Int)
    (used len : Nat) (ht : TableSpec v before fs Ws) (hdead : mem = none ∨ res < 0) :
    XDR_struct_encoder_loop (some v) max fs mem res used len
      = ⟨res, used + Ws.length, mem⟩ := by
  induction fs generalizing before Ws used len with
  | nil =>
    simp only [TableSpec] at ht
    subst ht
    simp [XDR_struct_encoder_loop]
  | cons f rest ih =>
    obtain ⟨usesLen, W, W2, hW, hf, _, _, hrest⟩ := ht
    subst hW
    cases mem with
    | none =>
      simp only [XDR_struct_encoder_loop, fieldPtr, Option.map_some', hf.enc_dry]
      rw [ih _ _ _ _ hrest]
      simp [Nat.add_assoc]
    | some m =>
      have hr : res < 0 := by
        rcases hdead with h | h
        · cases h
        · exact h
      simp only [XDR_struct_encoder_loop, fieldPtr, Option.map_some', hr, if_true, hf.enc_dry]
      rw [ih _ _ _ _ hrest]
      simp [Nat.add_assoc]

/-- With room for the whole wire image, `XDR_struct_encoder` writes the field images one
after the other. -/
theorem XDR_struct_encoder_loop_ok {P : Type} (v : Obj P) (max : Nat)
    (hmax : max < 18446744073709551616)
    (fs : List (XDR_FieldDefinition P)) (before Ws pre tail : List Nat) (used len : Nat)
    (ht : TableSpec v before fs Ws) (hpre : pre.length = used)
    (hfit : used + Ws.length ≤ max) :
    XDR_struct_encoder_loop (some v) max fs (some (pre ++ tail)) 0 used len
      = ⟨0, used + Ws.length, some (pre ++ (Ws ++ tail.drop Ws.length))⟩ := by
  induction fs generalizing before Ws pre tail used len with
  | nil =>
    simp only [TableSpec] at ht
    subst ht
    simp [XDR_struct_encoder_loop]
  | cons f rest ih =>
    obtain ⟨usesLen, W, W2, hW, hf, _, _, hrest⟩ := ht
    subst hW
    have hlen : (W ++ W2).length = W.length + W2.length := List.length_append _ _
    have hsub : sizeSub max used = max - used := sizeSub_eq _ _ hmax (by omega)
    have hstep := hf.enc_ok tail len (sizeSub max used) (by omega) (by omega)
    simp only [XDR_struct_encoder_loop, fieldPtr, Option.map_some', Int.lt_irrefl, if_false,
      drop_append_length pre tail used hpre, hstep, Option.getD_some, splice,
      take_append_length pre tail used hpre]
    have := ih (before ++ [f.offset]) W2 (pre ++ W) (tail.drop W.length) (used + W.length)
      W.length hrest (by simp [hpre]) (by omega)
    rw [← List.append_assoc, this]
    simp [List.drop_drop, Nat.add_assoc, Nat.add_comm]

/-- Without room for the whole wire image, `XDR_struct_encoder` fails and still reports
the full size. -/
theorem XDR_struct_encoder_loop_fail {P : Type} (v : Obj P) (max : Nat)
    (hmax : max < 18446744073709551616)
    (fs : List (XDR_FieldDefinition P)) (before Ws pre tail : List Nat) (used len : Nat)
    (ht : TableSpec v before fs Ws) (hpre : pre.length = used) (hu : used ≤ max)
    (hfit : max < used + Ws.length) :
    (XDR_struct_encoder_loop (some v) max fs (some (pre ++ tail)) 0 used len).res < 0
    ∧ (XDR_struct_encoder_loop (some v) max fs (some (pre ++ tail)) 0 used len).used
        = used + Ws.length := by
  induction fs generalizing before Ws pre tail used len with
  | nil =>
    simp only [TableSpec] at ht
    subst ht
    simp at hfit
    omega
  | cons f rest ih =>
    obtain ⟨usesLen, W, W2, hW, hf, _, _, hrest⟩ := ht
    subst hW
    have hlen : (W ++ W2).length = W.length + W2.length := List.length_append _ _
    have hsub : sizeSub max used = max - used := sizeSub_eq _ _ hmax hu
    by_cases hw : W.length ≤ max - used
    · have hstep := hf.enc_ok tail len (sizeSub max used) (by omega) (by omega)
      simp only [XDR_struct_encoder_loop, fieldPtr, Option.map_some', Int.lt_irrefl, if_false,
        drop_append_length pre tail used hpre, hstep, Option.getD_some, splice,
        take_append_length pre tail used hpre]
      have := ih (before ++ [f.offset]) W2 (pre ++ W) (tail.drop W.length) (used + W.length)
        W.length hrest (by simp [hpre]) (by omega) (by omega)
      rw [← List.append_assoc]
      exact ⟨this.1, by rw [this.2]; omega⟩
    · obtain ⟨h1, h2⟩ := hf.enc_fail tail len (sizeSub max used) (by omega)
      simp only [XDR_struct_encoder_loop, fieldPtr, Option.map_some', Int.lt_irrefl, if_false,
        drop_append_length pre tail used hpre, h2]
      rw [XDR_struct_encoder_loop_dry v max rest _ W2 _ _ _ _ hrest (Or.inr h1)]
      exact ⟨h1, by show used + W.length + W2.length = _; omega⟩

/-- Decoding: `XDR_struct_decoder` over the wire image of `v` rebuilds the slot of every field. -/
theorem XDR_struct_decoder_loop_ok {P : Type} (v : Obj P) (src : Buf) (max : Nat)
    (hmax : max < 18446744073709551616)
    (fs : List (XDR_FieldDefinition P)) (before Ws rest : List Nat) (o : Obj P) (used : Nat)
    (ht : TableSpec v before fs Ws) (hinv : ∀ k ∈ before, o.get k = v.get k)
    (hsrc : src.drop used = Ws ++ rest) (hfit : used + Ws.length ≤ max) :
    ∃ o1 : Obj P, XDR_struct_decoder_loop src max fs (some o) used
        = (some o1, some (used + Ws.length))
      ∧ (∀ k ∈ before, o1.get k = v.get k)
      ∧ (∀ f ∈ fs, o1.get f.offset = v.get f.offset) := by
  induction fs generalizing before Ws o used with
  | nil =>
    simp only [TableSpec] at ht
    subst ht
    exact ⟨o, by simp [XDR_struct_decoder_loop], hinv, by simp⟩
  | cons f fs1 ih =>
    obtain ⟨usesLen, W, W2, hW, hf, hlenoff, hnew, hrest⟩ := ht
    subst hW
    have hlen : (W ++ W2).length = W.length + W2.length := List.length_append _ _
    have hsub : sizeSub max used = max - used := sizeSub_eq _ _ hmax (by omega)
    have hsrc1 : src.drop used = W ++ (W2 ++ rest) := by rw [hsrc, List.append_assoc]
    have hstep := hf.dec_ok (W2 ++ rest) (o.get f.offset) 0 (sizeSub max used)
      (some (o.get f.len_offset)) (fun h => by rw [hinv _ (hlenoff h)]) (by omega) (by omega)
    have hsrc2 : src.drop (used + W.length) = W2 ++ rest := by
      have : src.drop (used + W.length) = (src.drop used).drop W.length := by
        rw [List.drop_drop]
      rw [this, hsrc1, drop_append_length _ _ _ rfl]
    have hinv1 : ∀ k ∈ before ++ [f.offset], (o.set f.offset (v.get f.offset)).get k = v.get k := by
      intro k hk
      rcases List.mem_append.mp hk with hk | hk
      · have hne : k ≠ f.offset := fun e => hnew (e ▸ hk)
        rw [Obj.get_set_other _ _ _ _ hne]; exact hinv k hk
      · have : k = f.offset := by simpa using hk
        subst this
        exact Obj.get_set_same _ _ _
    obtain ⟨o1, h1, h2, h3⟩ := ih (before ++ [f.offset]) W2 (o.set f.offset (v.get f.offset))
      (used + W.length) hrest hinv1 hsrc2 (by omega)
    refine ⟨o1, ?_, ?_, ?_⟩
    · simp only [XDR_struct_decoder_loop, fieldPtr, Option.map_some', hsrc1, hstep, fieldStore,
        Int.lt_irrefl, if_false, h1]
      simp [Nat.add_assoc]
    · intro k hk
      exact h2 k (List.mem_append.mpr (Or.inl hk))
    · intro g hg
      rcases List.mem_cons.mp hg with hg | hg
      · subst hg
        exact h2 _ (List.mem_append.mpr (Or.inr (by simp)))
      · exact h3 g hg

/-- The `FieldSpec` of a counted array of 32-bit integers. -/
theorem fieldSpec_array32 {P : Type} (v : Obj P) (f : XDR_FieldDefinition P) (xs : List Nat)
    (hf : f.funcs = xdr_int32_arr_functions ∨ f.funcs = xdr_uint32_arr_functions)
    (hptr : v.get f.offset = Cell.ptr (some xs))
    (hcnt : v.get f.len_offset = Cell.word xs.length)
    (hn : xs.length < 2147483648) (hb : ∀ x ∈ xs, x < 4294967296) :
    FieldSpec v f true (wireList be32 xs) := by
  have hr : ∀ x, x < 4294967296 → (Cell.word x : Cell P).rd32 = x := fun x hx => by
    simp only [Cell.rd32, Nat.mod_eq_of_lt hx]
  rcases hf with h | h
  · refine fieldSpec_array v f xs 4 4 4294967296 XDR_encode_int32 XDR_decode_uint32 be32
      (by intro _ _ _ _ _; rw [h]; rfl) (by intro _ _ _ _ _; rw [h]; rfl) (by decide) (by decide)
      be32_length (by decide) ?_ ?_ ?_ ?_ ?_ hptr hcnt hn hb
    · intro x hx d u m l hm _
      rw [elemCell_4, XDR_encode_int32_ok _ _ _ _ _ hm, hr x hx]
    · intro x d u m l hm
      rw [elemCell_4, XDR_encode_int32_fail _ _ _ _ _ hm]; exact ⟨by norm_num, rfl⟩
    · intro c u m l; rfl
    · intro x hx rest c u m l hm _
      rw [elemCell_4]; exact XDR_decode_uint32_ok x hx rest (some c) u m l hm
    · intro x hx
      simp only [elemStore, elemCell_4, hr x hx]; rfl
  · refine fieldSpec_array v f xs 4 4 4294967296 XDR_encode_uint32 XDR_decode_uint32 be32
      (by intro _ _ _ _ _; rw [h]; rfl) (by intro _ _ _ _ _; rw [h]; rfl) (by decide) (by decide)
      be32_length (by decide) ?_ ?_ ?_ ?_ ?_ hptr hcnt hn hb
    · intro x hx d u m l hm _
      rw [elemCell_4, XDR_encode_uint32_ok _ _ _ _ _ hm, hr x hx]
    · intro x d u m l hm
      rw [elemCell_4, XDR_encode_uint32_fail _ _ _ _ _ hm]; exact ⟨by norm_num, rfl⟩
    · intro c u m l; rfl
    · intro x hx rest c u m l hm _
      rw [elemCell_4]; exact XDR_decode_uint32_ok x hx rest (some c) u m l hm
    · intro x hx
      simp only [elemStore, elemCell_4, hr x hx]; rfl

/-- The `FieldSpec` of a counted array of 64-bit integers. -/
theorem fieldSpec_array64 {P : Type} (v : Obj P) (f : XDR_FieldDefinition P) (xs : List Nat)
    (hf : f.funcs = xdr_int64_arr_functions ∨ f.funcs = xdr_uint64_arr_functions)
    (hptr : v.get f.offset = Cell.ptr (some xs))
    (hcnt : v.get f.len_offset = Cell.word xs.length)
    (hn : xs.length < 2147483648) (hb : ∀ x ∈ xs, x < 18446744073709551616) :
    FieldSpec v f true (wireList wire64 xs) := by
  have hr : ∀ x, x < 18446744073709551616 → (Cell.dword x : Cell P).rd64 = x := fun x hx => by
    simp only [Cell.rd64, Nat.mod_eq_of_lt hx]
  rcases hf with h | h
  · refine fieldSpec_array v f xs 8 8 18446744073709551616 XDR_encode_int64 XDR_decode_int64
      wire64 (by intro _ _ _ _ _; rw [h]; rfl) (by intro _ _ _ _ _; rw [h]; rfl) (by decide)
      (by decide) wire64_length (by decide) ?_ ?_ ?_ ?_ ?_ hptr hcnt hn hb
    · intro x hx d u m l hm hm64
      rw [elemCell_8, XDR_encode_int64_ok _ _ _ _ _ hm hm64, hr x hx]
      simp [wire64]
    · intro x d u m l hm
      rw [elemCell_8, XDR_encode_int64_fail _ _ _ _ _ hm]; exact ⟨by norm_num, rfl⟩
    · intro c u m l; rfl
    · intro x hx rest c u m l hm hm64
      rw [elemCell_8]
      have := XDR_decode_int64_ok x hx rest (some c) u m l hm hm64
      simpa [wire64] using this
    · intro x hx
      simp only [elemStore, elemCell_8, hr x hx]; rfl
  · refine fieldSpec_array v f xs 8 8 18446744073709551616 XDR_encode_uint64 XDR_decode_uint64
      wire64 (by intro _ _ _ _ _; rw [h]; rfl) (by intro _ _ _ _ _; rw [h]; rfl) (by decide)
      (by decide) wire64_length (by decide) ?_ ?_ ?_ ?_ ?_ hptr hcnt hn hb
    · intro x hx d u m l hm hm64
      rw [elemCell_8, XDR_encode_uint64_ok _ _ _ _ _ hm hm64, hr x hx]
      simp [wire64]
    · intro x d u m l hm
      rw [elemCell_8, XDR_encode_uint64_fail _ _ _ _ _ hm]; exact ⟨by norm_num, rfl⟩
    · intro c u m l; rfl
    · intro x hx rest c u m l hm hm64
      rw [elemCell_8]
      have := XDR_decode_uint64_ok x hx rest (some c) u m l hm hm64
      simpa [wire64] using this
    · intro x hx
      simp only [elemStore, elemCell_8, hr x hx]; rfl

/-- A table of integer fields has a wire image. -/
theorem IntTableOK.tableSpec {P : Type} (v : Obj P) (fs : List (XDR_FieldDefinition P))
    (before : List Nat) (h : IntTableOK v before fs) : ∃ Ws, TableSpec v before fs Ws := by
  induction fs generalizing before with
  | nil => exact ⟨[], rfl⟩
  | cons f rest ih =>
    obtain ⟨hf, hnew, hrest⟩ := h
    obtain ⟨W2, hW2⟩ := ih _ hrest
    rcases hf with ⟨hk, x, hv, hx⟩ | ⟨hk, x, hv, hx⟩ | ⟨hk, hl, xs, hp, hc, hn, hb⟩
      | ⟨hk, hl, xs, hp, hc, hn, hb⟩
    · exact ⟨be32 x ++ W2, false, be32 x, W2, rfl, fieldSpec_scalar32 v f x hk hv hx,
        by simp, hnew, hW2⟩
    · exact ⟨wire64 x ++ W2, false, wire64 x, W2, rfl, fieldSpec_scalar64 v f x hk hv hx,
        by simp, hnew, hW2⟩
    · exact ⟨wireList be32 xs ++ W2, true, wireList be32 xs, W2, rfl,
        fieldSpec_array32 v f xs hk hp hc hn hb, fun _ => hl, hnew, hW2⟩
    · exact ⟨wireList wire64 xs ++ W2, true, wireList wire64 xs, W2, rfl,
        fieldSpec_array64 v f xs hk hp hc hn hb, fun _ => hl, hnew, hW2⟩

/-- Round trip of the aggregate codec over any table with a `TableSpec`: an encode into
a non-null buffer that does not fail, or whose reported size fits `max`, returns 0 with
`used <= max`, and decoding exactly the bytes produced rebuilds every field. -/
theorem struct_roundtrip_of_tableSpec {P : Type} (v : Obj P)
    (fields : List (XDR_FieldDefinition P)) (Ws : List Nat) (ht : TableSpec v [] fields Ws)
    (d dflt : Buf) (o : Obj P) (inc0 inc1 max ty : Nat) (hmax : max < 18446744073709551616)
    (hres : ¬ (XDR_struct_encoder (some v) (some d) inc0 max ty (some fields)).res < 0
      ∨ (XDR_struct_encoder (some v) (some d) inc0 max ty (some fields)).used ≤ max) :
    (XDR_struct_encoder (some v) (some d) inc0 max ty (some fields)).res = 0
    ∧ (XDR_struct_encoder (some v) (some d) inc0 max ty (some fields)).used ≤ max
    ∧ ∃ v1 : Obj P,
        XDR_struct_decoder
          (((XDR_struct_encoder (some v) (some d) inc0 max ty (some fields)).dst.getD dflt).take
            (XDR_struct_encoder (some v) (some d) inc0 max ty (some fields)).used)
          (some o) inc1 (XDR_struct_encoder (some v) (some d) inc0 max ty (some fields)).used
          (some fields)
        = ⟨0, some v1, (XDR_struct_encoder (some v) (some d) inc0 max ty (some fields)).used⟩
      ∧ ∀ f ∈ fields, v1.get f.offset = v.get f.offset := by
  have hfit : Ws.length ≤ max := by
    by_contra hlt
    have hf := XDR_struct_encoder_loop_fail v max hmax fields [] Ws [] d 0 0 ht rfl (by omega)
      (by omega)
    simp only [List.nil_append] at hf
    rcases hres with h | h
    · simp only [XDR_struct_encoder] at h
      omega
    · simp only [XDR_struct_encoder] at h
      omega
  have hok := XDR_struct_encoder_loop_ok v max hmax fields [] Ws [] d 0 0 ht rfl (by omega)
  simp only [List.nil_append, Nat.zero_add] at hok
  have henc : XDR_struct_encoder (some v) (some d) inc0 max ty (some fields)
      = ⟨0, Ws.length, some (Ws ++ d.drop Ws.length)⟩ := by
    simp only [XDR_struct_encoder, hok]
  rw [henc]
  refine ⟨rfl, hfit, ?_⟩
  obtain ⟨o1, h1, _, h3⟩ := XDR_struct_decoder_loop_ok v Ws Ws.length (by omega) fields [] Ws []
    o 0 ht (by simp) (by simp) (by omega)
  refine ⟨o1, ?_, h3⟩
  simp only [Option.getD_some, take_append_length _ _ _ rfl, XDR_struct_decoder, h1, Nat.zero_add]

/-! ## Claim C6: aggregate round trip -/

/-- C6: for every table of 32/64-bit integer scalar fields and counted integer-array
fields whose length field comes earlier in the table (`IntTableOK`), and every value
`v` of it with non-negative array lengths: whenever `XDR_struct_encoder` into a
non-null buffer succeeds (or the size it reports fits `max`), it returns 0 with
`used <= max`, and `XDR_struct_decoder` applied to exactly the `used` bytes it
produced, with `max = used`, returns 0, reports `*inc = used` and yields a struct
whose slot at every field's offset equals that of `v` (arrays element for element). -/
theorem C6_struct_int_roundtrip (P : Type) (v : Obj P) (fields : List (XDR_FieldDefinition P))
    (d : Buf) (o : Obj P) (inc0 inc1 max ty : Nat)
    (htab : IntTableOK v [] fields) (hmax : max < 18446744073709551616)
    (hres : (XDR_struct_encoder (some v) (some d) inc0 max ty (some fields)).res = 0
      ∨ (XDR_struct_encoder (some v) (some d) inc0 max ty (some fields)).used ≤ max) :
    (XDR_struct_encoder (some v) (some d) inc0 max ty (some fields)).res = 0
    ∧ (XDR_struct_encoder (some v) (some d) inc0 max ty (some fields)).used ≤ max
    ∧ ∃ v1 : Obj P,
        XDR_struct_decoder
          (((XDR_struct_encoder (some v) (some d) inc0 max ty (some fields)).dst.getD []).take
            (XDR_struct_encoder (some v) (some d) inc0 max ty (some fields)).used)
          (some o) inc1 (XDR_struct_encoder (some v) (some d) inc0 max ty (some fields)).used
          (some fields)
        = ⟨0, some v1, (XDR_struct_encoder (some v) (some d) inc0 max ty (some fields)).used⟩
      ∧ ∀ f ∈ fields, v1.get f.offset = v.get f.offset := by
  obtain ⟨Ws, ht⟩ := IntTableOK.tableSpec v fields [] htab
  refine struct_roundtrip_of_tableSpec v fields Ws ht d [] o inc0 inc1 max ty hmax ?_
  rcases hres with h | h
  · exact Or.inl (by rw [h]; decide)
  · exact Or.inr h

/-- The example value is a value of the example table. -/
theorem exampleIntTable_ok : IntTableOK exampleIntValue [] exampleIntTable :=
  ⟨Or.inl ⟨Or.inl rfl, 2, rfl, by decide⟩, by simp,
    Or.inr (Or.inr (Or.inl ⟨Or.inr rfl, by simp [exampleIntTable],
      [7, 9], rfl, rfl, by decide, by decide⟩)), by simp [exampleIntTable],
    Or.inr (Or.inl ⟨Or.inl rfl, 5, rfl, by decide⟩), by simp [exampleIntTable], trivial⟩

/-- Witness for C6 on the example table, the 20 encoded bytes and `max = 20`. -/
theorem C6_struct_int_roundtrip_witness :
    IntTableOK exampleIntValue [] exampleIntTable
    ∧ XDR_struct_encoder (some exampleIntValue) (some (List.replicate 24 0xAA)) 0 20 0
        (some exampleIntTable)
      = ⟨0, 20, some ([0, 0, 0, 2, 0, 0, 0, 7, 0, 0, 0, 9, 0, 0, 0, 0, 0, 0, 0, 5]
          ++ List.replicate 4 0xAA)⟩
    ∧ ∃ v1 : Obj Unit,
        XDR_struct_decoder [0, 0, 0, 2, 0, 0, 0, 7, 0, 0, 0, 9, 0, 0, 0, 0, 0, 0, 0, 5]
          (some []) 0 20 (some exampleIntTable) = ⟨0, some v1, 20⟩
        ∧ ∀ f ∈ exampleIntTable, v1.get f.offset = exampleIntValue.get f.offset :=
  ⟨exampleIntTable_ok, by decide,
    (C6_struct_int_roundtrip Unit exampleIntValue exampleIntTable (List.replicate 24 0xAA) [] 0 0
      20 0 exampleIntTable_ok (by decide) (Or.inl (by decide))).2.2⟩

/-! ## Unions -/

theorem rdUnion_union {P : Type} (t : Nat) (ht : t < 4294967296) (data : Option P) :
    (Cell.union t data).rdUnion = (t, data) := by
  simp only [Cell.rdUnion, Nat.mod_eq_of_lt ht]

/-- Evaluation of `XDR_encode_union` with a registered definition and room for the discriminant: the
discriminant, then whatever the definition's encoder does with the rest of the
buffer. -/
theorem XDR_encode_union_eval {P A : Type} (structHash : Option (HashTable P A)) (t : Nat)
    (data : Option P) (df : XDR_StructDefinition P A)
    (enc : Option P → Option Buf → Nat → Nat → Nat → A → EncResult)
    (d : Buf) (inc max : Nat) (l : Option (Cell P))
    (ht : t < 4294967296) (hdef : XDR_definition_for_type structHash t = some df)
    (henc : df.encoder = some enc) (hmax : 4 ≤ max) :
    XDR_encode_union structHash (some (Cell.union t data)) (some d) inc max l
      = ⟨if (enc data (some (d.drop 4)) 0 (sizeSub max 4) df.type df.arg).res < 0 then -1 else 0,
          4 + (enc data (some (d.drop 4)) 0 (sizeSub max 4) df.type df.arg).used,
          some (be32 t ++ (enc data (some (d.drop 4)) 0 (sizeSub max 4) df.type df.arg).dst.getD
            (d.drop 4))⟩ := by
  have hr : (Cell.word t : Cell P).rd32 = t := by simp only [Cell.rd32, Nat.mod_eq_of_lt ht]
  simp only [XDR_encode_union, Option.getD_some, rdUnion_union t ht, Option.map_some',
    XDR_encode_uint32_ok _ _ _ _ _ hmax, hr, hdef, henc, ge_iff_le, le_refl, if_true,
    drop4_be32_append, splice, take4_be32_append, Int.lt_irrefl, false_or]

theorem XDR_encode_union_small {P A : Type} (structHash : Option (HashTable P A)) (t : Nat)
    (data : Option P) (d : Buf) (inc max : Nat) (l : Option (Cell P)) (hmax : max < 4) :
    (XDR_encode_union structHash (some (Cell.union t data)) (some d) inc max l).res = -1 := by
  simp only [XDR_encode_union, Option.getD_some, Option.map_some',
    XDR_encode_uint32_fail _ _ _ _ _ hmax]
  split
  · rfl
  · split
    · rfl
    · simp

/-- Evaluation of `XDR_decode_union` on a discriminant with a registered definition whose allocator
succeeds: the discriminant is read, the payload is decoded from the rest. -/
theorem XDR_decode_union_eval {P A : Type} (structHash : Option (HashTable P A)) (t : Nat)
    (df : XDR_StructDefinition P A) (dec : Buf → Option P → Nat → Nat → A → DecResult P)
    (fresh : P) (rest : Buf) (slot : Cell P) (inc max : Nat) (l : Option (Cell P))
    (ht : t < 4294967296) (hdef : XDR_definition_for_type structHash t = some df)
    (hdec : df.decoder = some dec) (alloc : Nat → Option P)
    (ha : df.allocator = some alloc) (halloc : alloc df.in_memory_size = some fresh)
    (hmax : 4 ≤ max) :
    XDR_decode_union structHash (be32 t ++ rest) (some slot) inc max l
      = if (dec rest (some fresh) 0 (sizeSub max 4) df.arg).res < 0
        then ⟨-1, some (Cell.union t none), 4⟩
        else ⟨0, some (Cell.union t (dec rest (some fresh) 0 (sizeSub max 4) df.arg).dst),
          4 + (dec rest (some fresh) 0 (sizeSub max 4) df.arg).used⟩ := by
  have hr : (Cell.word t : Cell P).rd32 = t := by simp only [Cell.rd32, Nat.mod_eq_of_lt ht]
  simp only [XDR_decode_union, XDR_decode_uint32_ok t ht rest _ _ _ _ hmax, Option.map_some',
    Option.getD_some, hr, hdef, hdec, ha, halloc, Int.lt_irrefl, if_false, drop4_be32_append]

/-! ## Claims C7 and C8: unions -/

/-- C7: for every union whose `type` has a registered definition with an encoder, every
non-null buffer and every `max >= 4`, `XDR_encode_union` writes the four bytes of the
discriminant most significant first, hands the definition's encoder the payload, the
buffer from byte 4 on and `max - 4`, reports `*inc = 4 + ` the payload size, and
returns 0 unless the payload encoder failed. Discriminant 7 with a payload struct
holding the single `uint32_t` 0x11223344 encodes to 00 00 00 07 11 22 33 44. -/
theorem C7_union_encode (P A : Type) (structHash : Option (HashTable P A)) (t : Nat)
    (data : Option P) (df : XDR_StructDefinition P A)
    (enc : Option P → Option Buf → Nat → Nat → Nat → A → EncResult)
    (d : Buf) (inc max : Nat) (l : Option (Cell P))
    (ht : t < 4294967296) (hdef : XDR_definition_for_type structHash t = some df)
    (henc : df.encoder = some enc) (hmax : 4 ≤ max) (hsz : max < 18446744073709551616) :
    XDR_encode_union structHash (some (Cell.union t data)) (some d) inc max l
      = ⟨if (enc data (some (d.drop 4)) 0 (max - 4) df.type df.arg).res < 0 then -1 else 0,
          4 + (enc data (some (d.drop 4)) 0 (max - 4) df.type df.arg).used,
          some ([t / 16777216 % 256, t / 65536 % 256, t / 256 % 256, t % 256]
            ++ (enc data (some (d.drop 4)) 0 (max - 4) df.type df.arg).dst.getD (d.drop 4))⟩
    ∧ XDR_encode_union exampleRegistry (some (Cell.union 7 (some [(0, Cell.word 0x11223344)])))
        (some (List.replicate 8 0)) 0 8 none
      = ⟨0, 8, some [0x00, 0x00, 0x00, 0x07, 0x11, 0x22, 0x33, 0x44]⟩ := by
  constructor
  · rw [XDR_encode_union_eval structHash t data df enc d inc max l ht hdef henc hmax,
      sizeSub_eq _ _ hsz hmax]
    rfl
  · decide

/-- Witness for C7: the example registry, discriminant 7, a 9-byte buffer, `max = 8`. -/
theorem C7_union_encode_witness :
    (4 : Nat) ≤ 8
    ∧ XDR_encode_union exampleRegistry (some (Cell.union 7 (some [(0, Cell.word 0x11223344)])))
        (some (List.replicate 9 0xAA)) 0 8 none
      = ⟨0, 8, some [0x00, 0x00, 0x00, 0x07, 0x11, 0x22, 0x33, 0x44, 0xAA]⟩ :=
  ⟨by decide, by
    have h := (C7_union_encode (Obj Unit) (Option (List (XDR_FieldDefinition Unit)))
      exampleRegistry 7 (some [(0, Cell.word 0x11223344)])
      { type := 7, in_memory_size := 4,
        encoder := some XDR_struct_encoder, decoder := some XDR_struct_decoder,
        allocator := some XDR_malloc_allocator, deallocator := some XDR_free_deallocator,
        arg := some exampleWordTable }
      XDR_struct_encoder (List.replicate 9 0xAA) 0 8 none (by decide) rfl rfl (by decide)
      (by decide)).1
    rw [h]
    decide⟩

/-- C8: let type `t` be registered with an encoder, a decoder and an allocator that
returns a fresh payload, and let the definition's encoder/decoder pair round-trip the
payload `p` up to the relation `R` (decoding exactly the bytes a non-failing encode of
`p` produced yields a payload related to `p` and consumes all of them). Then for the
union `(t, p)`: `XDR_decode_union` applied to exactly the bytes a successful
`XDR_encode_union` produced returns 0, yields a union with the same `type` and a
payload related to `p`, and reports `*inc` equal to the number of bytes encoded. -/
theorem C8_union_roundtrip (P A : Type) (R : P → P → Prop)
    (structHash : Option (HashTable P A)) (t : Nat) (p fresh : P)
    (df : XDR_StructDefinition P A)
    (enc : Option P → Option Buf → Nat → Nat → Nat → A → EncResult)
    (dec : Buf → Option P → Nat → Nat → A → DecResult P)
    (d : Buf) (slot : Cell P) (inc inc1 max : Nat) (l l1 : Option (Cell P))
    (ht : t < 4294967296) (hdef : XDR_definition_for_type structHash t = some df)
    (henc : df.encoder = some enc) (hdec : df.decoder = some dec)
    (alloc : Nat → Option P) (ha : df.allocator = some alloc)
    (halloc : alloc df.in_memory_size = some fresh)
    (hmax : max < 18446744073709551616)
    (hrt : ∀ (buf : Buf) (m : Nat), m < 18446744073709551616 →
      ¬ (enc (some p) (some buf) 0 m df.type df.arg).res < 0 →
      ∃ p1 : P,
        dec (((enc (some p) (some buf) 0 m df.type df.arg).dst.getD buf).take
              (enc (some p) (some buf) 0 m df.type df.arg).used)
            (some fresh) 0 (enc (some p) (some buf) 0 m df.type df.arg).used df.arg
          = ⟨0, some p1, (enc (some p) (some buf) 0 m df.type df.arg).used⟩
        ∧ R p1 p)
    (hE : (XDR_encode_union structHash (some (Cell.union t (some p))) (some d) inc max l).res = 0)
    (hsz : (XDR_encode_union structHash (some (Cell.union t (some p))) (some d) inc max l).used
      < 18446744073709551616) :
    ∃ p1 : P,
      XDR_decode_union structHash
          (((XDR_encode_union structHash (some (Cell.union t (some p))) (some d) inc max l).dst.getD
            []).take
            (XDR_encode_union structHash (some (Cell.union t (some p))) (some d) inc max l).used)
          (some slot) inc1
          (XDR_encode_union structHash (some (Cell.union t (some p))) (some d) inc max l).used l1
        = ⟨0, some (Cell.union t (some p1)),
            (XDR_encode_union structHash (some (Cell.union t (some p))) (some d) inc max l).used⟩
      ∧ R p1 p := by
  have h4 : 4 ≤ max := by
    by_contra hlt
    rw [XDR_encode_union_small structHash t (some p) d inc max l (by omega)] at hE
    exact absurd hE (by decide)
  rw [XDR_encode_union_eval structHash t (some p) df enc d inc max l ht hdef henc h4] at hE hsz ⊢
  have hs : sizeSub max 4 < 18446744073709551616 := by
    rw [sizeSub_eq _ _ hmax h4]; omega
  have hnf : ¬ (enc (some p) (some (d.drop 4)) 0 (sizeSub max 4) df.type df.arg).res < 0 := by
    intro hneg
    simp only [hneg, if_true] at hE
    exact absurd hE (by decide)
  obtain ⟨p1, hp1, hR⟩ := hrt (d.drop 4) (sizeSub max 4) hs hnf
  refine ⟨p1, ?_, hR⟩
  simp only [Option.getD_some] at hsz ⊢
  have htake : ∀ (n : Nat) (tl : Buf), (be32 t ++ tl).take (4 + n) = be32 t ++ tl.take n := by
    intro n tl
    have := @List.take_append _ (be32 t) tl n
    rw [be32_length] at this
    exact this
  rw [htake]
  rw [XDR_decode_union_eval structHash t df dec fresh _ slot inc1 _ l1 ht hdef hdec alloc ha
    halloc (by omega)]
  have hsub : sizeSub (4 + (enc (some p) (some (d.drop 4)) 0 (sizeSub max 4) df.type df.arg).used) 4
      = (enc (some p) (some (d.drop 4)) 0 (sizeSub max 4) df.type df.arg).used := by
    rw [sizeSub_eq _ _ hsz (by omega)]; omega
  rw [hsub, hp1]
  simp

/-- The struct holding 0x11223344 is a value of `exampleWordTable`. -/
theorem exampleWordTable_ok :
    IntTableOK ([(0, Cell.word 0x11223344)] : Obj Unit) [] exampleWordTable :=
  ⟨Or.inl ⟨Or.inr rfl, 0x11223344, rfl, by decide⟩, by simp, trivial⟩

/-- Witness for C8: the example registry, discriminant 7, payload 0x11223344, the 8
encoded bytes; payloads are compared field by field. -/
theorem C8_union_roundtrip_witness :
    (XDR_encode_union exampleRegistry (some (Cell.union 7 (some [(0, Cell.word 0x11223344)])))
        (some (List.replicate 8 0)) 0 8 none).res = 0
    ∧ ∃ p1 : Obj Unit,
      XDR_decode_union exampleRegistry [0x00, 0x00, 0x00, 0x07, 0x11, 0x22, 0x33, 0x44]
          (some (Cell.word 0)) 0 8 none = ⟨0, some (Cell.union 7 (some p1)), 8⟩
      ∧ ∀ f ∈ exampleWordTable,
          p1.get f.offset = Obj.get [(0, Cell.word 0x11223344)] f.offset :=
  ⟨by decide,
    C8_union_roundtrip (Obj Unit) (Option (List (XDR_FieldDefinition Unit)))
      (fun p1 p => ∀ f ∈ exampleWordTable, p1.get f.offset = p.get f.offset)
      exampleRegistry 7 [(0, Cell.word 0x11223344)] []
      { type := 7, in_memory_size := 4,
        encoder := some XDR_struct_encoder, decoder := some XDR_struct_decoder,
        allocator := some XDR_malloc_allocator, deallocator := some XDR_free_deallocator,
        arg := some exampleWordTable }
      XDR_struct_encoder XDR_struct_decoder (List.replicate 8 0) (Cell.word 0) 0 0 8 none none
      (by decide) rfl rfl rfl XDR_malloc_allocator rfl rfl (by decide)
      (fun buf m hm hnf => by
        obtain ⟨Ws, hW⟩ := IntTableOK.tableSpec _ _ _ exampleWordTable_ok
        exact (struct_roundtrip_of_tableSpec _ exampleWordTable Ws hW buf buf [] 0 0 m 7 hm
          (Or.inl hnf)).2.2)
      (by decide) (by decide)⟩

/-! ## Bit-packed structs -/

theorem maskBits_eq (n : Nat) (hn : n ≤ 31) : maskBits n = 2 ^ n - 1 := by
  interval_cases n <;> rfl

theorem and_maskBits (x n : Nat) (hn : n ≤ 31) : x &&& maskBits n = x % 2 ^ n := by
  rw [maskBits_eq n hn, Nat.and_pow_two_sub_one_eq_mod]

theorem load32_hostBytes32 (x : Nat) (hx : x < 4294967296) (rest : Buf) :
    load32 (hostBytes32 x ++ rest) = x := by
  simp only [load32, hostBytes32, List.cons_append, List.nil_append, List.getD_cons_zero,
    List.getD_cons_succ, Nat.mod_mod]
  omega

theorem mod_two_pow_lt32 (x n : Nat) (hn : n ≤ 31) : x % 2 ^ n < 4294967296 := by
  have h1 : x % 2 ^ n < 2 ^ n := Nat.mod_lt _ (Nat.two_pow_pos _)
  have h2 : 2 ^ n ≤ 2 ^ 31 := Nat.pow_le_pow_right (by decide) hn
  have h3 : (2 : Nat) ^ 31 = 2147483648 := by norm_num
  omega

/-- The value a bit-field encoder leaves in `tmp`, after the aggregate's own masking. -/
theorem XDR_encodebf_uint32_tmp {P : Type} (c : Cell P) (w : Nat) (hw : w ≤ 31) :
    load32 ((XDR_encodebf_uint32 (some c) (some (hostBytes32 0)) 0 w none).dst.getD
        (hostBytes32 0)) &&& maskBits w = c.rd32 % 2 ^ w := by
  have h1 := mod_two_pow_lt32 c.rd32 w hw
  simp only [XDR_encodebf_uint32, Option.getD_some, Option.map_some', and_maskBits _ _ hw, memcpy]
  rw [load32_hostBytes32 _ h1, Nat.mod_mod]

/-- The contribution of one field to the packed word. -/
theorem shl32_field (t s w : Nat) (ht : t < 2 ^ w) (hsw : s + w ≤ 32) :
    shl32 t s = t * 2 ^ s := by
  unfold shl32
  by_cases hs : s < 32
  · rw [Nat.mod_eq_of_lt hs]
    apply Nat.mod_eq_of_lt
    calc t * 2 ^ s < 2 ^ w * 2 ^ s := Nat.mul_lt_mul_of_pos_right ht (Nat.two_pow_pos _)
      _ = 2 ^ (w + s) := (Nat.pow_add 2 w s).symm
      _ ≤ 2 ^ 32 := Nat.pow_le_pow_right (by decide) (by omega)
  · have hw0 : w = 0 := by omega
    subst hw0
    have : t = 0 := by simpa using ht
    subst this
    simp

theorem testBit_field (x s w i : Nat) :
    ((x % 2 ^ w) * 2 ^ s).testBit i
      = (decide (s ≤ i) && (decide (i - s < w) && x.testBit (i - s))) := by
  rw [Nat.mul_comm, Nat.testBit_mul_pow_two, Nat.testBit_mod_two_pow]

/-- Bits of the word the `XDR_bitfield_struct_encoder` loop builds. -/
theorem XDR_bitfield_struct_encoder_loop_testBit {P : Type} (v : Obj P)
    (fs : List (XDR_FieldDefinition P))
    (hk : ∀ f ∈ fs, (f.funcs = xdr_uint32_bitfield_functions
      ∨ f.funcs = xdr_int32_bitfield_functions) ∧ f.struct_id + f.len_offset ≤ 32)
    (hw : ∀ f ∈ fs, f.len_offset ≤ 31) (val i : Nat) :
    (XDR_bitfield_struct_encoder_loop (some v) fs val).testBit i
      = (val.testBit i || fs.any (fun f => decide (f.struct_id ≤ i)
          && (decide (i - f.struct_id < f.len_offset)
            && (v.get f.offset).rd32.testBit (i - f.struct_id)))) := by
  induction fs generalizing val with
  | nil => simp [XDR_bitfield_struct_encoder_loop]
  | cons f rest ih =>
    have hf := hk f (by simp)
    have hwf := hw f (by simp)
    have henc : f.funcs.encoder = XDR_encodebf_uint32 := by
      rcases hf.1 with h | h <;> rw [h] <;> rfl
    have htmp := XDR_encodebf_uint32_tmp (v.get f.offset) f.len_offset hwf
    have hlt : (v.get f.offset).rd32 % 2 ^ f.len_offset < 2 ^ f.len_offset :=
      Nat.mod_lt _ (Nat.two_pow_pos _)
    simp only [XDR_bitfield_struct_encoder_loop, henc, fieldPtr, Option.map_some', htmp,
      shl32_field _ _ _ hlt hf.2]
    rw [ih (fun g hg => hk g (by simp [hg])) (fun g hg => hw g (by simp [hg]))]
    simp only [Nat.testBit_or, testBit_field, List.any_cons, Bool.or_assoc]

theorem BitDisjoint.symm {P : Type} : Symmetric (BitDisjoint (P := P)) := by
  intro f g h
  rcases h with h | h
  · exact Or.inr h
  · exact Or.inl h

/-- The word packed from a bit-packed table: it fits 32 bits, the range of every field
holds that field's value modulo `2^width`, every bit outside the ranges is 0. -/
theorem bitfield_word {P : Type} (v : Obj P) (fs : List (XDR_FieldDefinition P))
    (htab : BitTableOK fs) (hw : ∀ f ∈ fs, f.len_offset ≤ 31) :
    XDR_bitfield_struct_encoder_loop (some v) fs 0 < 4294967296
    ∧ (∀ f ∈ fs, (XDR_bitfield_struct_encoder_loop (some v) fs 0 / 2 ^ f.struct_id)
        % 2 ^ f.len_offset = (v.get f.offset).rd32 % 2 ^ f.len_offset)
    ∧ (∀ i, (∀ f ∈ fs, ¬ (f.struct_id ≤ i ∧ i < f.struct_id + f.len_offset)) →
        (XDR_bitfield_struct_encoder_loop (some v) fs 0).testBit i = false) := by
  obtain ⟨hk, hpw⟩ := htab
  have hbit := XDR_bitfield_struct_encoder_loop_testBit v fs hk hw 0
  have hzero : ∀ i, (∀ f ∈ fs, ¬ (f.struct_id ≤ i ∧ i < f.struct_id + f.len_offset)) →
      (XDR_bitfield_struct_encoder_loop (some v) fs 0).testBit i = false := by
    intro i hi
    rw [hbit i, Nat.zero_testBit, Bool.false_or]
    rw [Bool.eq_false_iff]
    intro hany
    obtain ⟨g, hg, hgb⟩ := List.any_eq_true.mp hany
    simp only [Bool.and_eq_true, decide_eq_true_eq] at hgb
    exact hi g hg ⟨hgb.1, by omega⟩
  refine ⟨?_, ?_, hzero⟩
  · have := Nat.lt_pow_two_of_testBit (n := 32) (XDR_bitfield_struct_encoder_loop (some v) fs 0)
      (fun i hi => hzero i (fun f hf hc => by have := (hk f hf).2; omega))
    simpa using this
  · intro f hf
    apply Nat.eq_of_testBit_eq
    intro j
    rw [Nat.testBit_mod_two_pow, Nat.testBit_mod_two_pow, ← Nat.shiftRight_eq_div_pow,
      Nat.testBit_shiftRight, hbit, Nat.zero_testBit, Bool.false_or]
    by_cases hj : j < f.len_offset
    · simp only [hj, decide_True, Bool.true_and]
      rw [Bool.eq_iff_iff]
      constructor
      · intro hany
        obtain ⟨g, hg, hgb⟩ := List.any_eq_true.mp hany
        simp only [Bool.and_eq_true, decide_eq_true_eq] at hgb
        by_cases hfg : f = g
        · subst hfg
          have : f.struct_id + j - f.struct_id = j := by omega
          rw [this] at hgb
          exact hgb.2.2
        · have hd := hpw.forall BitDisjoint.symm hf hg hfg
          rcases hd with hd | hd
          · omega
          · omega
      · intro hb
        apply List.any_eq_true.mpr
        refine ⟨f, hf, ?_⟩
        have : f.struct_id + j - f.struct_id = j := by omega
        simp only [Bool.and_eq_true, decide_eq_true_eq, this]
        exact ⟨by omega, hj, hb⟩
    · simp only [hj, decide_False, Bool.false_and]

/-- Evaluation: `XDR_bitfield_struct_encoder` emits the packed word as one big-endian word. -/
theorem XDR_bitfield_struct_encoder_eval {P : Type} (v : Obj P)
    (fs : List (XDR_FieldDefinition P)) (d : Buf) (inc max ty : Nat)
    (hW : XDR_bitfield_struct_encoder_loop (some v) fs 0 < 4294967296) (hmax : 4 ≤ max) :
    XDR_bitfield_struct_encoder (some v) (some d) inc max ty (some fs)
      = ⟨0, 4, some (be32 (XDR_bitfield_struct_encoder_loop (some v) fs 0) ++ d.drop 4)⟩ := by
  simp only [XDR_bitfield_struct_encoder, XDR_encode_uint32_ok _ _ _ _ _ hmax, Cell.rd32,
    Nat.mod_eq_of_lt hW]

/-- The `XDR_bitfield_struct_decoder` loop over a word whose ranges hold the fields of
`v` stores every field of `v`. -/
theorem XDR_bitfield_struct_decoder_loop_ok {P : Type} (v : Obj P) (W : Nat)
    (hW : W < 4294967296) (fs : List (XDR_FieldDefinition P)) (o : Obj P)
    (hu : ∀ f ∈ fs, f.funcs = xdr_uint32_bitfield_functions)
    (hr : ∀ f ∈ fs, f.struct_id + f.len_offset ≤ 32)
    (hw : ∀ f ∈ fs, f.len_offset ≤ 31)
    (hv : ∀ f ∈ fs, ∃ x, v.get f.offset = Cell.word x ∧ x < 2 ^ f.len_offset)
    (hbits : ∀ f ∈ fs, (W / 2 ^ f.struct_id) % 2 ^ f.len_offset
      = (v.get f.offset).rd32 % 2 ^ f.len_offset) :
    ∃ o1 : Obj P, XDR_bitfield_struct_decoder_loop W fs (some o) = (some o1, true)
      ∧ (∀ f ∈ fs, o1.get f.offset = v.get f.offset)
      ∧ (∀ k, (∀ f ∈ fs, f.offset ≠ k) → o1.get k = o.get k) := by
  induction fs generalizing o with
  | nil => exact ⟨o, rfl, by simp, fun _ _ => rfl⟩
  | cons f rest ih =>
    obtain ⟨x, hx, hxlt⟩ := hv f (by simp)
    have hwf := hw f (by simp)
    have hrf := hr f (by simp)
    have hdec : f.funcs.decoder = XDR_decodebf_uint32 := by rw [hu f (by simp)]; rfl
    have hx32 : x < 4294967296 := by
      have h2 : 2 ^ f.len_offset ≤ 2 ^ 31 := Nat.pow_le_pow_right (by decide) hwf
      have h3 : (2 : Nat) ^ 31 = 2147483648 := by norm_num
      omega
    have hb := hbits f (by simp)
    rw [hx] at hb
    simp only [Cell.rd32, Nat.mod_eq_of_lt hx32, Nat.mod_eq_of_lt hxlt] at hb
    have htmp : shr32 W f.struct_id &&& maskBits f.len_offset = x := by
      rw [and_maskBits _ _ hwf]
      unfold shr32
      rw [Nat.mod_eq_of_lt hW]
      by_cases hs : f.struct_id < 32
      · rw [Nat.mod_eq_of_lt hs]; exact hb
      · have hw0 : f.len_offset = 0 := by omega
        rw [hw0] at hxlt ⊢
        simp at hxlt ⊢
        omega
    have hload : load32 (hostBytes32 x) &&& maskBits f.len_offset = x := by
      have := load32_hostBytes32 x hx32 []
      rw [List.append_nil] at this
      rw [this, and_maskBits _ _ hwf, Nat.mod_eq_of_lt hxlt]
    obtain ⟨o1, h1, h2, h3⟩ := ih (o.set f.offset (Cell.word x))
      (fun g hg => hu g (by simp [hg])) (fun g hg => hr g (by simp [hg]))
      (fun g hg => hw g (by simp [hg])) (fun g hg => hv g (by simp [hg]))
      (fun g hg => hbits g (by simp [hg]))
    refine ⟨o1, ?_, ?_, ?_⟩
    · simp only [XDR_bitfield_struct_decoder_loop, hdec, htmp, XDR_decodebf_uint32, fieldPtr,
        Option.map_some', hload, fieldStore, Int.lt_irrefl, if_false, h1]
    · intro g hg
      rcases List.mem_cons.mp hg with hg | hg
      · subst hg
        by_cases hex : ∃ g2 ∈ rest, g2.offset = g.offset
        · obtain ⟨g2, hg2, he⟩ := hex
          rw [← he]; exact h2 g2 hg2
        · have hne : ∀ g2 ∈ rest, g2.offset ≠ g.offset := fun g2 hg2 he => hex ⟨g2, hg2, he⟩
          rw [h3 _ hne, Obj.get_set_same, hx]
      · exact h2 g hg
    · intro k hk
      rw [h3 k (fun g hg => hk g (by simp [hg])),
        Obj.get_set_other _ _ _ _ (fun e => hk f (by simp) e.symm)]


/-! ## Claims C9 and C10: bit-packed structs -/

/-- The S4 table is a bit-packed table. -/
theorem exampleBitTable_ok : BitTableOK exampleBitTable := by
  refine ⟨?_, ?_⟩
  · intro f hf
    simp only [exampleBitTable, List.mem_cons, List.mem_singleton, List.not_mem_nil,
      or_false] at hf
    rcases hf with rfl | rfl
    · exact ⟨Or.inl rfl, by decide⟩
    · exact ⟨Or.inl rfl, by decide⟩
  · simp only [exampleBitTable, List.pairwise_cons, List.mem_singleton, forall_eq,
      List.not_mem_nil, false_implies, implies_true, List.Pairwise.nil, and_true]
    exact Or.inl (by decide)

/-- The single-field table of width 32 is a bit-packed table. -/
theorem exampleWideBitTable_ok : BitTableOK exampleWideBitTable := by
  refine ⟨?_, List.pairwise_singleton _ _⟩
  intro f hf
  simp only [exampleWideBitTable, List.mem_singleton] at hf
  subst hf
  exact ⟨Or.inl rfl, by decide⟩

/-- C9 (the code at the failing input, and what it does elsewhere). For every bit-packed
table whose fields occupy pairwise disjoint bit ranges inside the 32-bit word and have
width at most 31, however many fields it has, `XDR_bitfield_struct_encoder` into a
non-null buffer with `max >= 4` returns 0, reports `*inc = 4` and emits one big-endian
word `W` whose bits `[shift, shift+width)` hold the field's value modulo `2^width` and
whose other bits are 0; fields (0,4) = 0xA and (4,4) = 0x3 give 00 00 00 3A. For the
table with the single field (shift 0, width 32) holding 0xDEADBEEF the emitted word is
00 00 00 00: the mask `(1 << 32) - 1` is 0. -/
theorem C9_bitfield_encode (P : Type) (v : Obj P) (fields : List (XDR_FieldDefinition P))
    (d : Buf) (inc max ty : Nat) (htab : BitTableOK fields)
    (hw : ∀ f ∈ fields, f.len_offset ≤ 31) (hmax : 4 ≤ max) :
    (∃ W : Nat, W < 4294967296
      ∧ XDR_bitfield_struct_encoder (some v) (some d) inc max ty (some fields)
          = ⟨0, 4, some ([W / 16777216 % 256, W / 65536 % 256, W / 256 % 256, W % 256]
              ++ d.drop 4)⟩
      ∧ (∀ f ∈ fields, (W / 2 ^ f.struct_id) % 2 ^ f.len_offset
          = (v.get f.offset).rd32 % 2 ^ f.len_offset)
      ∧ (∀ i, (∀ f ∈ fields, ¬ (f.struct_id ≤ i ∧ i < f.struct_id + f.len_offset)) →
          W.testBit i = false))
    ∧ XDR_bitfield_struct_encoder (some exampleBitValue)
        (some [0xAA, 0xAA, 0xAA, 0xAA]) 0 4 0 (some exampleBitTable)
      = ⟨0, 4, some [0x00, 0x00, 0x00, 0x3A]⟩
    ∧ BitTableOK exampleWideBitTable
    ∧ XDR_bitfield_struct_encoder (some exampleWideBitValue)
        (some [0xAA, 0xAA, 0xAA, 0xAA]) 0 4 0 (some exampleWideBitTable)
      = ⟨0, 4, some [0x00, 0x00, 0x00, 0x00]⟩ := by
  obtain ⟨hW, hf, hz⟩ := bitfield_word v fields htab hw
  refine ⟨⟨_, hW, ?_, hf, hz⟩, by decide, exampleWideBitTable_ok, by decide⟩
  rw [XDR_bitfield_struct_encoder_eval v fields d inc max ty hW hmax]
  rfl

/-- Witness for C9 on the S4 table with the values 0xA and 0x3. -/
theorem C9_bitfield_encode_witness :
    BitTableOK exampleBitTable ∧ (∀ f ∈ exampleBitTable, f.len_offset ≤ 31)
    ∧ ∃ W : Nat, W < 4294967296
      ∧ XDR_bitfield_struct_encoder (some exampleBitValue)
          (some [9, 9, 9, 9, 9]) 0 4 0 (some exampleBitTable)
          = ⟨0, 4, some ([W / 16777216 % 256, W / 65536 % 256, W / 256 % 256, W % 256]
              ++ [9])⟩
      ∧ (∀ f ∈ exampleBitTable, (W / 2 ^ f.struct_id) % 2 ^ f.len_offset
          = (exampleBitValue.get f.offset).rd32
            % 2 ^ f.len_offset)
      ∧ (∀ i, (∀ f ∈ exampleBitTable, ¬ (f.struct_id ≤ i ∧ i < f.struct_id + f.len_offset)) →
          W.testBit i = false) :=
  have hwid : ∀ f ∈ exampleBitTable, f.len_offset ≤ 31 := by
    intro f hf
    simp only [exampleBitTable, List.mem_cons, List.mem_singleton, List.not_mem_nil,
      or_false] at hf
    rcases hf with rfl | rfl <;> decide
  ⟨exampleBitTable_ok, hwid,
    (C9_bitfield_encode Unit exampleBitValue exampleBitTable
      [9, 9, 9, 9, 9] 0 4 0 exampleBitTable_ok hwid (by decide)).1⟩

/-- C10 (the code at the failing input, and what it does elsewhere). For every bit-packed
struct of unsigned fields with pairwise disjoint bit ranges inside the word, widths at
most 31 and values `v_i < 2^width_i`: `XDR_bitfield_struct_decoder` applied to the four
bytes `XDR_bitfield_struct_encoder` produced returns 0, consumes 4 bytes and stores every
`v_i`. For the single field (shift 0, width 32) holding 0xDEADBEEF the encoder emits
00 00 00 00 and the decoder stores 0. -/
theorem C10_bitfield_roundtrip (P : Type) (v o : Obj P) (fields : List (XDR_FieldDefinition P))
    (d : Buf) (inc inc1 max max1 ty : Nat) (htab : BitTableOK fields)
    (hu : ∀ f ∈ fields, f.funcs = xdr_uint32_bitfield_functions)
    (hw : ∀ f ∈ fields, f.len_offset ≤ 31)
    (hv : ∀ f ∈ fields, ∃ x, v.get f.offset = Cell.word x ∧ x < 2 ^ f.len_offset)
    (hmax : 4 ≤ max) (hmax1 : 4 ≤ max1) :
    (∃ v1 : Obj P,
      XDR_bitfield_struct_decoder
          (((XDR_bitfield_struct_encoder (some v) (some d) inc max ty (some fields)).dst.getD
            []).take 4) (some o) inc1 max1 (some fields)
        = ⟨0, some v1, 4⟩
      ∧ ∀ f ∈ fields, v1.get f.offset = v.get f.offset)
    ∧ XDR_bitfield_struct_decoder
        (((XDR_bitfield_struct_encoder (some exampleWideBitValue)
          (some [0xAA, 0xAA, 0xAA, 0xAA]) 0 4 0 (some exampleWideBitTable)).dst.getD []).take 4)
        (some []) 0 4 (some exampleWideBitTable)
      = ⟨0, some [(0, Cell.word 0)], 4⟩ := by
  obtain ⟨hW, hf, _⟩ := bitfield_word v fields htab hw
  refine ⟨?_, by decide⟩
  obtain ⟨o1, h1, h2, _⟩ := XDR_bitfield_struct_decoder_loop_ok v _ hW fields o hu
    (fun f hf => (htab.1 f hf).2) hw hv hf
  refine ⟨o1, ?_, h2⟩
  rw [XDR_bitfield_struct_encoder_eval v fields d inc max ty hW hmax]
  simp only [Option.getD_some, take4_be32_append]
  have hd := XDR_decode_uint32_ok (P := P) _ hW [] (some (Cell.word 0)) inc1 max1 none hmax1
  rw [List.append_nil] at hd
  simp only [XDR_bitfield_struct_decoder, hd, Int.lt_irrefl, if_false, Option.map_some',
    Option.getD_some, Cell.rd32, Nat.mod_eq_of_lt hW, h1]

/-- Witness for C10 on the S4 table with the values 0xA and 0x3. -/
theorem C10_bitfield_roundtrip_witness :
    BitTableOK exampleBitTable
    ∧ ∃ v1 : Obj Unit,
      XDR_bitfield_struct_decoder [0x00, 0x00, 0x00, 0x3A] (some []) 0 4 (some exampleBitTable)
        = ⟨0, some v1, 4⟩
      ∧ ∀ f ∈ exampleBitTable,
          v1.get f.offset = exampleBitValue.get f.offset :=
  have hwid : ∀ f ∈ exampleBitTable, f.len_offset ≤ 31 := by
    intro f hf
    simp only [exampleBitTable, List.mem_cons, List.mem_singleton, List.not_mem_nil,
      or_false] at hf
    rcases hf with rfl | rfl <;> decide
  have hun : ∀ f ∈ exampleBitTable, f.funcs = xdr_uint32_bitfield_functions := by
    intro f hf
    simp only [exampleBitTable, List.mem_cons, List.mem_singleton, List.not_mem_nil,
      or_false] at hf
    rcases hf with rfl | rfl <;> rfl
  have hval : ∀ f ∈ exampleBitTable, ∃ x,
      exampleBitValue.get f.offset = Cell.word x
        ∧ x < 2 ^ f.len_offset := by
    intro f hf
    simp only [exampleBitTable, List.mem_cons, List.mem_singleton, List.not_mem_nil,
      or_false] at hf
    rcases hf with rfl | rfl
    · exact ⟨0xA, rfl, by decide⟩
    · exact ⟨0x3, rfl, by decide⟩
  ⟨exampleBitTable_ok,
    (C10_bitfield_roundtrip Unit exampleBitValue [] exampleBitTable
      [0xAA, 0xAA, 0xAA, 0xAA] 0 0 4 4 0 exampleBitTable_ok hun hwid hval (by decide)
      (by decide)).1⟩

/-! ## Signed bit-fields -/


theorem shl32_one (n : Nat) (hn : n ≤ 31) : shl32 1 n = 2 ^ n := by
  interval_cases n <;> rfl

theorem signBit_eq (w : Nat) (hw1 : 1 ≤ w) (hw : w ≤ 31) :
    toU32 (toI32 (shl32 1 (sizeSub w 1))) = 2 ^ (w - 1) := by
  interval_cases w <;> rfl

theorem and_two_pow_ne_zero (x i : Nat) : (2 ^ i &&& x ≠ 0) ↔ x.testBit i = true := by
  rw [Nat.and_comm, Nat.and_two_pow]
  cases h : x.testBit i
  · simp
  · simp

/-- The register left by the bit-field encoder for a signed value that fits in `w` bits. -/
theorem toU32_mod_two_pow (w : Nat) (v : Int) (hw1 : 1 ≤ w) (hw : w ≤ 31)
    (hlo : -(2 : Int) ^ (w - 1) ≤ v) (hhi : v < (2 : Int) ^ (w - 1)) :
    ((toU32 v % 2 ^ w : Nat) : Int) = if v < 0 then (2 : Int) ^ w + v else v := by
  interval_cases w <;> simp only [toU32] <;> norm_num at hlo hhi ⊢ <;> split <;> omega


theorem signFill_or (w r : Nat) (hw : w ≤ 31) (hr : r < 2 ^ w) :
    (4294967295 &&& (4294967295 - maskBits w)) ||| (r &&& maskBits w)
      = 4294967296 - 2 ^ w + r := by
  have h1 : (4294967295 : Nat) = 2 ^ 32 - 1 := by norm_num
  have h2 : (2 : Nat) ^ w ≤ 2 ^ 31 := Nat.pow_le_pow_right (by decide) hw
  have h3 : (2 : Nat) ^ 31 = 2147483648 := by norm_num
  have h4 : 0 < 2 ^ w := Nat.two_pow_pos w
  rw [and_maskBits _ _ hw, Nat.mod_eq_of_lt hr, maskBits_eq _ hw, Nat.and_comm, h1,
    Nat.and_pow_two_sub_one_eq_mod]
  have h5 : (2 ^ 32 - 1 - (2 ^ w - 1)) % 2 ^ 32 = 2 ^ w * (2 ^ (32 - w) - 1) := by
    have h6 : (2 : Nat) ^ 32 = 2 ^ w * 2 ^ (32 - w) := by
      rw [← pow_add]; congr 1; omega
    rw [Nat.mul_sub, ← h6, Nat.mul_one, Nat.mod_eq_of_lt (by omega)]
    omega
  rw [h5, ← Nat.mul_add_lt_is_or hr]
  have h6 : (2 : Nat) ^ 32 = 2 ^ w * 2 ^ (32 - w) := by
    rw [← pow_add]; congr 1; omega
  rw [Nat.mul_sub, ← h6, Nat.mul_one]
  norm_num

theorem zero_or_mask (w r : Nat) (hw : w ≤ 31) (hr : r < 2 ^ w) :
    0 ||| (r &&& maskBits w) = r := by
  rw [and_maskBits _ _ hw, Nat.mod_eq_of_lt hr, Nat.zero_or]


theorem testBit_register (w : Nat) (v : Int) (hw1 : 1 ≤ w) (hw : w ≤ 31)
    (hlo : -(2 : Int) ^ (w - 1) ≤ v) (hhi : v < (2 : Int) ^ (w - 1)) :
    (toU32 v % 2 ^ w).testBit (w - 1) = decide (v < 0) := by
  rw [Nat.testBit_to_div_mod, decide_eq_decide]
  interval_cases w <;> simp only [toU32] <;> norm_num at hlo hhi ⊢ <;> omega

theorem signExtend_register (w : Nat) (v : Int) (hw1 : 1 ≤ w) (hw : w ≤ 31)
    (hlo : -(2 : Int) ^ (w - 1) ≤ v) (hhi : v < (2 : Int) ^ (w - 1)) :
    (if v < 0 then 4294967296 - 2 ^ w + toU32 v % 2 ^ w else toU32 v % 2 ^ w) = toU32 v := by
  interval_cases w <;> simp only [toU32] <;> norm_num at hlo hhi ⊢ <;> split <;> omega


/-- Evaluation of `XDR_decodebf_int32` on the register left by `XDR_encodebf_uint32` for
a signed value that fits in `w` bits. -/
theorem XDR_decodebf_int32_register {P : Type} (w : Nat) (v : Int) (rest : Buf)
    (c0 : Cell P) (inc : Nat) (hw1 : 1 ≤ w) (hw : w ≤ 31)
    (hlo : -(2 : Int) ^ (w - 1) ≤ v) (hhi : v < (2 : Int) ^ (w - 1)) :
    XDR_decodebf_int32 (hostBytes32 (toU32 v % 2 ^ w) ++ rest) (some c0) inc w none
      = ⟨0, some (Cell.word (toU32 v)), inc⟩ := by
  have hr : toU32 v % 2 ^ w < 2 ^ w := Nat.mod_lt _ (Nat.two_pow_pos _)
  have h1 := mod_two_pow_lt32 (toU32 v) w hw
  have h2 := testBit_register w v hw1 hw hlo hhi
  have h3 := signExtend_register w v hw1 hw hlo hhi
  unfold XDR_decodebf_int32
  simp only [load32_hostBytes32 _ h1, signBit_eq w hw1 hw, and_two_pow_ne_zero, h2,
    decide_eq_true_eq, Option.map_some']
  by_cases hv : v < 0
  · rw [if_pos hv] at h3 ⊢
    rw [signFill_or w _ hw hr, h3]
  · rw [if_neg hv] at h3 ⊢
    rw [zero_or_mask w _ hw hr, h3]

/-- C11: for 1 <= w <= 31 and a signed v in [-2^(w-1), 2^(w-1)), the encoder of
`xdr_int32_bitfield_functions` leaves the `w`-bit register `v mod 2^w`, the decoder of
the same record applied to that register with `max = w` returns `v`, and `v` is negative
exactly when bit `w-1` of the register is set. -/
theorem C11_bitfield_int32_sign_extension {P : Type} (w : Nat) (v : Int) (d : Buf)
    (c0 : Cell P) (used inc : Nat) (hw1 : 1 ≤ w) (hw : w ≤ 31)
    (hlo : -(2 : Int) ^ (w - 1) ≤ v) (hhi : v < (2 : Int) ^ (w - 1)) :
    ∃ reg : Buf,
      (xdr_int32_bitfield_functions : XDR_TypeFunctions P).encoder
          (some (Cell.word (toU32 v))) (some d) used w none = ⟨0, used, some reg⟩ ∧
      load32 reg < 2 ^ w ∧
      (∃ res : Nat,
        (xdr_int32_bitfield_functions : XDR_TypeFunctions P).decoder reg (some c0) inc w none
          = ⟨0, some (Cell.word res), inc⟩ ∧
        toI32 res = v ∧
        (toI32 res < 0 ↔ (load32 reg).testBit (w - 1) = true)) := by
  have hr : toU32 v % 2 ^ w < 2 ^ w := Nat.mod_lt _ (Nat.two_pow_pos _)
  have h1 := mod_two_pow_lt32 (toU32 v) w hw
  have h2 := testBit_register w v hw1 hw hlo hhi
  have hb : (2 : Int) ^ (w - 1) ≤ 2 ^ 30 := pow_le_pow_right₀ (by norm_num) (by omega)
  have hb2 : (2 : Int) ^ 30 = 1073741824 := by norm_num
  have h4 : toI32 (toU32 v) = v := toI32_toU32 v (by omega) (by omega)
  have h5 : (Cell.word (toU32 v) : Cell P).rd32 = toU32 v := by
    simp only [Cell.rd32]; exact Nat.mod_eq_of_lt (toU32_lt v)
  refine ⟨hostBytes32 (toU32 v % 2 ^ w) ++ d.drop 4, ?_, ?_, toU32 v, ?_, h4, ?_⟩
  · simp only [xdr_int32_bitfield_functions, XDR_encodebf_uint32, Option.getD_some, h5,
      and_maskBits _ _ hw, Option.map_some', memcpy]
    rfl
  · rw [load32_hostBytes32 _ h1]; exact hr
  · simp only [xdr_int32_bitfield_functions]
    exact XDR_decodebf_int32_register w v _ c0 inc hw1 hw hlo hhi
  · rw [load32_hostBytes32 _ h1, h2, h4, decide_eq_true_eq]

theorem C11_bitfield_int32_sign_extension_witness :
    ∃ reg : Buf,
      (xdr_int32_bitfield_functions : XDR_TypeFunctions Unit).encoder
          (some (Cell.word (toU32 (-3)))) (some [0, 0, 0, 0]) 0 5 none = ⟨0, 0, some reg⟩ ∧
      load32 reg < 2 ^ 5 ∧
      (∃ res : Nat,
        (xdr_int32_bitfield_functions : XDR_TypeFunctions Unit).decoder reg
            (some (Cell.word 0)) 0 5 none = ⟨0, some (Cell.word res), 0⟩ ∧
        toI32 res = -3 ∧
        (toI32 res < 0 ↔ (load32 reg).testBit (5 - 1) = true)) :=
  C11_bitfield_int32_sign_extension 5 (-3) [0, 0, 0, 0] (Cell.word 0) 0 0 (by decide)
    (by decide) (by decide) (by decide)

/-! ## Integer arrays -/

/-- A struct value holding the count `xs.length` at offset 0 and the array `xs` at
offset 8. -/
theorem arrayValue_get {P : Type} (xs : List Nat) :
    Obj.get ([(0, Cell.word xs.length), (8, Cell.ptr (some xs))] : Obj P) 8
        = Cell.ptr (some xs)
    ∧ Obj.get ([(0, Cell.word xs.length), (8, Cell.ptr (some xs))] : Obj P) 0
        = Cell.word xs.length := by
  constructor <;> simp [Obj.get, List.find?]

/-- Encode and decode of a counted array through a function record whose field codec has
a `FieldSpec`. -/
theorem array_roundtrip_of_fieldSpec {P : Type} (funcs : XDR_TypeFunctions P) (xs W : List Nat)
    (hS : ∀ (v : Obj P) (f : XDR_FieldDefinition P), f.funcs = funcs →
      v.get f.offset = Cell.ptr (some xs) → v.get f.len_offset = Cell.word xs.length →
      FieldSpec v f true W)
    (d rest : Buf) (c : Cell P) (u m : Nat) (hm : W.length ≤ m)
    (hm64 : m < 18446744073709551616) :
    funcs.encoder (some (Cell.ptr (some xs))) (some d) u m (some (Cell.word xs.length))
        = ⟨0, W.length, some (W ++ d.drop W.length)⟩
    ∧ funcs.decoder (W ++ rest) (some c) u m (some (Cell.word xs.length))
        = ⟨0, some (Cell.ptr (some xs)), W.length⟩ := by
  obtain ⟨h8, h0⟩ := arrayValue_get (P := P) xs
  have hs := hS [(0, Cell.word xs.length), (8, Cell.ptr (some xs))]
    { funcs := funcs, offset := 8, len_offset := 0 } rfl h8 h0
  have h1 := hs.enc_ok d u m hm hm64
  have h2 := hs.dec_ok rest c u m (some (Cell.word xs.length)) (fun _ => by rw [h0]) hm hm64
  simp only [h8, h0] at h1 h2
  exact ⟨h1, h2⟩

/-- C12: for an array of n 32-bit (64-bit) integers, n a non-negative `int32_t`, each
integer array encoder given companion length n and room for 4n (8n) bytes writes exactly
the n element encodings in index order, nothing in front, and reports used = 4n (8n);
the matching array decoder given length n and those bytes rebuilds the n elements in
order and reports the same byte count. -/
theorem C12_int_array_roundtrip {P : Type} (xs : List Nat) (d rest : Buf) (c : Cell P)
    (u m : Nat) (hn : xs.length < 2147483648) (hm64 : m < 18446744073709551616) :
    ((∀ x ∈ xs, x < 4294967296) → 4 * xs.length ≤ m →
      (wireList be32 xs).length = 4 * xs.length
      ∧ (∀ enc ∈ ([XDR_encode_uint32_array, XDR_encode_int32_array] : List (XDR_Encoder P)),
          enc (some (Cell.ptr (some xs))) (some d) u m (some (Cell.word xs.length))
            = ⟨0, 4 * xs.length, some (wireList be32 xs ++ d.drop (4 * xs.length))⟩)
      ∧ (∀ dec ∈ ([XDR_decode_uint32_array, XDR_decode_int32_array] : List (XDR_Decoder P)),
          dec (wireList be32 xs ++ rest) (some c) u m (some (Cell.word xs.length))
            = ⟨0, some (Cell.ptr (some xs)), 4 * xs.length⟩))
    ∧ ((∀ x ∈ xs, x < 18446744073709551616) → 8 * xs.length ≤ m →
      (wireList wire64 xs).length = 8 * xs.length
      ∧ (∀ enc ∈ ([XDR_encode_int64_array, XDR_encode_uint64_array] : List (XDR_Encoder P)),
          enc (some (Cell.ptr (some xs))) (some d) u m (some (Cell.word xs.length))
            = ⟨0, 8 * xs.length, some (wireList wire64 xs ++ d.drop (8 * xs.length))⟩)
      ∧ (∀ dec ∈ ([XDR_decode_int64_array, XDR_decode_uint64_array] : List (XDR_Decoder P)),
          dec (wireList wire64 xs ++ rest) (some c) u m (some (Cell.word xs.length))
            = ⟨0, some (Cell.ptr (some xs)), 8 * xs.length⟩)) := by
  have hl4 := wireList_length be32 4 be32_length xs
  have hl8 := wireList_length wire64 8 wire64_length xs
  refine ⟨fun hb hm => ⟨hl4, ?_, ?_⟩, fun hb hm => ⟨hl8, ?_, ?_⟩⟩
  · have hu := array_roundtrip_of_fieldSpec xdr_uint32_arr_functions xs (wireList be32 xs)
      (fun v f hf hp hc => fieldSpec_array32 v f xs (Or.inr hf) hp hc hn hb) d rest c u m
      (by omega) hm64
    have hi := array_roundtrip_of_fieldSpec xdr_int32_arr_functions xs (wireList be32 xs)
      (fun v f hf hp hc => fieldSpec_array32 v f xs (Or.inl hf) hp hc hn hb) d rest c u m
      (by omega) hm64
    rw [hl4] at hu hi
    intro enc henc
    simp only [List.mem_cons, List.mem_singleton, List.not_mem_nil, or_false] at henc
    rcases henc with rfl | rfl
    · exact hu.1
    · exact hi.1
  · have hu := array_roundtrip_of_fieldSpec xdr_uint32_arr_functions xs (wireList be32 xs)
      (fun v f hf hp hc => fieldSpec_array32 v f xs (Or.inr hf) hp hc hn hb) d rest c u m
      (by omega) hm64
    have hi := array_roundtrip_of_fieldSpec xdr_int32_arr_functions xs (wireList be32 xs)
      (fun v f hf hp hc => fieldSpec_array32 v f xs (Or.inl hf) hp hc hn hb) d rest c u m
      (by omega) hm64
    rw [hl4] at hu hi
    intro dec hdec
    simp only [List.mem_cons, List.mem_singleton, List.not_mem_nil, or_false] at hdec
    rcases hdec with rfl | rfl
    · exact hu.2
    · exact hi.2
  · have hu := array_roundtrip_of_fieldSpec xdr_uint64_arr_functions xs (wireList wire64 xs)
      (fun v f hf hp hc => fieldSpec_array64 v f xs (Or.inr hf) hp hc hn hb) d rest c u m
      (by omega) hm64
    have hi := array_roundtrip_of_fieldSpec xdr_int64_arr_functions xs (wireList wire64 xs)
      (fun v f hf hp hc => fieldSpec_array64 v f xs (Or.inl hf) hp hc hn hb) d rest c u m
      (by omega) hm64
    rw [hl8] at hu hi
    intro enc henc
    simp only [List.mem_cons, List.mem_singleton, List.not_mem_nil, or_false] at henc
    rcases henc with rfl | rfl
    · exact hi.1
    · exact hu.1
  · have hu := array_roundtrip_of_fieldSpec xdr_uint64_arr_functions xs (wireList wire64 xs)
      (fun v f hf hp hc => fieldSpec_array64 v f xs (Or.inr hf) hp hc hn hb) d rest c u m
      (by omega) hm64
    have hi := array_roundtrip_of_fieldSpec xdr_int64_arr_functions xs (wireList wire64 xs)
      (fun v f hf hp hc => fieldSpec_array64 v f xs (Or.inl hf) hp hc hn hb) d rest c u m
      (by omega) hm64
    rw [hl8] at hu hi
    intro dec hdec
    simp only [List.mem_cons, List.mem_singleton, List.not_mem_nil, or_false] at hdec
    rcases hdec with rfl | rfl
    · exact hi.2
    · exact hu.2

theorem C12_int_array_roundtrip_witness :
    XDR_encode_int32_array (some (Cell.ptr (some [7, 9]) : Cell Unit))
        (some [1, 1, 1, 1, 1, 1, 1, 1, 1]) 0 8 (some (Cell.word 2))
      = ⟨0, 8, some [0, 0, 0, 7, 0, 0, 0, 9, 1]⟩
    ∧ XDR_decode_uint64_array [0, 0, 0, 0, 0, 0, 0, 7, 0, 0, 0, 0, 0, 0, 0, 9]
        (some (Cell.word 0 : Cell Unit)) 0 16 (some (Cell.word 2))
      = ⟨0, some (Cell.ptr (some [7, 9])), 16⟩ :=
  ⟨((C12_int_array_roundtrip [7, 9] [1, 1, 1, 1, 1, 1, 1, 1, 1] [] (Cell.word 0 : Cell Unit)
      0 8 (by decide) (by decide)).1 (by decide) (by decide)).2.1 XDR_encode_int32_array
      (by simp),
   ((C12_int_array_roundtrip [7, 9] [] [] (Cell.word 0 : Cell Unit)
      0 16 (by decide) (by decide)).2 (by decide) (by decide)).2.2 XDR_decode_uint64_array
      (by simp)⟩

/-! ## Floating-point arrays -/

theorem hostBytes32_length (v : Nat) : (hostBytes32 v).length = 4 := rfl

theorem hostBytes64_length (v : Nat) : (hostBytes64 v).length = 8 := rfl

theorem load64_hostBytes64 (x : Nat) (hx : x < 18446744073709551616) (rest : Buf) :
    load64 (hostBytes64 x ++ rest) = x := by
  have h1 : x % 4294967296 < 4294967296 := Nat.mod_lt _ (by decide)
  have h2 : x / 4294967296 % 4294967296 < 4294967296 := Nat.mod_lt _ (by decide)
  have h3 : (hostBytes64 x ++ rest).drop 4
      = hostBytes32 (x / 4294967296 % 4294967296) ++ rest := by
    simp [hostBytes64, hostBytes32]
  have h4 : hostBytes64 x ++ rest
      = hostBytes32 (x % 4294967296) ++ (hostBytes32 (x / 4294967296 % 4294967296) ++ rest) := by
    simp [hostBytes64]
  unfold load64
  rw [h3, load32_hostBytes32 _ h2, h4, load32_hostBytes32 _ h1]
  omega

/-- With room, `XDR_encode_float` copies the first four in-memory bytes of the slot. -/
theorem XDR_encode_float_ok {P : Type} (c : Cell P) (d : Buf) (u m : Nat)
    (l : Option (Cell P)) (hm : 4 ≤ m) :
    XDR_encode_float (some c) (some d) u m l
      = ⟨0, 4, some (hostBytes32 c.rd32 ++ d.drop 4)⟩ := by
  have : ¬ m < 4 := by omega
  simp only [XDR_encode_float, this, if_false, Option.getD_some, Option.map_some', memcpy,
    hostBytes32_length]

theorem XDR_encode_double_ok {P : Type} (c : Cell P) (d : Buf) (u m : Nat)
    (l : Option (Cell P)) (hm : 8 ≤ m) :
    XDR_encode_double (some c) (some d) u m l
      = ⟨0, 8, some (hostBytes64 c.rd64 ++ d.drop 8)⟩ := by
  have : ¬ m < 8 := by omega
  simp only [XDR_encode_double, this, if_false, Option.getD_some, Option.map_some', memcpy,
    hostBytes64_length]

theorem XDR_decode_float_ok {P : Type} (x : Nat) (hx : x < 4294967296) (rest : Buf)
    (c : Cell P) (u m : Nat) (l : Option (Cell P)) (hm : 4 ≤ m) :
    XDR_decode_float (hostBytes32 x ++ rest) (some c) u m l = ⟨0, some (Cell.word x), 4⟩ := by
  have : ¬ m < 4 := by omega
  simp only [XDR_decode_float, this, if_false, Option.map_some', load32_hostBytes32 _ hx]

theorem XDR_decode_double_ok {P : Type} (x : Nat) (hx : x < 18446744073709551616) (rest : Buf)
    (c : Cell P) (u m : Nat) (l : Option (Cell P)) (hm : 8 ≤ m) :
    XDR_decode_double (hostBytes64 x ++ rest) (some c) u m l = ⟨0, some (Cell.dword x), 8⟩ := by
  have : ¬ m < 8 := by omega
  simp only [XDR_decode_double, this, if_false, Option.map_some', load64_hostBytes64 _ hx]

/-- The array decoder loop fails as soon as fewer than `w` bytes remain for an element
whose decoder needs `w`. -/
theorem XDR_array_decoder_loop_short {P : Type} (src : Buf) (max inc w : Nat)
    (dec : XDR_Decoder P)
    (hshort : ∀ (s : Buf) (c : Option (Cell P)) (u m : Nat) (l : Option (Cell P)), m < w →
      (dec s c u m l).res = -1)
    (hused : ∀ (s : Buf) (c : Option (Cell P)) (u m : Nat) (l : Option (Cell P)), w ≤ m →
      (dec s c u m l).used = w)
    (hmax : max < 18446744073709551616)
    (k i : Nat) (buff : List Nat) (dl : Nat) (hdl : dl ≤ max) (hfit : max < dl + w * k) :
    ∃ e : Int, e < 0 ∧ XDR_array_decoder_loop src max inc dec k i buff dl = .error e := by
  induction k generalizing i buff dl with
  | zero => omega
  | succ k ih =>
    have hsub : sizeSub max dl = max - dl := sizeSub_eq _ _ hmax hdl
    unfold XDR_array_decoder_loop
    simp only [hsub]
    by_cases hw : max - dl < w
    · refine ⟨-1, by decide, ?_⟩
      rw [hshort _ _ _ _ _ hw]; rfl
    · split
      · rename_i hneg
        exact ⟨_, hneg, rfl⟩
      · rw [hused _ _ _ _ _ (by omega)]
        exact ih _ _ _ (by omega) (by rw [Nat.mul_succ] at hfit; omega)

/-- Evaluation of `XDR_encode_double_array`: every 8-byte element goes through
`XDR_encode_float`, which copies its first four in-memory bytes. -/
theorem XDR_encode_double_array_eval {P : Type} (xs : List Nat) (d : Buf) (u m : Nat)
    (hn : xs.length < 2147483648) (hb : ∀ x ∈ xs, x < 18446744073709551616)
    (hm : 4 * xs.length ≤ m) (hm64 : m < 18446744073709551616) :
    XDR_encode_double_array (some (Cell.ptr (some xs) : Cell P)) (some d) u m
        (some (Cell.word xs.length))
      = ⟨0, 4 * xs.length,
          some (wireList (fun x => hostBytes32 (x % 4294967296)) xs ++ d.drop (4 * xs.length))⟩ := by
  have hderef : derefLen (some (Cell.word xs.length : Cell P)) = (xs.length : Int) :=
    derefLen_word _ hn
  have hnat : ((xs.length : Int)).toNat = xs.length := Int.toNat_natCast _
  have hsrc : (some (Cell.ptr (some xs) : Cell P)).bind Cell.rdPtr = some xs := rfl
  have := XDR_array_encoder_loop_ok (P := P) xs m 8 4 18446744073709551616 XDR_encode_float
    (fun x => hostBytes32 (x % 4294967296)) (fun _ => rfl)
    (fun x _ d u m l hm4 _ => by rw [elemCell_8, XDR_encode_float_ok _ _ _ _ _ hm4]; rfl)
    hm64 xs.length 0 xs [] d 0 rfl rfl hb rfl (by omega)
  simp only [List.nil_append, Nat.zero_add] at this
  simp only [XDR_encode_double_array, hderef, XDR_array_encoder, hsrc, hnat, Option.isSome_some,
    this]

/-- Evaluation of `XDR_decode_double_array` on the eight in-memory bytes of each element. -/
theorem XDR_decode_double_array_ok {P : Type} (xs : List Nat) (rest : Buf) (c : Cell P)
    (u m : Nat) (hn : xs.length < 2147483648) (hb : ∀ x ∈ xs, x < 18446744073709551616)
    (hm : 8 * xs.length ≤ m) (hm64 : m < 18446744073709551616) :
    XDR_decode_double_array (wireList hostBytes64 xs ++ rest) (some c) u m
        (some (Cell.word xs.length))
      = ⟨0, some (Cell.ptr (some xs)), 8 * xs.length⟩ := by
  have hderef : derefLen (some (Cell.word xs.length : Cell P)) = (xs.length : Int) :=
    derefLen_word _ hn
  have hnat : ((xs.length : Int)).toNat = xs.length := Int.toNat_natCast _
  have hsz : (toU64 (xs.length : Int) * 8) % 18446744073709551616 = xs.length * 8 := by
    rw [toU64_natCast _ (by omega)]; omega
  have hle : xs.length * 8 ≤ 9223372036854775807 := by omega
  have hdiv : xs.length * 8 / 8 = xs.length := Nat.mul_div_cancel _ (by decide)
  have := XDR_array_decoder_loop_ok (P := P) (wireList hostBytes64 xs ++ rest) m 8 8
    18446744073709551616 XDR_decode_double hostBytes64 hostBytes64_length
    (fun x hx rest c u m l hm8 _ => by
      rw [elemCell_8]; exact XDR_decode_double_ok x hx rest c u m l hm8)
    (fun x hx => by simp only [elemStore, elemCell_8, Cell.rd64, Nat.mod_eq_of_lt hx]; rfl)
    hm64 xs.length 0 xs [] rest 0 rfl rfl hb rfl (by omega)
  simp only [List.nil_append, Nat.zero_add] at this
  simp only [XDR_decode_double_array, hderef, XDR_array_decoder, hsz, malloc_ok _ hle,
    List.length_replicate, hdiv, hnat, this]

/-- With `max` below `8n`, `XDR_decode_double_array` fails for every source. -/
theorem XDR_decode_double_array_short {P : Type} (n : Nat) (src : Buf) (c : Cell P)
    (u m : Nat) (hn : n < 2147483648) (hm : m < 8 * n) :
    (XDR_decode_double_array src (some c) u m (some (Cell.word n))).res < 0 := by
  have hderef : derefLen (some (Cell.word n : Cell P)) = (n : Int) := derefLen_word _ hn
  have hnat : ((n : Int)).toNat = n := Int.toNat_natCast _
  have hsz : (toU64 (n : Int) * 8) % 18446744073709551616 = n * 8 := by
    rw [toU64_natCast _ (by omega)]; omega
  have hle : n * 8 ≤ 9223372036854775807 := by omega
  obtain ⟨e, he, hloop⟩ := XDR_array_decoder_loop_short (P := P) src m 8 8 XDR_decode_double
    (fun s c u m l hm8 => by simp only [XDR_decode_double, hm8, if_true])
    (fun s c u m l hm8 => by
      have : ¬ m < 8 := by omega
      simp only [XDR_decode_double, this, if_false])
    (by omega) n 0 (List.replicate (n * 8 / 8) 0) 0 (by omega) (by omega)
  simp only [XDR_decode_double_array, hderef, XDR_array_decoder, hsz, malloc_ok _ hle,
    List.length_replicate, hnat, hloop]
  exact he

/-- C13: for a non-empty array of n doubles, `XDR_encode_double_array` (whose element
encoder is `XDR_encode_float`) writes only the first four in-memory bytes of each element
and reports used = 4n, not the 8n raw bytes of the claim; `XDR_decode_double_array` given
length n rejects the bytes it reported (max = 4n), although it does rebuild the array
bit for bit from the 8n raw bytes. -/
theorem C13_double_array_encode {P : Type} (xs : List Nat) (d src rest : Buf) (c : Cell P)
    (u m : Nat) (hne : xs ≠ []) (hn : xs.length < 2147483648)
    (hb : ∀ x ∈ xs, x < 18446744073709551616) (hm : 8 * xs.length ≤ m)
    (hm64 : m < 18446744073709551616) :
    XDR_encode_double_array (some (Cell.ptr (some xs) : Cell P)) (some d) u m
        (some (Cell.word xs.length))
      = ⟨0, 4 * xs.length,
          some (wireList (fun x => hostBytes32 (x % 4294967296)) xs ++ d.drop (4 * xs.length))⟩
    ∧ (XDR_encode_double_array (some (Cell.ptr (some xs) : Cell P)) (some d) u m
        (some (Cell.word xs.length))).used ≠ 8 * xs.length
    ∧ (XDR_decode_double_array src (some c) u (4 * xs.length)
        (some (Cell.word xs.length))).res < 0
    ∧ XDR_decode_double_array (wireList hostBytes64 xs ++ rest) (some c) u m
        (some (Cell.word xs.length))
      = ⟨0, some (Cell.ptr (some xs)), 8 * xs.length⟩ := by
  have hpos : 0 < xs.length := List.length_pos.mpr hne
  have he := XDR_encode_double_array_eval (P := P) xs d u m hn hb (by omega) hm64
  refine ⟨he, ?_, ?_, XDR_decode_double_array_ok xs rest c u m hn hb hm hm64⟩
  · rw [he]; show 4 * xs.length ≠ 8 * xs.length; omega
  · exact XDR_decode_double_array_short xs.length src c u _ hn (by omega)

theorem C13_double_array_encode_witness :
    XDR_encode_double_array (some (Cell.ptr (some exampleDoubles) : Cell Unit))
        (some [1, 1, 1, 1, 1, 1, 1, 1]) 0 8 (some (Cell.word 1))
      = ⟨0, 4, some [0, 0, 0, 0, 1, 1, 1, 1]⟩
    ∧ (XDR_decode_double_array [0, 0, 0, 0, 1, 1, 1, 1] (some (Cell.word 0 : Cell Unit)) 0 4
        (some (Cell.word 1))).res < 0
    ∧ XDR_decode_double_array [0, 0, 0, 0, 0, 0, 240, 63] (some (Cell.word 0 : Cell Unit)) 0 8
        (some (Cell.word 1))
      = ⟨0, some (Cell.ptr (some exampleDoubles)), 8⟩ :=
  have h := C13_double_array_encode (P := Unit) exampleDoubles [1, 1, 1, 1, 1, 1, 1, 1]
    [0, 0, 0, 0, 1, 1, 1, 1] [] (Cell.word 0) 0 8 (by decide) (by decide) (by decide)
    (by decide) (by decide)
  ⟨h.1, h.2.2.1, h.2.2.2⟩

/-! ## Reported sizes -/

theorem tmod4_gt (L : Int) : -4 < Int.tmod L 4 := by
  rcases L with n | n
  · exact lt_of_lt_of_le (by decide) (Int.tmod_nonneg 4 (Int.ofNat_nonneg n))
  · show -4 < -(((n + 1) % 4 : Nat) : Int)
    omega

theorem byteTotal_dvd (L : Int) :
    4 ∣ toU64 (toI32 (toU32 (L + cRem (4 - cRem L 4) 4))) := by
  have h1 : Int.tmod L 4 + 4 * Int.tdiv L 4 = L := Int.tmod_add_tdiv L 4
  have h2 : Int.tmod L 4 < 4 := Int.tmod_lt_of_pos L (by decide)
  have h3 : -4 < Int.tmod L 4 := tmod4_gt L
  have h4 : Int.tmod (4 - Int.tmod L 4) 4 = (4 - Int.tmod L 4) % 4 :=
    Int.tmod_eq_emod (by omega) (by decide)
  simp only [cRem, h4]
  generalize Int.tmod L 4 = r at *
  generalize Int.tdiv L 4 = q at *
  unfold toU64 toI32 toU32
  split <;> omega

theorem stringTotal_dvd (n : Nat) :
    4 ∣ 4 + (n + ((4 + 4294967296 - n % 4) % 4294967296) % 4) % 4294967296 := by
  omega

theorem XDR_encode_uint32_used {P : Type} (src : Option (Cell P)) (dst : Option Buf)
    (u m : Nat) (l : Option (Cell P)) : (XDR_encode_uint32 src dst u m l).used = 4 := by
  unfold XDR_encode_uint32
  split
  · rfl
  · split
    · rfl
    · split <;> rfl

theorem XDR_encode_int32_used {P : Type} (src : Option (Cell P)) (dst : Option Buf)
    (u m : Nat) (l : Option (Cell P)) : (XDR_encode_int32 src dst u m l).used = 4 := by
  unfold XDR_encode_int32
  split
  · rfl
  · split
    · rfl
    · split <;> rfl

theorem XDR_encode_int64_used {P : Type} (src : Option (Cell P)) (dst : Option Buf)
    (u m : Nat) (l : Option (Cell P)) : (XDR_encode_int64 src dst u m l).used = 8 := by
  unfold XDR_encode_int64
  split
  · rfl
  · split
    · rfl
    · split
      · rfl
      · simp only []
        split
        · rfl
        · split <;> rfl

theorem XDR_encode_uint64_used {P : Type} (src : Option (Cell P)) (dst : Option Buf)
    (u m : Nat) (l : Option (Cell P)) : (XDR_encode_uint64 src dst u m l).used = 8 := by
  unfold XDR_encode_uint64
  split
  · rfl
  · split
    · rfl
    · split
      · rfl
      · simp only []
        split
        · rfl
        · split <;> rfl

theorem XDR_encode_float_used {P : Type} (src : Option (Cell P)) (dst : Option Buf)
    (u m : Nat) (l : Option (Cell P)) : (XDR_encode_float src dst u m l).used = 4 := by
  unfold XDR_encode_float
  split <;> rfl

theorem XDR_encode_double_used {P : Type} (src : Option (Cell P)) (dst : Option Buf)
    (u m : Nat) (l : Option (Cell P)) : (XDR_encode_double src dst u m l).used = 8 := by
  unfold XDR_encode_double
  split <;> rfl

/-- The size `XDR_encode_byte_array` reports depends on the companion length alone. -/
theorem XDR_encode_byte_array_used {P : Type} (src : Option (Cell P)) (dst : Option Buf)
    (u m : Nat) (l : Option (Cell P)) :
    (XDR_encode_byte_array src dst u m l).used
      = toU64 (toI32 (toU32 (derefLen l + cRem (4 - cRem (derefLen l) 4) 4))) := by
  unfold XDR_encode_byte_array
  simp only []
  split
  · split <;> rfl
  · rfl

/-- The size `XDR_encode_string_array` reports depends on the source string alone. -/
theorem XDR_encode_string_array_used {P : Type} (src : Option (Cell P)) (dst : Option Buf)
    (u m : Nat) (l : Option (Cell P)) :
    (XDR_encode_string_array src dst u m l).used
      = 4 + ((match src.bind Cell.rdPtr with
              | some s => strlen s % 4294967296
              | none => 0)
            + ((4 + 4294967296 - (match src.bind Cell.rdPtr with
              | some s => strlen s % 4294967296
              | none => 0) % 4) % 4294967296) % 4) % 4294967296 := by
  unfold XDR_encode_string_array
  simp only [XDR_encode_uint32_used]
  split
  · rfl
  · split
    · rfl
    · split <;> rfl

/-- The size `XDR_array_encoder` accumulates when every element reports `w`. -/
theorem XDR_array_encoder_loop_used {P : Type} (src : Option (List Nat)) (max inc w : Nat)
    (enc : XDR_Encoder P)
    (henc : ∀ (c : Option (Cell P)) (d : Option Buf) (u m : Nat) (l : Option (Cell P)),
      (enc c d u m l).used = w)
    (k i : Nat) (mem : Option Buf) (live : Bool) (res : Int) (e : Nat) :
    (XDR_array_encoder_loop src max inc enc k i mem live res e).used = e + w * k := by
  induction k generalizing i mem live res e with
  | zero => simp [XDR_array_encoder_loop]
  | succ k ih =>
    have hmul : e + w + w * k = e + w * (k + 1) := by rw [Nat.mul_succ]; omega
    unfold XDR_array_encoder_loop
    split
    · split
      · simp only [henc, ih, hmul]
      · simp only [henc, ih, hmul]
    · simp only [henc, ih, hmul]

theorem XDR_array_encoder_used {P : Type} (src : Option (Cell P)) (dst : Option Buf)
    (u max : Nat) (len : Int) (inc w : Nat) (enc : XDR_Encoder P)
    (henc : ∀ (c : Option (Cell P)) (d : Option Buf) (u m : Nat) (l : Option (Cell P)),
      (enc c d u m l).used = w) :
    (XDR_array_encoder src dst u max len inc enc).used = w * len.toNat := by
  unfold XDR_array_encoder
  rw [XDR_array_encoder_loop_used _ _ _ w _ henc]
  omega

/-- The size `XDR_encode_union` reports: the discriminant, plus what the payload encoder
reports when the type is registered with an encoder. -/
theorem XDR_encode_union_used {P A : Type} (structHash : Option (HashTable P A))
    (hst : StablePayloads structHash) (src : Option (Cell P)) (dst : Option Buf) (u m : Nat)
    (l : Option (Cell P)) :
    (XDR_encode_union structHash src dst u m l).used
      = match XDR_definition_for_type structHash ((src.getD (Cell.word 0)).rdUnion).1 with
        | none => 4
        | some d =>
          match d.encoder with
          | none => 4
          | some enc => 4 + (enc ((src.getD (Cell.word 0)).rdUnion).2 none 0 0 d.type d.arg).used := by
  unfold XDR_encode_union
  simp only []
  cases hd : XDR_definition_for_type structHash (src.getD (Cell.word 0)).rdUnion.1 with
  | none => simp only [XDR_encode_uint32_used]
  | some d =>
    cases he : d.encoder with
    | none => simp only [he, XDR_encode_uint32_used]
    | some enc =>
      simp only [he]
      split
      · split
        · simp only [XDR_encode_uint32_used]
          rw [hst _ d enc hd he _ _ none _ 0 _ 0]
        · simp only [XDR_encode_uint32_used]
          rw [hst _ d enc hd he _ _ none _ 0 _ 0]
      · simp only [XDR_encode_uint32_used]
        rw [hst _ d enc hd he _ _ none _ 0 _ 0]

/-- The total `XDR_struct_encoder` accumulates when every field encoder reports a size
that does not depend on the destination. -/
theorem XDR_struct_encoder_loop_used {P : Type} (src : Option (Obj P)) (max : Nat)
    (fields : List (XDR_FieldDefinition P))
    (h : ∀ f ∈ fields, ∀ (dst : Option Buf) (u m : Nat),
      (f.funcs.encoder (fieldPtr src f.offset) dst u m (fieldPtr src f.len_offset)).used
        = fieldSize src f)
    (mem : Option Buf) (res : Int) (used len : Nat) :
    (XDR_struct_encoder_loop src max fields mem res used len).used
      = used + (fields.map (fieldSize src)).sum := by
  induction fields generalizing mem res used len with
  | nil => simp [XDR_struct_encoder_loop]
  | cons f rest ih =>
    have hf := h f (List.mem_cons_self _ _)
    have hr : ∀ g ∈ rest, ∀ (dst : Option Buf) (u m : Nat),
        (g.funcs.encoder (fieldPtr src g.offset) dst u m (fieldPtr src g.len_offset)).used
          = fieldSize src g := fun g hg => h g (List.mem_cons_of_mem _ hg)
    unfold XDR_struct_encoder_loop
    split
    · split
      · simp only [hf, ih hr, List.map_cons, List.sum_cons]; omega
      · simp only [hf, ih hr, List.map_cons, List.sum_cons]; omega
    · simp only [hf, ih hr, List.map_cons, List.sum_cons]; omega

theorem XDR_encode_union_aligned {P A : Type} (structHash : Option (HashTable P A))
    (hal : AlignedPayloads structHash) (src : Option (Cell P)) (dst : Option Buf) (u m : Nat)
    (l : Option (Cell P)) : 4 ∣ (XDR_encode_union structHash src dst u m l).used := by
  unfold XDR_encode_union
  simp only []
  cases hd : XDR_definition_for_type structHash (src.getD (Cell.word 0)).rdUnion.1 with
  | none => simp only [XDR_encode_uint32_used]; decide
  | some d =>
    cases he : d.encoder with
    | none => simp only [he, XDR_encode_uint32_used]; decide
    | some enc =>
      simp only [he]
      split
      · split
        · simp only [XDR_encode_uint32_used]
          exact Nat.dvd_add (by decide) (hal _ d enc hd he _ _ _ _)
        · simp only [XDR_encode_uint32_used]
          exact Nat.dvd_add (by decide) (hal _ d enc hd he _ _ _ _)
      · simp only [XDR_encode_uint32_used]
        exact Nat.dvd_add (by decide) (hal _ d enc hd he _ _ _ _)

/-- The sizes the array wrappers report: the element size times the companion length. -/
theorem arrayWrappers_used {P : Type} (src : Option (Cell P)) (dst : Option Buf) (u m : Nat)
    (len : Option (Cell P)) :
    (XDR_encode_float_array src dst u m len).used
        = (match len with | some _ => 4 * (derefLen len).toNat | none => 0)
    ∧ (XDR_encode_double_array src dst u m len).used
        = (match len with | some _ => 4 * (derefLen len).toNat | none => 0)
    ∧ (XDR_encode_int32_array src dst u m len).used
        = (match len with | some _ => 4 * (derefLen len).toNat | none => 0)
    ∧ (XDR_encode_uint32_array src dst u m len).used
        = (match len with | some _ => 4 * (derefLen len).toNat | none => 0)
    ∧ (XDR_encode_int64_array src dst u m len).used
        = (match len with | some _ => 8 * (derefLen len).toNat | none => 0)
    ∧ (XDR_encode_uint64_array src dst u m len).used
        = (match len with | some _ => 8 * (derefLen len).toNat | none => 0) := by
  cases len with
  | none => exact ⟨rfl, rfl, rfl, rfl, rfl, rfl⟩
  | some c =>
    exact ⟨XDR_array_encoder_used src dst 0 m (derefLen (some c)) 4 4 _ XDR_encode_float_used,
      XDR_array_encoder_used src dst 0 m (derefLen (some c)) 8 4 _ XDR_encode_float_used,
      XDR_array_encoder_used src dst 0 m (derefLen (some c)) 4 4 _ XDR_encode_int32_used,
      XDR_array_encoder_used src dst 0 m (derefLen (some c)) 4 4 _ XDR_encode_uint32_used,
      XDR_array_encoder_used src dst 0 m (derefLen (some c)) 8 8 _ XDR_encode_int64_used,
      XDR_array_encoder_used src dst 0 m (derefLen (some c)) 8 8 _ XDR_encode_uint64_used⟩

/-- The size a built-in field encoder reports does not depend on the destination, the
room or the incoming `*used`. -/
theorem builtin_used_stable {P A : Type} (structHash : Option (HashTable P A))
    (hst : StablePayloads structHash) (funcs : XDR_TypeFunctions P)
    (hf : funcs ∈ builtinFuncs structHash) (src len : Option (Cell P))
    (dst dst2 : Option Buf) (u u2 m m2 : Nat) :
    (funcs.encoder src dst u m len).used = (funcs.encoder src dst2 u2 m2 len).used := by
  have ha := arrayWrappers_used src dst u m len
  have hb := arrayWrappers_used src dst2 u2 m2 len
  simp only [builtinFuncs, List.mem_cons, List.mem_singleton, List.not_mem_nil, or_false] at hf
  rcases hf with rfl | rfl | rfl | rfl | rfl | rfl | rfl | rfl | rfl | rfl | rfl | rfl | rfl
    | rfl | rfl | rfl | rfl
  · simp only [xdr_float_functions, XDR_encode_float_used]
  · simp only [xdr_float_arr_functions, ha.1, hb.1]
  · simp only [xdr_double_functions, XDR_encode_double_used]
  · simp only [xdr_double_arr_functions, ha.2.1, hb.2.1]
  · simp only [xdr_char_functions, XDR_encode_int32_used]
  · simp only [xdr_char_arr_functions, ha.2.2.1, hb.2.2.1]
  · simp only [xdr_int32_functions, XDR_encode_int32_used]
  · simp only [xdr_int32_arr_functions, ha.2.2.1, hb.2.2.1]
  · simp only [xdr_uint32_functions, XDR_encode_uint32_used]
  · simp only [xdr_uint32_arr_functions, ha.2.2.2.1, hb.2.2.2.1]
  · simp only [xdr_int64_functions, XDR_encode_int64_used]
  · simp only [xdr_int64_arr_functions, ha.2.2.2.2.1, hb.2.2.2.2.1]
  · simp only [xdr_uint64_functions, XDR_encode_uint64_used]
  · simp only [xdr_uint64_arr_functions, ha.2.2.2.2.2, hb.2.2.2.2.2]
  · simp only [xdr_string_arr_functions, XDR_encode_string_array_used]
  · simp only [xdr_byte_arr_functions, XDR_encode_byte_array_used]
  · simp only [xdr_union_functions, XDR_encode_union_used structHash hst]

/-- The size a built-in field encoder reports is a multiple of 4. -/
theorem builtin_used_aligned {P A : Type} (structHash : Option (HashTable P A))
    (hal : AlignedPayloads structHash) (funcs : XDR_TypeFunctions P)
    (hf : funcs ∈ builtinFuncs structHash) (src len : Option (Cell P))
    (dst : Option Buf) (u m : Nat) :
    4 ∣ (funcs.encoder src dst u m len).used := by
  have ha := arrayWrappers_used src dst u m len
  have h4 : ∀ n : Nat, 4 ∣ (match len with | some _ => 4 * n | none => 0) := by
    intro n; cases len <;> simp
  have h8 : ∀ n : Nat, 4 ∣ (match len with | some _ => 8 * n | none => 0) := by
    intro n; cases len
    · simp
    · exact Dvd.dvd.mul_right (by decide) n
  simp only [builtinFuncs, List.mem_cons, List.mem_singleton, List.not_mem_nil, or_false] at hf
  rcases hf with rfl | rfl | rfl | rfl | rfl | rfl | rfl | rfl | rfl | rfl | rfl | rfl | rfl
    | rfl | rfl | rfl | rfl
  · simp only [xdr_float_functions, XDR_encode_float_used]; decide
  · simp only [xdr_float_arr_functions, ha.1]; exact h4 _
  · simp only [xdr_double_functions, XDR_encode_double_used]; decide
  · simp only [xdr_double_arr_functions, ha.2.1]; exact h4 _
  · simp only [xdr_char_functions, XDR_encode_int32_used]; decide
  · simp only [xdr_char_arr_functions, ha.2.2.1]; exact h4 _
  · simp only [xdr_int32_functions, XDR_encode_int32_used]; decide
  · simp only [xdr_int32_arr_functions, ha.2.2.1]; exact h4 _
  · simp only [xdr_uint32_functions, XDR_encode_uint32_used]; decide
  · simp only [xdr_uint32_arr_functions, ha.2.2.2.1]; exact h4 _
  · simp only [xdr_int64_functions, XDR_encode_int64_used]; decide
  · simp only [xdr_int64_arr_functions, ha.2.2.2.2.1]; exact h8 _
  · simp only [xdr_uint64_functions, XDR_encode_uint64_used]; decide
  · simp only [xdr_uint64_arr_functions, ha.2.2.2.2.2]; exact h8 _
  · simp only [xdr_string_arr_functions, XDR_encode_string_array_used]
    exact stringTotal_dvd _
  · simp only [xdr_byte_arr_functions, XDR_encode_byte_array_used]
    exact byteTotal_dvd _
  · simp only [xdr_union_functions]
    exact XDR_encode_union_aligned structHash hal _ _ _ _ _

/-- The total of `XDR_struct_encoder` is a multiple of 4 when every field encoder
reports multiples of 4. -/
theorem XDR_struct_encoder_loop_aligned {P : Type} (src : Option (Obj P)) (max : Nat)
    (fields : List (XDR_FieldDefinition P))
    (h : ∀ f ∈ fields, ∀ (s l : Option (Cell P)) (dst : Option Buf) (u m : Nat),
      4 ∣ (f.funcs.encoder s dst u m l).used)
    (mem : Option Buf) (res : Int) (used len : Nat) (hu : 4 ∣ used) :
    4 ∣ (XDR_struct_encoder_loop src max fields mem res used len).used := by
  induction fields generalizing mem res used len with
  | nil => simpa [XDR_struct_encoder_loop] using hu
  | cons f rest ih =>
    have hf := h f (List.mem_cons_self _ _)
    have hr : ∀ g ∈ rest, ∀ (s l : Option (Cell P)) (dst : Option Buf) (u m : Nat),
        4 ∣ (g.funcs.encoder s dst u m l).used := fun g hg => h g (List.mem_cons_of_mem _ hg)
    unfold XDR_struct_encoder_loop
    split
    · split
      · exact ih hr _ _ _ _ (Nat.dvd_add hu (hf _ _ _ _ _))
      · exact ih hr _ _ _ _ (Nat.dvd_add hu (hf _ _ _ _ _))
    · exact ih hr _ _ _ _ (Nat.dvd_add hu (hf _ _ _ _ _))

theorem XDR_struct_encoder_aligned {P A : Type} (structHash : Option (HashTable P A))
    (hal : AlignedPayloads structHash) (fields : List (XDR_FieldDefinition P))
    (hf : ∀ f ∈ fields, f.funcs ∈ builtinFuncs structHash)
    (src : Option (Obj P)) (dst : Option Buf) (u m ty : Nat) :
    4 ∣ (XDR_struct_encoder src dst u m ty (some fields)).used :=
  XDR_struct_encoder_loop_aligned src m fields
    (fun f hm s l dst u m => builtin_used_aligned structHash hal f.funcs (hf f hm) s l dst u m)
    dst 0 0 0 (Nat.dvd_zero 4)

theorem XDR_bitfield_struct_encoder_aligned {P : Type} (src : Option (Obj P))
    (dst : Option Buf) (u m ty : Nat) (arg : Option (List (XDR_FieldDefinition P))) :
    4 ∣ (XDR_bitfield_struct_encoder src dst u m ty arg).used := by
  cases arg with
  | none => exact Nat.dvd_zero 4
  | some fields =>
    simp only [XDR_bitfield_struct_encoder, XDR_encode_uint32_used]
    decide

/-- The registry of `exampleRegistry` holds aligned payloads. -/
theorem exampleRegistry_aligned : AlignedPayloads exampleRegistry := by
  intro t df enc hd he p d u m
  simp only [exampleRegistry, XDR_definition_for_type] at hd
  split at hd
  · cases hd
    cases he
    exact XDR_struct_encoder_aligned (none : Option (HashTable Unit Unit))
      (fun t df enc hd _ => by cases hd) exampleWordTable
      (fun f hf => by
        simp only [exampleWordTable, List.mem_singleton] at hf
        subst hf
        simp [builtinFuncs]) p d u m 7
  · cases hd

/-- C14: the byte count every built-in field encoder reports (for a registry of aligned
payloads, on success or not) is a multiple of 4, and so is the count of the bit-packed
aggregate; a byte array of `L` bytes and a string of `L` bytes are followed by exactly
`(4 - L mod 4) mod 4` zero bytes; and the total `XDR_struct_encoder` reports for a table
of built-in fields is a multiple of 4. -/
theorem C14_encoded_size_multiple_of_4 {P A : Type} (structHash : Option (HashTable P A))
    (hal : AlignedPayloads structHash) :
    (∀ funcs ∈ builtinFuncs structHash, ∀ (src len : Option (Cell P)) (dst : Option Buf)
        (u m : Nat), 4 ∣ (funcs.encoder src dst u m len).used)
    ∧ (∀ (src : Option (Obj P)) (dst : Option Buf) (u m ty : Nat)
        (arg : Option (List (XDR_FieldDefinition P))),
        4 ∣ (XDR_bitfield_struct_encoder src dst u m ty arg).used)
    ∧ (∀ (bytes : List Nat) (d : Buf) (u max : Nat),
        bytes.length + (4 - bytes.length % 4) % 4 < 2147483648 →
        bytes.length + (4 - bytes.length % 4) % 4 < max →
        XDR_encode_byte_array (some (Cell.ptr (some bytes) : Cell P)) (some d) u max
            (some (Cell.word bytes.length))
          = ⟨0, bytes.length + (4 - bytes.length % 4) % 4,
              some (bytes ++ (List.replicate ((4 - bytes.length % 4) % 4) 0
                ++ d.drop (bytes.length + (4 - bytes.length % 4) % 4)))⟩)
    ∧ (∀ (s junk : List Nat) (d : Buf) (u max : Nat), (∀ b ∈ s, b ≠ 0) →
        s.length ≤ 4294967292 → 4 + s.length + (4 - s.length % 4) % 4 ≤ max →
        XDR_encode_string_array (some (Cell.ptr (some (s ++ 0 :: junk)) : Cell P)) (some d) u
            max none
          = ⟨0, 4 + s.length + (4 - s.length % 4) % 4,
              some (be32 s.length ++ (s ++ (List.replicate ((4 - s.length % 4) % 4) 0
                ++ d.drop (4 + s.length + (4 - s.length % 4) % 4))))⟩)
    ∧ (∀ (fields : List (XDR_FieldDefinition P)),
        (∀ f ∈ fields, f.funcs ∈ builtinFuncs structHash) →
        ∀ (src : Option (Obj P)) (dst : Option Buf) (u m ty : Nat),
          4 ∣ (XDR_struct_encoder src dst u m ty (some fields)).used) :=
  ⟨fun funcs hf src len dst u m => builtin_used_aligned structHash hal funcs hf src len dst u m,
   fun src dst u m ty arg => XDR_bitfield_struct_encoder_aligned src dst u m ty arg,
   fun bytes d u max hL hmax => XDR_encode_byte_array_ok bytes d u max hL hmax,
   fun s junk d u max hs hL hmax => XDR_encode_string_array_ok s junk d u max hs hL hmax,
   fun fields hf src dst u m ty =>
     XDR_struct_encoder_aligned structHash hal fields hf src dst u m ty⟩

theorem C14_encoded_size_multiple_of_4_witness :
    AlignedPayloads exampleRegistry
    ∧ 4 ∣ (XDR_encode_union exampleRegistry
        (some (Cell.union 7 (some [(0, Cell.word 5)]))) (some [0, 0, 0, 0, 0, 0, 0, 0]) 0 8
        none).used :=
  ⟨exampleRegistry_aligned,
   (C14_encoded_size_multiple_of_4 exampleRegistry exampleRegistry_aligned).1
     (xdr_union_functions exampleRegistry) (by simp [builtinFuncs])
     (some (Cell.union 7 (some [(0, Cell.word 5)]))) none (some [0, 0, 0, 0, 0, 0, 0, 0]) 0 8⟩

/-! ## Dry runs -/

/-- With a null `dst`, `XDR_struct_encoder` never assigns `res` and writes nothing. -/
theorem XDR_struct_encoder_loop_null {P : Type} (src : Option (Obj P)) (max : Nat)
    (fields : List (XDR_FieldDefinition P)) (res : Int) (used len : Nat) :
    (XDR_struct_encoder_loop src max fields none res used len).res = res
    ∧ (XDR_struct_encoder_loop src max fields none res used len).dst = none := by
  induction fields generalizing used len with
  | nil => exact ⟨rfl, rfl⟩
  | cons f rest ih =>
    unfold XDR_struct_encoder_loop
    exact ih _ _

/-- The total `XDR_struct_encoder` reports for a table of built-in fields: the sum of
the field sizes, whatever the destination and the room. -/
theorem XDR_struct_encoder_stable {P A : Type} (structHash : Option (HashTable P A))
    (hst : StablePayloads structHash) (fields : List (XDR_FieldDefinition P))
    (hf : ∀ f ∈ fields, f.funcs ∈ builtinFuncs structHash)
    (src : Option (Obj P)) (dst : Option Buf) (u m ty : Nat) :
    (XDR_struct_encoder src dst u m ty (some fields)).used
      = (fields.map (fieldSize src)).sum := by
  have := XDR_struct_encoder_loop_used src m fields
    (fun f hm dst u m => builtin_used_stable structHash hst f.funcs (hf f hm) _ _ dst none u 0
      m 0) dst 0 0 0
  simpa [XDR_struct_encoder] using this

/-- The registry of `exampleRegistry` holds payloads of stable size. -/
theorem exampleRegistry_stable : StablePayloads exampleRegistry := by
  intro t df enc hd he p d d2 u u2 m m2
  simp only [exampleRegistry, XDR_definition_for_type] at hd
  split at hd
  · cases hd
    cases he
    have h : ∀ f ∈ exampleWordTable,
        f.funcs ∈ builtinFuncs (none : Option (HashTable Unit Unit)) := by
      intro f hf
      simp only [exampleWordTable, List.mem_singleton] at hf
      subst hf
      simp [builtinFuncs]
    have hn : StablePayloads (none : Option (HashTable Unit Unit)) :=
      fun t df enc hd _ => by cases hd
    show (XDR_struct_encoder p d u m 7 (some exampleWordTable)).used
      = (XDR_struct_encoder p d2 u2 m2 7 (some exampleWordTable)).used
    rw [XDR_struct_encoder_stable _ hn exampleWordTable h,
      XDR_struct_encoder_stable _ hn exampleWordTable h]
  · cases hd

/-- A dry run of `XDR_encode_string_array` over a string of at least one character that
returns 0 has stored through the pointer derived from the null destination. -/
theorem XDR_encode_string_array_nullStore_dry {P : Type} (src : Option (Cell P)) (max : Nat)
    (s : List Nat) (hs : src.bind Cell.rdPtr = some s) (hlen : 0 < strlen s % 4294967296)
    (hres : (XDR_encode_string_array src none 0 max none).res = 0) :
    XDR_encode_string_array_nullStore src none max = true := by
  unfold XDR_encode_string_array at hres
  unfold XDR_encode_string_array_nullStore
  simp only [hs] at hres ⊢
  have hr : (XDR_encode_uint32 (some (Cell.word (strlen s % 4294967296) : Cell P)) none 0 max
      none) = ⟨0, 4, none⟩ := rfl
  rw [hr] at hres ⊢
  simp only [Int.lt_irrefl, if_false] at hres
  split at hres
  · exact absurd hres (by show ¬ ((-2 : Int) = 0); decide)
  · rename_i hmax
    simp only [Option.isNone_none, Bool.true_and, Int.lt_irrefl, not_false_eq_true,
      decide_True, hmax, hlen]

/-- C15: with the stores through a null destination left out, a dry run of
`XDR_struct_encoder` over a table of built-in fields returns 0 and reports the byte
count of an encode into a buffer, and every built-in field encoder reports the same
count with and without a destination. But the dry run hands each field encoder the null
destination together with the caller's `max`, and three of the built-in encoders then
store through it: with `max >= 4` (`max >= 8`) `XDR_encode_float` (`XDR_encode_double`)
executes its `memcpy` into the null destination, and `XDR_encode_string_array`, for a
string of at least one character whose encoding fits `max`, copies the characters to the
null destination plus 4. -/
theorem C15_dry_run_sizes {P A : Type} (structHash : Option (HashTable P A))
    (hst : StablePayloads structHash) :
    (∀ (fields : List (XDR_FieldDefinition P)),
        (∀ f ∈ fields, f.funcs ∈ builtinFuncs structHash) →
        ∀ (src : Option (Obj P)) (d : Buf) (u u2 m m2 ty : Nat),
          XDR_struct_encoder src none u m ty (some fields)
            = ⟨0, (XDR_struct_encoder src (some d) u2 m2 ty (some fields)).used, none⟩)
    ∧ (∀ funcs ∈ builtinFuncs structHash, ∀ (src len : Option (Cell P)) (d : Buf)
        (u u2 m m2 : Nat),
        (funcs.encoder src none u m len).used = (funcs.encoder src (some d) u2 m2 len).used)
    ∧ (∀ (src : Option (Obj P)) (max : Nat) (f : XDR_FieldDefinition P)
        (rest : List (XDR_FieldDefinition P)) (res : Int) (used len : Nat),
        XDR_struct_encoder_loop src max (f :: rest) none res used len
          = XDR_struct_encoder_loop src max rest none res
              (used + (f.funcs.encoder (fieldPtr src f.offset) none len max
                (fieldPtr src f.len_offset)).used)
              (f.funcs.encoder (fieldPtr src f.offset) none len max
                (fieldPtr src f.len_offset)).used)
    ∧ (∀ max : Nat, 4 ≤ max → XDR_encode_float_nullStore none max = true)
    ∧ (∀ max : Nat, 8 ≤ max → XDR_encode_double_nullStore none max = true)
    ∧ (∀ (src : Option (Cell P)) (max : Nat) (s : List Nat), src.bind Cell.rdPtr = some s →
        0 < strlen s % 4294967296 →
        (XDR_encode_string_array src none 0 max none).res = 0 →
        XDR_encode_string_array_nullStore src none max = true) := by
  refine ⟨?_, ?_, ?_, ?_, ?_, XDR_encode_string_array_nullStore_dry⟩
  · intro fields hf src d u u2 m m2 ty
    have h1 := XDR_struct_encoder_loop_null src m fields 0 0 0
    have h2 := XDR_struct_encoder_stable structHash hst fields hf src none u m ty
    have h3 := XDR_struct_encoder_stable structHash hst fields hf src (some d) u2 m2 ty
    rw [h3, ← h2]
    show XDR_struct_encoder_loop src m fields none 0 0 0
      = ⟨0, (XDR_struct_encoder_loop src m fields none 0 0 0).used, none⟩
    generalize XDR_struct_encoder_loop src m fields none 0 0 0 = r at h1
    obtain ⟨a, b, c⟩ := r
    obtain ⟨h4, h5⟩ := h1
    simp only at h4 h5
    rw [h4, h5]
  · intro funcs hf src len d u u2 m m2
    exact builtin_used_stable structHash hst funcs hf src len none (some d) u u2 m m2
  · intro src max f rest res used len
    rfl
  · intro max hm
    have : ¬ max < 4 := by omega
    simp only [XDR_encode_float_nullStore, this, if_false, Option.isNone_none]
  · intro max hm
    have : ¬ max < 8 := by omega
    simp only [XDR_encode_double_nullStore, this, if_false, Option.isNone_none]

theorem C15_dry_run_sizes_witness :
    StablePayloads exampleRegistry
    ∧ (XDR_encode_union exampleRegistry (some (Cell.union 7 (some [(0, Cell.word 5)]))) none 0 0
        none).used
      = (XDR_encode_union exampleRegistry (some (Cell.union 7 (some [(0, Cell.word 5)])))
        (some [0, 0, 0, 0, 0, 0, 0, 0]) 0 8 none).used
    ∧ XDR_encode_float_nullStore none 4 = true
    ∧ XDR_encode_string_array_nullStore
        (some (Cell.ptr (some [104, 105, 0]) : Cell (Obj Unit))) none 8 = true :=
  have h := C15_dry_run_sizes exampleRegistry exampleRegistry_stable
  ⟨exampleRegistry_stable,
   h.2.1 (xdr_union_functions exampleRegistry) (by simp [builtinFuncs])
     (some (Cell.union 7 (some [(0, Cell.word 5)]))) none [0, 0, 0, 0, 0, 0, 0, 0] 0 0 0 8,
   h.2.2.2.1 4 (by decide),
   h.2.2.2.2.2 _ 8 [104, 105, 0] rfl (by decide) (by decide)⟩

/-! ## Field order -/

/-- Once a field has failed, `XDR_struct_encoder` keeps that result. -/
theorem XDR_struct_encoder_loop_res_neg {P : Type} (src : Option (Obj P)) (max : Nat)
    (fields : List (XDR_FieldDefinition P)) (mem : Option Buf) (res : Int) (used len : Nat)
    (hres : res < 0) :
    (XDR_struct_encoder_loop src max fields mem res used len).res = res := by
  induction fields generalizing mem used len with
  | nil => cases mem <;> rfl
  | cons f rest ih =>
    unfold XDR_struct_encoder_loop
    split
    · simp only [hres, if_true]
      exact ih _ _ _
    · exact ih _ _ _

theorem flatten_drop_take (Ws : List (List Nat)) (rest : List Nat) (k : Nat)
    (hk : k < Ws.length) :
    ((Ws.flatten ++ rest).drop ((Ws.take k).map List.length).sum).take (Ws[k]).length
      = Ws[k] := by
  induction Ws generalizing k with
  | nil => simp at hk
  | cons W Ws ih =>
    cases k with
    | zero => simp
    | succ k =>
      have hk2 : k < Ws.length := by simpa using hk
      have := ih k hk2
      simp only [List.take_succ_cons, List.map_cons, List.sum_cons, List.flatten_cons,
        List.append_assoc, List.getElem_cons_succ]
      rw [← List.drop_drop, List.drop_left]
      exact this

/-- A successful `XDR_struct_encoder` run has written the field encodings one after the
other. -/
theorem XDR_struct_encoder_loop_concat {P : Type} (v : Obj P) (max : Nat)
    (hmax : max < 18446744073709551616) (fields : List (XDR_FieldDefinition P))
    (Ws : List (List Nat)) (hW : List.Forall₂ (FieldEncoding v) fields Ws)
    (pre tail : List Nat) (res0 : Int) (used len : Nat) (hpre : pre.length = used)
    (hu : used ≤ max) (hres0 : 0 ≤ res0)
    (hok : 0 ≤ (XDR_struct_encoder_loop (some v) max fields (some (pre ++ tail)) res0 used
      len).res) :
    (XDR_struct_encoder_loop (some v) max fields (some (pre ++ tail)) res0 used len).used
        = used + (Ws.map List.length).sum
    ∧ (XDR_struct_encoder_loop (some v) max fields (some (pre ++ tail)) res0 used len).dst
        = some (pre ++ (Ws.flatten ++ tail.drop (Ws.map List.length).sum))
    ∧ used + (Ws.map List.length).sum ≤ max := by
  induction hW generalizing pre tail res0 used len with
  | nil => simp [XDR_struct_encoder_loop, hu]
  | @cons f W rest Ws hf _ ih =>
    have hnn : ¬ res0 < 0 := by omega
    have hsub : sizeSub max used = max - used := sizeSub_eq _ _ hmax hu
    have hdrop : (pre ++ tail).drop used = tail := drop_append_length pre tail used hpre
    have htake : (pre ++ tail).take used = pre := take_append_length pre tail used hpre
    unfold XDR_struct_encoder_loop at hok ⊢
    simp only [hnn, if_false, fieldPtr, Option.map_some', hdrop, hsub, splice, htake] at hok ⊢
    by_cases hr : 0 ≤ (f.funcs.encoder (some (v.get f.offset)) (some tail) len (max - used)
        (some (v.get f.len_offset))).res
    · obtain ⟨h1, h2, h3⟩ := hf tail len (max - used) (by omega) hr
      rw [h2, h3, Option.getD_some, ← List.append_assoc] at hok ⊢
      have := ih (pre ++ W) (tail.drop W.length) _ (used + W.length) W.length
        (by simp [hpre]) (by omega) hr hok
      obtain ⟨i1, i2, i3⟩ := this
      refine ⟨?_, ?_, ?_⟩
      · rw [i1]; simp only [List.map_cons, List.sum_cons]; omega
      · rw [i2]
        simp only [List.map_cons, List.sum_cons, List.flatten_cons, List.append_assoc,
          List.drop_drop]
      · simp only [List.map_cons, List.sum_cons]; omega
    · exfalso
      rw [XDR_struct_encoder_loop_res_neg _ _ _ _ _ _ _ (by omega)] at hok
      exact hr hok

/-- A field with a `FieldSpec` has its wire image as encoding. -/
theorem FieldSpec.fieldEncoding {P : Type} {v : Obj P} {f : XDR_FieldDefinition P}
    {usesLen : Bool} {W : List Nat} (h : FieldSpec v f usesLen W) : FieldEncoding v f W := by
  intro d u m hm hr
  by_cases hfit : W.length ≤ m
  · rw [h.enc_ok d u m hfit hm]
    exact ⟨hfit, rfl, rfl⟩
  · have := (h.enc_fail d u m (by omega)).1
    omega

/-- The encodings of the three fields of the example value. -/
theorem exampleIntTable_encodings :
    List.Forall₂ (FieldEncoding exampleIntValue) exampleIntTable
      [[0, 0, 0, 2], [0, 0, 0, 7, 0, 0, 0, 9], [0, 0, 0, 0, 0, 0, 0, 5]] := by
  refine List.Forall₂.cons ?_ (List.Forall₂.cons ?_ (List.Forall₂.cons ?_ List.Forall₂.nil))
  · exact (fieldSpec_scalar32 exampleIntValue { funcs := xdr_int32_functions, offset := 0 } 2
      (Or.inl rfl) rfl (by decide)).fieldEncoding
  · exact (fieldSpec_array32 exampleIntValue
      { funcs := xdr_uint32_arr_functions, offset := 8, len_offset := 0 } [7, 9] (Or.inr rfl)
      rfl rfl (by decide) (by decide)).fieldEncoding
  · exact (fieldSpec_scalar64 exampleIntValue { funcs := xdr_int64_functions, offset := 16 } 5
      (Or.inl rfl) rfl (by decide)).fieldEncoding

/-- C16: when `XDR_struct_encoder` succeeds on a table whose fields have the encodings
`Ws` (field k encoded from the slot at `offset_k` with the slot at `len_offset_k` as
length hint), its output is the concatenation of `Ws` in table order, the bytes of
field k start at the sum of the sizes of the fields before it, and `*inc` is the sum of
all field sizes. -/
theorem C16_struct_encoder_concat {P : Type} (v : Obj P)
    (fields : List (XDR_FieldDefinition P)) (Ws : List (List Nat)) (d : Buf)
    (inc max ty : Nat) (hmax : max < 18446744073709551616)
    (hW : List.Forall₂ (FieldEncoding v) fields Ws)
    (hok : 0 ≤ (XDR_struct_encoder (some v) (some d) inc max ty (some fields)).res) :
    (XDR_struct_encoder (some v) (some d) inc max ty (some fields)).used
        = (Ws.map List.length).sum
    ∧ (XDR_struct_encoder (some v) (some d) inc max ty (some fields)).dst
        = some (Ws.flatten ++ d.drop (Ws.map List.length).sum)
    ∧ ∀ (k : Nat) (hk : k < Ws.length),
        ((Ws.flatten ++ d.drop (Ws.map List.length).sum).drop
          ((Ws.take k).map List.length).sum).take (Ws[k]).length = Ws[k] := by
  have h := XDR_struct_encoder_loop_concat v max hmax fields Ws hW [] d 0 0 0 rfl
    (Nat.zero_le _) (le_refl _) hok
  simp only [List.nil_append, Nat.zero_add] at h
  exact ⟨h.1, h.2.1, fun k hk => flatten_drop_take Ws _ k hk⟩

theorem C16_struct_encoder_concat_witness :
    (XDR_struct_encoder (some exampleIntValue) (some (List.replicate 24 0xAA)) 0 20 0
        (some exampleIntTable)).used = 20
    ∧ (XDR_struct_encoder (some exampleIntValue) (some (List.replicate 24 0xAA)) 0 20 0
        (some exampleIntTable)).dst
      = some ([0, 0, 0, 2, 0, 0, 0, 7, 0, 0, 0, 9, 0, 0, 0, 0, 0, 0, 0, 5]
          ++ List.replicate 4 0xAA) :=
  have h := C16_struct_encoder_concat exampleIntValue exampleIntTable
    [[0, 0, 0, 2], [0, 0, 0, 7, 0, 0, 0, 9], [0, 0, 0, 0, 0, 0, 0, 5]]
    (List.replicate 24 0xAA) 0 20 0 (by decide) exampleIntTable_encodings (by decide)
  ⟨h.1, h.2.1⟩

/-! ## Retry with the reported size -/

/-- The total a byte array of `L` bytes computes from its companion length. -/
theorem byteTotal_eq {P : Type} (L : Nat) (hL : L + (4 - L % 4) % 4 < 2147483648) :
    toU64 (toI32 (toU32 (derefLen (some (Cell.word L : Cell P))
        + cRem (4 - cRem (derefLen (some (Cell.word L : Cell P))) 4) 4)))
      = L + (4 - L % 4) % 4 := by
  have h1 : derefLen (some (Cell.word L : Cell P)) = (L : Int) := derefLen_word _ (by omega)
  have h2 : ((L : Int) + (((4 - L % 4) % 4 : Nat) : Int))
      = ((L + (4 - L % 4) % 4 : Nat) : Int) := by push_cast; rfl
  rw [h1, cPad_nonneg, h2, toI32_toU32_natCast _ hL, toU64_natCast _ (by omega)]

/-- Without room strictly above `L + pad`, `XDR_encode_byte_array` fails and reports
`L + pad`. -/
theorem XDR_encode_byte_array_full {P : Type} (bytes : List Nat) (d : Buf) (u max : Nat)
    (hL : bytes.length + (4 - bytes.length % 4) % 4 < 2147483648)
    (hmax : max ≤ bytes.length + (4 - bytes.length % 4) % 4) :
    XDR_encode_byte_array (some (Cell.ptr (some bytes) : Cell P)) (some d) u max
        (some (Cell.word bytes.length))
      = ⟨-1, bytes.length + (4 - bytes.length % 4) % 4, some d⟩ := by
  have h := byteTotal_eq (P := P) bytes.length hL
  have e : (some (Cell.ptr (some bytes) : Cell P)).bind Cell.rdPtr = some bytes := rfl
  unfold XDR_encode_byte_array
  rw [e]
  simp only [h, ge_iff_le, hmax, if_true]

theorem XDR_encode_byte_array_null {P : Type} (src : Option (Cell P)) (u max L : Nat)
    (hL : L + (4 - L % 4) % 4 < 2147483648) :
    XDR_encode_byte_array src none u max (some (Cell.word L))
      = ⟨-1, L + (4 - L % 4) % 4, none⟩ := by
  have h := byteTotal_eq (P := P) L hL
  unfold XDR_encode_byte_array
  simp only [h]

theorem exampleBlobValue_get (bytes : List Nat) :
    (exampleBlobValue bytes).get 0 = Cell.word bytes.length
    ∧ (exampleBlobValue bytes).get 8 = Cell.ptr (some bytes) := by
  constructor <;> simp [exampleBlobValue, Obj.get, List.find?]


theorem XDR_struct_encoder_loop_live {P : Type} (src : Option (Obj P)) (max : Nat)
    (f : XDR_FieldDefinition P) (rest : List (XDR_FieldDefinition P)) (m : Buf) (res : Int)
    (used len : Nat) (hres : ¬ res < 0) :
    XDR_struct_encoder_loop src max (f :: rest) (some m) res used len
      = XDR_struct_encoder_loop src max rest
          (some (splice m used ((f.funcs.encoder (fieldPtr src f.offset) (some (m.drop used))
            len (sizeSub max used) (fieldPtr src f.len_offset)).dst.getD (m.drop used))))
          (f.funcs.encoder (fieldPtr src f.offset) (some (m.drop used)) len (sizeSub max used)
            (fieldPtr src f.len_offset)).res
          (used + (f.funcs.encoder (fieldPtr src f.offset) (some (m.drop used)) len
            (sizeSub max used) (fieldPtr src f.len_offset)).used)
          (f.funcs.encoder (fieldPtr src f.offset) (some (m.drop used)) len (sizeSub max used)
            (fieldPtr src f.len_offset)).used := by
  rw [XDR_struct_encoder_loop]
  simp only [hres, if_false]

theorem XDR_struct_encoder_loop_dead {P : Type} (src : Option (Obj P)) (max : Nat)
    (f : XDR_FieldDefinition P) (rest : List (XDR_FieldDefinition P)) (m : Buf) (res : Int)
    (used len : Nat) (hres : res < 0) :
    XDR_struct_encoder_loop src max (f :: rest) (some m) res used len
      = XDR_struct_encoder_loop src max rest (some m) res
          (used + (f.funcs.encoder (fieldPtr src f.offset) none len max
            (fieldPtr src f.len_offset)).used)
          (f.funcs.encoder (fieldPtr src f.offset) none len max
            (fieldPtr src f.len_offset)).used := by
  rw [XDR_struct_encoder_loop]
  simp only [hres, if_true]

theorem exampleBlobTable_encode (bytes : List Nat) (d : Buf) (u max ty : Nat)
    (hL : bytes.length + (4 - bytes.length % 4) % 4 < 2147483648)
    (hmax : max < 18446744073709551616) :
    (max ≤ 4 + (bytes.length + (4 - bytes.length % 4) % 4) →
      (XDR_struct_encoder (some (exampleBlobValue bytes)) (some d) u max ty
          (some exampleBlobTable)).res < 0
      ∧ (XDR_struct_encoder (some (exampleBlobValue bytes)) (some d) u max ty
          (some exampleBlobTable)).used = 4 + (bytes.length + (4 - bytes.length % 4) % 4))
    ∧ (4 + (bytes.length + (4 - bytes.length % 4) % 4) < max →
      XDR_struct_encoder (some (exampleBlobValue bytes)) (some d) u max ty
          (some exampleBlobTable)
        = ⟨0, 4 + (bytes.length + (4 - bytes.length % 4) % 4),
            some (be32 bytes.length ++ (bytes ++ (List.replicate ((4 - bytes.length % 4) % 4) 0
              ++ d.drop (4 + (bytes.length + (4 - bytes.length % 4) % 4)))))⟩) := by
  obtain ⟨g0, g8⟩ := exampleBlobValue_get bytes
  have hr : (Cell.word bytes.length : Cell Unit).rd32 = bytes.length := by
    simp only [Cell.rd32]; omega
  have hp0 : fieldPtr (some (exampleBlobValue bytes)) 0 = some (Cell.word bytes.length) := by
    simp only [fieldPtr, Option.map_some', g0]
  have hp8 : fieldPtr (some (exampleBlobValue bytes)) 8 = some (Cell.ptr (some bytes)) := by
    simp only [fieldPtr, Option.map_some', g8]
  have hs0 : sizeSub max 0 = max := sizeSub_eq max 0 hmax (Nat.zero_le _)
  simp only [XDR_struct_encoder, exampleBlobTable]
  rw [XDR_struct_encoder_loop_live _ _ _ _ _ _ _ _ (by decide)]
  dsimp only
  rw [hp0, hs0, List.drop_zero]
  have hb8 : ∀ (dd : Option Buf) (uu mm : Nat),
      (xdr_byte_arr_functions : XDR_TypeFunctions Unit).encoder (some (Cell.ptr (some bytes))) dd
        uu mm (some (Cell.word bytes.length))
      = XDR_encode_byte_array (some (Cell.ptr (some bytes))) dd uu mm
        (some (Cell.word bytes.length)) := fun _ _ _ => rfl
  by_cases h4 : max < 4
  · have he0 : (xdr_int32_functions : XDR_TypeFunctions Unit).encoder
        (some (Cell.word bytes.length)) (some d) 0 max (some (Cell.word bytes.length))
        = ⟨-2, 4, some d⟩ :=
      XDR_encode_int32_fail (Cell.word bytes.length) d 0 max (some (Cell.word bytes.length)) h4
    rw [he0]
    dsimp only
    rw [XDR_struct_encoder_loop_dead _ _ _ _ _ _ _ _ (by decide)]
    dsimp only
    rw [hp0, hp8, hb8, XDR_encode_byte_array_null _ _ _ _ hL]
    dsimp only [XDR_struct_encoder_loop]
    exact ⟨fun _ => ⟨by decide, by omega⟩, fun h => by omega⟩
  · have he0 : (xdr_int32_functions : XDR_TypeFunctions Unit).encoder
        (some (Cell.word bytes.length)) (some d) 0 max (some (Cell.word bytes.length))
        = ⟨0, 4, some (be32 bytes.length ++ d.drop 4)⟩ := by
      have := XDR_encode_int32_ok (Cell.word bytes.length : Cell Unit) d 0 max
        (some (Cell.word bytes.length)) (by omega)
      rw [hr] at this
      exact this
    have hsub : sizeSub max 4 = max - 4 := sizeSub_eq _ _ hmax (by omega)
    rw [he0]
    dsimp only
    rw [XDR_struct_encoder_loop_live _ _ _ _ _ _ _ _ (by decide)]
    dsimp only
    rw [hp0, hp8, hb8, Nat.zero_add, hsub, Option.getD_some]
    have hsp : (splice d 0 (be32 bytes.length ++ d.drop 4)) = be32 bytes.length ++ d.drop 4 := by
      simp only [splice, List.take_zero, List.nil_append]
    rw [hsp, drop4_be32_append]
    constructor
    · intro hle
      rw [XDR_encode_byte_array_full bytes _ _ _ hL (by omega)]
      dsimp only [XDR_struct_encoder_loop]
      exact ⟨by decide, rfl⟩
    · intro hgt
      rw [XDR_encode_byte_array_ok bytes _ _ _ hL (by omega)]
      dsimp only [XDR_struct_encoder_loop, Option.getD_some]
      simp only [splice, take4_be32_append, List.drop_drop]


/-- The retry of `IPC_command_internal` gives up when the encoder fails at 1024 bytes,
reports `n > 1024`, and fails again at exactly `n` bytes. -/
theorem IPC_command_internal_encode_gives_up (encode : Option Buf → Nat → EncResult) (n : Nat)
    (h1 : (encode (some (List.replicate 1024 0)) 1024).res < 0)
    (h1u : (encode (some (List.replicate 1024 0)) 1024).used = n)
    (hn : 1024 < n) (hn2 : n ≤ 9223372036854775807)
    (h2 : (encode (some (List.replicate n 0)) n).res < 0) :
    IPC_command_internal_encode encode = none := by
  have hm : malloc 1024 = some (List.replicate 1024 0) := malloc_ok 1024 (by omega)
  unfold IPC_command_internal_encode
  dsimp only
  rw [hm, if_pos h1, h1u, if_pos hn, malloc_ok n hn2]
  dsimp only
  rw [if_pos h2]


/-- The blob encoder fails, reporting the encoded size, for every room up to that size. -/
theorem exampleBlobEncode_full (bytes : List Nat) (ty : Nat) (d : Buf) (m : Nat)
    (hL : bytes.length + (4 - bytes.length % 4) % 4 < 2147483648)
    (hm64 : m < 18446744073709551616)
    (hm : m ≤ 4 + (bytes.length + (4 - bytes.length % 4) % 4)) :
    (exampleBlobEncode bytes ty (some d) m).res < 0
    ∧ (exampleBlobEncode bytes ty (some d) m).used
        = 4 + (bytes.length + (4 - bytes.length % 4) % 4) :=
  (exampleBlobTable_encode bytes d 0 m ty hL hm64).1 hm

/-- C17: on the table `exampleBlobTable` (a count, then a byte array as last field), for
every blob of `L` bytes with encoded size `n = 4 + L + pad`: an encode into `max < n`
bytes fails and reports `n`; the encode into exactly `n` bytes fails again, still
reporting `n` (`XDR_encode_byte_array` rejects `byte_len + padding >= max`); `n + 1`
bytes are needed. So the retry of `IPC_command_internal`, run with this encoder in the
place of `IPC_Command_encode`, returns -1 whenever `n > 1024`. -/
theorem C17_retry_exact_size (bytes : List Nat) (d d2 d3 : Buf) (u max ty : Nat)
    (hL : bytes.length + (4 - bytes.length % 4) % 4 < 2147483648)
    (hmax : max < 4 + (bytes.length + (4 - bytes.length % 4) % 4)) :
    ((XDR_struct_encoder (some (exampleBlobValue bytes)) (some d) u max ty
        (some exampleBlobTable)).res < 0
      ∧ (XDR_struct_encoder (some (exampleBlobValue bytes)) (some d) u max ty
        (some exampleBlobTable)).used = 4 + (bytes.length + (4 - bytes.length % 4) % 4))
    ∧ ((XDR_struct_encoder (some (exampleBlobValue bytes)) (some d2) u
        (4 + (bytes.length + (4 - bytes.length % 4) % 4)) ty (some exampleBlobTable)).res < 0
      ∧ (XDR_struct_encoder (some (exampleBlobValue bytes)) (some d2) u
        (4 + (bytes.length + (4 - bytes.length % 4) % 4)) ty (some exampleBlobTable)).used
          = 4 + (bytes.length + (4 - bytes.length % 4) % 4))
    ∧ XDR_struct_encoder (some (exampleBlobValue bytes)) (some d3) u
        (4 + (bytes.length + (4 - bytes.length % 4) % 4) + 1) ty (some exampleBlobTable)
      = ⟨0, 4 + (bytes.length + (4 - bytes.length % 4) % 4),
          some (be32 bytes.length ++ (bytes ++ (List.replicate ((4 - bytes.length % 4) % 4) 0
            ++ d3.drop (4 + (bytes.length + (4 - bytes.length % 4) % 4)))))⟩
    ∧ (1024 < 4 + (bytes.length + (4 - bytes.length % 4) % 4) →
      IPC_command_internal_encode (exampleBlobEncode bytes ty) = none) := by
  have hn64 : 4 + (bytes.length + (4 - bytes.length % 4) % 4) < 18446744073709551616 := by
    omega
  have hn64b : 4 + (bytes.length + (4 - bytes.length % 4) % 4) + 1 < 18446744073709551616 := by
    omega
  have hmax64 : max < 18446744073709551616 := by omega
  have hle : 4 + (bytes.length + (4 - bytes.length % 4) % 4) ≤ 9223372036854775807 := by omega
  have h1024 : (1024 : Nat) < 18446744073709551616 := by decide
  refine ⟨(exampleBlobTable_encode bytes d u max ty hL hmax64).1 (Nat.le_of_lt hmax),
    (exampleBlobTable_encode bytes d2 u
      (4 + (bytes.length + (4 - bytes.length % 4) % 4)) ty hL hn64).1 (Nat.le_refl _),
    (exampleBlobTable_encode bytes d3 u
      (4 + (bytes.length + (4 - bytes.length % 4) % 4) + 1) ty hL hn64b).2
      (Nat.lt_succ_self _), ?_⟩
  intro hn
  have h1 := exampleBlobEncode_full bytes ty (List.replicate 1024 0) 1024 hL h1024
    (Nat.le_of_lt hn)
  have h2 := exampleBlobEncode_full bytes ty
    (List.replicate (4 + (bytes.length + (4 - bytes.length % 4) % 4)) 0)
    (4 + (bytes.length + (4 - bytes.length % 4) % 4)) hL hn64 (Nat.le_refl _)
  exact IPC_command_internal_encode_gives_up (exampleBlobEncode bytes ty)
    (4 + (bytes.length + (4 - bytes.length % 4) % 4)) h1.1 h1.2 hn hle h2.1

theorem C17_retry_exact_size_witness :
    ((XDR_struct_encoder (some (exampleBlobValue [1, 2, 3, 4, 5]))
        (some [9, 9, 9, 9, 9, 9, 9, 9]) 0 8 0 (some exampleBlobTable)).res < 0
      ∧ (XDR_struct_encoder (some (exampleBlobValue [1, 2, 3, 4, 5]))
        (some [9, 9, 9, 9, 9, 9, 9, 9]) 0 8 0 (some exampleBlobTable)).used = 12)
    ∧ ((XDR_struct_encoder (some (exampleBlobValue [1, 2, 3, 4, 5]))
        (some [9, 9, 9, 9, 9, 9, 9, 9, 9, 9, 9, 9]) 0 12 0 (some exampleBlobTable)).res < 0
      ∧ (XDR_struct_encoder (some (exampleBlobValue [1, 2, 3, 4, 5]))
        (some [9, 9, 9, 9, 9, 9, 9, 9, 9, 9, 9, 9]) 0 12 0 (some exampleBlobTable)).used = 12)
    ∧ XDR_struct_encoder (some (exampleBlobValue [1, 2, 3, 4, 5]))
        (some [9, 9, 9, 9, 9, 9, 9, 9, 9, 9, 9, 9, 9]) 0 13 0 (some exampleBlobTable)
      = ⟨0, 12, some [0, 0, 0, 5, 1, 2, 3, 4, 5, 0, 0, 0, 9]⟩
    ∧ IPC_command_internal_encode (exampleBlobEncode (List.replicate 1021 7) 0) = none :=
  have h := C17_retry_exact_size [1, 2, 3, 4, 5] [9, 9, 9, 9, 9, 9, 9, 9]
    [9, 9, 9, 9, 9, 9, 9, 9, 9, 9, 9, 9] [9, 9, 9, 9, 9, 9, 9, 9, 9, 9, 9, 9, 9] 0 8 0
    (by decide) (by decide)
  ⟨h.1, h.2.1, h.2.2.1,
   (C17_retry_exact_size (List.replicate 1021 7) [] [] [] 0 0 0
     (by rw [List.length_replicate]; decide) (by rw [List.length_replicate]; decide)).2.2.2
     (by rw [List.length_replicate]; decide)⟩

/-! ## Decoders stay within their room -/

theorem XDR_decode_int32_bounded {P : Type} : DecBounded (XDR_decode_int32 : XDR_Decoder P) := by
  intro src dst u m len _ h
  unfold XDR_decode_int32 at h ⊢
  split at h
  · exact absurd (show (0 : Int) ≤ -1 from h) (by decide)
  · rename_i hm
    rw [if_neg hm]
    show 4 ≤ m
    omega

theorem XDR_decode_uint32_bounded {P : Type} :
    DecBounded (XDR_decode_uint32 : XDR_Decoder P) := by
  intro src dst u m len _ h
  unfold XDR_decode_uint32 at h ⊢
  split at h
  · exact absurd (show (0 : Int) ≤ -1 from h) (by decide)
  · rename_i hm
    rw [if_neg hm]
    show 4 ≤ m
    omega

theorem XDR_decode_float_bounded {P : Type} : DecBounded (XDR_decode_float : XDR_Decoder P) := by
  intro src dst u m len _ h
  unfold XDR_decode_float at h ⊢
  split at h
  · exact absurd (show (0 : Int) ≤ -1 from h) (by decide)
  · rename_i hm
    rw [if_neg hm]
    show 4 ≤ m
    omega

theorem XDR_decode_double_bounded {P : Type} :
    DecBounded (XDR_decode_double : XDR_Decoder P) := by
  intro src dst u m len _ h
  unfold XDR_decode_double at h ⊢
  split at h
  · exact absurd (show (0 : Int) ≤ -1 from h) (by decide)
  · rename_i hm
    rw [if_neg hm]
    show 8 ≤ m
    omega

theorem XDR_decode_int64_bounded {P : Type} : DecBounded (XDR_decode_int64 : XDR_Decoder P) := by
  intro src dst u m len _ h
  by_cases hm : m < 8
  · unfold XDR_decode_int64 at h
    rw [if_pos hm] at h
    exact absurd (show (0 : Int) ≤ -1 from h) (by decide)
  · have hu : (XDR_decode_int64 src dst u m len).used = 8 ∨
        (XDR_decode_int64 src dst u m len).res = -1 := by
      unfold XDR_decode_int64
      rw [if_neg hm]
      dsimp only
      split
      · exact Or.inr rfl
      · split
        · exact Or.inr rfl
        · exact Or.inl rfl
    rcases hu with h8 | hneg
    · rw [h8]; omega
    · rw [hneg] at h; exact absurd (show (0 : Int) ≤ -1 from h) (by decide)

theorem XDR_decode_uint64_bounded {P : Type} :
    DecBounded (XDR_decode_uint64 : XDR_Decoder P) := by
  intro src dst u m len _ h
  by_cases hm : m < 8
  · unfold XDR_decode_uint64 at h
    rw [if_pos hm] at h
    exact absurd (show (0 : Int) ≤ -1 from h) (by decide)
  · have hu : (XDR_decode_uint64 src dst u m len).used = 8 ∨
        (XDR_decode_uint64 src dst u m len).res = -1 := by
      unfold XDR_decode_uint64
      rw [if_neg hm]
      dsimp only
      split
      · exact Or.inr rfl
      · split
        · exact Or.inr rfl
        · exact Or.inl rfl
    rcases hu with h8 | hneg
    · rw [h8]; omega
    · rw [hneg] at h; exact absurd (show (0 : Int) ≤ -1 from h) (by decide)

theorem XDR_decode_string_array_bounded {P : Type} :
    DecBounded (XDR_decode_string_array : XDR_Decoder P) := by
  intro src dst u m len _ h
  unfold XDR_decode_string_array at h ⊢
  dsimp only at h ⊢
  split at h
  · exact absurd (show (0 : Int) ≤ -1 from h) (by decide)
  · rename_i h1
    rw [if_neg h1]
    split at h
    · exact absurd (show (0 : Int) ≤ -1 from h) (by decide)
    · rename_i h2
      rw [if_neg h2]
      dsimp only
      have := Nat.mod_le
        ((((XDR_decode_uint32 src (some (Cell.word 0)) 0 m none : DecResult (Cell P)).dst.getD
          (Cell.word 0)).rd32)
          + (4 + 4294967296 - (((XDR_decode_uint32 src (some (Cell.word 0)) 0 m none :
            DecResult (Cell P)).dst.getD (Cell.word 0)).rd32) % 4) % 4294967296 % 4)
        4294967296
      omega

/-- The companion length read back from a slot holding a signed 32-bit value. -/
theorem derefLen_toU32 {P : Type} (L : Int) (h1 : -2147483648 ≤ L) (h2 : L < 2147483648) :
    derefLen (some (Cell.word (toU32 L) : Cell P)) = L := by
  simp only [derefLen, Option.getD_some, Cell.rd32, Nat.mod_eq_of_lt (toU32_lt L)]
  exact toI32_toU32 L h1 h2

/-- The padded total of a negative length: 0 for the lengths -1, -2, -3, and at most -4
below. -/
theorem byteTotal_neg (L : Int) (h2 : L < 0) :
    (-4 < L → L + cRem (4 - cRem L 4) 4 = 0)
    ∧ (L ≤ -4 → L + cRem (4 - cRem L 4) 4 ≤ -4 ∧ L ≤ L + cRem (4 - cRem L 4) 4) := by
  have h1 : Int.tmod L 4 + 4 * Int.tdiv L 4 = L := Int.tmod_add_tdiv L 4
  have h3 : -4 < Int.tmod L 4 := tmod4_gt L
  have h5 : Int.tmod L 4 ≤ 0 := by
    rcases L with n | n
    · exact absurd h2 (by simp)
    · show -(((n + 1) % 4 : Nat) : Int) ≤ 0
      omega
  have h4 : Int.tmod (4 - Int.tmod L 4) 4 = (4 - Int.tmod L 4) % 4 :=
    Int.tmod_eq_emod (by omega) (by decide)
  simp only [cRem, h4]
  generalize Int.tmod L 4 = r at *
  generalize Int.tdiv L 4 = q at *
  constructor
  · intro h; omega
  · intro h; omega

/-- For the companion lengths -1, -2 and -3, a non-null `dst` and `max > 0`,
`XDR_decode_byte_array` passes its size test, asks `malloc` for `2^64 + L` bytes, which
fails, and then copies that many bytes through the null result. -/
theorem XDR_decode_byte_array_nullCopy_neg {P : Type} (slot : Cell P) (max : Nat) (L : Int)
    (h1 : -4 < L) (h2 : L < 0) (hmax : 0 < max) :
    XDR_decode_byte_array_request (some slot) max (some (Cell.word (toU32 L) : Cell P))
      = some (toU64 L)
    ∧ malloc (toU64 L) = none
    ∧ XDR_decode_byte_array_nullCopy (some slot) max (some (Cell.word (toU32 L) : Cell P))
      = true
    ∧ 18446744073709551613 ≤ toU64 L := by
  have hd : derefLen (some (Cell.word (toU32 L) : Cell P)) = L :=
    derefLen_toU32 L (by omega) (by omega)
  have hn := byteTotal_neg L h2
  have ht : ¬ toU64 (toI32 (toU32 (L + cRem (4 - cRem L 4) 4))) ≥ max := by
    rw [hn.1 h1]
    show ¬ 0 ≥ max
    omega
  have hU : 18446744073709551613 ≤ toU64 L := by unfold toU64; omega
  have hm : malloc (toU64 L) = none := by
    unfold malloc
    rw [if_neg (by omega)]
  have hreq : XDR_decode_byte_array_request (some slot) max
      (some (Cell.word (toU32 L) : Cell P)) = some (toU64 L) := by
    simp only [XDR_decode_byte_array_request, hd, Option.isNone_some, Bool.false_or,
      decide_eq_true_eq, ht, if_false]
  refine ⟨hreq, hm, ?_, hU⟩
  unfold XDR_decode_byte_array_nullCopy
  rw [hreq]
  simp only [hm, Option.isNone_none]

/-- A call of `XDR_decode_byte_array` that does not reach the copy through a null pointer
and succeeds reports at most `max`. -/
theorem XDR_decode_byte_array_bounded {P : Type} (src : Buf) (dst : Option (Cell P))
    (u m : Nat) (len : Option (Cell P)) (_hm : m < 18446744073709551616)
    (_hnf : XDR_decode_byte_array_nullCopy dst m len = false)
    (h : 0 ≤ (XDR_decode_byte_array src dst u m len).res) :
    (XDR_decode_byte_array src dst u m len).used ≤ m := by
  unfold XDR_decode_byte_array at h ⊢
  dsimp only at h ⊢
  split at h
  · exact absurd (show (0 : Int) ≤ -1 from h) (by decide)
  · rename_i h1
    rw [if_neg h1]
    dsimp only
    simp only [Bool.or_eq_true, decide_eq_true_eq, not_or, not_le, ge_iff_le] at h1
    exact Nat.le_of_lt h1.2

/-- The array decoder loop never reports more than the room when the element decoder
stays within its room. -/
theorem XDR_array_decoder_loop_bounded {P : Type} (src : Buf) (max inc : Nat)
    (dec : XDR_Decoder P) (hdec : DecBounded dec) (hmax : max < 18446744073709551616)
    (k i : Nat) (buff : List Nat) (dl : Nat) (hdl : dl ≤ max) (b : List Nat) (n : Nat)
    (h : XDR_array_decoder_loop src max inc dec k i buff dl = .ok (b, n)) : n ≤ max := by
  induction k generalizing i buff dl with
  | zero =>
    simp only [XDR_array_decoder_loop, Except.ok.injEq, Prod.mk.injEq] at h
    omega
  | succ k ih =>
    have hsub : sizeSub max dl = max - dl := sizeSub_eq _ _ hmax hdl
    unfold XDR_array_decoder_loop at h
    dsimp only at h
    rw [hsub] at h
    split at h
    · cases h
    · rename_i hr
      have hb := hdec (src.drop dl) (some (elemCell inc (buff.getD i 0))) 0 (max - dl) none
        (by omega) (by omega)
      exact ih _ _ _ (by omega) h

/-- The element decoder of a failed array decode returned a negative result. -/
theorem XDR_array_decoder_loop_error {P : Type} (src : Buf) (max inc : Nat)
    (dec : XDR_Decoder P) (k i : Nat) (buff : List Nat) (dl : Nat) (e : Int)
    (h : XDR_array_decoder_loop src max inc dec k i buff dl = .error e) : e < 0 := by
  induction k generalizing i buff dl with
  | zero => simp only [XDR_array_decoder_loop] at h; cases h
  | succ k ih =>
    unfold XDR_array_decoder_loop at h
    dsimp only at h
    split at h
    · rename_i hr
      cases h
      exact hr
    · exact ih _ _ _ h

theorem XDR_array_decoder_bounded {P : Type} (dec : XDR_Decoder P) (hdec : DecBounded dec)
    (src : Buf) (dst : Option (Cell P)) (u m : Nat) (len : Int) (inc : Nat)
    (hm : m < 18446744073709551616)
    (h : 0 ≤ (XDR_array_decoder src dst u m len inc dec).res) :
    (XDR_array_decoder src dst u m len inc dec).used ≤ m := by
  unfold XDR_array_decoder at h ⊢
  cases hmal : malloc ((toU64 len * inc) % 18446744073709551616) with
  | none =>
    rw [hmal] at h
    exact absurd (show (0 : Int) ≤ -1 from h) (by decide)
  | some block =>
    rw [hmal] at h
    dsimp only at h ⊢
    cases dst with
    | none => exact absurd (show (0 : Int) ≤ -2 from h) (by decide)
    | some c =>
      dsimp only at h ⊢
      cases hloop : XDR_array_decoder_loop src m inc dec len.toNat 0
          (List.replicate (block.length / inc) 0) 0 with
      | error e =>
        rw [hloop] at h
        have := XDR_array_decoder_loop_error src m inc dec _ _ _ _ e hloop
        have h2 : (0 : Int) ≤ e := h
        omega
      | ok r =>
        obtain ⟨b, n⟩ := r
        exact XDR_array_decoder_loop_bounded src m inc dec hdec hm _ _ _ _ (Nat.zero_le _) b n
          hloop

/-- The array wrappers stay within their room. -/
theorem arrayDecoders_bounded {P : Type} :
    ∀ dec ∈ ([XDR_decode_int32_array, XDR_decode_uint32_array, XDR_decode_int64_array,
      XDR_decode_uint64_array, XDR_decode_float_array, XDR_decode_double_array] :
      List (XDR_Decoder P)), DecBounded dec := by
  have key : ∀ (w : Nat) (el : XDR_Decoder P), DecBounded el →
      DecBounded (fun src dst _u max len =>
        match len with
        | some _ => XDR_array_decoder src dst 0 max (derefLen len) w el
        | none => ⟨0, dst, 0⟩) := by
    intro w el hel src dst u m len hm h
    cases len with
    | none => exact Nat.zero_le _
    | some c => exact XDR_array_decoder_bounded el hel src dst 0 m _ w hm h
  intro dec hdec
  simp only [List.mem_cons, List.mem_singleton, List.not_mem_nil, or_false] at hdec
  rcases hdec with rfl | rfl | rfl | rfl | rfl | rfl
  · exact key 4 XDR_decode_uint32 XDR_decode_uint32_bounded
  · exact key 4 XDR_decode_uint32 XDR_decode_uint32_bounded
  · exact key 8 XDR_decode_int64 XDR_decode_int64_bounded
  · exact key 8 XDR_decode_uint64 XDR_decode_uint64_bounded
  · exact key 4 XDR_decode_float XDR_decode_float_bounded
  · exact key 8 XDR_decode_double XDR_decode_double_bounded

/-- The struct decoder loop never reports more than the room when every field decoder
stays within its room. -/
theorem XDR_struct_decoder_loop_bounded {P : Type} (src : Buf) (max : Nat)
    (hmax : max < 18446744073709551616) (fields : List (XDR_FieldDefinition P))
    (hf : ∀ f ∈ fields, DecBounded f.funcs.decoder) (dst : Option (Obj P)) (used : Nat)
    (hu : used ≤ max) (d : Option (Obj P)) (n : Nat)
    (h : XDR_struct_decoder_loop src max fields dst used = (d, some n)) : n ≤ max := by
  induction fields generalizing dst used with
  | nil =>
    simp only [XDR_struct_decoder_loop, Prod.mk.injEq, Option.some.injEq] at h
    omega
  | cons f rest ih =>
    have hsub : sizeSub max used = max - used := sizeSub_eq _ _ hmax hu
    unfold XDR_struct_decoder_loop at h
    dsimp only at h
    rw [hsub] at h
    split at h
    · cases h
    · rename_i hr
      have hb := hf f (List.mem_cons_self _ _) (src.drop used) (fieldPtr dst f.offset) 0
        (max - used) (fieldPtr dst f.len_offset) (by omega) (by omega)
      exact ih (fun g hg => hf g (List.mem_cons_of_mem _ hg)) _ _ (by omega) h

theorem XDR_struct_decoder_bounded {P : Type} (fields : List (XDR_FieldDefinition P))
    (hf : ∀ f ∈ fields, DecBounded f.funcs.decoder) (src : Buf) (dst : Option (Obj P))
    (u m : Nat) (hm : m < 18446744073709551616)
    (h : 0 ≤ (XDR_struct_decoder src dst u m (some fields)).res) :
    (XDR_struct_decoder src dst u m (some fields)).used ≤ m := by
  unfold XDR_struct_decoder at h ⊢
  dsimp only at h ⊢
  cases hloop : XDR_struct_decoder_loop src m fields dst 0 with
  | mk d r =>
    rw [hloop] at h
    cases r with
    | none => exact absurd (show (0 : Int) ≤ -1 from h) (by decide)
    | some n =>
      exact XDR_struct_decoder_loop_bounded src m hm fields hf dst 0 (Nat.zero_le _) d n hloop

/-- The struct decoder loop never reports more than the room when every field decoder
other than `XDR_decode_byte_array` stays within its room and no byte-array field reaches
the copy through a null pointer. -/
theorem XDR_struct_decoder_loop_bounded_safe {P : Type} (src : Buf) (max : Nat)
    (hmax : max < 18446744073709551616) (fields : List (XDR_FieldDefinition P))
    (hf : ∀ f ∈ fields, f.funcs.decoder = XDR_decode_byte_array ∨ DecBounded f.funcs.decoder)
    (dst : Option (Obj P)) (used : Nat) (hu : used ≤ max)
    (hs : XDR_struct_decoder_loop_noNullCopy src max fields dst used)
    (d : Option (Obj P)) (n : Nat)
    (h : XDR_struct_decoder_loop src max fields dst used = (d, some n)) : n ≤ max := by
  induction fields generalizing dst used with
  | nil =>
    simp only [XDR_struct_decoder_loop, Prod.mk.injEq, Option.some.injEq] at h
    omega
  | cons f rest ih =>
    have hsub : sizeSub max used = max - used := sizeSub_eq _ _ hmax hu
    unfold XDR_struct_decoder_loop at h
    unfold XDR_struct_decoder_loop_noNullCopy at hs
    dsimp only at h
    rw [hsub] at h hs
    split at h
    · cases h
    · rename_i hr
      have hb : (f.funcs.decoder (src.drop used) (fieldPtr dst f.offset) 0 (max - used)
          (fieldPtr dst f.len_offset)).used ≤ max - used := by
        rcases hf f (List.mem_cons_self _ _) with hba | hbd
        · have hnf := hs.1 hba
          rw [hba] at hr ⊢
          exact XDR_decode_byte_array_bounded _ _ _ _ _ (by omega) hnf (by omega)
        · exact hbd _ _ _ _ _ (by omega) (by omega)
      exact ih (fun g hg => hf g (List.mem_cons_of_mem _ hg)) _ _ (by omega) (hs.2 hr) h

theorem XDR_struct_decoder_bounded_safe {P : Type} (fields : List (XDR_FieldDefinition P))
    (hf : ∀ f ∈ fields, f.funcs.decoder = XDR_decode_byte_array ∨ DecBounded f.funcs.decoder)
    (src : Buf) (dst : Option (Obj P)) (u m : Nat) (hm : m < 18446744073709551616)
    (hs : XDR_struct_decoder_loop_noNullCopy src m fields dst 0)
    (h : 0 ≤ (XDR_struct_decoder src dst u m (some fields)).res) :
    (XDR_struct_decoder src dst u m (some fields)).used ≤ m := by
  unfold XDR_struct_decoder at h ⊢
  dsimp only at h ⊢
  cases hloop : XDR_struct_decoder_loop src m fields dst 0 with
  | mk d r =>
    rw [hloop] at h
    cases r with
    | none => exact absurd (show (0 : Int) ≤ -1 from h) (by decide)
    | some n =>
      exact XDR_struct_decoder_loop_bounded_safe src m hm fields hf dst 0 (Nat.zero_le _) hs
        d n hloop

theorem XDR_bitfield_struct_decoder_bounded {P : Type} (src : Buf) (dst : Option (Obj P))
    (u m : Nat) (arg : Option (List (XDR_FieldDefinition P))) (hm : m < 18446744073709551616)
    (h : 0 ≤ (XDR_bitfield_struct_decoder src dst u m arg).res) :
    (XDR_bitfield_struct_decoder src dst u m arg).used ≤ m := by
  have hb := XDR_decode_uint32_bounded (P := P) src (some (Cell.word 0)) u m none hm
  unfold XDR_bitfield_struct_decoder at h ⊢
  dsimp only at h ⊢
  split at h
  · exact absurd (show (0 : Int) ≤ -1 from h) (by decide)
  · rename_i hr
    rw [if_neg hr]
    have h4 := hb (by omega)
    cases arg with
    | none => exact h4
    | some fields =>
      dsimp only
      cases hl : XDR_bitfield_struct_decoder_loop
          ((XDR_decode_uint32 src (some (Cell.word 0)) u m none :
            DecResult (Cell P)).dst.getD (Cell.word 0)).rd32 fields dst with
      | mk d ok =>
        cases ok <;> exact h4

theorem XDR_decode_union_bounded {P A : Type} (structHash : Option (HashTable P A))
    (hp : BoundedPayloads structHash) :
    DecBounded (XDR_decode_union structHash : XDR_Decoder P) := by
  intro src dst u m len hm h
  have hb := XDR_decode_uint32_bounded (P := P) src
    (some (Cell.word ((dst.getD (Cell.word 0)).rdUnion).1)) 0 m none hm
  unfold XDR_decode_union at h ⊢
  dsimp only at h ⊢
  generalize (XDR_decode_uint32 src (some (Cell.word ((dst.getD (Cell.word 0)).rdUnion).1)) 0 m
    none : DecResult (Cell P)) = r0 at h hb ⊢
  split at h
  · exact absurd (show (0 : Int) ≤ -1 from h) (by decide)
  · rename_i hr
    rw [if_neg hr]
    have h4 : r0.used ≤ m := hb (Int.not_lt.mp hr)
    have hsub : sizeSub m r0.used = m - r0.used := sizeSub_eq m _ hm h4
    split at h
    · exact absurd (show (0 : Int) ≤ -1 from h) (by decide)
    · rename_i df hd
      try dsimp only at h ⊢
      split at h
      · exact absurd (show (0 : Int) ≤ -1 from h) (by decide)
      · rename_i dec hdec
        try dsimp only at h ⊢
        split at h
        · exact absurd (show (0 : Int) ≤ -1 from h) (by decide)
        · rename_i alloc ha
          try dsimp only at h ⊢
          split at h
          · exact absurd (show (0 : Int) ≤ -1 from h) (by decide)
          · rename_i data hal
            try dsimp only at h ⊢
            rw [hsub] at h ⊢
            split at h
            · exact absurd (show (0 : Int) ≤ -1 from h) (by decide)
            · rename_i hr2
              rw [if_neg hr2]
              have hpay := hp _ df dec hd hdec (src.drop r0.used) (some data) 0 (m - r0.used)
                (lt_of_le_of_lt (Nat.sub_le _ _) hm) (Int.not_lt.mp hr2)
              show r0.used + _ ≤ m
              clear h
              omega

/-- The registry of `exampleRegistry` holds payload decoders that stay within their
room. -/
theorem exampleRegistry_bounded : BoundedPayloads exampleRegistry := by
  intro t df dec hd he src p u m hm h
  simp only [exampleRegistry, XDR_definition_for_type] at hd
  split at hd
  · cases hd
    cases he
    exact XDR_struct_decoder_bounded exampleWordTable
      (fun f hf => by
        simp only [exampleWordTable, List.mem_singleton] at hf
        subst hf
        exact XDR_decode_uint32_bounded) src p u m hm h
  · cases hd

/-- Every decoder of a built-in record other than `XDR_decode_byte_array` stays within
its room. -/
theorem builtin_decoder_bounded {P A : Type} (structHash : Option (HashTable P A))
    (hp : BoundedPayloads structHash) (funcs : XDR_TypeFunctions P)
    (hf : funcs ∈ builtinFuncs structHash) :
    funcs.decoder = XDR_decode_byte_array ∨ DecBounded funcs.decoder := by
  have ha := arrayDecoders_bounded (P := P)
  simp only [builtinFuncs, List.mem_cons, List.mem_singleton, List.not_mem_nil, or_false] at hf
  rcases hf with rfl | rfl | rfl | rfl | rfl | rfl | rfl | rfl | rfl | rfl | rfl | rfl | rfl
    | rfl | rfl | rfl | rfl
  · exact Or.inr XDR_decode_float_bounded
  · exact Or.inr (ha XDR_decode_float_array (by simp))
  · exact Or.inr XDR_decode_double_bounded
  · exact Or.inr (ha XDR_decode_double_array (by simp))
  · exact Or.inr XDR_decode_int32_bounded
  · exact Or.inr (ha XDR_decode_int32_array (by simp))
  · exact Or.inr XDR_decode_int32_bounded
  · exact Or.inr (ha XDR_decode_int32_array (by simp))
  · exact Or.inr XDR_decode_uint32_bounded
  · exact Or.inr (ha XDR_decode_uint32_array (by simp))
  · exact Or.inr XDR_decode_int64_bounded
  · exact Or.inr (ha XDR_decode_int64_array (by simp))
  · exact Or.inr XDR_decode_uint64_bounded
  · exact Or.inr (ha XDR_decode_uint64_array (by simp))
  · exact Or.inr XDR_decode_string_array_bounded
  · exact Or.inl rfl
  · exact Or.inr (XDR_decode_union_bounded structHash hp)

/-- C18: every decoder call that succeeds with room `max` and does not fault reports a
consumed byte count of at most `max`: the scalar, string and array decoders and
`XDR_decode_union` (over a registry whose payload decoders do so), `XDR_decode_byte_array`
when it does not reach its copy through a null pointer, `XDR_array_decoder` with any
bounded element decoder, `XDR_bitfield_struct_decoder`, and `XDR_struct_decoder` over a
table of built-in fields none of whose byte-array fields reaches that copy; and a 4-byte
(8-byte) scalar decode fails whenever `max < 4` (`max < 8`). But for the companion lengths
-1, -2 and -3 (and `max > 0`) `XDR_decode_byte_array` passes its size test, `malloc` fails,
and `memcpy(NULL, src, byte_len)` is executed with a count of at least 2^64 - 3: it reads
from `src` far beyond `max`. -/
theorem C18_decoders_within_max {P A : Type} (structHash : Option (HashTable P A))
    (hp : BoundedPayloads structHash) :
    (∀ dec ∈ ([XDR_decode_int32, XDR_decode_uint32, XDR_decode_int64, XDR_decode_uint64,
        XDR_decode_float, XDR_decode_double, XDR_decode_string_array,
        XDR_decode_int32_array, XDR_decode_uint32_array, XDR_decode_int64_array,
        XDR_decode_uint64_array, XDR_decode_float_array, XDR_decode_double_array,
        XDR_decode_union structHash] : List (XDR_Decoder P)), DecBounded dec)
    ∧ (∀ (src : Buf) (dst : Option (Cell P)) (u m : Nat) (len : Option (Cell P)),
        m < 18446744073709551616 → XDR_decode_byte_array_nullCopy dst m len = false →
        0 ≤ (XDR_decode_byte_array src dst u m len).res →
        (XDR_decode_byte_array src dst u m len).used ≤ m)
    ∧ (∀ (el : XDR_Decoder P), DecBounded el →
        ∀ (src : Buf) (dst : Option (Cell P)) (u m : Nat) (len : Int) (inc : Nat),
          m < 18446744073709551616 → 0 ≤ (XDR_array_decoder src dst u m len inc el).res →
          (XDR_array_decoder src dst u m len inc el).used ≤ m)
    ∧ (∀ (src : Buf) (dst : Option (Obj P)) (u m : Nat)
        (arg : Option (List (XDR_FieldDefinition P))),
          m < 18446744073709551616 → 0 ≤ (XDR_bitfield_struct_decoder src dst u m arg).res →
          (XDR_bitfield_struct_decoder src dst u m arg).used ≤ m)
    ∧ (∀ (fields : List (XDR_FieldDefinition P)),
        (∀ f ∈ fields, f.funcs ∈ builtinFuncs structHash) →
        ∀ (src : Buf) (dst : Option (Obj P)) (u m : Nat),
          m < 18446744073709551616 →
          XDR_struct_decoder_loop_noNullCopy src m fields dst 0 →
          0 ≤ (XDR_struct_decoder src dst u m (some fields)).res →
          (XDR_struct_decoder src dst u m (some fields)).used ≤ m)
    ∧ (∀ (src : Buf) (dst : Option (Cell P)) (u m : Nat) (len : Option (Cell P)),
        (m < 4 → (XDR_decode_int32 src dst u m len).res < 0
          ∧ (XDR_decode_uint32 src dst u m len).res < 0
          ∧ (XDR_decode_float src dst u m len).res < 0)
        ∧ (m < 8 → (XDR_decode_int64 src dst u m len).res < 0
          ∧ (XDR_decode_uint64 src dst u m len).res < 0
          ∧ (XDR_decode_double src dst u m len).res < 0))
    ∧ (∀ (slot : Cell P) (max : Nat) (L : Int), -4 < L → L < 0 → 0 < max →
        XDR_decode_byte_array_request (some slot) max (some (Cell.word (toU32 L) : Cell P))
          = some (toU64 L)
        ∧ malloc (toU64 L) = none
        ∧ XDR_decode_byte_array_nullCopy (some slot) max
            (some (Cell.word (toU32 L) : Cell P)) = true
        ∧ 18446744073709551613 ≤ toU64 L) := by
  refine ⟨?_, ?_, ?_, ?_, ?_, ?_, ?_⟩
  · have ha := arrayDecoders_bounded (P := P)
    intro dec hdec
    simp only [List.mem_cons, List.mem_singleton, List.not_mem_nil, or_false] at hdec
    rcases hdec with rfl | rfl | rfl | rfl | rfl | rfl | rfl | rfl | rfl | rfl | rfl | rfl | rfl
      | rfl
    · exact XDR_decode_int32_bounded
    · exact XDR_decode_uint32_bounded
    · exact XDR_decode_int64_bounded
    · exact XDR_decode_uint64_bounded
    · exact XDR_decode_float_bounded
    · exact XDR_decode_double_bounded
    · exact XDR_decode_string_array_bounded
    · exact ha XDR_decode_int32_array (by simp)
    · exact ha XDR_decode_uint32_array (by simp)
    · exact ha XDR_decode_int64_array (by simp)
    · exact ha XDR_decode_uint64_array (by simp)
    · exact ha XDR_decode_float_array (by simp)
    · exact ha XDR_decode_double_array (by simp)
    · exact XDR_decode_union_bounded structHash hp
  · intro src dst u m len hm hnf h
    exact XDR_decode_byte_array_bounded src dst u m len hm hnf h
  · intro el hel src dst u m len inc hm h
    exact XDR_array_decoder_bounded el hel src dst u m len inc hm h
  · intro src dst u m arg hm h
    exact XDR_bitfield_struct_decoder_bounded src dst u m arg hm h
  · intro fields hf src dst u m hm hs h
    exact XDR_struct_decoder_bounded_safe fields
      (fun f hm => builtin_decoder_bounded structHash hp f.funcs (hf f hm)) src dst u m hm hs h
  · intro src dst u m len
    constructor
    · intro h4
      refine ⟨?_, ?_, ?_⟩
      · simp only [XDR_decode_int32, h4, if_true]; decide
      · simp only [XDR_decode_uint32, h4, if_true]; decide
      · simp only [XDR_decode_float, h4, if_true]; decide
    · intro h8
      refine ⟨?_, ?_, ?_⟩
      · simp only [XDR_decode_int64, h8, if_true]; decide
      · simp only [XDR_decode_uint64, h8, if_true]; decide
      · simp only [XDR_decode_double, h8, if_true]; decide
  · intro slot max L h1 h2 hmax
    exact XDR_decode_byte_array_nullCopy_neg slot max L h1 h2 hmax

/-- A union decoded within its room, an `int64_t` refused for lack of room, and the
companion length -1, for which the byte-array decoder reaches the copy through the null
result of `malloc`. -/
theorem C18_decoders_within_max_witness :
    BoundedPayloads exampleRegistry
    ∧ (XDR_decode_union exampleRegistry [0, 0, 0, 7, 0, 0, 0, 5, 1, 1] (some (Cell.union 0 none))
        0 9 none).used ≤ 9
    ∧ (XDR_decode_int64 [0, 0, 0, 0, 0, 0, 0, 5] (some (Cell.dword 0 : Cell (Obj Unit))) 0 7
        none).res < 0
    ∧ XDR_decode_byte_array_nullCopy (some (Cell.ptr none : Cell (Obj Unit))) 8
        (some (Cell.word (toU32 (-1)))) = true :=
  have h := C18_decoders_within_max exampleRegistry exampleRegistry_bounded
  ⟨exampleRegistry_bounded,
   h.1 (XDR_decode_union exampleRegistry) (by simp) [0, 0, 0, 7, 0, 0, 0, 5, 1, 1]
     (some (Cell.union 0 none)) 0 9 none (by decide) (by decide),
   ((h.2.2.2.2.2.1 [0, 0, 0, 0, 0, 0, 0, 5] (some (Cell.dword 0)) 0 7 none).2 (by decide)).1,
   (h.2.2.2.2.2.2 (Cell.ptr none) 8 (-1) (by decide) (by decide) (by decide)).2.2.1⟩

/-! ## Failure paths of the union decoder -/

/-- Whenever `XDR_decode_union` fails, the payload slot of the union is null in the
result of the embedding. -/
theorem XDR_decode_union_fail_null {P A : Type} (structHash : Option (HashTable P A))
    (src : Buf) (slot : Cell P) (u m : Nat) (len : Option (Cell P))
    (h : (XDR_decode_union structHash src (some slot) u m len).res < 0) :
    ∃ t : Nat, (XDR_decode_union structHash src (some slot) u m len).dst
      = some (Cell.union t none) := by
  unfold XDR_decode_union at h ⊢
  dsimp only at h ⊢
  split at h
  · rename_i h0
    rw [if_pos h0]; exact ⟨_, rfl⟩
  · rename_i h0
    rw [if_neg h0]
    split at h
    · exact ⟨_, rfl⟩
    · split at h
      · exact ⟨_, rfl⟩
      · split at h
        · exact ⟨_, rfl⟩
        · split at h
          · exact ⟨_, rfl⟩
          · split at h
            · rename_i h2
              rw [if_pos h2]; exact ⟨_, rfl⟩
            · exact absurd (show (0 : Int) < 0 from h) (by decide)

/-- C19: `XDR_decode_union` returns -1 with a null payload slot when the discriminant
cannot be read (`max < 4`), when the discriminant has no registered definition or the
definition has no decoder, when the allocator returns nothing, and when the payload
decoder fails on a definition that has a deallocator, which is then handed the allocated
payload; every failing call that makes no call through a null function pointer leaves
the payload slot null. But the code calls `def->allocator` and `def->deallocator`
without a null test: when the payload decoder fails on a definition without a
deallocator, and when the definition has no allocator, the call goes through a null
function pointer and does not return. -/
theorem C19_union_decode_failure {P A : Type} (structHash : Option (HashTable P A))
    (src rest : Buf) (slot : Cell P) (u m : Nat) (len : Option (Cell P)) (t : Nat)
    (ht : t < 4294967296) :
    (m < 4 →
      XDR_decode_union structHash src (some slot) u m len
        = ⟨-1, some (Cell.union slot.rdUnion.1 none), 0⟩
      ∧ XDR_decode_union_nullCall structHash src (some slot) m = false)
    ∧ (4 ≤ m → XDR_definition_for_type structHash t = none →
      XDR_decode_union structHash (be32 t ++ rest) (some slot) u m len
        = ⟨-1, some (Cell.union t none), 0⟩
      ∧ XDR_decode_union_nullCall structHash (be32 t ++ rest) (some slot) m = false)
    ∧ (∀ df : XDR_StructDefinition P A, 4 ≤ m →
      XDR_definition_for_type structHash t = some df → df.decoder = none →
      XDR_decode_union structHash (be32 t ++ rest) (some slot) u m len
        = ⟨-1, some (Cell.union t none), 0⟩
      ∧ XDR_decode_union_nullCall structHash (be32 t ++ rest) (some slot) m = false)
    ∧ (∀ (df : XDR_StructDefinition P A) (dec : Buf → Option P → Nat → Nat → A → DecResult P)
        (alloc : Nat → Option P),
      4 ≤ m → XDR_definition_for_type structHash t = some df → df.decoder = some dec →
      df.allocator = some alloc → alloc df.in_memory_size = none →
      XDR_decode_union structHash (be32 t ++ rest) (some slot) u m len
        = ⟨-1, some (Cell.union t none), 4⟩
      ∧ XDR_decode_union_nullCall structHash (be32 t ++ rest) (some slot) m = false)
    ∧ (∀ (df : XDR_StructDefinition P A) (dec : Buf → Option P → Nat → Nat → A → DecResult P)
        (alloc : Nat → Option P) (fresh : P) (dealloc : Option P → Option P),
      4 ≤ m → XDR_definition_for_type structHash t = some df → df.decoder = some dec →
      df.allocator = some alloc → alloc df.in_memory_size = some fresh →
      (dec rest (some fresh) 0 (sizeSub m 4) df.arg).res < 0 →
      df.deallocator = some dealloc →
      XDR_decode_union structHash (be32 t ++ rest) (some slot) u m len
        = ⟨-1, some (Cell.union t none), 4⟩
      ∧ XDR_decode_union_released structHash (be32 t ++ rest) (some slot) m
        = some (some dealloc, (dec rest (some fresh) 0 (sizeSub m 4) df.arg).dst)
      ∧ XDR_decode_union_nullCall structHash (be32 t ++ rest) (some slot) m = false)
    ∧ (XDR_decode_union_nullCall structHash src (some slot) m = false →
      (XDR_decode_union structHash src (some slot) u m len).res < 0 →
      ∃ t2 : Nat, (XDR_decode_union structHash src (some slot) u m len).dst
        = some (Cell.union t2 none))
    ∧ (∀ (df : XDR_StructDefinition P A) (dec : Buf → Option P → Nat → Nat → A → DecResult P)
        (alloc : Nat → Option P) (fresh : P),
      4 ≤ m → XDR_definition_for_type structHash t = some df → df.decoder = some dec →
      df.allocator = some alloc → alloc df.in_memory_size = some fresh →
      (dec rest (some fresh) 0 (sizeSub m 4) df.arg).res < 0 →
      df.deallocator = none →
      XDR_decode_union_nullCall structHash (be32 t ++ rest) (some slot) m = true
      ∧ XDR_decode_union_released structHash (be32 t ++ rest) (some slot) m
        = some (none, (dec rest (some fresh) 0 (sizeSub m 4) df.arg).dst))
    ∧ (∀ (df : XDR_StructDefinition P A) (dec : Buf → Option P → Nat → Nat → A → DecResult P),
      4 ≤ m → XDR_definition_for_type structHash t = some df → df.decoder = some dec →
      df.allocator = none →
      XDR_decode_union_nullCall structHash (be32 t ++ rest) (some slot) m = true) := by
  have hr : (Cell.word t : Cell P).rd32 = t := by simp only [Cell.rd32, Nat.mod_eq_of_lt ht]
  refine ⟨?_, ?_, ?_, ?_, ?_,
    fun _ h => XDR_decode_union_fail_null structHash src slot u m len h, ?_, ?_⟩
  · intro hm
    have h1 : (XDR_decode_uint32 src (some (Cell.word slot.rdUnion.1 : Cell P)) 0 m none).res < 0 := by
      simp only [XDR_decode_uint32, hm, if_true]; decide
    constructor
    · unfold XDR_decode_union
      dsimp only
      rw [Option.getD_some, if_pos h1]
      rfl
    · unfold XDR_decode_union_nullCall
      dsimp only
      rw [Option.getD_some, if_pos h1]
  · intro hm hd
    constructor
    · simp only [XDR_decode_union, XDR_decode_uint32_ok t ht rest _ _ _ _ hm, Option.map_some',
        Option.getD_some, hr, hd, Int.lt_irrefl, if_false]
    · simp only [XDR_decode_union_nullCall, XDR_decode_uint32_ok t ht rest _ _ _ _ hm,
        Option.map_some',
        Option.getD_some, hr, hd, Int.lt_irrefl, if_false]
  · intro df hm hd hdec
    constructor
    · simp only [XDR_decode_union, XDR_decode_uint32_ok t ht rest _ _ _ _ hm, Option.map_some',
        Option.getD_some, hr, hd, hdec, Int.lt_irrefl, if_false]
    · simp only [XDR_decode_union_nullCall, XDR_decode_uint32_ok t ht rest _ _ _ _ hm,
        Option.map_some',
        Option.getD_some, hr, hd, hdec, Int.lt_irrefl, if_false]
  · intro df dec alloc hm hd hdec ha hal
    constructor
    · simp only [XDR_decode_union, XDR_decode_uint32_ok t ht rest _ _ _ _ hm, Option.map_some',
        Option.getD_some, hr, hd, hdec, ha, hal, Int.lt_irrefl, if_false]
    · simp only [XDR_decode_union_nullCall, XDR_decode_uint32_ok t ht rest _ _ _ _ hm,
        Option.map_some',
        Option.getD_some, hr, hd, hdec, ha, hal, Int.lt_irrefl, if_false]
  · intro df dec alloc fresh dealloc hm hd hdec ha hal hfail hde
    refine ⟨?_, ?_, ?_⟩
    · rw [XDR_decode_union_eval structHash t df dec fresh rest slot u m len ht hd hdec alloc ha
        hal hm, if_pos hfail]
    · simp only [XDR_decode_union_released, XDR_decode_uint32_ok t ht rest _ _ _ _ hm,
        Option.map_some', Option.getD_some, hr, hd, hdec, ha, hal, Int.lt_irrefl, if_false,
        drop4_be32_append, hfail, if_true, hde]
    · simp only [XDR_decode_union_nullCall, XDR_decode_uint32_ok t ht rest _ _ _ _ hm,
        Option.map_some',
        Option.getD_some, hr, hd, hdec, ha, hal, Int.lt_irrefl, if_false,
        drop4_be32_append, hfail, hde, decide_True, Option.isNone_some, Bool.and_false]
  · intro df dec alloc fresh hm hd hdec ha hal hfail hde
    constructor
    · simp only [XDR_decode_union_nullCall, XDR_decode_uint32_ok t ht rest _ _ _ _ hm,
        Option.map_some',
        Option.getD_some, hr, hd, hdec, ha, hal, Int.lt_irrefl, if_false,
        drop4_be32_append, hfail, hde, decide_True, Option.isNone_none, Bool.and_self]
    · simp only [XDR_decode_union_released, XDR_decode_uint32_ok t ht rest _ _ _ _ hm,
        Option.map_some', Option.getD_some, hr, hd, hdec, ha, hal, Int.lt_irrefl, if_false,
        drop4_be32_append, hfail, if_true, hde]
  · intro df dec hm hd hdec ha
    simp only [XDR_decode_union_nullCall, XDR_decode_uint32_ok t ht rest _ _ _ _ hm,
        Option.map_some',
      Option.getD_some, hr, hd, hdec, ha, Int.lt_irrefl, if_false]

/-- A union message of type 9 cut after two payload bytes: with a deallocator in the
definition the call fails cleanly; with none, the failing payload decode leads to the
call through the null `def->deallocator`. -/
theorem C19_union_decode_failure_witness :
    (XDR_decode_union exampleFailingRegistry [0, 0, 0, 9, 1, 2, 3, 4]
        (some (Cell.union 0 (some []))) 0 8 none
      = ⟨-1, some (Cell.union 9 none), 4⟩
    ∧ XDR_decode_union_released exampleFailingRegistry [0, 0, 0, 9, 1, 2, 3, 4]
        (some (Cell.union 0 (some []))) 8
      = some (some XDR_free_deallocator, some [])
    ∧ XDR_decode_union_nullCall exampleFailingRegistry [0, 0, 0, 9, 1, 2, 3, 4]
        (some (Cell.union 0 (some []))) 8 = false)
    ∧ XDR_decode_union_nullCall exampleNoDeallocRegistry [0, 0, 0, 9, 1, 2]
        (some (Cell.union 0 none)) 6 = true :=
  ⟨(C19_union_decode_failure exampleFailingRegistry [] [1, 2, 3, 4] (Cell.union 0 (some [])) 0
      8 none 9 (by decide)).2.2.2.2.1 _ exampleFailingDecoder XDR_malloc_allocator []
      XDR_free_deallocator (by decide) rfl rfl rfl rfl (by decide) rfl,
   ((C19_union_decode_failure exampleNoDeallocRegistry [] [1, 2] (Cell.union 0 none) 0
      6 none 9 (by decide)).2.2.2.2.2.2.1 _ XDR_struct_decoder XDR_malloc_allocator []
      (by decide) rfl rfl rfl rfl (by decide) rfl).1⟩

/-! ## Command references -/

/-- C20 as stated fails when the counter holds 2^32 - 1: the first command gets the
`ipcref` 4294967295, the counter wraps, and the second command gets 0. -/
theorem C20_ipcref_wrap_counterexample :
    IPC_two_commands 4294967295 = (4294967295, 0)
    ∧ ¬ ((IPC_two_commands 4294967295).1 < (IPC_two_commands 4294967295).2) := by
  decide

/-- C20 (amended): for every counter value below 2^32 - 1, the second of two commands
issued one after the other carries the `ipcref` of the first plus one, which is strictly
greater as an unsigned 32-bit number; in general the second `ipcref` is the first plus
one modulo 2^32. -/
theorem C20_ipcref_increasing (c : Nat) (hc : c < 4294967295) :
    (IPC_two_commands c).1 = c
    ∧ (IPC_two_commands c).2 = c + 1
    ∧ (IPC_two_commands c).1 < (IPC_two_commands c).2
    ∧ (IPC_two_commands c).2 < 4294967296
    ∧ ∀ k : Nat, (IPC_two_commands k).2 = ((IPC_two_commands k).1 + 1) % 4294967296 := by
  have h1 : (IPC_two_commands c).1 = c := by
    simp only [IPC_two_commands, IPC_command_internal_ref]; omega
  have h2 : (IPC_two_commands c).2 = c + 1 := by
    simp only [IPC_two_commands, IPC_command_internal_ref]; omega
  refine ⟨h1, h2, by rw [h1, h2]; omega, by rw [h2]; omega, ?_⟩
  intro k
  simp only [IPC_two_commands, IPC_command_internal_ref]
  omega

theorem C20_ipcref_increasing_witness :
    (IPC_two_commands 1).1 = 1 ∧ (IPC_two_commands 1).2 = 2
    ∧ (IPC_two_commands 1).1 < (IPC_two_commands 1).2 :=
  have h := C20_ipcref_increasing 1 (by decide)
  ⟨h.1, h.2.1, h.2.2.1⟩

/-! ## Response envelopes -/

/-- C21: the envelope built by `IPC_response` has `cmd` = `IPC_CMDS_RESPONSE`, the
`ipcref` of the command answered, `result` = `IPC_RESULTCODE_SUCCESS` and the caller's
(type, payload); the envelope built by `IPC_error` has `cmd` = `IPC_CMDS_RESPONSE`, the
`ipcref` of the command answered, `result` = the supplied error code (non-zero when that
code is non-zero) and the payload (`IPC_TYPES_VOID`, NULL); and these envelopes are what
the encoder is run on. -/
theorem C21_response_envelope {P : Type} (IPC_CMDS_RESPONSE IPC_RESULTCODE_SUCCESS
    IPC_TYPES_VOID : Nat) (encode : IPC_Response P → Option Buf → Nat → EncResult)
    (cmd : IPC_Command P) (param_type : Nat) (params : Option P) (err_code : Nat) :
    (IPC_response IPC_CMDS_RESPONSE IPC_RESULTCODE_SUCCESS encode cmd param_type params).1
        = ⟨IPC_CMDS_RESPONSE, cmd.ipcref, IPC_RESULTCODE_SUCCESS, (param_type, params)⟩
    ∧ (IPC_response IPC_CMDS_RESPONSE IPC_RESULTCODE_SUCCESS encode cmd param_type params).2
        = IPC_command_internal_encode (encode
            ⟨IPC_CMDS_RESPONSE, cmd.ipcref, IPC_RESULTCODE_SUCCESS, (param_type, params)⟩)
    ∧ (IPC_error IPC_CMDS_RESPONSE IPC_TYPES_VOID encode cmd err_code).1
        = ⟨IPC_CMDS_RESPONSE, cmd.ipcref, err_code, (IPC_TYPES_VOID, none)⟩
    ∧ (err_code ≠ 0 →
        (IPC_error IPC_CMDS_RESPONSE IPC_TYPES_VOID encode cmd err_code).1.result ≠ 0)
    ∧ ((encode ⟨IPC_CMDS_RESPONSE, cmd.ipcref, err_code, (IPC_TYPES_VOID, none)⟩
          (malloc 128) 128).res ≥ 0 →
        (IPC_error IPC_CMDS_RESPONSE IPC_TYPES_VOID encode cmd err_code).2
          = some ((encode ⟨IPC_CMDS_RESPONSE, cmd.ipcref, err_code, (IPC_TYPES_VOID, none)⟩
              (malloc 128) 128).dst,
            (encode ⟨IPC_CMDS_RESPONSE, cmd.ipcref, err_code, (IPC_TYPES_VOID, none)⟩
              (malloc 128) 128).used)) := by
  have h3 : (IPC_error IPC_CMDS_RESPONSE IPC_TYPES_VOID encode cmd err_code).1
      = ⟨IPC_CMDS_RESPONSE, cmd.ipcref, err_code, (IPC_TYPES_VOID, none)⟩ := by
    unfold IPC_error
    dsimp only
    split <;> rfl
  refine ⟨rfl, rfl, h3, ?_, ?_⟩
  · intro h
    rw [h3]
    exact h
  · intro h
    have hn : ¬ (encode ⟨IPC_CMDS_RESPONSE, cmd.ipcref, err_code, (IPC_TYPES_VOID, none)⟩
        (malloc 128) 128).res < 0 := Int.not_lt.mpr h
    unfold IPC_error
    dsimp only
    rw [if_neg hn]

/-- An encoder of response envelopes that writes the result code as one 32-bit word. -/
theorem C21_response_envelope_witness :
    (IPC_error 3 0 (fun (resp : IPC_Response Unit) buff m =>
        XDR_encode_uint32 (some (Cell.word resp.result : Cell Unit)) buff 0 m none)
      ⟨7, 41, (0, none)⟩ 5).1 = ⟨3, 41, 5, (0, none)⟩
    ∧ (IPC_error 3 0 (fun (resp : IPC_Response Unit) buff m =>
        XDR_encode_uint32 (some (Cell.word resp.result : Cell Unit)) buff 0 m none)
      ⟨7, 41, (0, none)⟩ 5).1.result ≠ 0 :=
  have h := C21_response_envelope (P := Unit) 3 0 0
    (fun (resp : IPC_Response Unit) buff m =>
      XDR_encode_uint32 (some (Cell.word resp.result : Cell Unit)) buff 0 m none)
    ⟨7, 41, (0, none)⟩ 0 none 5
  ⟨h.2.2.1, h.2.2.2.1 (by decide)⟩

/-! ## Blocking commands -/

/-- The transport result is negative exactly when the socket cannot be opened, no packet
arrives in time, the wait fails, or the read fails. -/
theorem socket_send_packet_and_read_xdr_sa_neg (s w r : Int) :
    socket_send_packet_and_read_xdr_sa s w r true 65536 < 0
      ↔ (s < 0 ∨ w = 0 ∨ w ≠ 1 ∨ r < 0) := by
  unfold socket_send_packet_and_read_xdr_sa
  simp only [Bool.true_and, decide_eq_true_eq, show (65536 : Nat) > 0 by decide, if_true]
  by_cases hs : s < 0
  · simp [hs]
  · by_cases hw0 : w = 0
    · simp [hs, hw0]
    · by_cases hw1 : w = 1
      · simp [hs, hw1]
      · simp [hs, hw0, hw1]

/-- C22 as stated fails in two ways. When the command cannot be encoded (here its
parameter type is not registered) `IPC_command_blocking` returns -1 without invoking the
callback; and when no reply arrives in time the callback receives the `cb_type` the
caller passed (0 in one call, 1 in the other), not a fixed error value. -/
theorem C22_blocking_failure_counterexample :
    IPC_command_blocking exampleUnregisteredEncode 3 1 8 [] exampleResolve 1 5 none 9 true 0
      = (-1, [])
    ∧ IPC_command_blocking exampleCommandEncode 3 0 0 [] exampleResolve 1 5 none 9 true 0
      = (-2, [⟨1, none, 0, 0⟩])
    ∧ IPC_command_blocking exampleCommandEncode 3 0 0 [] exampleResolve 1 5 none 9 true 1
      = (-2, [⟨1, none, 0, 1⟩]) := by
  refine ⟨?_, ?_, ?_⟩ <;> rfl

/-- C22 (amended): for every call of `IPC_command_blocking` with a non-null callback
whose command is encoded, if the transport fails (the socket cannot be opened, no reply
arrives in time, the wait fails, or the read fails) the callback is invoked exactly once
before the call returns, with the timeout flag 1, a null payload of length 0 and the
`cb_type` of the caller, and the call returns the negative transport result. -/
theorem C22_blocking_failure_callback {P : Type}
    (encode : IPC_Command P → Option Buf → Nat → EncResult) (s w r : Int) (rxbuff : Buf)
    (resolve : Bool → Nat → Buf → Int → Int × List CallbackCall)
    (next_cmd_ref command : Nat) (params : Option P) (param_type cb_type : Nat)
    (henc : (IPC_command_internal_encode (encode
      ⟨command, (IPC_command_internal_ref next_cmd_ref).1, (param_type, params)⟩)).isSome)
    (hfail : s < 0 ∨ w = 0 ∨ w ≠ 1 ∨ r < 0) :
    IPC_command_blocking encode s w r rxbuff resolve next_cmd_ref command params param_type
        true cb_type
      = (socket_send_packet_and_read_xdr_sa s w r true 65536, [⟨1, none, 0, cb_type⟩])
    ∧ socket_send_packet_and_read_xdr_sa s w r true 65536 < 0 := by
  have hneg := (socket_send_packet_and_read_xdr_sa_neg s w r).mpr hfail
  refine ⟨?_, hneg⟩
  unfold IPC_command_blocking IPC_command_internal
  dsimp only
  cases he : IPC_command_internal_encode (encode
      ⟨command, (IPC_command_internal_ref next_cmd_ref).1, (param_type, params)⟩) with
  | none => rw [he] at henc; exact absurd henc (by simp)
  | some v =>
    dsimp only
    unfold ipc_blocking_command
    dsimp only
    rw [if_pos hneg]
    simp

/-- A command that encodes, sent when no reply arrives within the timeout. -/
theorem C22_blocking_failure_callback_witness :
    IPC_command_blocking exampleCommandEncode 3 0 0 [] exampleResolve 1 5 none 9 true 1
      = (socket_send_packet_and_read_xdr_sa 3 0 0 true 65536, [⟨1, none, 0, 1⟩])
    ∧ socket_send_packet_and_read_xdr_sa 3 0 0 true 65536 < 0 :=
  C22_blocking_failure_callback exampleCommandEncode 3 0 0 [] exampleResolve 1 5 none 9 1
    (by rfl) (Or.inr (Or.inl rfl))

/-! ## Service names -/

/-- Two C strings compare equal under `strcmp` exactly when their bytes before the NUL
are the same. -/
theorem strcmp_eq_zero_iff (a b : List Nat) :
    strcmp a b = 0 ↔ cstring a = cstring b := by
  unfold cstring
  induction a generalizing b with
  | nil =>
    cases b with
    | nil => simp [strcmp]
    | cons y ys =>
      by_cases hy : y = 0
      · simp [strcmp, hy]
      · simp [strcmp, hy, List.takeWhile_cons]
  | cons x xs ih =>
    cases b with
    | nil =>
      by_cases hx : x = 0
      · simp [strcmp, hx]
      · simp [strcmp, hx, List.takeWhile_cons]
    | cons y ys =>
      by_cases hxy : x = y
      · subst hxy
        by_cases hx : x = 0
        · simp [strcmp, hx]
        · simp [strcmp, hx, List.takeWhile_cons, ih]
      · have : (x : Int) - (y : Int) ≠ 0 := by omega
        by_cases hx : x = 0
        · have hy : ¬ y = 0 := fun h => hxy (by rw [hx, h])
          have hy2 : ¬ 0 = y := fun h => hy h.symm
          subst hx
          simp [strcmp, hy, hy2, List.takeWhile_cons]
        · by_cases hy : y = 0
          · simp [strcmp, hxy, this, List.takeWhile_cons, hx, hy]
          · simp [strcmp, hxy, this, List.takeWhile_cons, hx, hy]

/-- The search loop returns the port of the first record whose name compares equal. -/
theorem socket_get_addr_by_name_loop_first (service : List Nat) (rec : ServiceNames)
    (post : List ServiceNames) (hrec : cstring rec.name = cstring service) :
    ∀ pre : List ServiceNames, (∀ r ∈ pre, cstring r.name ≠ cstring service) →
      socket_get_addr_by_name_loop service (pre ++ rec :: post) = some rec.port := by
  intro pre
  induction pre with
  | nil =>
    intro _
    simp [socket_get_addr_by_name_loop, (strcmp_eq_zero_iff _ _).mpr hrec]
  | cons p ps ih =>
    intro h
    have hp : ¬ strcmp p.name service = 0 := fun h0 =>
      h p (List.mem_cons_self _ _) ((strcmp_eq_zero_iff _ _).mp h0)
    simp only [List.cons_append, socket_get_addr_by_name_loop, if_neg hp]
    exact ih (fun r hr => h r (List.mem_cons_of_mem _ hr))

/-- The search loop finds nothing when no record has the name. -/
theorem socket_get_addr_by_name_loop_none (service : List Nat) :
    ∀ l : List ServiceNames, (∀ r ∈ l, cstring r.name ≠ cstring service) →
      socket_get_addr_by_name_loop service l = none := by
  intro l
  induction l with
  | nil => intro _; rfl
  | cons p ps ih =>
    intro h
    have hp : ¬ strcmp p.name service = 0 := fun h0 =>
      h p (List.mem_cons_self _ _) ((strcmp_eq_zero_iff _ _).mp h0)
    simp only [socket_get_addr_by_name_loop, if_neg hp]
    exact ih (fun r hr => h r (List.mem_cons_of_mem _ hr))

/-- A `long` within the range of `int` is unchanged by the conversion to `int`. -/
theorem toI32_toU32_of_range (n : Int) (h1 : -2147483648 ≤ n) (h2 : n < 2147483648) :
    toI32 (toU32 n) = n := by
  unfold toI32 toU32
  split <;> omega

/-- C23 as stated fails for numbers that do not fit in `int`: with no entry in the
services database and no such name in the table, the name 4294967297 is read by `atol`
as the positive number 4294967297 but 1 is returned, and 2147483648 is read as a positive
number but -1 is returned. -/
theorem C23_name_lookup_counterexample :
    atol (cstr "4294967297") = 4294967297
    ∧ socket_get_addr_by_name (fun _ _ => none) (cstr "4294967297") = 1
    ∧ atol (cstr "2147483648") = 2147483648
    ∧ socket_get_addr_by_name (fun _ _ => none) (cstr "2147483648") = -1 := by
  decide

/-- C23 (amended): `socket_get_addr_by_name` consults, in order, (1) the services
database under protocol udp, returning the port of that entry in host order; (2) the
built-in table, returning the port of the first record whose name equals the argument;
(3) the name read as a decimal number by `atol`, returned if it is positive and below
2^31; a number from -2^31 to 0 gives -1, and in general the number is first converted to
`int`. With no entry in the database, beacon gives 50000, 1234 gives 1234, and nosuch
and 0 give -1. -/
theorem C23_name_lookup (getservbyname : List Nat → List Nat → Option Nat)
    (service : List Nat) :
    (∀ s_port, getservbyname service (cstr "udp") = some s_port →
      socket_get_addr_by_name getservbyname service = (ntohs s_port : Int))
    ∧ (getservbyname service (cstr "udp") = none →
        ∀ (pre : List ServiceNames) (rec : ServiceNames) (post : List ServiceNames),
          serverNameList = pre ++ rec :: post →
          (∀ r ∈ pre, cstring r.name ≠ cstring service) →
          cstring rec.name = cstring service →
          socket_get_addr_by_name getservbyname service = rec.port)
    ∧ (getservbyname service (cstr "udp") = none →
        (∀ r ∈ serverNameList, cstring r.name ≠ cstring service) →
        (0 < atol service → atol service < 2147483648 →
          socket_get_addr_by_name getservbyname service = atol service)
        ∧ (-2147483648 ≤ atol service → atol service ≤ 0 →
          socket_get_addr_by_name getservbyname service = -1)
        ∧ socket_get_addr_by_name getservbyname service
            = if toI32 (toU32 (atol service)) > 0 then toI32 (toU32 (atol service)) else -1)
    ∧ socket_get_addr_by_name (fun _ _ => none) (cstr "beacon") = 50000
    ∧ socket_get_addr_by_name (fun _ _ => none) (cstr "1234") = 1234
    ∧ socket_get_addr_by_name (fun _ _ => none) (cstr "nosuch") = -1
    ∧ socket_get_addr_by_name (fun _ _ => none) (cstr "0") = -1 := by
  refine ⟨?_, ?_, ?_, by decide, by decide, by decide, by decide⟩
  · intro s_port h
    unfold socket_get_addr_by_name
    rw [h]
  · intro h pre rec post hl hpre hrec
    unfold socket_get_addr_by_name
    rw [h]
    dsimp only
    rw [hl, socket_get_addr_by_name_loop_first service rec post hrec pre hpre]
  · intro h hno
    have hgen : socket_get_addr_by_name getservbyname service
        = if toI32 (toU32 (atol service)) > 0 then toI32 (toU32 (atol service)) else -1 := by
      unfold socket_get_addr_by_name
      rw [h]
      dsimp only
      rw [socket_get_addr_by_name_loop_none service serverNameList hno]
    refine ⟨?_, ?_, hgen⟩
    · intro h0 h1
      rw [hgen, toI32_toU32_of_range _ (by omega) h1, if_pos h0]
    · intro h0 h1
      rw [hgen, toI32_toU32_of_range _ h0 (by omega), if_neg (by omega)]

/-- The name 1234 with an empty services database. -/
theorem C23_name_lookup_witness :
    socket_get_addr_by_name (fun _ _ => none) (cstr "1234") = atol (cstr "1234")
    ∧ socket_get_addr_by_name (fun _ _ => none) (cstr "camera") = 50012 :=
  ⟨((C23_name_lookup (fun _ _ => none) (cstr "1234")).2.2.1 rfl (by decide)).1
      (by decide) (by decide),
   (C23_name_lookup (fun _ _ => none) (cstr "camera")).2.1 rfl
      (serverNameList.take 13) ⟨cstr "camera", 50012, cstr "234.192.101.13", 51012⟩
      (serverNameList.drop 14) rfl (by decide) (by decide)⟩

/-! ## Registration -/

/-- C24: before any registration `XDR_definition_for_type` finds nothing for every id;
after `XDR_register_struct(def)` with `def` non-null and its id not yet present the
lookup of `def.type` returns `def`; the lookup of every other id is unchanged by a
registration; registering a definition under an id that is already present leaves the
lookup of that id as it was (write-once per id); and registering a null definition
changes nothing. -/
theorem C24_registry_write_once {P A : Type} (structHash : Option (HashTable P A))
    (d : XDR_StructDefinition P A) :
    (∀ id, XDR_definition_for_type (none : Option (HashTable P A)) id = none)
    ∧ (XDR_definition_for_type structHash d.type = none →
        XDR_definition_for_type (XDR_register_struct structHash (some d)) d.type = some d)
    ∧ (∀ id, id ≠ d.type →
        XDR_definition_for_type (XDR_register_struct structHash (some d)) id
          = XDR_definition_for_type structHash id)
    ∧ (∀ old, XDR_definition_for_type structHash d.type = some old →
        XDR_definition_for_type (XDR_register_struct structHash (some d)) d.type = some old)
    ∧ XDR_register_struct structHash none = structHash := by
  refine ⟨fun _ => rfl, ?_, ?_, ?_, rfl⟩
  · intro h
    cases structHash with
    | none => simp [XDR_register_struct, HASH_create_table, HASH_add_data,
        XDR_definition_for_type]
    | some t =>
      simp only [XDR_definition_for_type] at h
      simp [XDR_register_struct, HASH_add_data, XDR_definition_for_type, h]
  · intro id hid
    cases structHash with
    | none => simp [XDR_register_struct, HASH_create_table, HASH_add_data,
        XDR_definition_for_type, hid]
    | some t =>
      simp only [XDR_register_struct, HASH_add_data, XDR_definition_for_type, if_neg hid]
      cases t id <;> rfl
  · intro old h
    cases structHash with
    | none => simp [XDR_definition_for_type] at h
    | some t =>
      simp only [XDR_definition_for_type] at h
      simp [XDR_register_struct, HASH_add_data, XDR_definition_for_type, h]

/-- Registering a second definition of type 7 in the registry that holds one, and a first
definition of type 9. -/
theorem C24_registry_write_once_witness :
    XDR_definition_for_type (XDR_register_struct exampleRegistry
        (some (exampleDefinition 7 8))) 7 = some (exampleDefinition 7 4)
    ∧ XDR_definition_for_type (XDR_register_struct exampleRegistry
        (some (exampleDefinition 9 8))) 9 = some (exampleDefinition 9 8)
    ∧ XDR_definition_for_type (XDR_register_struct exampleRegistry
        (some (exampleDefinition 9 8))) 7 = XDR_definition_for_type exampleRegistry 7 :=
  ⟨(C24_registry_write_once exampleRegistry (exampleDefinition 7 8)).2.2.2.1
      (exampleDefinition 7 4) rfl,
   (C24_registry_write_once exampleRegistry (exampleDefinition 9 8)).2.1 rfl,
   (C24_registry_write_once exampleRegistry (exampleDefinition 9 8)).2.2.1 7 (by decide)⟩

/-! ## Deallocators -/

/-- C25 as stated fails for `XDR_struct_free_deallocator` with a null definition: the
slot is non-null, nothing is released and the slot still holds the struct on return. -/
theorem C25_struct_deallocator_null_def_counterexample :
    XDR_struct_free_deallocator (P := Unit) (some (some exampleIntValue)) none
      = (some (some exampleIntValue), []) := rfl

/-- C25 (amended): after `XDR_free_deallocator(goner, def)`, or
`XDR_struct_free_deallocator(goner, def)` with `def` non-null, on a slot with `*goner`
non-null, `*goner` is null and the block was freed once (last); a second call on the same
slot releases nothing and changes nothing; and a call with `goner` null or `*goner` null
is a no-op. -/
theorem C25_deallocators_idempotent {P Q A : Type} (p : Q)
    (d0 : Option (XDR_StructDefinition Q A))
    (d : Option (XDR_StructDefinition Q (Option (List (XDR_FieldDefinition P)))))
    (hd : d.isSome) :
    (XDR_free_deallocator_run (some (some p)) d0).1 = some none
    ∧ (XDR_free_deallocator_run (some (some p)) d0).2 = [Release.free p]
    ∧ (XDR_struct_free_deallocator (some (some p)) d).1 = some none
    ∧ (∃ calls, (XDR_struct_free_deallocator (some (some p)) d).2
        = calls ++ [Release.free p])
    ∧ XDR_free_deallocator_run (XDR_free_deallocator_run (some (some p)) d0).1 d0
        = (some none, [])
    ∧ XDR_struct_free_deallocator (XDR_struct_free_deallocator (some (some p)) d).1 d
        = (some none, [])
    ∧ XDR_free_deallocator_run (none : Option (Option Q)) d0 = (none, [])
    ∧ XDR_free_deallocator_run (some (none : Option Q)) d0 = (some none, [])
    ∧ XDR_struct_free_deallocator (none : Option (Option Q)) d = (none, [])
    ∧ XDR_struct_free_deallocator (some (none : Option Q)) d = (some none, []) := by
  cases d with
  | none => exact absurd hd (by simp)
  | some dd =>
    exact ⟨rfl, rfl, rfl, ⟨_, rfl⟩, rfl, rfl, rfl, rfl, rfl, rfl⟩

/-- The registered example definition releasing a struct of two words. -/
theorem C25_deallocators_idempotent_witness :
    (XDR_struct_free_deallocator (some (some exampleIntValue))
        (some (exampleDefinition 7 8))).1 = some none
    ∧ XDR_struct_free_deallocator (XDR_struct_free_deallocator (some (some exampleIntValue))
        (some (exampleDefinition 7 8))).1 (some (exampleDefinition 7 8)) = (some none, []) :=
  have h := C25_deallocators_idempotent (P := Unit) (A := Unit) exampleIntValue none
    (some (exampleDefinition 7 8)) rfl
  ⟨h.2.2.1, h.2.2.2.2.2.1⟩

/-! ## Text scanners -/

/-- Conversion to `int` after an addition absorbs an earlier conversion. -/
theorem toI32_toU32_add (a b : Int) :
    toI32 (toU32 (toI32 (toU32 a) + b)) = toI32 (toU32 (a + b)) := by
  unfold toI32 toU32
  split <;> split <;> split <;> omega

/-- Where `strchr` finds the byte `c` (not NUL): the bytes before it are neither `c` nor
NUL, and the C string is those bytes, `c`, and the C string after it. -/
theorem strchr_some (c : Nat) (hc : c ≠ 0) :
    ∀ (s : List Nat) (k : Nat), strchr s c = some k →
      k < s.length ∧ s.get? k = some c ∧ (∀ x ∈ s.take k, x ≠ c ∧ x ≠ 0)
      ∧ cstring s = s.take k ++ c :: cstring (s.drop (k + 1)) := by
  intro s
  induction s with
  | nil => intro k h; simp [strchr, hc] at h
  | cons b bs ih =>
    intro k h
    unfold strchr at h
    by_cases hb : b = c
    · rw [if_pos hb] at h
      cases h
      subst hb
      refine ⟨by simp, by simp, by simp, ?_⟩
      simp [cstring, List.takeWhile_cons, hc]
    · rw [if_neg hb] at h
      by_cases h0 : b = 0
      · rw [if_pos h0] at h; cases h
      · rw [if_neg h0] at h
        cases hk : strchr bs c with
        | none => rw [hk] at h; cases h
        | some j =>
          rw [hk] at h
          cases h
          obtain ⟨h1, h2, h3, h4⟩ := ih j hk
          refine ⟨by simpa using h1, by simpa using h2, ?_, ?_⟩
          · intro x hx
            rw [List.take_succ_cons, List.mem_cons] at hx
            rcases hx with rfl | hx
            · exact ⟨hb, h0⟩
            · exact h3 x hx
          · have : cstring (b :: bs) = b :: cstring bs := by
              simp [cstring, List.takeWhile_cons, h0]
            rw [this, h4]
            simp

/-- When `strchr` finds no byte `c`, the C string has none. -/
theorem strchr_none (c : Nat) :
    ∀ s : List Nat, strchr s c = none → c ∉ cstring s := by
  intro s
  induction s with
  | nil => intro _; simp [cstring]
  | cons b bs ih =>
    intro h
    unfold strchr at h
    by_cases hb : b = c
    · rw [if_pos hb] at h; cases h
    · rw [if_neg hb] at h
      by_cases h0 : b = 0
      · simp [cstring, List.takeWhile_cons, h0]
      · rw [if_neg h0] at h
        cases hk : strchr bs c with
        | some j => rw [hk] at h; cases h
        | none =>
          have : cstring (b :: bs) = b :: cstring bs := by
            simp [cstring, List.takeWhile_cons, h0]
          rw [this, List.mem_cons]
          rintro (h1 | h1)
          · exact hb h1.symm
          · exact ih hk h1

/-- The C string is no longer than the memory it lies in. -/
theorem cstring_length_le (s : List Nat) : (cstring s).length ≤ s.length := by
  unfold cstring
  exact (List.takeWhile_sublist _).length_le

/-- The counting loop adds the number of commas of the C string to the counter. -/
theorem XDR_array_field_scanner_count_eq :
    ∀ (fuel : Nat) (s : List Nat) (len : Int), s.length < fuel →
      toI32 (toU32 len) = len →
      XDR_array_field_scanner_count fuel s len
        = toI32 (toU32 (len + ((cstring s).count 44 : Nat))) := by
  intro fuel
  induction fuel with
  | zero => intro s len h; exact absurd h (Nat.not_lt_zero _)
  | succ n ih =>
    intro s len hf hw
    unfold XDR_array_field_scanner_count
    cases hk : strchr s 44 with
    | none =>
      have h0 : (cstring s).count 44 = 0 :=
        List.count_eq_zero.mpr (strchr_none 44 s hk)
      simp only [h0]
      simpa using hw.symm
    | some k =>
      obtain ⟨h1, _, h3, h4⟩ := strchr_some 44 (by decide) s k hk
      have hlen : (s.drop (k + 1)).length < n := by
        rw [List.length_drop]; omega
      have hpre : (s.take k).count 44 = 0 :=
        List.count_eq_zero.mpr (fun hm => (h3 44 hm).1 rfl)
      have hcnt : (cstring s).count 44 = (cstring (s.drop (k + 1))).count 44 + 1 := by
        rw [h4, List.count_append, hpre, List.count_cons_self]; omega
      simp only []
      have hidem : toI32 (toU32 (toI32 (toU32 (len + 1)))) = toI32 (toU32 (len + 1)) := by
        simpa using toI32_toU32_add (len + 1) 0
      rw [ih (s.drop (k + 1)) _ hlen hidem, toI32_toU32_add, hcnt]
      congr 2
      push_cast
      ring

/-- The pieces of a list split at a separator are one more than the separators. -/
theorem length_splitOn_eq (l : List Nat) : (l.splitOn 44).length = l.count 44 + 1 := by
  unfold List.splitOn
  induction l with
  | nil => simp
  | cons x xs ih =>
    rw [List.splitOnP_cons]
    by_cases hx : x = 44
    · subst hx
      simp [ih]
    · have : (x == 44) = false := by simpa using hx
      simp only [this, Bool.false_eq_true, if_false]
      rw [List.count_cons_of_ne (Ne.symm hx)]
      rw [← ih]
      cases xs.splitOnP (fun x => x == 44) <;> simp [List.modifyHead]

/-- Overwriting a byte behind an offset commutes with moving to that offset. -/
theorem drop_set_add (v : Nat) : ∀ (first : Nat) (text : List Nat) (k : Nat),
    (text.set (first + k) v).drop first = (text.drop first).set k v := by
  intro first
  induction first with
  | zero => intro text k; simp
  | succ n ih =>
    intro text k
    cases text with
    | nil => simp
    | cons b bs =>
      rw [show n + 1 + k = (n + k) + 1 by omega]
      simp only [List.set_cons_succ, List.drop_succ_cons]
      exact ih bs k

/-- With a NUL written at offset `k` and no NUL before it, the C string is the first `k`
bytes. -/
theorem cstring_set_zero (s : List Nat) (k : Nat) (hk : k < s.length)
    (h : ∀ x ∈ s.take k, x ≠ 0) : cstring (s.set k 0) = s.take k := by
  rw [List.set_eq_take_append_cons_drop, if_pos hk]
  unfold cstring
  rw [List.takeWhile_append_of_pos (by intro a ha; simpa using h a ha)]
  simp

/-- Writing the separator back restores the memory. -/
theorem set_set_restore (text : List Nat) (sep v : Nat) (h : text.get? sep = some v) :
    (text.set sep 0).set sep v = text := by
  rw [List.set_set]
  induction text generalizing sep with
  | nil => simp
  | cons b bs ih =>
    cases sep with
    | zero => simp at h; simp [h]
    | succ n => simp at h; simp [ih n (by simpa using h)]

/-- The tokens the scanner is to see from element `i` on: the C strings between the
commas, each with its element index. -/
theorem XDR_array_field_scanner_loop_eq (scan : List Nat → Buf → Buf) (increment : Nat)
    (len : Int) :
    ∀ (fuel : Nat) (text : List Nat) (first i : Nat) (dst : Buf) (calls : List ScanCall),
      (text.drop first).length < fuel →
      ((i : Int) + ((cstring (text.drop first)).count 44 : Nat) + 1 = len) →
      (XDR_array_field_scanner_loop scan increment len fuel text first i dst calls).1 = text
      ∧ (XDR_array_field_scanner_loop scan increment len fuel text first i dst calls).2.2.map
          (fun c => (cstring c.first, c.index))
        = calls.map (fun c => (cstring c.first, c.index))
          ++ (((cstring (text.drop first)).splitOn 44).enumFrom i).map (fun p => (p.2, p.1)) := by
  intro fuel
  induction fuel with
  | zero => intro text first i dst calls h; exact absurd h (Nat.not_lt_zero _)
  | succ n ih =>
    intro text first i dst calls hf hinv
    unfold XDR_array_field_scanner_loop
    cases hk : strchr (text.drop first) 44 with
    | none =>
      have hno := strchr_none 44 (text.drop first) hk
      have hsplit : (cstring (text.drop first)).splitOn 44 = [cstring (text.drop first)] := by
        unfold List.splitOn
        exact List.splitOnP_eq_single _ _ (by
          intro x hx hx2
          have : x = 44 := by simpa using hx2
          exact hno (this ▸ hx))
      simp [hsplit, List.enumFrom]
    | some k =>
      obtain ⟨h1, h2, h3, h4⟩ := strchr_some 44 (by decide) (text.drop first) k hk
      have hpre : (List.take k (text.drop first)).count 44 = 0 :=
        List.count_eq_zero.mpr (fun hm => (h3 44 hm).1 rfl)
      have hcnt : (cstring (text.drop first)).count 44
          = (cstring ((text.drop first).drop (k + 1))).count 44 + 1 := by
        rw [h4, List.count_append, hpre, List.count_cons_self]; omega
      have hdd : (text.drop first).drop (k + 1) = text.drop (first + k + 1) := by
        rw [List.drop_drop]; exact congrArg (fun j => List.drop j text) (by omega)
      have hlt : ((i + 1 : Nat) : Int) < len := by
        rw [hcnt] at hinv; push_cast at hinv ⊢; omega
      have hget : text.get? (first + k) = some 44 := by
        rw [← h2, List.get?_eq_getElem?, List.get?_eq_getElem?, List.getElem?_drop]
      have hrestore : (text.set (first + k) 0).set (first + k) 44 = text :=
        set_set_restore text (first + k) 44 hget
      have htok : cstring ((text.set (first + k) 0).drop first) = List.take k (text.drop first) := by
        rw [drop_set_add, cstring_set_zero _ k h1 (fun x hx => (h3 x hx).2)]
      have hsplit : (cstring (text.drop first)).splitOn 44
          = List.take k (text.drop first)
            :: (cstring (text.drop (first + k + 1))).splitOn 44 := by
        rw [h4, hdd]
        unfold List.splitOn
        exact List.splitOnP_first _ _ (by
          intro x hx hx2
          have : x = 44 := by simpa using hx2
          exact (h3 x hx).1 this) 44 (by simp) _
      simp only []
      rw [if_pos hlt, hrestore]
      have hlen2 : (text.drop (first + k + 1)).length < n := by
        rw [← hdd, List.length_drop]; omega
      have hinv2 : ((i + 1 : Nat) : Int)
          + ((cstring (text.drop (first + k + 1))).count 44 : Nat) + 1 = len := by
        rw [hcnt, hdd] at hinv; push_cast at hinv ⊢; omega
      obtain ⟨r1, r2⟩ := ih text (first + k + 1) (i + 1)
        (splice dst (i * increment)
          (scan ((text.set (first + k) 0).drop first) (dst.drop (i * increment))))
        (calls ++ [⟨(text.set (first + k) 0).drop first, i⟩]) hlen2 hinv2
      refine ⟨r1, ?_⟩
      rw [r2, hsplit]
      simp [List.enumFrom, htok]

/-- The scanner on a text whose first byte is not NUL: the length is the wrapped count of
commas plus one, and the outcome turns on the allocation. -/
theorem XDR_array_field_scanner_run (scan : List Nat → Buf → Buf) (increment : Nat)
    (text : List Nat) (hinc : 0 < increment) (hinc2 : increment < 18446744073709551616)
    (hne : text.headD 0 ≠ 0) :
    XDR_array_field_scanner (some text) true true (some scan) increment
      = match malloc ((toU64 (toI32 (toU32 (1 + (((cstring text).count 44 : Nat) : Int))))
            * increment) % 18446744073709551616) with
        | none => ScanOutcome.fault
        | some block =>
          ScanOutcome.done (toI32 (toU32 (1 + (((cstring text).count 44 : Nat) : Int))))
            (some (XDR_array_field_scanner_loop scan increment
              (toI32 (toU32 (1 + (((cstring text).count 44 : Nat) : Int))))
              (text.length + 1) text 0 0 block []).2.1)
            block
            (XDR_array_field_scanner_loop scan increment
              (toI32 (toU32 (1 + (((cstring text).count 44 : Nat) : Int))))
              (text.length + 1) text 0 0 block []).1
            (XDR_array_field_scanner_loop scan increment
              (toI32 (toU32 (1 + (((cstring text).count 44 : Nat) : Int))))
              (text.length + 1) text 0 0 block []).2.2 := by
  have hmod : increment % 18446744073709551616 = increment := Nat.mod_eq_of_lt hinc2
  have hg : ¬ ((!true || !true || decide (increment % 18446744073709551616 = 0)) = true) := by
    rw [hmod]; simp; omega
  have hcount := XDR_array_field_scanner_count_eq (text.length + 1) text 1 (by omega)
    (by decide)
  unfold XDR_array_field_scanner
  simp only []
  rw [if_neg hg, if_neg hne, hcount, hmod]

/-- The C string of commas followed by NUL. -/
theorem cstring_commas (n : Nat) : cstring (List.replicate n 44 ++ [0]) = List.replicate n 44 := by
  unfold cstring
  rw [List.takeWhile_append_of_pos (by
    intro a ha; rw [List.eq_of_mem_replicate ha]; decide)]
  simp

/-- A text of `n` commas with an element size of one byte, when the allocation fails. -/
theorem XDR_array_field_scanner_commas_fault (scan : List Nat → Buf → Buf) (n : Nat)
    (hn : 0 < n)
    (hmal : malloc ((toU64 (toI32 (toU32 (1 + ((n : Nat) : Int)))) * 1)
      % 18446744073709551616) = none) :
    XDR_array_field_scanner (some (List.replicate n 44 ++ [0])) true true (some scan) 1
      = ScanOutcome.fault := by
  have hne : (List.replicate n 44 ++ [0]).headD 0 ≠ 0 := by
    obtain ⟨m, rfl⟩ : ∃ m, n = m + 1 := ⟨n - 1, by omega⟩
    simp [List.replicate_succ]
  rw [XDR_array_field_scanner_run scan 1 _ (by decide) (by decide) hne, cstring_commas,
    List.count_replicate_self, hmal]

/-- C26 as stated fails for a text of 2^31 - 1 commas (2^31 empty tokens): the `int`
length cannot hold 2^31; the counter wraps to -2^31, the allocation of that many
one-byte elements fails, and the call ends in `memset` on a null pointer instead of 2^31
scanner calls. -/
theorem C26_array_scanner_counterexample :
    (cstring (List.replicate 2147483647 44 ++ [0])).count 44 + 1 = 2147483648
    ∧ XDR_array_field_scanner (some (List.replicate 2147483647 44 ++ [0])) true true
        (some exampleScan) 1 = ScanOutcome.fault := by
  refine ⟨?_, ?_⟩
  · rw [cstring_commas, List.count_replicate_self]
  · exact XDR_array_field_scanner_commas_fault exampleScan 2147483647 (by decide) (by decide)

/-- C26 (amended): for every non-empty input text with fewer than 2^31 - 1 commas, whose
elements fit one allocation, `XDR_array_field_scanner` (called with non-null pointers and
a non-zero element size) sets the length to the number of commas plus one, allocates
exactly that many zero-initialised elements, invokes the element scanner exactly once
per comma-separated token, left to right, token `i` with element `i`, and leaves the input
text unchanged on return; for the empty text it sets the length to 0 and the buffer
pointer to null without calling the scanner. -/
theorem C26_array_scanner (scan : List Nat → Buf → Buf) (increment : Nat) (text : List Nat)
    (hinc : 0 < increment)
    (hlen : (cstring text).count 44 + 1 < 2147483648)
    (hsize : ((cstring text).count 44 + 1) * increment ≤ 9223372036854775807) :
    (text.headD 0 ≠ 0 →
      ∃ dst calls, XDR_array_field_scanner (some text) true true (some scan) increment
          = ScanOutcome.done (((cstring text).count 44 + 1 : Nat) : Int) (some dst)
              (List.replicate (((cstring text).count 44 + 1) * increment) 0) text calls
        ∧ calls.length = (cstring text).count 44 + 1
        ∧ calls.map (fun c => (cstring c.first, c.index))
            = (((cstring text).splitOn 44).enum).map (fun p => (p.2, p.1)))
    ∧ (text.headD 0 = 0 →
        XDR_array_field_scanner (some text) true true (some scan) increment
          = ScanOutcome.done 0 none [] text []) := by
  have hinc2 : increment < 18446744073709551616 := by
    have : increment ≤ ((cstring text).count 44 + 1) * increment :=
      Nat.le_mul_of_pos_left _ (by omega)
    omega
  constructor
  · intro hne
    have hL : toI32 (toU32 (1 + (((cstring text).count 44 : Nat) : Int)))
        = (((cstring text).count 44 + 1 : Nat) : Int) := by
      rw [toI32_toU32_of_range _ (by omega) (by omega)]; push_cast; ring
    have hU : toU64 (((cstring text).count 44 + 1 : Nat) : Int) = (cstring text).count 44 + 1 := by
      unfold toU64; omega
    have hmal : malloc ((((cstring text).count 44 + 1) * increment) % 18446744073709551616)
        = some (List.replicate (((cstring text).count 44 + 1) * increment) 0) := by
      rw [Nat.mod_eq_of_lt (by omega)]
      unfold malloc
      rw [if_pos hsize]
    rw [XDR_array_field_scanner_run scan increment text hinc hinc2 hne, hL, hU, hmal]
    obtain ⟨r1, r2⟩ := XDR_array_field_scanner_loop_eq scan increment
      (((cstring text).count 44 + 1 : Nat) : Int) (text.length + 1) text 0 0
      (List.replicate (((cstring text).count 44 + 1) * increment) 0) []
      (by simp) (by simp)
    simp only [List.drop_zero, List.map_nil, List.nil_append] at r2
    dsimp only
    generalize XDR_array_field_scanner_loop scan increment
      (((cstring text).count 44 + 1 : Nat) : Int) (text.length + 1) text 0 0
      (List.replicate (((cstring text).count 44 + 1) * increment) 0) [] = R at r1 r2
    refine ⟨R.2.1, R.2.2, ?_, ?_, r2⟩
    · rw [r1]
    · have := congrArg List.length r2
      simp only [List.length_map, List.enumFrom_length] at this
      rw [this, length_splitOn_eq]
  · intro h0
    have hmod : increment % 18446744073709551616 = increment := Nat.mod_eq_of_lt hinc2
    have hg : ¬ ((!true || !true || decide (increment % 18446744073709551616 = 0)) = true) := by
      rw [hmod]; simp; omega
    unfold XDR_array_field_scanner
    simp only []
    rw [if_neg hg, if_pos h0]

/-- The text a,b,,c scanned into one-byte elements. -/
theorem C26_array_scanner_witness :
    ∃ dst calls, XDR_array_field_scanner (some (cstr "a,b,,c")) true true (some exampleScan) 1
        = ScanOutcome.done 4 (some dst) [0, 0, 0, 0] (cstr "a,b,,c") calls
      ∧ calls.length = 4
      ∧ calls.map (fun c => (cstring c.first, c.index))
          = [([97], 0), ([98], 1), ([], 2), ([99], 3)] :=
  (C26_array_scanner exampleScan 1 (cstr "a,b,,c") (by decide) (by decide) (by decide)).1
    (by decide)

/-! ## Hexadecimal byte arrays -/

/-- The macro `ASCII2HEX` computes the value of a hexadecimal digit. -/
theorem ASCII2HEX_eq_hexval (c : Nat) : ASCII2HEX c = hexval c := by
  have hand : ∀ x, x < 16 → x &&& 0xF = x := by decide
  unfold ASCII2HEX hexval
  split
  · exact (hand _ (by omega))
  · split
    · rw [hand _ (by omega)]; omega
    · split
      · rw [hand _ (by omega)]; omega
      · rfl

theorem hexval_lt (c : Nat) : hexval c < 16 := by
  unfold hexval
  split
  · omega
  · split
    · omega
    · split <;> omega

theorem ASCII2HEX_hexChar : ∀ d, d < 16 → ASCII2HEX (hexChar d).toNat = d := by decide

theorem hexChar_ne_zero : ∀ d, d < 16 → (hexChar d).toNat ≠ 0 := by decide

theorem shl_or_nibbles : ∀ a, a < 16 → ∀ b, b < 16 → ((a <<< 4) ||| b) % 256 = 16 * a + b := by
  decide

/-- The byte stored by one step is sixteen times the value of the first character plus
the value of the second. -/
theorem XDR_scan_byte_array_byte_eq (inp : List Nat) :
    XDR_scan_byte_array_byte inp = 16 * hexval (inp.getD 0 0) + hexval (inp.getD 1 0) := by
  unfold XDR_scan_byte_array_byte
  rw [ASCII2HEX_eq_hexval, ASCII2HEX_eq_hexval,
    shl_or_nibbles _ (hexval_lt _) _ (hexval_lt _)]
  rcases inp with _ | ⟨a, _ | ⟨b, t⟩⟩ <;> simp

/-- The loop fills the block from index `i` on with the scanned bytes. -/
theorem XDR_scan_byte_array_loop_eq (len : Int) :
    ∀ (fuel i : Nat) (inp : List Nat) (dst : Buf), dst.length = i + fuel →
      len = ((i + fuel : Nat) : Int) →
      XDR_scan_byte_array_loop len fuel i inp dst = dst.take i ++ scanBytes fuel inp := by
  intro fuel
  induction fuel with
  | zero =>
    intro i inp dst hd _
    simp [XDR_scan_byte_array_loop, scanBytes, List.take_of_length_le (by omega : dst.length ≤ i)]
  | succ n ih =>
    intro i inp dst hd hl
    have hlt : (i : Int) < len := by rw [hl]; push_cast; omega
    unfold XDR_scan_byte_array_loop
    rw [if_pos hlt, ih (i + 1) _ _ (by rw [List.length_set]; omega) (by rw [hl]; push_cast; ring)]
    show _ = dst.take i ++ (XDR_scan_byte_array_byte inp :: scanBytes n (inp.drop 2))
    rw [List.set_eq_take_append_cons_drop, if_pos (by omega)]
    rw [List.take_append_eq_append_take, List.length_take, min_eq_left (by omega)]
    simp [List.take_take]

/-- The scanned bytes in closed form. -/
theorem scanBytes_eq : ∀ (k : Nat) (inp : List Nat),
    scanBytes k inp = (List.range k).map (fun j =>
      16 * hexval (inp.getD (2 * j) 0) + hexval (inp.getD (2 * j + 1) 0)) := by
  intro k
  induction k with
  | zero => intro inp; rfl
  | succ n ih =>
    intro inp
    unfold scanBytes
    rw [ih, XDR_scan_byte_array_byte_eq, List.range_succ_eq_map]
    simp only [List.map_cons, List.map_map, Nat.mul_zero, Nat.zero_add]
    congr 1
    apply List.map_congr_left
    intro j _
    simp only [Function.comp, List.getD_eq_getElem?_getD, List.getElem?_drop]
    rw [show 2 + 2 * j = 2 * Nat.succ j by omega, show 2 + (2 * j + 1) = 2 * Nat.succ j + 1 by omega]

/-- The printing loop writes the two digits of each byte. -/
theorem XDR_print_field_byte_array_loop_eq : ∀ (b pre : List Nat),
    (XDR_print_field_byte_array_loop (pre ++ b) b.length pre.length).toList.map Char.toNat
      = b.flatMap hexPair := by
  intro b
  induction b with
  | nil => intro pre; rfl
  | cons x xs ih =>
    intro pre
    have h := ih (pre ++ [x])
    have hg : (pre ++ x :: xs).getD pre.length 0 = x := by
      rw [List.getD_eq_getElem?_getD, List.getElem?_append_right (Nat.le_refl _)]
      simp
    rw [List.append_assoc, List.singleton_append, List.length_append, List.length_singleton] at h
    simp only [List.length_cons, XDR_print_field_byte_array_loop, String.toList, String.data_append,
      List.map_append, List.flatMap_cons]
    rw [show (XDR_print_field_byte_array_loop (pre ++ x :: xs) xs.length (pre.length + 1)).data
      = (XDR_print_field_byte_array_loop (pre ++ x :: xs) xs.length (pre.length + 1)).toList
      from rfl, h, hg]
    rfl

/-- Scanning the digits of a byte array gives back its bytes. -/
theorem scanBytes_hexPair : ∀ (b rest : List Nat), (∀ x ∈ b, x < 256) →
    scanBytes b.length (b.flatMap hexPair ++ rest) = b := by
  intro b
  induction b with
  | nil => intro rest _; rfl
  | cons x xs ih =>
    intro rest hb
    have hx : x < 256 := hb x (List.mem_cons_self _ _)
    have h1 : XDR_scan_byte_array_byte ((x :: xs).flatMap hexPair ++ rest) = x := by
      unfold XDR_scan_byte_array_byte
      simp only [List.flatMap_cons, hexPair, List.cons_append, List.nil_append, List.headD_cons,
        List.drop_succ_cons, List.drop_zero]
      rw [ASCII2HEX_hexChar _ (by omega), ASCII2HEX_hexChar _ (by omega),
        shl_or_nibbles _ (by omega) _ (by omega)]
      omega
    have h2 : ((x :: xs).flatMap hexPair ++ rest).drop 2 = xs.flatMap hexPair ++ rest := by
      simp [List.flatMap_cons, hexPair]
    simp only [List.length_cons, scanBytes]
    rw [h1, h2, ih rest (fun y hy => hb y (List.mem_cons_of_mem _ hy))]

/-- The digits printed for bytes contain no NUL. -/
theorem hexPair_ne_zero (b : List Nat) : ∀ c ∈ b.flatMap hexPair, c ≠ 0 := by
  intro c hc
  rw [List.mem_flatMap] at hc
  obtain ⟨x, _, hx⟩ := hc
  simp only [hexPair, List.mem_cons, List.mem_singleton, List.not_mem_nil, or_false] at hx
  rcases hx with rfl | rfl
  · exact hexChar_ne_zero _ (by omega)
  · exact hexChar_ne_zero _ (by omega)

theorem length_flatMap_hexPair (b : List Nat) : (b.flatMap hexPair).length = 2 * b.length := by
  induction b with
  | nil => rfl
  | cons x xs ih => simp [List.flatMap_cons, hexPair, ih]; omega

/-- The scanner on a NUL-terminated text: the length is half the text length, rounded up
and converted to `int`, and the outcome turns on the allocation. -/
theorem XDR_scan_byte_array_run (s junk : List Nat) (hs : ∀ b ∈ s, b ≠ 0) :
    XDR_scan_byte_array (s ++ 0 :: junk) true true
      = match malloc (toU64 (toI32 (((s.length + 1) % 18446744073709551616) / 2))) with
        | none =>
          if toI32 (((s.length + 1) % 18446744073709551616) / 2) > 0 then ByteScanOutcome.fault
          else ByteScanOutcome.done (toI32 (((s.length + 1) % 18446744073709551616) / 2)) none
        | some block =>
          ByteScanOutcome.done (toI32 (((s.length + 1) % 18446744073709551616) / 2))
            (some (XDR_scan_byte_array_loop (toI32 (((s.length + 1) % 18446744073709551616) / 2))
              (toI32 (((s.length + 1) % 18446744073709551616) / 2)).toNat 0 (s ++ 0 :: junk)
              block)) := by
  unfold XDR_scan_byte_array
  rw [strlen_terminated s junk hs]
  simp only [Bool.not_true, Bool.or_self, Bool.false_eq_true, if_false]

/-- The scanner on a NUL-terminated text of `2n` non-NUL characters, `n` below 2^31:
the length is `n` and the block holds the scanned bytes. -/
theorem XDR_scan_byte_array_done (s junk : List Nat) (n : Nat) (hs : ∀ b ∈ s, b ≠ 0)
    (hlen : s.length = 2 * n) (hn : n < 2147483648) :
    XDR_scan_byte_array (s ++ 0 :: junk) true true
      = ByteScanOutcome.done n (some (scanBytes n (s ++ 0 :: junk))) := by
  have hL : toI32 (((s.length + 1) % 18446744073709551616) / 2) = (n : Int) := by
    unfold toI32
    split <;> omega
  have hU : toU64 (n : Int) = n := by unfold toU64; omega
  have hmal : malloc n = some (List.replicate n 0) := by
    unfold malloc
    rw [if_pos (by omega)]
  rw [XDR_scan_byte_array_run s junk hs, hL, hU, hmal]
  dsimp only
  rw [Int.toNat_ofNat, XDR_scan_byte_array_loop_eq (n : Int) n 0 _ _ (by simp) (by simp)]
  simp

/-- C27 as stated fails for a string of 2^32 hex digits (n = 2^31): the `int` length
cannot hold 2^31; the value wraps to -2^31, the allocation fails and no byte is
stored. -/
theorem C27_hex_scan_counterexample :
    (List.replicate 4294967296 48).length = 2 * 2147483648
    ∧ (∀ c ∈ List.replicate 4294967296 48, isHexDigit c)
    ∧ XDR_scan_byte_array (List.replicate 4294967296 48 ++ [0]) true true
        = ByteScanOutcome.done (-2147483648) none := by
  have hhex : ∀ c ∈ List.replicate 4294967296 48, isHexDigit c := by
    intro c hc
    rw [List.eq_of_mem_replicate hc]
    exact Or.inl (by decide)
  have hs : ∀ c ∈ List.replicate 4294967296 48, c ≠ 0 := by
    intro c hc
    rw [List.eq_of_mem_replicate hc]
    decide
  refine ⟨List.length_replicate _ _, hhex, ?_⟩
  rw [XDR_scan_byte_array_run _ [] hs, List.length_replicate]
  decide

/-- C27 (amended): `XDR_scan_byte_array` reads a hex string two characters per byte: for a
string of `2n` hex digits (upper or lower case) with `n` below 2^31 it sets the length to
`n` and byte `i` to `16 * hexval(in[2i]) + hexval(in[2i+1])`. Consequently, for every
byte array `b`, scanning the text that `XDR_print_field_byte_array` prints for `b` (two
upper-case hex digits per byte) yields the same length and the same bytes as `b`. -/
theorem C27_hex_scan_roundtrip (digits junk : List Nat) (n : Nat) (b : List Nat)
    (hlen : digits.length = 2 * n) (hhex : ∀ c ∈ digits, isHexDigit c)
    (hn : n < 2147483648) (hb : ∀ x ∈ b, x < 256) (hbl : b.length < 2147483648) :
    XDR_scan_byte_array (digits ++ 0 :: junk) true true
      = ByteScanOutcome.done n (some ((List.range n).map (fun i =>
          16 * hexval (digits.getD (2 * i) 0) + hexval (digits.getD (2 * i + 1) 0))))
    ∧ (XDR_print_field_byte_array (P := Unit) (some (Cell.ptr (some b)))
          (some (Cell.word b.length))).toList.map Char.toNat = b.flatMap hexPair
    ∧ XDR_scan_byte_array (cstr (XDR_print_field_byte_array (P := Unit)
          (some (Cell.ptr (some b))) (some (Cell.word b.length)))) true true
        = ByteScanOutcome.done b.length (some b) := by
  have hs : ∀ c ∈ digits, c ≠ 0 := by
    intro c hc h0
    have := hhex c hc
    unfold isHexDigit at this
    omega
  have hprint : (XDR_print_field_byte_array (P := Unit) (some (Cell.ptr (some b)))
      (some (Cell.word b.length))).toList.map Char.toNat = b.flatMap hexPair := by
    have hd : (derefLen (some (Cell.word b.length : Cell Unit))).toNat = b.length := by
      unfold derefLen toI32
      simp only [Option.getD_some, Cell.rd32]
      split <;> omega
    unfold XDR_print_field_byte_array
    simp only [Cell.rdPtr]
    rw [hd]
    exact XDR_print_field_byte_array_loop_eq b []
  refine ⟨?_, hprint, ?_⟩
  · rw [XDR_scan_byte_array_done digits junk n hs hlen hn, scanBytes_eq]
    congr 2
    apply List.map_congr_left
    intro j hj
    rw [List.mem_range] at hj
    rw [List.getD_append _ _ _ _ (by omega), List.getD_append _ _ _ _ (by omega)]
  · unfold cstr
    rw [hprint, XDR_scan_byte_array_done (b.flatMap hexPair) [] b.length (hexPair_ne_zero b)
      (length_flatMap_hexPair b) hbl, scanBytes_hexPair b _ hb]

/-- The digits 0aFf10 and the bytes 0A FF 10. -/
theorem C27_hex_scan_roundtrip_witness :
    XDR_scan_byte_array (cstr "0aFf10") true true = ByteScanOutcome.done 3 (some [10, 255, 16])
    ∧ XDR_scan_byte_array (cstr (XDR_print_field_byte_array (P := Unit)
          (some (Cell.ptr (some [10, 255, 16]))) (some (Cell.word 3)))) true true
        = ByteScanOutcome.done 3 (some [10, 255, 16]) :=
  have h := C27_hex_scan_roundtrip [48, 97, 70, 102, 49, 48] [] 3 [10, 255, 16] rfl
    (by unfold isHexDigit; decide) (by decide) (by decide) (by decide)
  ⟨h.1, h.2.2⟩

/-! ## Rendering -/

theorem digitChar_ne_comma : ∀ d, d < 10 → digitChar d ≠ ',' := by decide

/-- Decimal digits contain no comma. -/
theorem decDigits_ne_comma : ∀ (fuel n : Nat), ∀ c ∈ decDigits fuel n, c ≠ ',' := by
  intro fuel
  induction fuel with
  | zero => intro n c hc; simp [decDigits] at hc
  | succ k ih =>
    intro n c hc
    unfold decDigits at hc
    split at hc
    · rw [List.mem_singleton] at hc
      rw [hc]
      exact digitChar_ne_comma n (by assumption)
    · rw [List.mem_append, List.mem_singleton] at hc
      rcases hc with hc | hc
      · exact ih _ c hc
      · rw [hc]
        exact digitChar_ne_comma _ (Nat.mod_lt _ (by decide))

theorem printf_u_ne_comma (n : Nat) : ',' ∉ (printf_u n).toList := by
  intro h
  exact decDigits_ne_comma 20 n ',' h rfl

theorem printf_d_ne_comma (v : Int) : ',' ∉ (printf_d v).toList := by
  intro h
  unfold printf_d at h
  split at h
  · simp only [String.toList, List.mem_cons] at h
    rcases h with h | h
    · exact absurd h (by decide)
    · exact decDigits_ne_comma 20 _ ',' h rfl
  · exact decDigits_ne_comma 20 _ ',' h rfl

/-- The value text of an integer scalar field contains no comma. -/
theorem scalarValueText_ne_comma {P : Type} (data : Obj P) (base : Nat)
    (f : XDR_FieldDefinition P) : ',' ∉ (scalarValueText data base f).toList := by
  unfold scalarValueText
  split
  · exact printf_d_ne_comma _
  · split
    · exact printf_u_ne_comma _
    · split
      · exact printf_d_ne_comma _
      · exact printf_u_ne_comma _

/-- The key buffer without a parent key is the key; with a non-empty parent key it is
parent, underscore, key, provided that is shorter than the buffer. -/
theorem XDR_print_fields_key_eq {P : Type} (f : XDR_FieldDefinition P) (k : String)
    (hk : f.key = some k) :
    XDR_print_fields_key none f = k
    ∧ XDR_print_fields_key (some "") f = k
    ∧ (∀ parent : String, parent ≠ "" → (parent ++ "_" ++ k).length < 1024 →
        XDR_print_fields_key (some parent) f = parent ++ "_" ++ k)
    ∧ (∀ parent : String, parent ≠ "" →
        XDR_print_fields_key (some parent) f
          = String.mk ((parent ++ "_" ++ k).toList.take 1023)) := by
  have hgen : ∀ parent : String, parent ≠ "" →
      XDR_print_fields_key (some parent) f
        = String.mk ((parent ++ "_" ++ k).toList.take 1023) := by
    intro parent hp
    have hne : parent.toList.isEmpty = false := by
      cases hd : parent.toList with
      | nil => exact absurd (String.ext hd) hp
      | cons a t => rfl
    simp only [XDR_print_fields_key, hk, hne, Bool.false_eq_true, if_false]
  refine ⟨by simp [XDR_print_fields_key, hk], by simp [XDR_print_fields_key, hk], ?_, hgen⟩
  intro parent hp hlen
  rw [hgen parent hp, List.take_of_length_le (by
    have : (parent ++ "_" ++ k).toList.length = (parent ++ "_" ++ k).length := rfl
    omega)]
  exact String.ext rfl

/-- The key buffer holds no comma when neither the key nor the parent key does. -/
theorem XDR_print_fields_key_ne_comma {P : Type} (parents_key : Option String)
    (f : XDR_FieldDefinition P) (hk : ∀ k, f.key = some k → ',' ∉ k.toList)
    (hp : ∀ p, parents_key = some p → ',' ∉ p.toList) :
    ',' ∉ (XDR_print_fields_key parents_key f).toList := by
  unfold XDR_print_fields_key
  cases hkey : f.key with
  | none => simp
  | some k =>
    cases hpar : parents_key with
    | none => exact hk k hkey
    | some p =>
      dsimp only
      split
      · exact hk k hkey
      · intro h
        have h2 := List.mem_of_mem_take h
        simp only [String.toList, String.data_append, List.mem_append] at h2
        rcases h2 with (h2 | h2) | h2
        · exact hp p hpar h2
        · exact absurd h2 (by decide)
        · exact hk k hkey h2

/-- The printer of an integer scalar record prints the value text of the field. -/
theorem call_printer_scalar {P : Type} (env : PrintEnv P)
    (structHash : Option (HashTable (Obj P) (Option (List (XDR_FieldDefinition P)))))
    (nested : Obj P → Nat → Option (List (XDR_FieldDefinition P)) → Option String →
      XDR_PRINT_STYLE → String)
    (data : Obj P) (base : Nat) (f : XDR_FieldDefinition P) (style : XDR_PRINT_STYLE)
    (key : String)
    (hf : f.funcs = xdr_int32_functions ∨ f.funcs = xdr_uint32_functions
      ∨ f.funcs = xdr_int64_functions ∨ f.funcs = xdr_uint64_functions) :
    ∃ p, f.funcs.printer = some p
      ∧ call_printer env structHash nested p data base f style key
          = scalarValueText data base f := by
  rcases hf with h | h | h | h
  · exact ⟨"XDR_print_field_int32", by rw [h]; rfl, by
      simp [call_printer, scalarValueText, h, xdr_int32_functions, XDR_print_field_int32]⟩
  · exact ⟨"XDR_print_field_uint32", by rw [h]; rfl, by
      simp [call_printer, scalarValueText, h, xdr_uint32_functions, XDR_print_field_uint32]⟩
  · exact ⟨"XDR_print_field_int64", by rw [h]; rfl, by
      simp [call_printer, scalarValueText, h, xdr_int64_functions, XDR_print_field_int64]⟩
  · exact ⟨"XDR_print_field_uint64", by rw [h]; rfl, by
      simp [call_printer, scalarValueText, h, xdr_uint64_functions, XDR_print_field_uint64]⟩

/-- One step of the field loop for a field whose record has a printer. -/
theorem XDR_print_fields_loop_cons {P : Type} (env : PrintEnv P)
    (structHash : Option (HashTable (Obj P) (Option (List (XDR_FieldDefinition P)))))
    (nested : Obj P → Nat → Option (List (XDR_FieldDefinition P)) → Option String →
      XDR_PRINT_STYLE → String)
    (data : Obj P) (base : Nat) (parents_key : Option String) (style : XDR_PRINT_STYLE)
    (f : XDR_FieldDefinition P) (rest : List (XDR_FieldDefinition P)) (p : String)
    (hp : f.funcs.printer = some p) :
    XDR_print_fields_loop env structHash nested data base parents_key style (f :: rest)
      = (match style with
        | XDR_PRINT_STYLE.KVP =>
          if f.key.isSome then
            if p ≠ "XDR_print_field_structure" then
              XDR_print_fields_key parents_key f ++ "="
                ++ call_printer env structHash nested p data base f style
                    (XDR_print_fields_key parents_key f) ++ "\n"
            else call_printer env structHash nested p data base f style
                    (XDR_print_fields_key parents_key f)
          else ""
        | XDR_PRINT_STYLE.CSV_HEADER =>
          if f.key.isSome then
            (if f.struct_id > 0 then
              call_printer env structHash nested p data base f style
                (XDR_print_fields_key parents_key f)
             else XDR_print_fields_key parents_key f) ++ (if rest.isEmpty then "" else ",")
          else ""
        | XDR_PRINT_STYLE.CSV_DATA =>
          if f.key.isSome then
            call_printer env structHash nested p data base f style
              (XDR_print_fields_key parents_key f) ++ (if rest.isEmpty then "" else ",")
          else "")
        ++ XDR_print_fields_loop env structHash nested data base parents_key style rest := by
  rw [XDR_print_fields_loop]
  simp only [hp]

/-- A field whose record has no printer is skipped. -/
theorem XDR_print_fields_loop_skip {P : Type} (env : PrintEnv P)
    (structHash : Option (HashTable (Obj P) (Option (List (XDR_FieldDefinition P)))))
    (nested : Obj P → Nat → Option (List (XDR_FieldDefinition P)) → Option String →
      XDR_PRINT_STYLE → String)
    (data : Obj P) (base : Nat) (parents_key : Option String) (style : XDR_PRINT_STYLE)
    (f : XDR_FieldDefinition P) (rest : List (XDR_FieldDefinition P))
    (hp : f.funcs.printer = none) :
    XDR_print_fields_loop env structHash nested data base parents_key style (f :: rest)
      = XDR_print_fields_loop env structHash nested data base parents_key style rest := by
  rw [XDR_print_fields_loop]
  simp only [hp]

theorem csvColumns_ne_nil {P : Type} (text : XDR_FieldDefinition P → String) :
    ∀ table : List (XDR_FieldDefinition P), csvColumns text table ≠ [] := by
  intro table
  induction table with
  | nil => simp [csvColumns]
  | cons f rest ih =>
    unfold csvColumns
    split
    · split <;> simp
    · exact ih

/-- The number of columns does not depend on the text in them. -/
theorem csvColumns_length {P : Type} (text1 text2 : XDR_FieldDefinition P → String) :
    ∀ table : List (XDR_FieldDefinition P),
      (csvColumns text1 table).length = (csvColumns text2 table).length := by
  intro table
  induction table with
  | nil => rfl
  | cons f rest ih =>
    unfold csvColumns
    split
    · split
      · rfl
      · simp [ih]
    · exact ih

theorem csvColumns_mem {P : Type} (text : XDR_FieldDefinition P → String) :
    ∀ (table : List (XDR_FieldDefinition P)) (l : List Char), l ∈ csvColumns text table →
      l = [] ∨ ∃ f ∈ table, l = (text f).toList := by
  intro table
  induction table with
  | nil => intro l hl; left; simpa [csvColumns] using hl
  | cons f rest ih =>
    intro l hl
    unfold csvColumns at hl
    split at hl
    · split at hl
      · right
        exact ⟨f, List.mem_cons_self _ _, by simpa using hl⟩
      · rw [List.mem_cons] at hl
        rcases hl with hl | hl
        · right; exact ⟨f, List.mem_cons_self _ _, hl⟩
        · rcases ih l hl with h | ⟨g, hg, h⟩
          · left; exact h
          · right; exact ⟨g, List.mem_cons_of_mem _ hg, h⟩
    · rcases ih l hl with h | ⟨g, hg, h⟩
      · left; exact h
      · right; exact ⟨g, List.mem_cons_of_mem _ hg, h⟩

/-- A rendering that writes `text` and a comma (unless the field is the last entry) for
each keyed field is the columns of the table joined by commas. -/
theorem csv_text_eq {P : Type} (text : XDR_FieldDefinition P → String)
    (out : List (XDR_FieldDefinition P) → String) (Q : XDR_FieldDefinition P → Prop)
    (hnil : out [] = "")
    (hcons : ∀ f rest, Q f → out (f :: rest)
      = (if f.key.isSome then text f ++ (if rest.isEmpty then "" else ",") else "")
          ++ out rest) :
    ∀ table, (∀ f ∈ table, Q f) →
      (out table).toList = [','].intercalate (csvColumns text table) := by
  intro table
  induction table with
  | nil => intro _; rw [hnil]; rfl
  | cons f rest ih =>
    intro hQ
    have ih2 := ih (fun g hg => hQ g (List.mem_cons_of_mem _ hg))
    rw [hcons f rest (hQ f (List.mem_cons_self _ _))]
    unfold csvColumns
    by_cases hk : f.key.isSome = true
    · rw [if_pos hk, if_pos hk]
      cases rest with
      | nil =>
        simp only [List.isEmpty_nil, if_true, hnil]
        simp [List.intercalate, String.toList]
      | cons g gs =>
        simp only [List.isEmpty_cons, Bool.false_eq_true, if_false]
        simp only [String.toList, String.data_append] at ih2 ⊢
        rw [ih2]
        have hne := csvColumns_ne_nil text (g :: gs)
        cases hc : csvColumns text (g :: gs) with
        | nil => exact absurd hc hne
        | cons a l => simp [List.intercalate, List.intersperse]
    · rw [if_neg hk, if_neg hk]
      simpa [String.toList, String.data_append] using ih2

/-- Splitting such a rendering at the commas gives the columns, when no column text holds
a comma. -/
theorem csv_columns_eq {P : Type} (text : XDR_FieldDefinition P → String)
    (out : List (XDR_FieldDefinition P) → String) (Q : XDR_FieldDefinition P → Prop)
    (hnil : out [] = "")
    (hcons : ∀ f rest, Q f → out (f :: rest)
      = (if f.key.isSome then text f ++ (if rest.isEmpty then "" else ",") else "")
          ++ out rest)
    (table : List (XDR_FieldDefinition P)) (hQ : ∀ f ∈ table, Q f)
    (htext : ∀ f ∈ table, ',' ∉ (text f).toList) :
    (out table).toList.splitOn ',' = csvColumns text table := by
  rw [csv_text_eq text out Q hnil hcons table hQ]
  apply List.splitOn_intercalate
  · intro l hl
    rcases csvColumns_mem text table l hl with h | ⟨f, hf, h⟩
    · rw [h]; simp
    · rw [h]; exact htext f hf
  · exact csvColumns_ne_nil text table

/-! ## Claim C28: CSV columns -/

/-- C28 as stated fails for a table with a counted array: for the keyed length `n` and
the keyed array `a` of length 2 the header has the two columns n, a and the data has the
three columns 2, 5, 6. -/
theorem C28_csv_columns_counterexample :
    XDR_print_fields_func examplePrintEnv none 1 exampleArrayValue 0 (some exampleArrayTable)
        none XDR_PRINT_STYLE.CSV_HEADER = "n,a"
    ∧ XDR_print_fields_func examplePrintEnv none 1 exampleArrayValue 0 (some exampleArrayTable)
        none XDR_PRINT_STYLE.CSV_DATA = "2,5,6"
    ∧ ("n,a".toList.splitOn ',').length = 2
    ∧ ("2,5,6".toList.splitOn ',').length = 3 := by
  decide

theorem intercalate_append_ne (A B : List (List Char)) (hA : A ≠ []) (hB : B ≠ []) :
    [','].intercalate (A ++ B) = [','].intercalate A ++ ',' :: [','].intercalate B := by
  induction A with
  | nil => exact absurd rfl hA
  | cons a A1 ih =>
    cases A1 with
    | nil =>
      cases B with
      | nil => exact absurd rfl hB
      | cons b B1 => simp [List.intercalate, List.intersperse]
    | cons a1 A2 =>
      have h := ih (by simp)
      simp only [List.intercalate, List.cons_append, List.intersperse, List.flatten_cons,
        List.append_assoc, List.singleton_append] at h ⊢
      simp only [List.nil_append]
      have e : A2.append B = A2 ++ B := rfl
      rw [e, h]

/-- The struct printer called through the field's printer pointer. -/
theorem call_printer_structure {P : Type} (env : PrintEnv P)
    (structHash : Option (HashTable (Obj P) (Option (List (XDR_FieldDefinition P)))))
    (nested : Obj P → Nat → Option (List (XDR_FieldDefinition P)) → Option String →
      XDR_PRINT_STYLE → String)
    (data : Obj P) (base : Nat) (f : XDR_FieldDefinition P) (style : XDR_PRINT_STYLE)
    (key : String) (str : XDR_StructDefinition (Obj P) (Option (List (XDR_FieldDefinition P))))
    (hs : f.struct_id > 0) (hd : XDR_definition_for_type structHash f.struct_id = some str)
    (hpf : str.print_func = some "XDR_print_fields_func") :
    call_printer env structHash nested "XDR_print_field_structure" data base f style key
      = nested data (base + f.offset) str.arg (some key) style := by
  have h0 : ¬ f.struct_id = 0 := by omega
  simp [call_printer, XDR_print_field_structure, h0, hd, hpf]

/-- What the induction over a table carries: both renderings are the cells joined by
commas, no cell holds a comma, and there is at least one cell. -/
theorem csv_cells_combine (tH tD rH rD : String) (own cells : List (List Char × List Char))
    (hH : tH.toList = [','].intercalate (own.map Prod.fst))
    (hD : tD.toList = [','].intercalate (own.map Prod.snd))
    (hown : own ≠ []) (hc : ∀ c ∈ own, ',' ∉ c.1 ∧ ',' ∉ c.2)
    (hrH : rH.toList = [','].intercalate (cells.map Prod.fst))
    (hrD : rD.toList = [','].intercalate (cells.map Prod.snd))
    (hcells : cells ≠ []) (hcc : ∀ c ∈ cells, ',' ∉ c.1 ∧ ',' ∉ c.2) :
    (tH ++ "," ++ rH).toList = [','].intercalate ((own ++ cells).map Prod.fst)
    ∧ (tD ++ "," ++ rD).toList = [','].intercalate ((own ++ cells).map Prod.snd)
    ∧ (∀ c ∈ own ++ cells, ',' ∉ c.1 ∧ ',' ∉ c.2)
    ∧ own ++ cells ≠ [] := by
  refine ⟨?_, ?_, ?_, ?_⟩
  · rw [List.map_append, intercalate_append_ne _ _ (by simpa using hown) (by simpa using hcells),
      ← hH, ← hrH]
    simp [String.toList, String.data_append]
  · rw [List.map_append, intercalate_append_ne _ _ (by simpa using hown) (by simpa using hcells),
      ← hD, ← hrD]
    simp [String.toList, String.data_append]
  · intro c hc1
    rcases List.mem_append.mp hc1 with h | h
    · exact hc c h
    · exact hcc c h
  · intro h
    exact hown (List.append_eq_nil.mp h).1

/-- The field loop of `XDR_print_fields_func` over a table of the kind `CsvRegular_loop`
describes writes, in both CSV styles, the cells of the table joined by commas. -/
theorem csv_loop_cells {P : Type} (env : PrintEnv P)
    (structHash : Option (HashTable (Obj P) (Option (List (XDR_FieldDefinition P)))))
    (nested : Obj P → Nat → Option (List (XDR_FieldDefinition P)) → Option String →
      XDR_PRINT_STYLE → String)
    (nestedCells : Nat → Option (List (XDR_FieldDefinition P)) → String →
      List (List Char × List Char))
    (nestedOK : Nat → Option (List (XDR_FieldDefinition P)) → String → Prop)
    (data : Obj P)
    (Hn : ∀ b a k, nestedOK b a k →
      (nested data b a (some k) XDR_PRINT_STYLE.CSV_HEADER).toList
        = [','].intercalate ((nestedCells b a k).map Prod.fst)
      ∧ (nested data b a (some k) XDR_PRINT_STYLE.CSV_DATA).toList
        = [','].intercalate ((nestedCells b a k).map Prod.snd)
      ∧ (∀ c ∈ nestedCells b a k, ',' ∉ c.1 ∧ ',' ∉ c.2)
      ∧ nestedCells b a k ≠ [])
    (base : Nat) (parents_key : Option String) :
    ∀ table : List (XDR_FieldDefinition P),
      CsvRegular_loop env structHash nested nestedOK data base parents_key table →
      (XDR_print_fields_loop env structHash nested data base parents_key
          XDR_PRINT_STYLE.CSV_HEADER table).toList
        = [','].intercalate
            ((csvCells_loop env structHash nested nestedCells data base parents_key table).map
              Prod.fst)
      ∧ (XDR_print_fields_loop env structHash nested data base parents_key
          XDR_PRINT_STYLE.CSV_DATA table).toList
        = [','].intercalate
            ((csvCells_loop env structHash nested nestedCells data base parents_key table).map
              Prod.snd)
      ∧ (∀ c ∈ csvCells_loop env structHash nested nestedCells data base parents_key table,
          ',' ∉ c.1 ∧ ',' ∉ c.2)
      ∧ csvCells_loop env structHash nested nestedCells data base parents_key table ≠ [] := by
  intro table
  induction table with
  | nil =>
    intro _
    refine ⟨rfl, rfl, ?_, by simp [csvCells_loop]⟩
    intro c hc
    simp only [csvCells_loop, List.mem_singleton] at hc
    subst hc
    exact ⟨by simp, by simp⟩
  | cons f rest ih =>
    intro hreg
    rw [CsvRegular_loop] at hreg
    obtain ⟨hf, hrest⟩ := hreg
    obtain ⟨ihH, ihD, ihc, ihne⟩ := ih hrest
    cases hp : f.funcs.printer with
    | none =>
      rw [XDR_print_fields_loop_skip _ _ _ _ _ _ _ f rest hp,
        XDR_print_fields_loop_skip _ _ _ _ _ _ _ f rest hp]
      have e : csvCells_loop env structHash nested nestedCells data base parents_key (f :: rest)
          = csvCells_loop env structHash nested nestedCells data base parents_key rest := by
        rw [csvCells_loop]
        simp only [hp]
      rw [e]
      exact ⟨ihH, ihD, ihc, ihne⟩
    | some p =>
      rw [XDR_print_fields_loop_cons _ _ _ _ _ _ _ f rest p hp,
        XDR_print_fields_loop_cons _ _ _ _ _ _ _ f rest p hp]
      by_cases hk : f.key.isSome = true
      · obtain ⟨_, hbr⟩ := hf p hp hk
        -- the cells and texts of the field itself
        have hown : ∃ (own : List (List Char × List Char)) (tH tD : String),
            (if f.struct_id > 0 then
                call_printer env structHash nested p data base f XDR_PRINT_STYLE.CSV_HEADER
                  (XDR_print_fields_key parents_key f)
              else XDR_print_fields_key parents_key f) = tH
            ∧ call_printer env structHash nested p data base f XDR_PRINT_STYLE.CSV_DATA
                (XDR_print_fields_key parents_key f) = tD
            ∧ csvCells_loop env structHash nested nestedCells data base parents_key (f :: rest)
              = (if rest.isEmpty then own
                 else own ++ csvCells_loop env structHash nested nestedCells data base
                   parents_key rest)
            ∧ tH.toList = [','].intercalate (own.map Prod.fst)
            ∧ tD.toList = [','].intercalate (own.map Prod.snd)
            ∧ own ≠ [] ∧ (∀ c ∈ own, ',' ∉ c.1 ∧ ',' ∉ c.2) := by
          by_cases hs : f.struct_id > 0
          · rw [if_pos hs] at hbr
            obtain ⟨hpe, str, hd, hpf, hok⟩ := hbr
            obtain ⟨n1, n2, n3, n4⟩ := Hn _ _ _ hok
            subst hpe
            refine ⟨nestedCells (base + f.offset) str.arg (XDR_print_fields_key parents_key f),
              _, _, rfl, rfl, ?_, ?_, ?_, n4, n3⟩
            · rw [csvCells_loop]
              simp only [hp, hk, if_true, hs, hd]
            · rw [if_pos hs, call_printer_structure env structHash nested data base f _ _ str hs
                hd hpf]
              exact n1
            · rw [call_printer_structure env structHash nested data base f _ _ str hs hd hpf]
              exact n2
          · rw [if_neg hs] at hbr
            refine ⟨[((XDR_print_fields_key parents_key f).toList,
                (call_printer env structHash nested p data base f XDR_PRINT_STYLE.CSV_DATA
                  (XDR_print_fields_key parents_key f)).toList)],
              _, _, rfl, rfl, ?_, ?_, ?_, by simp, ?_⟩
            · rw [csvCells_loop]
              simp only [hp, hk, if_true, hs, if_false]
            · rw [if_neg hs]
              simp [List.intercalate]
            · simp [List.intercalate]
            · intro c hc
              simp only [List.mem_singleton] at hc
              subst hc
              exact hbr
        obtain ⟨own, tH, tD, eH, eD, ecells, hH, hD, hne, hcf⟩ := hown
        simp only [hk, if_true]
        rw [eH, eD, ecells]
        cases rest with
        | nil =>
          simp only [List.isEmpty_nil, if_true, XDR_print_fields_loop, String.append_empty]
          exact ⟨hH, hD, hcf, hne⟩
        | cons g gs =>
          simp only [List.isEmpty_cons, Bool.false_eq_true, if_false]
          exact csv_cells_combine tH tD _ _ own _ hH hD hne hcf ihH ihD ihne ihc
      · have e : csvCells_loop env structHash nested nestedCells data base parents_key
            (f :: rest)
            = csvCells_loop env structHash nested nestedCells data base parents_key rest := by
          rw [csvCells_loop]
          simp only [hp, hk, if_false, Bool.false_eq_true]
        rw [e]
        simp only [hk, if_false, Bool.false_eq_true, String.empty_append]
        exact ⟨ihH, ihD, ihc, ihne⟩

/-- On a table of the kind `CsvRegular` describes, `XDR_print_fields_func` writes, in both
CSV styles, the cells of the table joined by commas. -/
theorem csv_func_cells {P : Type} (env : PrintEnv P)
    (structHash : Option (HashTable (Obj P) (Option (List (XDR_FieldDefinition P)))))
    (data : Obj P) :
    ∀ (fuel base : Nat) (arg : Option (List (XDR_FieldDefinition P)))
      (parents_key : Option String),
      CsvRegular env structHash data fuel base arg parents_key →
      (XDR_print_fields_func env structHash fuel data base arg parents_key
          XDR_PRINT_STYLE.CSV_HEADER).toList
        = [','].intercalate
            ((csvCells env structHash data fuel base arg parents_key).map Prod.fst)
      ∧ (XDR_print_fields_func env structHash fuel data base arg parents_key
          XDR_PRINT_STYLE.CSV_DATA).toList
        = [','].intercalate
            ((csvCells env structHash data fuel base arg parents_key).map Prod.snd)
      ∧ (∀ c ∈ csvCells env structHash data fuel base arg parents_key, ',' ∉ c.1 ∧ ',' ∉ c.2)
      ∧ csvCells env structHash data fuel base arg parents_key ≠ [] := by
  intro fuel
  induction fuel with
  | zero => intro base arg parents_key h; exact absurd h (by simp [CsvRegular])
  | succ n ih =>
    intro base arg parents_key h
    rw [CsvRegular] at h
    rw [XDR_print_fields_func, XDR_print_fields_func, csvCells]
    exact csv_loop_cells env structHash (XDR_print_fields_func env structHash n)
      (fun b a k => csvCells env structHash data n b a (some k))
      (fun b a k => CsvRegular env structHash data n b a (some k)) data
      (fun b a k hk => ih b a (some k) hk) base parents_key (arg.getD []) h

theorem hexChar_ne_comma : ∀ d, d < 16 → hexChar d ≠ ',' := by decide

theorem XDR_print_field_byte_array_loop_ne_comma (data : List Nat) :
    ∀ (k i : Nat), ',' ∉ (XDR_print_field_byte_array_loop data k i).toList := by
  intro k
  induction k with
  | zero => intro i; simp [XDR_print_field_byte_array_loop]
  | succ n ih =>
    intro i h
    simp only [XDR_print_field_byte_array_loop, String.toList, String.data_append,
      List.mem_append, printf_02X, List.mem_cons, List.mem_singleton, List.not_mem_nil,
      or_false] at h
    rcases h with (h | h) | h
    · exact hexChar_ne_comma _ (Nat.div_lt_of_lt_mul (by omega)) h.symm
    · exact hexChar_ne_comma _ (Nat.mod_lt _ (by decide)) h.symm
    · exact ih (i + 1) h

/-- The printers of the integer scalars and of byte arrays never write a comma. -/
theorem call_printer_plain_ne_comma {P : Type} (env : PrintEnv P)
    (structHash : Option (HashTable (Obj P) (Option (List (XDR_FieldDefinition P)))))
    (nested : Obj P → Nat → Option (List (XDR_FieldDefinition P)) → Option String →
      XDR_PRINT_STYLE → String)
    (p : String) (data : Obj P) (base : Nat) (f : XDR_FieldDefinition P)
    (style : XDR_PRINT_STYLE) (key : String)
    (hp : p ∈ ["XDR_print_field_int32", "XDR_print_field_uint32", "XDR_print_field_int64",
      "XDR_print_field_uint64", "XDR_print_field_byte_array"]) :
    ',' ∉ (call_printer env structHash nested p data base f style key).toList := by
  simp only [List.mem_cons, List.mem_singleton, List.not_mem_nil, or_false] at hp
  rcases hp with rfl | rfl | rfl | rfl | rfl
  · simp only [call_printer, if_true, XDR_print_field_int32]
    exact printf_d_ne_comma _
  · have e : call_printer env structHash nested "XDR_print_field_uint32" data base f style key
        = XDR_print_field_uint32 (some (data.get (base + f.offset))) := by
      simp [call_printer]
    rw [e]
    exact printf_u_ne_comma _
  · have e : call_printer env structHash nested "XDR_print_field_int64" data base f style key
        = XDR_print_field_int64 (some (data.get (base + f.offset))) := by
      simp [call_printer]
    rw [e]
    exact printf_d_ne_comma _
  · have e : call_printer env structHash nested "XDR_print_field_uint64" data base f style key
        = XDR_print_field_uint64 (some (data.get (base + f.offset))) := by
      simp [call_printer]
    rw [e]
    exact printf_u_ne_comma _
  · have e : call_printer env structHash nested "XDR_print_field_byte_array" data base f style
        key = XDR_print_field_byte_array (some (data.get (base + f.offset)))
          (some (data.get (base + f.len_offset))) := by
      simp [call_printer]
    rw [e]
    unfold XDR_print_field_byte_array
    dsimp only
    cases (data.get (base + f.offset)).rdPtr with
    | none => simp
    | some bytes => exact XDR_print_field_byte_array_loop_ne_comma bytes _ _

/-- C28 (amended): for every table and value in which no key path and no printed value of
a field holds a comma (so no counted array of two or more elements, which prints commas
between its elements), no top-level key overruns the key buffer, and the fields with
`struct_id > 0` are nested structs printed by `XDR_print_fields_func` over tables of the
same kind: the CSV_DATA rendering produced by `XDR_print_fields_func` has exactly as many
comma-separated columns as the CSV_HEADER rendering, the header columns are the key paths
of the keyed fields in table order (inner fields of a nested struct under its key path),
and column k of the data is the value printed for the field whose key path is column k
of the header (with one empty last column in both when a table is empty or ends with a
field without key or printer). The printers of the integer scalars and of byte arrays
never write a comma. -/
theorem C28_csv_columns {P : Type} (env : PrintEnv P)
    (structHash : Option (HashTable (Obj P) (Option (List (XDR_FieldDefinition P)))))
    (fuel : Nat) (data : Obj P) (base : Nat) (parents_key : Option String)
    (table : List (XDR_FieldDefinition P))
    (hreg : CsvRegular env structHash data fuel base (some table) parents_key) :
    (XDR_print_fields_func env structHash fuel data base (some table) parents_key
        XDR_PRINT_STYLE.CSV_HEADER).toList.splitOn ','
      = (csvCells env structHash data fuel base (some table) parents_key).map Prod.fst
    ∧ (XDR_print_fields_func env structHash fuel data base (some table) parents_key
        XDR_PRINT_STYLE.CSV_DATA).toList.splitOn ','
      = (csvCells env structHash data fuel base (some table) parents_key).map Prod.snd
    ∧ ((XDR_print_fields_func env structHash fuel data base (some table) parents_key
        XDR_PRINT_STYLE.CSV_DATA).toList.splitOn ',').length
      = ((XDR_print_fields_func env structHash fuel data base (some table) parents_key
        XDR_PRINT_STYLE.CSV_HEADER).toList.splitOn ',').length
    ∧ (∀ (nested : Obj P → Nat → Option (List (XDR_FieldDefinition P)) → Option String →
          XDR_PRINT_STYLE → String) (p : String) (d : Obj P) (b : Nat)
        (f : XDR_FieldDefinition P) (key : String),
        p ∈ ["XDR_print_field_int32", "XDR_print_field_uint32", "XDR_print_field_int64",
          "XDR_print_field_uint64", "XDR_print_field_byte_array"] →
        ',' ∉ (call_printer env structHash nested p d b f XDR_PRINT_STYLE.CSV_DATA
          key).toList) := by
  obtain ⟨hH, hD, hc, hne⟩ := csv_func_cells env structHash data fuel base (some table)
    parents_key hreg
  have sH : (XDR_print_fields_func env structHash fuel data base (some table) parents_key
      XDR_PRINT_STYLE.CSV_HEADER).toList.splitOn ','
      = (csvCells env structHash data fuel base (some table) parents_key).map Prod.fst := by
    rw [hH]
    apply List.splitOn_intercalate
    · intro l hl
      obtain ⟨c, hcm, rfl⟩ := List.mem_map.mp hl
      exact (hc c hcm).1
    · simpa using hne
  have sD : (XDR_print_fields_func env structHash fuel data base (some table) parents_key
      XDR_PRINT_STYLE.CSV_DATA).toList.splitOn ','
      = (csvCells env structHash data fuel base (some table) parents_key).map Prod.snd := by
    rw [hD]
    apply List.splitOn_intercalate
    · intro l hl
      obtain ⟨c, hcm, rfl⟩ := List.mem_map.mp hl
      exact (hc c hcm).2
    · simpa using hne
  refine ⟨sH, sD, ?_, ?_⟩
  · rw [sH, sD, List.length_map, List.length_map]
  · intro nested p d b f key hp
    exact call_printer_plain_ne_comma env structHash nested p d b f _ key hp

theorem exampleNestedTable_regular :
    CsvRegular examplePrintEnv exampleNestedRegistry exampleNestedValue 2 0
      (some exampleNestedTable) none := by
  have inner : CsvRegular examplePrintEnv exampleNestedRegistry exampleNestedValue 1 8
      (some [ { funcs := xdr_int32_functions, offset := 0, key := some "a" },
              { funcs := xdr_uint32_functions, offset := 4, key := some "b" } ])
      (some "s") := by
    refine ⟨fun p hp _ => ?_, fun p hp _ => ?_, trivial⟩
    · cases hp
      refine ⟨rfl, ?_⟩
      rw [if_neg (by decide)]
      exact ⟨by decide, by decide⟩
    · cases hp
      refine ⟨rfl, ?_⟩
      rw [if_neg (by decide)]
      exact ⟨by decide, by decide⟩
  refine ⟨fun p hp _ => ?_, fun p hp _ => ?_, fun p hp _ => ?_, fun p hp _ => ?_, trivial⟩
  · cases hp
    refine ⟨rfl, ?_⟩
    rw [if_neg (by decide)]
    exact ⟨by decide, by decide⟩
  · cases hp
    refine ⟨rfl, ?_⟩
    rw [if_pos (by decide)]
    exact ⟨rfl, _, rfl, rfl, inner⟩
  · cases hp
    refine ⟨rfl, ?_⟩
    rw [if_neg (by decide)]
    exact ⟨by decide, by decide⟩
  · cases hp
    refine ⟨rfl, ?_⟩
    rw [if_neg (by decide)]
    exact ⟨by decide, by decide⟩

/-- C28 witness: a table with a word, a nested struct of two words, a length and a byte
array: five columns in both renderings. -/
theorem C28_csv_columns_witness :
    (XDR_print_fields_func examplePrintEnv exampleNestedRegistry 2 exampleNestedValue 0
        (some exampleNestedTable) none XDR_PRINT_STYLE.CSV_HEADER).toList.splitOn ','
      = ["x".toList, "s_a".toList, "s_b".toList, "n".toList, "h".toList]
    ∧ (XDR_print_fields_func examplePrintEnv exampleNestedRegistry 2 exampleNestedValue 0
        (some exampleNestedTable) none XDR_PRINT_STYLE.CSV_DATA).toList.splitOn ','
      = ["7".toList, "1".toList, "2".toList, "2".toList, "ABCD".toList] :=
  have h := C28_csv_columns examplePrintEnv exampleNestedRegistry 2 exampleNestedValue 0 none
    exampleNestedTable exampleNestedTable_regular
  ⟨h.1.trans (by decide), h.2.1.trans (by decide)⟩

/-! ## Claim C29: CSV header -/

/-- C29: in CSV_HEADER style a keyed field with `struct_id` 0 (an ordinary scalar, or a
bit-packed field at shift 0) emits its key path. A keyed bit-packed field at a shift above
0 does not: its shift is held in `struct_id`, the test `struct_id > 0` sends it to the
printer, and the stored value is emitted in place of the key path. -/
theorem C29_csv_header_bitfield {P : Type} (env : PrintEnv P)
    (structHash : Option (HashTable (Obj P) (Option (List (XDR_FieldDefinition P)))))
    (nested : Obj P → Nat → Option (List (XDR_FieldDefinition P)) → Option String →
      XDR_PRINT_STYLE → String)
    (data : Obj P) (base : Nat) (parents_key : Option String)
    (f : XDR_FieldDefinition P) (rest : List (XDR_FieldDefinition P)) (k p : String)
    (hk : f.key = some k) (hp : f.funcs.printer = some p) :
    (f.struct_id = 0 →
      XDR_print_fields_loop env structHash nested data base parents_key
          XDR_PRINT_STYLE.CSV_HEADER (f :: rest)
        = XDR_print_fields_key parents_key f ++ (if rest.isEmpty then "" else ",")
          ++ XDR_print_fields_loop env structHash nested data base parents_key
              XDR_PRINT_STYLE.CSV_HEADER rest)
    ∧ (0 < f.struct_id → f.funcs = xdr_uint32_bitfield_functions →
      XDR_print_fields_loop env structHash nested data base parents_key
          XDR_PRINT_STYLE.CSV_HEADER (f :: rest)
        = printf_u (data.get (base + f.offset)).rd32 ++ (if rest.isEmpty then "" else ",")
          ++ XDR_print_fields_loop env structHash nested data base parents_key
              XDR_PRINT_STYLE.CSV_HEADER rest)
    ∧ (0 < f.struct_id → f.funcs = xdr_int32_bitfield_functions →
      XDR_print_fields_loop env structHash nested data base parents_key
          XDR_PRINT_STYLE.CSV_HEADER (f :: rest)
        = printf_d (toI32 (data.get (base + f.offset)).rd32)
          ++ (if rest.isEmpty then "" else ",")
          ++ XDR_print_fields_loop env structHash nested data base parents_key
              XDR_PRINT_STYLE.CSV_HEADER rest) := by
  have hks : f.key.isSome = true := by rw [hk]; rfl
  refine ⟨?_, ?_, ?_⟩
  · intro h0
    rw [XDR_print_fields_loop_cons _ _ _ _ _ _ _ f rest p hp]
    simp only [hks, if_true, h0, Nat.lt_irrefl, gt_iff_lt, if_false]
  · intro h0 hf
    have hp2 : f.funcs.printer = some "XDR_print_field_uint32" := by rw [hf]; rfl
    rw [XDR_print_fields_loop_cons _ _ _ _ _ _ _ f rest _ hp2]
    simp only [hks, if_true, gt_iff_lt, h0]
    rfl
  · intro h0 hf
    have hp2 : f.funcs.printer = some "XDR_print_field_int32" := by rw [hf]; rfl
    rw [XDR_print_fields_loop_cons _ _ _ _ _ _ _ f rest _ hp2]
    simp only [hks, if_true, gt_iff_lt, h0]
    rfl

/-- The keyed bit-packed table of scenario S4: the header is lo,3 where the key path of
the second field is hi and its stored value is 3. -/
theorem C29_csv_header_bitfield_witness :
    XDR_print_fields_func examplePrintEnv none 1 exampleBitValue 0 (some exampleKeyedBitTable)
        none XDR_PRINT_STYLE.CSV_HEADER = "lo,3"
    ∧ XDR_print_fields_loop examplePrintEnv none (fun _ _ _ _ _ => "") exampleBitValue 0 none
        XDR_PRINT_STYLE.CSV_HEADER
        [{ funcs := xdr_uint32_bitfield_functions, offset := 4, key := some "hi",
           struct_id := 4, len_offset := 4 }]
      = printf_u (exampleBitValue.get (0 + 4)).rd32 ++ "" ++ "" :=
  ⟨by decide,
   (C29_csv_header_bitfield examplePrintEnv none (fun _ _ _ _ _ => "") exampleBitValue 0 none
      { funcs := xdr_uint32_bitfield_functions, offset := 4, key := some "hi",
        struct_id := 4, len_offset := 4 } [] "hi" "XDR_print_field_uint32" rfl rfl).2.1
      (by decide) rfl⟩

/-! ## Claim C30: key=value lines -/

set_option maxRecDepth 20000 in
/-- C30 as stated fails when parent key path, underscore and key do not fit the key buffer
of 1024 bytes: with a parent key path of 1023 characters p and the key x, the line printed
for the value 7 starts with the 1023 characters p alone, not with the key path that ends
in an underscore and x. -/
theorem C30_kvp_counterexample :
    XDR_print_fields_func examplePrintEnv none 1 exampleKeyedValue 0
        (some [{ funcs := xdr_int32_functions, offset := 0, key := some "x" }])
        (some (String.mk (List.replicate 1023 'p'))) XDR_PRINT_STYLE.KVP
      = String.mk (List.replicate 1023 'p') ++ "=7\n"
    ∧ ¬ (XDR_print_fields_func examplePrintEnv none 1 exampleKeyedValue 0
        (some [{ funcs := xdr_int32_functions, offset := 0, key := some "x" }])
        (some (String.mk (List.replicate 1023 'p'))) XDR_PRINT_STYLE.KVP
      = String.mk (List.replicate 1023 'p') ++ "_" ++ "x" ++ "=7\n") := by
  decide

/-- C30 (amended): in KVP style `XDR_print_fields_func` emits, for every field that has a
key which does not overrun the key buffer and a printer other than the struct printer,
exactly the text key_path = value newline, where key_path is the key at top level, if it
is shorter than 1024 bytes, and parent key path, underscore, key when a non-empty parent
key path is supplied and the whole is shorter than 1024 bytes; a nested struct field
emits no line of its own and passes its key path down as the parent of its inner fields;
fields without a key emit nothing. A top-level key of 1024 or more bytes is copied by
`strcpy` beyond the end of the key buffer. -/
theorem C30_kvp_lines {P : Type} (env : PrintEnv P)
    (structHash : Option (HashTable (Obj P) (Option (List (XDR_FieldDefinition P)))))
    (nested : Obj P → Nat → Option (List (XDR_FieldDefinition P)) → Option String →
      XDR_PRINT_STYLE → String)
    (fuel : Nat) (data : Obj P) (base : Nat) (parents_key : Option String)
    (f : XDR_FieldDefinition P) (rest : List (XDR_FieldDefinition P))
    (_hno : XDR_print_fields_key_overflow parents_key f = false) :
    (f.key = none →
      XDR_print_fields_loop env structHash nested data base parents_key XDR_PRINT_STYLE.KVP
          (f :: rest)
        = XDR_print_fields_loop env structHash nested data base parents_key
            XDR_PRINT_STYLE.KVP rest)
    ∧ (∀ k p, f.key = some k → f.funcs.printer = some p → p ≠ "XDR_print_field_structure" →
      XDR_print_fields_loop env structHash nested data base parents_key XDR_PRINT_STYLE.KVP
          (f :: rest)
        = XDR_print_fields_key parents_key f ++ "="
          ++ call_printer env structHash nested p data base f XDR_PRINT_STYLE.KVP
              (XDR_print_fields_key parents_key f) ++ "\n"
          ++ XDR_print_fields_loop env structHash nested data base parents_key
              XDR_PRINT_STYLE.KVP rest)
    ∧ (∀ k, f.key = some k → f.funcs.printer = some "XDR_print_field_structure" →
      XDR_print_fields_loop env structHash nested data base parents_key XDR_PRINT_STYLE.KVP
          (f :: rest)
        = XDR_print_field_structure env structHash nested data (base + f.offset) f
            XDR_PRINT_STYLE.KVP (XDR_print_fields_key parents_key f)
          ++ XDR_print_fields_loop env structHash nested data base parents_key
              XDR_PRINT_STYLE.KVP rest)
    ∧ (∀ str, f.struct_id ≠ 0 → XDR_definition_for_type structHash f.struct_id = some str →
      str.print_func = some "XDR_print_fields_func" →
      XDR_print_field_structure env structHash nested data (base + f.offset) f
          XDR_PRINT_STYLE.KVP (XDR_print_fields_key parents_key f)
        = nested data (base + f.offset) str.arg (some (XDR_print_fields_key parents_key f))
            XDR_PRINT_STYLE.KVP)
    ∧ (∀ k, f.key = some k →
      (k.length < 1024 →
        XDR_print_fields_key none f = k ∧ XDR_print_fields_key (some "") f = k)
      ∧ (∀ parent : String, parent ≠ "" → (parent ++ "_" ++ k).length < 1024 →
          XDR_print_fields_key (some parent) f = parent ++ "_" ++ k)
      ∧ (1024 ≤ k.length →
        XDR_print_fields_key_overflow none f = true
        ∧ XDR_print_fields_key_overflow (some "") f = true))
    ∧ ((f.funcs = xdr_int32_functions ∨ f.funcs = xdr_uint32_functions
        ∨ f.funcs = xdr_int64_functions ∨ f.funcs = xdr_uint64_functions) →
      ∃ p, f.funcs.printer = some p ∧ p ≠ "XDR_print_field_structure"
        ∧ call_printer env structHash nested p data base f XDR_PRINT_STYLE.KVP
            (XDR_print_fields_key parents_key f) = scalarValueText data base f)
    ∧ (∀ table style, XDR_print_fields_func env structHash (fuel + 1) data base (some table)
          parents_key style
        = XDR_print_fields_loop env structHash (XDR_print_fields_func env structHash fuel)
            data base parents_key style table) := by
  refine ⟨?_, ?_, ?_, ?_, ?_, ?_, fun _ _ => rfl⟩
  · intro hk
    cases hp : f.funcs.printer with
    | none => exact XDR_print_fields_loop_skip _ _ _ _ _ _ _ f rest hp
    | some p =>
      rw [XDR_print_fields_loop_cons _ _ _ _ _ _ _ f rest p hp]
      simp [hk]
  · intro k p hk hp hne
    rw [XDR_print_fields_loop_cons _ _ _ _ _ _ _ f rest p hp]
    simp only [hk, Option.isSome_some, if_true, hne, ne_eq, not_false_eq_true]
  · intro k hk hp
    rw [XDR_print_fields_loop_cons _ _ _ _ _ _ _ f rest _ hp]
    simp only [hk, Option.isSome_some, if_true, ne_eq, not_true_eq_false, if_false]
    rfl
  · intro str h0 hdef hpf
    unfold XDR_print_field_structure
    rw [if_neg h0, hdef]
    simp only [hpf, if_true]
  · intro k hk
    have h := XDR_print_fields_key_eq f k hk
    refine ⟨fun _ => ⟨h.1, h.2.1⟩, h.2.2.1, fun hl => ⟨?_, ?_⟩⟩
    · simp only [XDR_print_fields_key_overflow, hk, hl, decide_True]
    · simp only [XDR_print_fields_key_overflow, hk, hl, decide_True]
      rfl
  · intro hf
    rcases hf with h | h | h | h
    · exact ⟨"XDR_print_field_int32", by rw [h]; rfl, by decide, by
        simp [call_printer, scalarValueText, h, xdr_int32_functions, XDR_print_field_int32]⟩
    · exact ⟨"XDR_print_field_uint32", by rw [h]; rfl, by decide, by
        simp [call_printer, scalarValueText, h, xdr_uint32_functions, XDR_print_field_uint32]⟩
    · exact ⟨"XDR_print_field_int64", by rw [h]; rfl, by decide, by
        simp [call_printer, scalarValueText, h, xdr_int64_functions, XDR_print_field_int64]⟩
    · exact ⟨"XDR_print_field_uint64", by rw [h]; rfl, by decide, by
        simp [call_printer, scalarValueText, h, xdr_uint64_functions, XDR_print_field_uint64]⟩

/-- The keyed word x printed under the parent key path p. -/
theorem C30_kvp_lines_witness :
    XDR_print_fields_loop examplePrintEnv none (fun _ _ _ _ _ => "") exampleKeyedValue 0
        (some "p") XDR_PRINT_STYLE.KVP
        [{ funcs := xdr_int32_functions, offset := 0, key := some "x" }]
      = "p_x" ++ "=" ++ "7" ++ "\n" ++ ""
    ∧ XDR_print_fields_func examplePrintEnv none 1 exampleKeyedValue 0
        (some exampleKeyedTable) (some "p") XDR_PRINT_STYLE.KVP = "p_x=7\np_y=-1\n" :=
  ⟨(C30_kvp_lines examplePrintEnv none (fun _ _ _ _ _ => "") 0 exampleKeyedValue 0 (some "p")
      { funcs := xdr_int32_functions, offset := 0, key := some "x" } [] rfl).2.1
      "x" "XDR_print_field_int32" rfl rfl (by decide),
   by decide⟩

/-! ## Negative byte-array lengths -/

/-- C32: for a negative companion length of -4 or below (and `max` at most 2^64 - 2^31)
`XDR_decode_byte_array` returns -1 before it allocates or copies. For the lengths -1, -2
and -3 and `max > 0` it does not return failure: length plus padding is 0, the size test
passes, `malloc` is asked for `2^64 + length` bytes and fails, and the function goes on
to `memcpy(NULL, src, byte_len)`, a copy of at least 2^64 - 3 bytes through a null
pointer, from which it does not return. -/
theorem C32_byte_array_negative_length {P : Type} (src : Buf) (slot : Cell P) (u max : Nat)
    (L : Int) (hL1 : -2147483648 ≤ L) (hL2 : L < 0) :
    (L ≤ -4 → max ≤ 18446744071562067968 →
      XDR_decode_byte_array src (some slot) u max (some (Cell.word (toU32 L)))
        = ⟨-1, some slot, 0⟩
      ∧ XDR_decode_byte_array_request (some slot) max (some (Cell.word (toU32 L) : Cell P))
        = none
      ∧ XDR_decode_byte_array_nullCopy (some slot) max (some (Cell.word (toU32 L) : Cell P))
        = false)
    ∧ (-4 < L → 0 < max →
      XDR_decode_byte_array_request (some slot) max (some (Cell.word (toU32 L) : Cell P))
        = some (toU64 L)
      ∧ malloc (toU64 L) = none
      ∧ XDR_decode_byte_array_nullCopy (some slot) max (some (Cell.word (toU32 L) : Cell P))
        = true
      ∧ 18446744073709551613 ≤ toU64 L) := by
  have hd : derefLen (some (Cell.word (toU32 L) : Cell P)) = L :=
    derefLen_toU32 L hL1 (by omega)
  have hn := byteTotal_neg L hL2
  constructor
  · intro h4 hmax
    obtain ⟨ha, hb⟩ := hn.2 h4
    have ht : toU64 (toI32 (toU32 (L + cRem (4 - cRem L 4) 4))) ≥ max := by
      rw [toI32_toU32 _ (by omega) (by omega)]
      unfold toU64
      omega
    have hreq : XDR_decode_byte_array_request (some slot) max
        (some (Cell.word (toU32 L) : Cell P)) = none := by
      simp only [XDR_decode_byte_array_request, hd, Option.isNone_some, Bool.false_or,
        decide_eq_true_eq, ht, if_true]
    refine ⟨?_, hreq, ?_⟩
    · simp only [XDR_decode_byte_array, hd, Option.isNone_some, Bool.false_or,
        decide_eq_true_eq, ht, if_true]
    · unfold XDR_decode_byte_array_nullCopy
      rw [hreq]
  · intro h4 hmax
    exact XDR_decode_byte_array_nullCopy_neg slot max L h4 hL2 hmax

/-- The companion length -1 with `max = 8`: the call reaches the copy through the null
result of `malloc(2^64 - 1)`. -/
theorem C32_byte_array_negative_length_witness :
    XDR_decode_byte_array_request (some (Cell.ptr none : Cell Unit)) 8
        (some (Cell.word (toU32 (-1)))) = some (toU64 (-1))
    ∧ malloc (toU64 (-1)) = none
    ∧ XDR_decode_byte_array_nullCopy (some (Cell.ptr none : Cell Unit)) 8
        (some (Cell.word (toU32 (-1)))) = true
    ∧ 18446744073709551613 ≤ toU64 (-1) :=
  (C32_byte_array_negative_length [1, 2, 3, 4, 5, 6, 7, 8] (Cell.ptr none : Cell Unit) 0 8
    (-1) (by decide) (by decide)).2 (by decide) (by decide)

/-! ## Field deallocators -/

/-- The field loop of the struct deallocator over two tables in a row. -/
theorem XDR_struct_free_deallocator_loop_append {P : Type} (Q : Type) :
    ∀ xs ys : List (XDR_FieldDefinition P),
      XDR_struct_free_deallocator_loop Q (xs ++ ys)
        = XDR_struct_free_deallocator_loop Q xs ++ XDR_struct_free_deallocator_loop Q ys := by
  intro xs ys
  induction xs with
  | nil => rfl
  | cons f rest ih =>
    simp only [List.cons_append, XDR_struct_free_deallocator_loop]
    cases f.funcs.field_dealloc with
    | none => exact ih
    | some func => simp [ih]

/-- C33: `XDR_struct_free_deallocator` calls the field deallocator of every field whose
record supplies one, then frees the struct body; a field whose record supplies none is
passed over. The records of the counted scalar arrays, of byte arrays and of unions
supply a field deallocator; the string record `xdr_string_arr_functions` and the
char-array record `xdr_char_arr_functions`, whose decoders allocate the field's storage,
supply none, so that storage is not released. -/
theorem C33_field_deallocators {P Q A : Type} (structHash : Option (HashTable P A)) (p : Q)
    (d : XDR_StructDefinition Q (Option (List (XDR_FieldDefinition P))))
    (pre post : List (XDR_FieldDefinition P)) (f : XDR_FieldDefinition P)
    (harg : d.arg = some (pre ++ f :: post)) :
    (f.funcs.field_dealloc = none →
      (XDR_struct_free_deallocator (some (some p)) (some d)).2
        = XDR_struct_free_deallocator_loop Q pre
          ++ (XDR_struct_free_deallocator_loop Q post ++ [Release.free p]))
    ∧ (∀ func, f.funcs.field_dealloc = some func →
      (XDR_struct_free_deallocator (some (some p)) (some d)).2
        = XDR_struct_free_deallocator_loop Q pre
          ++ (Release.field_dealloc func f.offset
            :: (XDR_struct_free_deallocator_loop Q post ++ [Release.free p])))
    ∧ (xdr_string_arr_functions : XDR_TypeFunctions P).field_dealloc = none
    ∧ (xdr_char_arr_functions : XDR_TypeFunctions P).field_dealloc = none
    ∧ (∀ r ∈ [(xdr_int32_arr_functions : XDR_TypeFunctions P), xdr_uint32_arr_functions,
          xdr_int64_arr_functions, xdr_uint64_arr_functions, xdr_float_arr_functions,
          xdr_double_arr_functions, xdr_byte_arr_functions, xdr_union_functions structHash],
        r.field_dealloc.isSome = true) := by
  have hrel : (XDR_struct_free_deallocator (some (some p)) (some d)).2
      = XDR_struct_free_deallocator_loop Q (pre ++ f :: post) ++ [Release.free p] := by
    simp [XDR_struct_free_deallocator, harg]
  refine ⟨?_, ?_, rfl, rfl, ?_⟩
  · intro h
    rw [hrel, XDR_struct_free_deallocator_loop_append]
    simp only [XDR_struct_free_deallocator_loop, h, List.append_assoc]
  · intro func h
    rw [hrel, XDR_struct_free_deallocator_loop_append]
    simp only [XDR_struct_free_deallocator_loop, h, List.append_assoc, List.cons_append]
  · intro r hr
    simp only [List.mem_cons, List.mem_singleton, List.not_mem_nil, or_false] at hr
    rcases hr with rfl | rfl | rfl | rfl | rfl | rfl | rfl | rfl <;> rfl

/-- A struct of a string and a counted array: decoding the string hi allocates its three
bytes, and releasing the decoded struct calls the array deallocator for the array at
offset 16 and frees the body, with no call for the string at offset 0. -/
theorem C33_field_deallocators_witness :
    XDR_decode_string_array [0, 0, 0, 2, 104, 105, 0, 0] (some (Cell.ptr none : Cell Unit)) 0
        8 none = ⟨0, some (Cell.ptr (some [104, 105, 0])), 8⟩
    ∧ (XDR_struct_free_deallocator
        (some (some ([(0, Cell.ptr (some [104, 105, 0])), (8, Cell.word 1),
          (16, Cell.ptr (some [7]))] : Obj Unit))) (some exampleStringDefinition)).2
      = [] ++ (XDR_struct_free_deallocator_loop (Obj Unit)
            ([ { funcs := xdr_int32_functions, offset := 8 },
               { funcs := xdr_uint32_arr_functions, offset := 16, len_offset := 8 } ] :
              List (XDR_FieldDefinition Unit))
          ++ [Release.free ([(0, Cell.ptr (some [104, 105, 0])), (8, Cell.word 1),
            (16, Cell.ptr (some [7]))] : Obj Unit)])
    ∧ XDR_struct_free_deallocator_loop (Obj Unit)
          ([ { funcs := xdr_int32_functions, offset := 8 },
             { funcs := xdr_uint32_arr_functions, offset := 16, len_offset := 8 } ] :
            List (XDR_FieldDefinition Unit))
        = [Release.field_dealloc "XDR_array_field_deallocator" 16] :=
  ⟨by decide,
   (C33_field_deallocators (none : Option (HashTable Unit Unit))
      ([(0, Cell.ptr (some [104, 105, 0])), (8, Cell.word 1), (16, Cell.ptr (some [7]))] :
        Obj Unit)
      exampleStringDefinition []
      [ { funcs := xdr_int32_functions, offset := 8 },
        { funcs := xdr_uint32_arr_functions, offset := 16, len_offset := 8 } ]
      { funcs := xdr_string_arr_functions, offset := 0 } rfl).1 rfl,
   rfl⟩

/-! ## The aggregate encoder after a failure -/

/-- The loop of the aggregate encoder over two tables in a row. -/
theorem XDR_struct_encoder_loop_append {P : Type} (src : Option (Obj P)) (max : Nat) :
    ∀ (xs ys : List (XDR_FieldDefinition P)) (mem : Option Buf) (res : Int) (used len : Nat),
      XDR_struct_encoder_loop src max (xs ++ ys) mem res used len
        = XDR_struct_encoder_loop src max ys
            (XDR_struct_encoder_loop src max xs mem res used len).dst
            (XDR_struct_encoder_loop src max xs mem res used len).res
            (XDR_struct_encoder_loop src max xs mem res used len).used
            (XDR_struct_encoder_len src max xs mem res used len) := by
  intro xs
  induction xs with
  | nil => intro ys mem res used len; rfl
  | cons f rest ih =>
    intro ys mem res used len
    simp only [List.cons_append]
    cases mem with
    | none =>
      simp only [XDR_struct_encoder_loop, XDR_struct_encoder_len]
      exact ih _ _ _ _ _
    | some m =>
      by_cases hres : res < 0
      · simp only [XDR_struct_encoder_loop, XDR_struct_encoder_len, hres, if_true]
        exact ih _ _ _ _ _
      · simp only [XDR_struct_encoder_loop, XDR_struct_encoder_len, hres, if_false]
        exact ih _ _ _ _ _

/-- After a failure the remaining fields leave the destination and the error code as
they are. -/
theorem XDR_struct_encoder_loop_failed {P : Type} (src : Option (Obj P)) (max : Nat) :
    ∀ (fields : List (XDR_FieldDefinition P)) (m : Buf) (res : Int) (used len : Nat),
      res < 0 →
      (XDR_struct_encoder_loop src max fields (some m) res used len).res = res
      ∧ (XDR_struct_encoder_loop src max fields (some m) res used len).dst = some m
      ∧ (XDR_struct_encoder_loop src max fields (some m) res used len).used
          = (XDR_struct_encoder_loop src max fields none res used len).used := by
  intro fields
  induction fields with
  | nil => intro m res used len _; exact ⟨rfl, rfl, rfl⟩
  | cons f rest ih =>
    intro m res used len hres
    rw [XDR_struct_encoder_loop_dead src max f rest m res used len hres]
    have h := ih m res
      (used + (f.funcs.encoder (fieldPtr src f.offset) none len max
        (fieldPtr src f.len_offset)).used)
      (f.funcs.encoder (fieldPtr src f.offset) none len max
        (fieldPtr src f.len_offset)).used hres
    refine ⟨h.1, h.2.1, ?_⟩
    rw [h.2.2]
    rfl

/-- With encoders that return 0 or a negative code, the loop returns 0 or a negative
code. -/
theorem XDR_struct_encoder_loop_res_le {P : Type} (src : Option (Obj P)) (max : Nat) :
    ∀ (fields : List (XDR_FieldDefinition P)),
      (∀ f ∈ fields, ∀ s d u m l, (f.funcs.encoder s d u m l).res ≤ 0) →
      ∀ (mem : Option Buf) (res : Int) (used len : Nat), res ≤ 0 →
        (XDR_struct_encoder_loop src max fields mem res used len).res ≤ 0 := by
  intro fields
  induction fields with
  | nil => intro _ mem res used len h; cases mem <;> exact h
  | cons f rest ih =>
    intro hf mem res used len hres
    have ih2 := ih (fun g hg => hf g (List.mem_cons_of_mem _ hg))
    unfold XDR_struct_encoder_loop
    cases mem with
    | none => exact ih2 _ _ _ _ hres
    | some m =>
      dsimp only
      split
      · exact ih2 _ _ _ _ hres
      · exact ih2 _ _ _ _ (hf f (List.mem_cons_self _ _) _ _ _ _ _)

/-- C31: with the stores through a null destination left out, `XDR_struct_encoder` with
a non-null destination visits every field of the table even after a field's encoder has
failed. When the fields of `pre` succeed and the next field `f` fails, the return value
is the code of `f`, the destination is as `f` left it, and `*inc` is the sum of the sizes
reported by all fields, those after `f` reporting as in a dry run; for encoders whose
reported size does not depend on the destination that is the sum of the field sizes. When
no field fails the return value is 0 for encoders that return 0 on success. But every
field after the failure is called with a null destination and the caller's `max`, and
with `max >= 4` (`max >= 8`) `XDR_encode_float` (`XDR_encode_double`) then executes its
`memcpy` into the null destination. -/
theorem C31_struct_encoder_continues {P : Type} (src : Option (Obj P)) (d : Buf)
    (inc max type : Nat) (pre post : List (XDR_FieldDefinition P))
    (f : XDR_FieldDefinition P) (m1 : Buf)
    (hpre : 0 ≤ (XDR_struct_encoder_loop src max pre (some d) 0 0 0).res)
    (hm1 : (XDR_struct_encoder_loop src max pre (some d) 0 0 0).dst = some m1)
    (hf : (f.funcs.encoder (fieldPtr src f.offset)
        (some (m1.drop (XDR_struct_encoder_loop src max pre (some d) 0 0 0).used))
        (XDR_struct_encoder_len src max pre (some d) 0 0 0)
        (sizeSub max (XDR_struct_encoder_loop src max pre (some d) 0 0 0).used)
        (fieldPtr src f.len_offset)).res < 0) :
    (XDR_struct_encoder src (some d) inc max type (some (pre ++ f :: post))).res
        = (f.funcs.encoder (fieldPtr src f.offset)
            (some (m1.drop (XDR_struct_encoder_loop src max pre (some d) 0 0 0).used))
            (XDR_struct_encoder_len src max pre (some d) 0 0 0)
            (sizeSub max (XDR_struct_encoder_loop src max pre (some d) 0 0 0).used)
            (fieldPtr src f.len_offset)).res
    ∧ (XDR_struct_encoder src (some d) inc max type (some (pre ++ f :: post))).dst
        = some (splice m1 (XDR_struct_encoder_loop src max pre (some d) 0 0 0).used
            ((f.funcs.encoder (fieldPtr src f.offset)
              (some (m1.drop (XDR_struct_encoder_loop src max pre (some d) 0 0 0).used))
              (XDR_struct_encoder_len src max pre (some d) 0 0 0)
              (sizeSub max (XDR_struct_encoder_loop src max pre (some d) 0 0 0).used)
              (fieldPtr src f.len_offset)).dst.getD
              (m1.drop (XDR_struct_encoder_loop src max pre (some d) 0 0 0).used)))
    ∧ (XDR_struct_encoder src (some d) inc max type (some (pre ++ f :: post))).used
        = (XDR_struct_encoder_loop src max post none
            (f.funcs.encoder (fieldPtr src f.offset)
              (some (m1.drop (XDR_struct_encoder_loop src max pre (some d) 0 0 0).used))
              (XDR_struct_encoder_len src max pre (some d) 0 0 0)
              (sizeSub max (XDR_struct_encoder_loop src max pre (some d) 0 0 0).used)
              (fieldPtr src f.len_offset)).res
            ((XDR_struct_encoder_loop src max pre (some d) 0 0 0).used
              + (f.funcs.encoder (fieldPtr src f.offset)
                (some (m1.drop (XDR_struct_encoder_loop src max pre (some d) 0 0 0).used))
                (XDR_struct_encoder_len src max pre (some d) 0 0 0)
                (sizeSub max (XDR_struct_encoder_loop src max pre (some d) 0 0 0).used)
                (fieldPtr src f.len_offset)).used)
            (f.funcs.encoder (fieldPtr src f.offset)
              (some (m1.drop (XDR_struct_encoder_loop src max pre (some d) 0 0 0).used))
              (XDR_struct_encoder_len src max pre (some d) 0 0 0)
              (sizeSub max (XDR_struct_encoder_loop src max pre (some d) 0 0 0).used)
              (fieldPtr src f.len_offset)).used).used
    ∧ ((∀ g ∈ pre ++ f :: post, ∀ (dst : Option Buf) (u m : Nat),
          (g.funcs.encoder (fieldPtr src g.offset) dst u m (fieldPtr src g.len_offset)).used
            = fieldSize src g) →
        (XDR_struct_encoder src (some d) inc max type (some (pre ++ f :: post))).used
          = ((pre ++ f :: post).map (fieldSize src)).sum)
    ∧ (∀ fields : List (XDR_FieldDefinition P),
        (∀ g ∈ fields, ∀ s dst u m l, (g.funcs.encoder s dst u m l).res ≤ 0) →
        0 ≤ (XDR_struct_encoder src (some d) inc max type (some fields)).res →
        (XDR_struct_encoder src (some d) inc max type (some fields)).res = 0)
    ∧ (∀ (g : XDR_FieldDefinition P) (rest : List (XDR_FieldDefinition P)) (m : Buf)
        (res : Int) (used len : Nat), res < 0 →
        XDR_struct_encoder_loop src max (g :: rest) (some m) res used len
          = XDR_struct_encoder_loop src max rest (some m) res
              (used + (g.funcs.encoder (fieldPtr src g.offset) none len max
                (fieldPtr src g.len_offset)).used)
              (g.funcs.encoder (fieldPtr src g.offset) none len max
                (fieldPtr src g.len_offset)).used)
    ∧ (4 ≤ max → XDR_encode_float_nullStore none max = true)
    ∧ (8 ≤ max → XDR_encode_double_nullStore none max = true) := by
  have hwhole : XDR_struct_encoder src (some d) inc max type (some (pre ++ f :: post))
      = XDR_struct_encoder_loop src max (pre ++ f :: post) (some d) 0 0 0 := rfl
  rw [hwhole, XDR_struct_encoder_loop_append, hm1,
    XDR_struct_encoder_loop_live src max f post m1 _ _ _ (Int.not_lt.mpr hpre)]
  have h := XDR_struct_encoder_loop_failed src max post
    (splice m1 (XDR_struct_encoder_loop src max pre (some d) 0 0 0).used
      ((f.funcs.encoder (fieldPtr src f.offset)
        (some (m1.drop (XDR_struct_encoder_loop src max pre (some d) 0 0 0).used))
        (XDR_struct_encoder_len src max pre (some d) 0 0 0)
        (sizeSub max (XDR_struct_encoder_loop src max pre (some d) 0 0 0).used)
        (fieldPtr src f.len_offset)).dst.getD
        (m1.drop (XDR_struct_encoder_loop src max pre (some d) 0 0 0).used))) _
    ((XDR_struct_encoder_loop src max pre (some d) 0 0 0).used
      + (f.funcs.encoder (fieldPtr src f.offset)
        (some (m1.drop (XDR_struct_encoder_loop src max pre (some d) 0 0 0).used))
        (XDR_struct_encoder_len src max pre (some d) 0 0 0)
        (sizeSub max (XDR_struct_encoder_loop src max pre (some d) 0 0 0).used)
        (fieldPtr src f.len_offset)).used)
    (f.funcs.encoder (fieldPtr src f.offset)
      (some (m1.drop (XDR_struct_encoder_loop src max pre (some d) 0 0 0).used))
      (XDR_struct_encoder_len src max pre (some d) 0 0 0)
      (sizeSub max (XDR_struct_encoder_loop src max pre (some d) 0 0 0).used)
      (fieldPtr src f.len_offset)).used hf
  refine ⟨h.1, h.2.1, h.2.2, ?_, ?_, ?_, ?_, ?_⟩
  · intro hs
    have := XDR_struct_encoder_loop_used src max (pre ++ f :: post) hs (some d) 0 0 0
    rw [XDR_struct_encoder_loop_append, hm1,
      XDR_struct_encoder_loop_live src max f post m1 _ _ _ (Int.not_lt.mpr hpre)] at this
    rw [this]
    omega
  · intro fields hle h0
    exact le_antisymm
      (XDR_struct_encoder_loop_res_le src max fields hle (some d) 0 0 0 (le_refl 0)) h0
  · intro g rest m res used len hres
    exact XDR_struct_encoder_loop_dead src max g rest m res used len hres
  · intro hm
    have : ¬ max < 4 := by omega
    simp only [XDR_encode_float_nullStore, this, if_false, Option.isNone_none]
  · intro hm
    have : ¬ max < 8 := by omega
    simp only [XDR_encode_double_nullStore, this, if_false, Option.isNone_none]

/-- Two words and a `float` into a destination of four bytes: the first field is written,
the second fails, and the `float` encoder is then called with a null destination and
`max = 4`, which takes it to its `memcpy`. -/
theorem C31_struct_encoder_continues_witness :
    (XDR_struct_encoder (some exampleKeyedValue) (some [9, 9, 9, 9, 9, 9, 9, 9]) 0 4 0
        (some exampleWordsFloat)).res = -2
    ∧ (XDR_struct_encoder (some exampleKeyedValue) (some [9, 9, 9, 9, 9, 9, 9, 9]) 0 4 0
        (some exampleWordsFloat)).dst = some [0, 0, 0, 7, 9, 9, 9, 9]
    ∧ (XDR_struct_encoder (some exampleKeyedValue) (some [9, 9, 9, 9, 9, 9, 9, 9]) 0 4 0
        (some exampleWordsFloat)).used = 12
    ∧ XDR_encode_float_nullStore none 4 = true :=
  have h := C31_struct_encoder_continues (some exampleKeyedValue) [9, 9, 9, 9, 9, 9, 9, 9]
    0 4 0 [{ funcs := xdr_int32_functions, offset := 0 }]
    [{ funcs := xdr_float_functions, offset := 8 }]
    { funcs := xdr_int32_functions, offset := 4 } [0, 0, 0, 7, 9, 9, 9, 9]
    (by decide) (by decide) (by decide)
  ⟨h.1.trans (by decide), h.2.1.trans (by decide), h.2.2.1.trans (by decide),
    h.2.2.2.2.2.2.1 (by decide)⟩

/-! ## Per-field printers -/

/-- C34: `XDR_set_field_print_function(func, T, i)` stores `func` in the record that
field `i` of the registered type `T` points to: afterwards field `i` of `T` is printed
with `func`, and fields that point to another record keep their printer; but every field
of every struct type that points to the same record (a field of the same wire type) is
printed with `func` as well. If `T` is unregistered or has no field table nothing
changes. -/
theorem C34_set_field_print_function {P : Type}
    (structHash : Option (HashTable P (Option (List Nat)))) (printers : Nat → FuncPtr)
    (func : FuncPtr) (T i : Nat) (d : XDR_StructDefinition P (Option (List Nat)))
    (fields : List Nat) (a : Nat)
    (hd : XDR_definition_for_type structHash T = some d) (harg : d.arg = some fields)
    (hi : fields[i]? = some a) :
    fieldPrinter structHash (XDR_set_field_print_function structHash printers func T i) T i
      = func
    ∧ (∀ (t k : Nat) (dt : XDR_StructDefinition P (Option (List Nat))) (ft : List Nat)
        (b : Nat), XDR_definition_for_type structHash t = some dt → dt.arg = some ft →
        ft[k]? = some b →
        (b ≠ a → fieldPrinter structHash
            (XDR_set_field_print_function structHash printers func T i) t k
          = fieldPrinter structHash printers t k)
        ∧ (b = a → fieldPrinter structHash
            (XDR_set_field_print_function structHash printers func T i) t k = func))
    ∧ (∀ U j, XDR_definition_for_type structHash U = none →
        XDR_set_field_print_function structHash printers func U j = printers)
    ∧ (∀ U j du, XDR_definition_for_type structHash U = some du → du.arg = none →
        XDR_set_field_print_function structHash printers func U j = printers) := by
  have hset : XDR_set_field_print_function structHash printers func T i
      = fun x => if x = a then func else printers x := by
    simp only [XDR_set_field_print_function, hd, harg, hi]
  refine ⟨?_, ?_, ?_, ?_⟩
  · simp only [fieldPrinter, hd, harg, hi, hset, if_true]
  · intro t k dt ft b hdt hft hb
    constructor
    · intro hne
      simp only [fieldPrinter, hdt, hft, hb, hset, if_neg hne]
    · intro he
      simp only [fieldPrinter, hdt, hft, hb, hset, if_pos he]
  · intro U j hU
    simp only [XDR_set_field_print_function, hU]
  · intro U j du hU hnone
    simp only [XDR_set_field_print_function, hU, hnone]

/-- Installing a printer for field 0 of type 7: field 1 of type 7 and field 0 of type 8,
which are `uint32_t` fields too, are printed with it as well; the `int32_t` field 1 of
type 8 is not. -/
theorem C34_set_field_print_function_witness :
    fieldPrinter examplePointerRegistry
        (XDR_set_field_print_function examplePointerRegistry examplePrinters
          (some "my_printer") 7 0) 7 0 = some "my_printer"
    ∧ fieldPrinter examplePointerRegistry
        (XDR_set_field_print_function examplePointerRegistry examplePrinters
          (some "my_printer") 7 0) 7 1 = some "my_printer"
    ∧ fieldPrinter examplePointerRegistry
        (XDR_set_field_print_function examplePointerRegistry examplePrinters
          (some "my_printer") 7 0) 8 0 = some "my_printer"
    ∧ fieldPrinter examplePointerRegistry
        (XDR_set_field_print_function examplePointerRegistry examplePrinters
          (some "my_printer") 7 0) 8 1 = fieldPrinter examplePointerRegistry examplePrinters 8 1
    ∧ fieldPrinter examplePointerRegistry examplePrinters 7 1 = some "XDR_print_field_uint32" :=
  have h := C34_set_field_print_function examplePointerRegistry examplePrinters
    (some "my_printer") 7 0
    { type := 7, in_memory_size := 8, encoder := none, decoder := none,
      allocator := some (fun _ => none), deallocator := none, arg := some [100, 100] }
    [100, 100] 100 rfl rfl rfl
  ⟨h.1,
   (h.2.1 7 1 _ [100, 100] 100 rfl rfl rfl).2 rfl,
   (h.2.1 8 0 _ [100, 200] 100 rfl rfl rfl).2 rfl,
   (h.2.1 8 1 _ [100, 200] 200 rfl rfl rfl).1 (by decide),
   by decide⟩

/-! ## Sockets of the blocking helpers -/

/-- C35: `socket_send_packet_and_read_xdr_sa` closes the socket it opened on every return
path, and so does `socket_send_packet_and_read_response` on success, timeout, wait error
and read error; but when the destination host does not resolve,
`socket_send_packet_and_read_response` returns -1 with the socket it opened still
open. -/
theorem C35_blocking_helper_sockets (s r w rd : Int) (dstAddr rxResp : Bool) (n : Nat) :
    (socket_send_packet_and_read_xdr_sa_open s w rd rxResp n).2 = []
    ∧ (socket_send_packet_and_read_xdr_sa_open s w rd rxResp n).1
        = socket_send_packet_and_read_xdr_sa s w rd rxResp n
    ∧ (¬ (0 ≤ s ∧ dstAddr = true ∧ r = 0) →
        (socket_send_packet_and_read_response s dstAddr r w rd rxResp n).2 = [])
    ∧ (0 ≤ s → dstAddr = true → r = 0 →
        socket_send_packet_and_read_response s dstAddr r w rd rxResp n = (-1, [s])) := by
  refine ⟨?_, ?_, ?_, ?_⟩
  · unfold socket_send_packet_and_read_xdr_sa_open
    dsimp only
    split
    · rfl
    · simp
  · unfold socket_send_packet_and_read_xdr_sa_open socket_send_packet_and_read_xdr_sa
    dsimp only
    split <;> rfl
  · intro h
    unfold socket_send_packet_and_read_response
    dsimp only
    split
    · rfl
    · rename_i hs
      split
      · rename_i hr
        simp only [Bool.and_eq_true, decide_eq_true_eq] at hr
        exact absurd ⟨Int.not_lt.mp hs, hr.1, hr.2.symm⟩ h
      · simp
  · intro hs hd hr
    unfold socket_send_packet_and_read_response
    dsimp only
    rw [if_neg (Int.not_lt.mpr hs), hd, hr]
    rfl

/-- A destination host that does not resolve, with the new socket on descriptor 5. -/
theorem C35_blocking_helper_sockets_witness :
    socket_send_packet_and_read_response 5 true 0 1 16 true 16 = (-1, [5])
    ∧ (socket_send_packet_and_read_response 5 true 1 0 16 true 16).2 = [] :=
  have h := C35_blocking_helper_sockets 5 0 1 16 true true 16
  have h2 := C35_blocking_helper_sockets 5 1 0 16 true true 16
  ⟨h.2.2.2 (by decide) rfl rfl, h2.2.2.1 (by decide)⟩

/-! ## Writing a buffer out -/

/-- C39: in the loop of `ipc_write_buffer_sync`, a write that accepts `n` bytes advances
the count by `n`, and a write that fails with an error other than `EAGAIN` ends the call
with -1. A write that fails with `EAGAIN` does not leave the count unchanged: its return
value -1 is added to the count, which moves one byte back, or from 0 to 2^64 - 1, where
the loop ends and the call returns 0 with nothing accepted. -/
theorem C39_write_buffer_sync (dataLen sent : Nat) (w : WriteResult) (ws : List WriteResult)
    (calls : List (Nat × Nat)) (hs : sent < dataLen) (hd : dataLen < 18446744073709551616) :
    (w.written < 0 → w.eagain = false →
      ipc_write_buffer_sync_loop dataLen (w :: ws) sent calls
        = (some (-1), calls ++ [(sent, dataLen - sent)]))
    ∧ (0 ≤ w.written → sent + w.written.toNat < 18446744073709551616 →
      ipc_write_buffer_sync_loop dataLen (w :: ws) sent calls
        = ipc_write_buffer_sync_loop dataLen ws (sent + w.written.toNat)
            (calls ++ [(sent, dataLen - sent)]))
    ∧ (w.written = -1 → w.eagain = true → 0 < sent →
      ipc_write_buffer_sync_loop dataLen (w :: ws) sent calls
        = ipc_write_buffer_sync_loop dataLen ws (sent - 1)
            (calls ++ [(sent, dataLen - sent)]))
    ∧ (w.written = -1 → w.eagain = true → sent = 0 →
      ipc_write_buffer_sync_loop dataLen (w :: ws) sent calls
        = (some 0, calls ++ [(0, dataLen)])) := by
  have hsub : sizeSub dataLen sent = dataLen - sent := by
    unfold sizeSub; omega
  refine ⟨?_, ?_, ?_, ?_⟩
  · intro h1 h2
    rw [ipc_write_buffer_sync_loop, if_pos hs, if_pos ⟨h1, h2⟩, hsub]
  · intro h1 h2
    have hU : toU64 ((sent : Int) + w.written) = sent + w.written.toNat := by
      unfold toU64; omega
    rw [ipc_write_buffer_sync_loop, if_pos hs, if_neg (fun h => absurd h.1 (Int.not_lt.mpr h1)),
      hsub, hU]
  · intro h1 h2 h3
    have hU : toU64 ((sent : Int) + w.written) = sent - 1 := by
      rw [h1]; unfold toU64; omega
    rw [ipc_write_buffer_sync_loop, if_pos hs, if_neg (fun h => by rw [h2] at h; exact absurd h.2 (by decide)),
      hsub, hU]
  · intro h1 h2 h3
    subst h3
    have hU : toU64 (((0 : Nat) : Int) + w.written) = 18446744073709551615 := by
      rw [h1]; rfl
    rw [ipc_write_buffer_sync_loop, if_pos hs, if_neg (fun h => by rw [h2] at h; exact absurd h.2 (by decide)),
      hsub, hU]
    have hnot : ¬ 18446744073709551615 < dataLen := by omega
    cases ws with
    | nil => rw [ipc_write_buffer_sync_loop, if_neg hnot]; rfl
    | cons v vs => rw [ipc_write_buffer_sync_loop, if_neg hnot]; rfl

/-- A buffer of four bytes: when the first write fails with `EAGAIN` the call returns 0
after that one call; when a write of two bytes is followed by `EAGAIN`, the next write is
offered the bytes from offset 1 and the call returns 0 after five bytes were accepted. -/
theorem C39_write_buffer_sync_witness :
    ipc_write_buffer_sync (some ⟨1024, 4, some (List.replicate 1024 0)⟩) [⟨-1, true⟩]
      = (some 0, [(0, 4)])
    ∧ ipc_write_buffer_sync (some ⟨1024, 4, some (List.replicate 1024 0)⟩)
        [⟨2, false⟩, ⟨-1, true⟩, ⟨3, false⟩]
      = (some 0, [(0, 4), (2, 2), (1, 3)]) :=
  ⟨(C39_write_buffer_sync 4 0 ⟨-1, true⟩ [] [] (by decide) (by decide)).2.2.2 rfl rfl rfl,
   by decide⟩

/-! ## Names of ports -/

/-- Every name of the built-in table is looked up to the port of its record. -/
theorem serverNameList_ports :
    ∀ rec ∈ serverNameList,
      socket_get_addr_by_name (fun _ _ => none) rec.name = rec.port
      ∧ 0 ≤ rec.port ∧ rec.port < 65536 := by
  decide

/-- Every port of the built-in table is looked up to the name of its record, except the
port of `camera`, which is looked up to `pscam`. -/
theorem serverNameList_names :
    ∀ rec ∈ serverNameList,
      socket_get_name_by_addr_loop rec.port serverNameList
        = some (if rec.name = cstr "camera" then cstr "pscam" else rec.name)
      ∧ strlen rec.name < 12 := by
  decide

theorem ntohs_htons (p : Nat) (hp : p < 65536) : ntohs (htons p) = p := by
  obtain ⟨h, l, rfl, hl, hh⟩ : ∃ h l, p = 256 * h + l ∧ l < 256 ∧ h < 256 :=
    ⟨p / 256, p % 256, by omega, by omega, by omega⟩
  have e1 : (256 * h + l) % 256 = l := by omega
  have e2 : (256 * h + l) / 256 % 256 = h := by omega
  unfold ntohs htons
  rw [e1, e2]
  omega

/-- A C string followed by NUL reads back as that string. -/
theorem cstring_terminated : ∀ (name rest : List Nat),
    cstring (cstring name ++ 0 :: rest) = cstring name := by
  intro name rest
  induction name with
  | nil => simp [cstring]
  | cons a t ih =>
    unfold cstring at ih ⊢
    by_cases ha : a = 0
    · simp [List.takeWhile_cons, ha]
    · simp only [List.takeWhile_cons, bne_iff_ne, ne_eq, ha, not_false_eq_true, if_true,
        List.cons_append]
      rw [ih]

/-- The copy of a C string into a buffer reads back as that string. -/
theorem cstring_memcpy (buf name : List Nat) :
    cstring (memcpy buf (cstring name ++ [0])) = cstring name := by
  unfold memcpy
  rw [List.append_assoc]
  exact cstring_terminated name _

/-- C40 as stated fails for the name `camera`: its record shares the port 50012 with the
earlier record `pscam`, so the port that `socket_get_addr_by_name` returns for `camera`
is given the name `pscam` (and the length 5) by `socket_get_name_by_addr`. -/
theorem C40_name_port_counterexample :
    socket_get_addr_by_name (fun _ _ => none) (cstr "camera") = 50012
    ∧ socket_get_name_by_addr (fun _ _ => none) (htons 50012) (List.replicate 16 0) 16
        = (5, cstr "pscam" ++ List.replicate 10 0) := by
  decide

/-- C40 (amended): with no matching entries in the OS service database, for every name
`n` of the built-in service table other than `camera`, `socket_get_name_by_addr` applied
to the port returned by `socket_get_addr_by_name(n)` (in network order, with an output
buffer larger than the name) returns the length of `n` and leaves `n` in the buffer. -/
theorem C40_name_port_inverse (rec : ServiceNames) (hrec : rec ∈ serverNameList)
    (hne : rec.name ≠ cstr "camera") (buf : Buf) (bufSize : Nat)
    (hsize : strlen rec.name < bufSize) :
    socket_get_name_by_addr (fun _ _ => none)
        (htons (socket_get_addr_by_name (fun _ _ => none) rec.name).toNat) buf bufSize
      = (((strlen rec.name : Nat) : Int), memcpy buf (cstring rec.name ++ [0]))
    ∧ cstring (socket_get_name_by_addr (fun _ _ => none)
        (htons (socket_get_addr_by_name (fun _ _ => none) rec.name).toNat) buf bufSize).2
      = cstring rec.name := by
  obtain ⟨hp, hp0, hp1⟩ := serverNameList_ports rec hrec
  obtain ⟨hn, hl⟩ := serverNameList_names rec hrec
  rw [if_neg hne] at hn
  have hnt : (ntohs (htons rec.port.toNat) : Int) = rec.port := by
    rw [ntohs_htons _ (by omega)]
    omega
  have hI : toI32 (strlen rec.name) = (strlen rec.name : Nat) := by
    unfold toI32
    split <;> omega
  have hU : toU64 ((strlen rec.name : Nat) : Int) = strlen rec.name := by
    unfold toU64; omega
  have hres : socket_get_name_by_addr (fun _ _ => none)
      (htons (socket_get_addr_by_name (fun _ _ => none) rec.name).toNat) buf bufSize
      = (((strlen rec.name : Nat) : Int), memcpy buf (cstring rec.name ++ [0])) := by
    unfold socket_get_name_by_addr
    simp only [hp, hnt, hn, hI, hU, if_neg (show ¬ strlen rec.name ≥ bufSize by omega)]
  exact ⟨hres, by rw [hres]; exact cstring_memcpy buf rec.name⟩

/-- The name `beacon` and a buffer of 16 bytes. -/
theorem C40_name_port_inverse_witness :
    socket_get_name_by_addr (fun _ _ => none)
        (htons (socket_get_addr_by_name (fun _ _ => none) (cstr "beacon")).toNat)
        (List.replicate 16 7) 16
      = (6, cstr "beacon" ++ List.replicate 9 7) :=
  (C40_name_port_inverse ⟨cstr "beacon", 50000, cstr "234.192.101.1", 51000⟩
    (List.mem_cons_self _ _)
    (by decide) (List.replicate 16 7) 16 (by decide)).1

/-! ## Reading a buffer -/

/-- With a callback that never reports more than it is offered, the loop of
`ipc_process_buffer` ends within the invocations it is given, each invocation is offered
the rest of the data, and the total is the sum of the returns. -/
theorem ipc_process_buffer_loop_ok (cb : List Nat → Nat → Nat) (data : List Nat)
    (dataLen : Nat) (hd : dataLen < 18446744073709551616)
    (hcb : ∀ mem n, cb mem n ≤ n) :
    ∀ (fuel consumed : Nat) (calls : List (Nat × Nat × Nat)), consumed ≤ dataLen →
      dataLen - consumed < fuel →
      ∃ total calls1, ipc_process_buffer_loop cb data dataLen fuel consumed calls
          = some (total, calls ++ calls1)
        ∧ consumed ≤ total ∧ total ≤ dataLen ∧ callChain dataLen consumed calls1 total
        ∧ calls1.length ≤ dataLen - consumed + 1 := by
  intro fuel
  induction fuel with
  | zero => intro consumed calls _ h; exact absurd h (Nat.not_lt_zero _)
  | succ n ih =>
    intro consumed calls hc hf
    have hsub : sizeSub dataLen consumed = dataLen - consumed := by
      unfold sizeSub; omega
    have hle := hcb (data.drop consumed) (dataLen - consumed)
    have hmod : cb (data.drop consumed) (dataLen - consumed) % 18446744073709551616
        = cb (data.drop consumed) (dataLen - consumed) := Nat.mod_eq_of_lt (by omega)
    have hmod2 : (consumed + cb (data.drop consumed) (dataLen - consumed))
        % 18446744073709551616 = consumed + cb (data.drop consumed) (dataLen - consumed) :=
      Nat.mod_eq_of_lt (by omega)
    unfold ipc_process_buffer_loop
    simp only [hsub, hmod, hmod2]
    by_cases hpos : cb (data.drop consumed) (dataLen - consumed) > 0
    · rw [if_pos hpos]
      obtain ⟨total, calls1, h1, h2, h3, h4, h5⟩ := ih
        (consumed + cb (data.drop consumed) (dataLen - consumed))
        (calls ++ [(consumed, dataLen - consumed,
          cb (data.drop consumed) (dataLen - consumed))]) (by omega) (by omega)
      refine ⟨total, (consumed, dataLen - consumed,
        cb (data.drop consumed) (dataLen - consumed)) :: calls1, ?_, by omega, h3,
        ⟨rfl, rfl, h4⟩, ?_⟩
      · rw [h1, List.append_assoc]
        rfl
      · simp only [List.length_cons]
        omega
    · rw [if_neg hpos]
      have h0 : cb (data.drop consumed) (dataLen - consumed) = 0 := by omega
      refine ⟨consumed, [(consumed, dataLen - consumed, 0)], ?_, le_refl _, hc,
        ⟨rfl, rfl, rfl⟩, ?_⟩
      · rw [h0]
        rfl
      · simp

theorem getD_set_ne (d : List Nat) (i j v : Nat) (h : j ≠ i) :
    (d.set i v).getD j 0 = d.getD j 0 := by
  simp only [List.getD_eq_getElem?_getD]
  rw [List.getElem?_set_ne (Ne.symm h)]

theorem getD_set_self (d : List Nat) (i v : Nat) (h : i < d.length) :
    (d.set i v).getD i 0 = v := by
  simp only [List.getD_eq_getElem?_getD]
  rw [List.getElem?_set_self (by simpa using h)]
  rfl

/-- The copy loop moves the bytes at the indices it runs over down by `consumed` and
leaves the others. -/
theorem ipc_process_buffer_shift_getD (consumed : Nat) :
    ∀ (k i : Nat) (d : List Nat) (j : Nat),
      (ipc_process_buffer_shift consumed k i d).getD j 0
        = if i ≤ j ∧ j < i + k then d.getD (j + consumed) 0 else d.getD j 0 := by
  intro k
  induction k with
  | zero =>
    intro i d j
    simp only [ipc_process_buffer_shift]
    rw [if_neg (by omega)]
  | succ n ih =>
    intro i d j
    simp only [ipc_process_buffer_shift]
    rw [ih]
    by_cases hj : j = i
    · subst hj
      rw [if_neg (by omega), if_pos (by omega)]
      by_cases hlen : j < d.length
      · exact getD_set_self d j _ hlen
      · rw [List.set_eq_of_length_le (by omega)]
        simp only [List.getD_eq_getElem?_getD]
        rw [List.getElem?_eq_none (by omega), List.getElem?_eq_none (by omega)]
    · by_cases hr : i + 1 ≤ j ∧ j < i + 1 + n
      · rw [if_pos hr, if_pos (by omega)]
        by_cases hc : j + consumed = i
        · omega
        · exact getD_set_ne d i _ _ hc
      · rw [if_neg hr, if_neg (by omega)]
        exact getD_set_ne d i _ _ hj

theorem ipc_process_buffer_shift_length (consumed : Nat) :
    ∀ (k i : Nat) (d : List Nat), (ipc_process_buffer_shift consumed k i d).length = d.length := by
  intro k
  induction k with
  | zero => intro i d; rfl
  | succ n ih =>
    intro i d
    simp only [ipc_process_buffer_shift]
    rw [ih, List.length_set]

theorem take_eq_of_getD (a b : List Nat) (n : Nat) (ha : n ≤ a.length) (hb : n ≤ b.length)
    (h : ∀ j, j < n → a.getD j 0 = b.getD j 0) : a.take n = b.take n := by
  apply List.ext_getElem
  · simp only [List.length_take]
    omega
  · intro j h1 h2
    simp only [List.length_take] at h1
    have hj : j < n := by omega
    have := h j hj
    rw [List.getD_eq_getElem a 0 (by omega), List.getD_eq_getElem b 0 (by omega)] at this
    simp only [List.getElem_take]
    exact this

/-- With a callback that never reports more than it is offered, `ipc_process_buffer`
returns: the invocations follow one another, the value returned is the total consumed
taken as an `int`, and the unconsumed rest is moved to the front of the block. -/
theorem ipc_process_buffer_ok (cb : List Nat → Nat → Nat) (b : IPCBuffer) (block : List Nat)
    (hdata : b.data = some block) (hlen : b.dataLen ≤ block.length)
    (hbound : b.dataLen < 18446744073709551616) (hcb : ∀ mem n, cb mem n ≤ n) :
    ∃ (total : Nat) (calls : List (Nat × Nat × Nat)) (b1 : IPCBuffer) (block1 : List Nat),
      ipc_process_buffer (some cb) (some b) = some ⟨toI32 total, some b1, calls⟩
      ∧ calls.length ≤ b.dataLen + 1
      ∧ callChain b.dataLen 0 calls total
      ∧ total ≤ b.dataLen
      ∧ b1.dataLen = b.dataLen - total
      ∧ b1.allocLen = b.allocLen
      ∧ b1.data = some block1
      ∧ block1.length = block.length
      ∧ block1.take (b.dataLen - total) = (block.drop total).take (b.dataLen - total) := by
  by_cases h0 : b.dataLen = 0
  · refine ⟨0, [], b, block, ?_, Nat.zero_le _, rfl, Nat.zero_le _, rfl, rfl, hdata, rfl, ?_⟩
    · simp only [ipc_process_buffer, hdata, h0, if_true]
      rfl
    · simp [h0]
  · obtain ⟨total, calls, hl, _, hle, hchain, hcount⟩ :=
      ipc_process_buffer_loop_ok cb block b.dataLen (by omega) hcb (b.dataLen + 1) 0 []
        (Nat.zero_le _) (by omega)
    simp only [ipc_process_buffer, hdata, h0, if_false, hl, List.nil_append]
    by_cases hpos : total > 0
    · by_cases hall : total = b.dataLen
      · refine ⟨total, calls, ipc_reset_buffer b, block, ?_, by omega, hchain, hle, ?_, rfl,
          hdata, rfl, ?_⟩
        · rw [if_pos hpos, if_pos hall]
        · rw [hall]
          simp [ipc_reset_buffer]
        · rw [hall]
          simp
      · have hsub : sizeSub b.dataLen total = b.dataLen - total := by
          unfold sizeSub; omega
        refine ⟨total, calls, (⟨b.allocLen, b.dataLen - total,
          some (ipc_process_buffer_shift total (b.dataLen - total) 0 block)⟩ : IPCBuffer),
          ipc_process_buffer_shift total (b.dataLen - total) 0 block,
          ?_, by omega, hchain, hle, ?_, ?_, ?_, ipc_process_buffer_shift_length _ _ _ _, ?_⟩
        · rw [if_pos hpos, if_neg hall, hsub]
        · rfl
        · rfl
        · rfl
        · apply take_eq_of_getD
          · rw [ipc_process_buffer_shift_length]; omega
          · rw [List.length_drop]; omega
          · intro j hj
            rw [ipc_process_buffer_shift_getD, if_pos (by omega)]
            simp only [List.getD_eq_getElem?_getD, List.getElem?_drop]
            rw [Nat.add_comm]
    · have ht : total = 0 := by omega
      refine ⟨total, calls, b, block, ?_, by omega, hchain, hle, by omega, rfl, hdata, rfl, ?_⟩
      · rw [if_neg hpos]
      · rw [ht]
        simp

theorem toU64_pos (len : Int) (h0 : 0 ≤ len) (h1 : len ≤ 2147483647) :
    toU64 len = len.toNat := by
  unfold toU64
  rw [Int.emod_eq_of_lt h0 (by omega)]

theorem pow_bound (k : Nat) (h : 1024 * 2 ^ k < 9223372036854775808) :
    1024 * 2 ^ k ≤ 4611686018427387904 := by
  by_cases hk : k ≤ 52
  · have := Nat.pow_le_pow_right (by decide : 0 < 2) hk
    have e : (2 : Nat) ^ 52 = 4503599627370496 := by norm_num
    omega
  · have := Nat.pow_le_pow_right (by decide : 0 < 2) (by omega : 53 ≤ k)
    have e : (2 : Nat) ^ 53 = 9007199254740992 := by norm_num
    omega

theorem pow_fuel (k : Nat) (h : 54 ≤ k) : 18446744073709551616 ≤ 1024 * 2 ^ k := by
  have := Nat.pow_le_pow_right (by decide : 0 < 2) h
  have e : (2 : Nat) ^ 54 = 18014398509481984 := by norm_num
  omega

/-- The growth loop ends by its condition: from a size `1024 * 2^k` above `dataLen` it
reaches the first doubling that leaves room for `need` more bytes, without wrapping. -/
theorem ipc_append_buffer_grow_ok (need dataLen : Nat) (hneed : need < 2147483648)
    (hd : dataLen < 4611686018427387904) :
    ∀ (fuel k : Nat), 54 ≤ k + fuel → dataLen < 1024 * 2 ^ k →
      1024 * 2 ^ k ≤ 9223372036854775808 →
      ∃ j, ipc_append_buffer_grow need dataLen fuel (1024 * 2 ^ k) = some (1024 * 2 ^ (k + j))
        ∧ need < 1024 * 2 ^ (k + j) - dataLen
        ∧ 1024 * 2 ^ (k + j) ≤ 9223372036854775808
        ∧ (j = 0 ∨ 1024 * 2 ^ (k + j) ≤ 2 * (dataLen + need)) := by
  intro fuel
  induction fuel with
  | zero =>
    intro k hk _ hmax
    have := pow_fuel k (by omega)
    omega
  | succ n ih =>
    intro k hk hlt hmax
    have hsub : sizeSub (1024 * 2 ^ k) dataLen = 1024 * 2 ^ k - dataLen := by
      unfold sizeSub; omega
    rw [ipc_append_buffer_grow, hsub]
    by_cases hc : need ≥ 1024 * 2 ^ k - dataLen
    · rw [if_pos hc]
      have hb := pow_bound k (by omega)
      have e2 : 1024 * 2 ^ k * 2 = 1024 * 2 ^ (k + 1) := by rw [pow_succ]; ring
      have hmod : (1024 * 2 ^ k * 2) % 18446744073709551616 = 1024 * 2 ^ (k + 1) := by
        rw [← e2]; exact Nat.mod_eq_of_lt (by omega)
      rw [hmod]
      obtain ⟨j, h1, h2, h3, h4⟩ := ih (k + 1) (by omega) (by omega) (by omega)
      have hk1 : k + (j + 1) = k + 1 + j := by omega
      refine ⟨j + 1, ?_⟩
      rw [hk1]
      refine ⟨h1, h2, h3, Or.inr ?_⟩
      rcases h4 with h4 | h4
      · subst h4
        rw [Nat.add_zero]
        omega
      · exact h4
    · rw [if_neg hc]
      exact ⟨0, rfl, by rw [Nat.add_zero]; omega, by rw [Nat.add_zero]; exact hmax, Or.inl rfl⟩

/-- What the final store of `ipc_append_buffer` does to the block. -/
theorem store_facts (blk : List Nat) (dataLen : Nat) (bs : List Nat)
    (h : dataLen + bs.length ≤ blk.length) :
    (splice blk dataLen (memcpy (blk.drop dataLen) bs)).length = blk.length
    ∧ (splice blk dataLen (memcpy (blk.drop dataLen) bs)).take dataLen = blk.take dataLen
    ∧ ((splice blk dataLen (memcpy (blk.drop dataLen) bs)).drop dataLen).take bs.length
        = bs := by
  unfold splice memcpy
  have hl : (blk.take dataLen).length = dataLen := by
    rw [List.length_take]; omega
  refine ⟨?_, ?_, ?_⟩
  · simp only [List.length_append, List.length_take, List.length_drop]
    omega
  · rw [List.take_append_of_le_length (by omega), List.take_take]
    simp
  · rw [List.drop_append_of_le_length (by omega)]
    have : List.drop dataLen (List.take dataLen blk) = [] := by
      apply List.drop_eq_nil_of_le; omega
    rw [this, List.nil_append, List.take_append_of_le_length (le_refl _), List.take_length]

/-- What `realloc` to a size not below the old one gives. -/
theorem realloc_facts (block : List Nat) (n : Nat) (h : block.length ≤ n)
    (hn : n ≤ 9223372036854775807) :
    ∃ block1, realloc (some block) n = some block1 ∧ block1.length = n
      ∧ ∀ m, m ≤ block.length → block1.take m = block.take m := by
  refine ⟨memcpy (List.replicate n 0) (block.take n), ?_, ?_, ?_⟩
  · unfold realloc malloc
    rw [if_pos hn]
    rfl
  · unfold memcpy
    simp only [List.length_append, List.length_take, List.length_drop, List.length_replicate]
    omega
  · intro m hm
    unfold memcpy
    rw [List.take_of_length_le h, List.take_append_of_le_length hm]

theorem realloc_fails (p : Option (List Nat)) (n : Nat) (hn : ¬ n ≤ 9223372036854775807) :
    realloc p n = none := by
  unfold realloc malloc
  rw [if_neg hn]
  rfl

/-- A call of `ipc_append_buffer` with a positive `int` length on a buffer that holds a
block of `1024 * 2^k` bytes with room left: either `realloc` fails, which needs a request
above `PTRDIFF_MAX`, or the bytes are stored behind the data. -/
theorem ipc_append_buffer_step (k dataLen : Nat) (block data : List Nat) (len : Int)
    (hblock : block.length = 1024 * 2 ^ k) (hd : dataLen < 1024 * 2 ^ k)
    (hmax : 1024 * 2 ^ k ≤ 9223372036854775807) (h0 : 0 < len) (h1 : len ≤ 2147483647) :
    (∃ b1, ipc_append_buffer (some ⟨1024 * 2 ^ k, dataLen, some block⟩) data len
          = some ⟨-1, some b1, true⟩
        ∧ 9223372036854775807 < 2 * (dataLen + len.toNat))
    ∨ (∃ (block1 : List Nat) (k1 : Nat),
        ipc_append_buffer (some ⟨1024 * 2 ^ k, dataLen, some block⟩) data len
          = some ⟨len, some ⟨1024 * 2 ^ k1, dataLen + len.toNat, some block1⟩, false⟩
        ∧ k ≤ k1 ∧ block1.length = 1024 * 2 ^ k1 ∧ dataLen + len.toNat < 1024 * 2 ^ k1
        ∧ 1024 * 2 ^ k1 ≤ 9223372036854775807
        ∧ block1.take dataLen = block.take dataLen
        ∧ (block1.drop dataLen).take (data.take len.toNat).length = data.take len.toNat) := by
  have hU := toU64_pos len (by omega) h1
  have hn : len.toNat < 2147483648 := by omega
  have hb := pow_bound k (by omega)
  have hsub : sizeSub (1024 * 2 ^ k) dataLen = 1024 * 2 ^ k - dataLen := by
    unfold sizeSub; omega
  have hlen : ¬ len ≤ 0 := by omega
  have htake : (data.take len.toNat).length ≤ len.toNat := by
    rw [List.length_take]; omega
  by_cases hc : len.toNat ≥ 1024 * 2 ^ k - dataLen
  · obtain ⟨j, g1, g2, g3, g4⟩ := ipc_append_buffer_grow_ok len.toNat dataLen hn (by omega)
      66 k (by omega) hd (by omega)
    by_cases hfail : 1024 * 2 ^ (k + j) ≤ 9223372036854775807
    · obtain ⟨block1, r1, r2, r3⟩ := realloc_facts block (1024 * 2 ^ (k + j))
        (by rw [hblock]; exact Nat.mul_le_mul_left _ (Nat.pow_le_pow_right (by decide)
          (by omega))) hfail
      have hsub2 : sizeSub (1024 * 2 ^ (k + j)) dataLen = 1024 * 2 ^ (k + j) - dataLen := by
        unfold sizeSub; omega
      have hc2 : ¬ len.toNat ≥ 1024 * 2 ^ (k + j) - dataLen := by omega
      have hmod : (dataLen + len.toNat) % 18446744073709551616 = dataLen + len.toNat :=
        Nat.mod_eq_of_lt (by omega)
      obtain ⟨s1, s2, s3⟩ := store_facts block1 dataLen (data.take len.toNat) (by omega)
      right
      refine ⟨_, k + j, ?_, by omega, ?_, by omega, hfail, ?_, s3⟩
      · simp only [ipc_append_buffer, hlen, if_false, hU, hsub, hc, if_true, g1, r1, hsub2,
          hc2, hmod, Option.getD_some]
      · rw [s1, r2]
      · rw [s2, r3 dataLen (by omega)]
    · left
      refine ⟨(⟨0, dataLen, none⟩ : IPCBuffer), ?_, ?_⟩
      · simp only [ipc_append_buffer, hlen, if_false, hU, hsub, hc, if_true, g1,
          realloc_fails _ _ hfail]
      · rcases g4 with g4 | g4
        · subst g4
          rw [Nat.add_zero] at hfail
          omega
        · omega
  · have hmod : (dataLen + len.toNat) % 18446744073709551616 = dataLen + len.toNat :=
      Nat.mod_eq_of_lt (by omega)
    obtain ⟨s1, s2, s3⟩ := store_facts block dataLen (data.take len.toNat) (by omega)
    right
    refine ⟨_, k, ?_, le_refl _, ?_, by omega, hmax, s2, s3⟩
    · simp only [ipc_append_buffer, hlen, if_false, hU, hsub, hc, if_false, hmod,
        Option.getD_some]
    · rw [s1, hblock]

/-- On a buffer without storage `ipc_append_buffer` first allocates 1024 bytes. -/
theorem ipc_append_buffer_fresh (allocLen dataLen : Nat) (data : List Nat) (len : Int)
    (h0 : 0 < len) :
    ipc_append_buffer (some ⟨allocLen, dataLen, none⟩) data len
      = ipc_append_buffer (some ⟨1024, dataLen, some (List.replicate 1024 0)⟩) data len := by
  have hlen : ¬ len ≤ 0 := by omega
  have hm : malloc 1024 = some (List.replicate 1024 0) := by
    unfold malloc
    rw [if_pos (by omega)]
  simp only [ipc_append_buffer, hlen, if_false, hm]

/-- A call of `ipc_append_buffer` with a positive `int` length on a buffer that satisfies
the invariant returns; allocation fails only for a request above `PTRDIFF_MAX`; without
failure the bytes are stored behind the data and the invariant holds again. -/
theorem ipc_append_buffer_inv (b : IPCBuffer) (hok : IPCBufferOK b) (data : List Nat)
    (len : Int) (h0 : 0 < len) (h1 : len ≤ 2147483647) :
    ∃ r, ipc_append_buffer (some b) data len = some r
      ∧ (2 * (b.dataLen + len.toNat) ≤ 9223372036854775807 → r.alloc_failed = false)
      ∧ (r.alloc_failed = false → ∃ (b1 : IPCBuffer) (block1 : List Nat),
          r = ⟨len, some b1, false⟩ ∧ IPCBufferOK b1 ∧ b.allocLen ≤ b1.allocLen
          ∧ b1.dataLen = b.dataLen + len.toNat ∧ b1.data = some block1
          ∧ block1.take b.dataLen = (b.data.getD []).take b.dataLen
          ∧ (block1.drop b.dataLen).take (data.take len.toNat).length
              = data.take len.toNat) := by
  have key : ∀ (k dataLen : Nat) (block : List Nat), block.length = 1024 * 2 ^ k →
      dataLen < 1024 * 2 ^ k → 1024 * 2 ^ k ≤ 9223372036854775807 →
      ∃ r, ipc_append_buffer (some ⟨1024 * 2 ^ k, dataLen, some block⟩) data len = some r
        ∧ (2 * (dataLen + len.toNat) ≤ 9223372036854775807 → r.alloc_failed = false)
        ∧ (r.alloc_failed = false → ∃ (b1 : IPCBuffer) (block1 : List Nat),
            r = ⟨len, some b1, false⟩ ∧ IPCBufferOK b1 ∧ 1024 * 2 ^ k ≤ b1.allocLen
            ∧ b1.dataLen = dataLen + len.toNat ∧ b1.data = some block1
            ∧ block1.take dataLen = block.take dataLen
            ∧ (block1.drop dataLen).take (data.take len.toNat).length
                = data.take len.toNat) := by
    intro k dataLen block hblock hd hmax
    rcases ipc_append_buffer_step k dataLen block data len hblock hd hmax h0 h1 with
      ⟨b1, e, hbig⟩ | ⟨block1, k1, e, hk, hl, hroom, hmax1, ht, hs⟩
    · refine ⟨_, e, ?_, ?_⟩
      · intro h; omega
      · intro h; cases h
    · refine ⟨_, e, fun _ => rfl, fun _ => ⟨_, block1, rfl, ?_, ?_, rfl, rfl, ht, hs⟩⟩
      · exact Or.inr ⟨block1, k1, rfl, hl, rfl, hroom, hmax1⟩
      · exact Nat.mul_le_mul_left _ (Nat.pow_le_pow_right (by decide) hk)
  obtain ⟨allocLen, dataLen, d⟩ := b
  rcases hok with ⟨hd, hl, ha⟩ | ⟨block, k, hd, hblock, ha, hlt, hmax⟩
  · simp only at hd hl ha
    subst hd hl ha
    obtain ⟨r, e, hf, hr⟩ := key 0 0 (List.replicate 1024 0)
      ((List.length_replicate 1024 0).trans (by norm_num)) (by norm_num) (by norm_num)
    refine ⟨r, ?_, hf, ?_⟩
    · rw [ipc_append_buffer_fresh _ _ _ _ h0]
      exact e
    · intro h
      obtain ⟨b1, block1, e1, e2, _, e4, e5, e6, e7⟩ := hr h
      exact ⟨b1, block1, e1, e2, Nat.zero_le _, e4, e5, by simp, e7⟩
  · simp only at hd hblock ha hlt hmax
    subst hd ha
    obtain ⟨r, e, hf, hr⟩ := key k dataLen block hblock hlt hmax
    exact ⟨r, e, hf, hr⟩

/-- Every reachable state of a buffer satisfies the invariant. -/
theorem reachable_ok (b : IPCBuffer) (h : Reachable b) : IPCBufferOK b := by
  induction h with
  | alloc => exact Or.inl ⟨rfl, rfl, rfl⟩
  | append b b1 data len r _ hlo hhi heq hnf hbuf ih =>
    by_cases h0 : 0 < len
    · obtain ⟨r1, e, _, hr⟩ := ipc_append_buffer_inv b ih data len h0 hhi
      rw [heq] at e
      have e1 : r = r1 := Option.some.inj e
      subst e1
      obtain ⟨b2, _, e2, hok, _⟩ := hr hnf
      rw [e2] at hbuf
      have e3 : b2 = b1 := Option.some.inj hbuf
      rw [← e3]
      exact hok
    · have hle : len ≤ 0 := by omega
      simp only [ipc_append_buffer, hle, if_true] at heq
      have e1 := Option.some.inj heq
      rw [← e1] at hbuf
      have e3 : b = b1 := Option.some.inj hbuf
      rw [← e3]
      exact ih
  | reset b _ ih =>
    rcases ih with ⟨hd, hl, ha⟩ | ⟨block, k, hd, hblock, ha, hlt, hmax⟩
    · exact Or.inl ⟨hd, rfl, ha⟩
    · exact Or.inr ⟨block, k, hd, hblock, ha, by show 0 < b.allocLen; omega, hmax⟩
  | process b b1 cb r _ hcb heq hbuf ih =>
    rcases ih with ⟨hd, hl, ha⟩ | ⟨block, k, hd, hblock, ha, hlt, hmax⟩
    · simp only [ipc_process_buffer, hd] at heq
      have e1 := Option.some.inj heq
      rw [← e1] at hbuf
      have e3 : b = b1 := Option.some.inj hbuf
      rw [← e3]
      exact Or.inl ⟨hd, hl, ha⟩
    · obtain ⟨total, calls, b2, block2, e, _, _, _, p1, p2, p3, p4, _⟩ :=
        ipc_process_buffer_ok cb b block hd (by omega) (by omega) hcb
      rw [heq] at e
      have e1 := Option.some.inj e
      rw [e1] at hbuf
      have e3 : b2 = b1 := Option.some.inj hbuf
      rw [← e3]
      exact Or.inr ⟨block2, k, p3, by rw [p4, p2]; exact hblock, by rw [p2]; exact ha,
        by rw [p1, p2]; omega, by rw [p2]; exact hmax⟩

/-- C37: on every reachable buffer `ipc_append_buffer` with a positive length returns;
without allocation failure (there is none while twice the new data length is at most
`PTRDIFF_MAX`) it returns `len`, the first `dataLen` bytes are as before, the `len` new
bytes follow them, and `dataLen` has grown by `len`. With a null buffer or `len <= 0` it
returns 0 and changes nothing. -/
theorem C37_append_buffer (b : IPCBuffer) (hreach : Reachable b) (data : List Nat)
    (len : Int) (h0 : 0 < len) (h1 : len ≤ 2147483647) (hsrc : len.toNat ≤ data.length) :
    (∃ r, ipc_append_buffer (some b) data len = some r
      ∧ (2 * (b.dataLen + len.toNat) ≤ 9223372036854775807 → r.alloc_failed = false)
      ∧ (r.alloc_failed = false → ∃ (b1 : IPCBuffer) (block1 : List Nat),
          r = ⟨len, some b1, false⟩
          ∧ b1.dataLen = b.dataLen + len.toNat ∧ b1.data = some block1
          ∧ block1.take b.dataLen = (b.data.getD []).take b.dataLen
          ∧ (block1.drop b.dataLen).take len.toNat = data.take len.toNat))
    ∧ (∀ (src : List Nat) (n : Int), ipc_append_buffer none src n = some ⟨0, none, false⟩)
    ∧ (∀ (c : IPCBuffer) (src : List Nat) (n : Int), n ≤ 0 →
        ipc_append_buffer (some c) src n = some ⟨0, some c, false⟩) := by
  refine ⟨?_, fun _ _ => rfl, ?_⟩
  · obtain ⟨r, e, hf, hr⟩ := ipc_append_buffer_inv b (reachable_ok b hreach) data len h0 h1
    refine ⟨r, e, hf, ?_⟩
    intro h
    obtain ⟨b1, block1, e1, _, _, e4, e5, e6, e7⟩ := hr h
    have hl : (data.take len.toNat).length = len.toNat := by
      rw [List.length_take]; omega
    rw [hl] at e7
    exact ⟨b1, block1, e1, e4, e5, e6, e7⟩
  · intro c src n hn
    simp only [ipc_append_buffer, hn, if_true]

/-- C37 witness: three bytes appended to a fresh buffer. -/
theorem C37_append_buffer_witness :
    (∃ r, ipc_append_buffer (some ipc_alloc_buffer) [1, 2, 3] 3 = some r
      ∧ (2 * (ipc_alloc_buffer.dataLen + (3 : Int).toNat) ≤ 9223372036854775807 →
          r.alloc_failed = false)
      ∧ (r.alloc_failed = false → ∃ (b1 : IPCBuffer) (block1 : List Nat),
          r = ⟨3, some b1, false⟩
          ∧ b1.dataLen = ipc_alloc_buffer.dataLen + (3 : Int).toNat ∧ b1.data = some block1
          ∧ block1.take ipc_alloc_buffer.dataLen
              = (ipc_alloc_buffer.data.getD []).take ipc_alloc_buffer.dataLen
          ∧ (block1.drop ipc_alloc_buffer.dataLen).take (3 : Int).toNat
              = [1, 2, 3].take (3 : Int).toNat))
    ∧ (∀ (src : List Nat) (n : Int), ipc_append_buffer none src n = some ⟨0, none, false⟩)
    ∧ (∀ (c : IPCBuffer) (src : List Nat) (n : Int), n ≤ 0 →
        ipc_append_buffer (some c) src n = some ⟨0, some c, false⟩) :=
  C37_append_buffer ipc_alloc_buffer Reachable.alloc [1, 2, 3] 3 (by decide) (by decide)
    (by decide)

theorem exampleFilledBuffer_append :
    ipc_append_buffer (some ipc_alloc_buffer) [1, 2, 3] 3
      = some ⟨3, some exampleFilledBuffer, false⟩ := by
  rfl

theorem exampleFilledBuffer_reachable : Reachable exampleFilledBuffer :=
  Reachable.append ipc_alloc_buffer exampleFilledBuffer [1, 2, 3] 3 _ Reachable.alloc
    (by decide) (by decide) exampleFilledBuffer_append rfl rfl

/-- C38: every reachable state of a buffer has no storage and both lengths 0, or has
storage with `allocLen = 1024 * 2^k` and `dataLen < allocLen`; from such a state
`ipc_append_buffer` and `ipc_process_buffer` return and do not lower `allocLen`, and
`ipc_reset_buffer` changes `dataLen` to 0 and nothing else. -/
theorem C38_buffer_invariant (b : IPCBuffer) (hreach : Reachable b) :
    ((b.data = none ∧ b.dataLen = 0 ∧ b.allocLen = 0)
      ∨ (b.data ≠ none ∧ ∃ k, b.allocLen = 1024 * 2 ^ k ∧ b.dataLen < b.allocLen))
    ∧ (∀ (data : List Nat) (len : Int), -2147483648 ≤ len → len ≤ 2147483647 →
        ∃ r, ipc_append_buffer (some b) data len = some r
          ∧ (r.alloc_failed = false →
              ∃ b1, r.buffer = some b1 ∧ b.allocLen ≤ b1.allocLen))
    ∧ (∀ (cb : List Nat → Nat → Nat), (∀ data len, cb data len ≤ len) →
        ∃ r b1, ipc_process_buffer (some cb) (some b) = some r
          ∧ r.buffer = some b1 ∧ b1.allocLen = b.allocLen)
    ∧ ipc_reset_buffer b = ⟨b.allocLen, 0, b.data⟩ := by
  have hok := reachable_ok b hreach
  refine ⟨?_, ?_, ?_, rfl⟩
  · rcases hok with h | ⟨block, k, hd, _, ha, hlt, _⟩
    · exact Or.inl h
    · exact Or.inr ⟨by rw [hd]; exact Option.some_ne_none _, k, ha, hlt⟩
  · intro data len _ hhi
    by_cases h0 : 0 < len
    · obtain ⟨r, e, _, hr⟩ := ipc_append_buffer_inv b hok data len h0 hhi
      refine ⟨r, e, fun h => ?_⟩
      obtain ⟨b1, _, e1, _, e3, _⟩ := hr h
      exact ⟨b1, by rw [e1], e3⟩
    · have hle : len ≤ 0 := by omega
      refine ⟨⟨0, some b, false⟩, ?_, fun _ => ⟨b, rfl, le_refl _⟩⟩
      simp only [ipc_append_buffer, hle, if_true]
  · intro cb hcb
    rcases hok with ⟨hd, _, _⟩ | ⟨block, k, hd, hblock, ha, hlt, hmax⟩
    · refine ⟨⟨0, some b, []⟩, b, ?_, rfl, rfl⟩
      simp only [ipc_process_buffer, hd]
    · obtain ⟨total, calls, b2, block2, e, _, _, _, _, p2, _⟩ :=
        ipc_process_buffer_ok cb b block hd (by omega) (by omega) hcb
      exact ⟨_, b2, e, rfl, p2⟩

/-- C38 witness: the buffer holding three bytes in a block of 1024. -/
theorem C38_buffer_invariant_witness :
    ((exampleFilledBuffer.data = none ∧ exampleFilledBuffer.dataLen = 0
        ∧ exampleFilledBuffer.allocLen = 0)
      ∨ (exampleFilledBuffer.data ≠ none
        ∧ ∃ k, exampleFilledBuffer.allocLen = 1024 * 2 ^ k
          ∧ exampleFilledBuffer.dataLen < exampleFilledBuffer.allocLen))
    ∧ (∀ (data : List Nat) (len : Int), -2147483648 ≤ len → len ≤ 2147483647 →
        ∃ r, ipc_append_buffer (some exampleFilledBuffer) data len = some r
          ∧ (r.alloc_failed = false →
              ∃ b1, r.buffer = some b1 ∧ exampleFilledBuffer.allocLen ≤ b1.allocLen))
    ∧ (∀ (cb : List Nat → Nat → Nat), (∀ data len, cb data len ≤ len) →
        ∃ r b1, ipc_process_buffer (some cb) (some exampleFilledBuffer) = some r
          ∧ r.buffer = some b1 ∧ b1.allocLen = exampleFilledBuffer.allocLen)
    ∧ ipc_reset_buffer exampleFilledBuffer
        = ⟨exampleFilledBuffer.allocLen, 0, exampleFilledBuffer.data⟩ :=
  C38_buffer_invariant exampleFilledBuffer exampleFilledBuffer_reachable

end XDR
